import Mathlib

/-!
# HCA decoder stream adapter (`CHcaDecoder.cpp`)

A shallow embedding of the byte-stream layer of `cgss::CHcaDecoder`:
`GetWaveHeaderSize`, `GetWaveBlockSize`, `DecodeBlock` (as cache in front of a
block decoding function), `MapLoopedPosition`, `GetLength` and `Read`.

Machine integers are natural numbers; every C++ operation on `uint32_t` or
`uint64_t` is followed by the reduction modulo `2 ^ 32` or `2 ^ 64` the
hardware performs.  Exceptions are values of `OpResult` carried by `Except`.
-/

namespace CHcaDecoder

/-! ## Machine arithmetic -/

/-- Truncation to `uint32_t`. -/
def u32 (n : Nat) : Nat := n % 2 ^ 32

/-- Truncation to `uint64_t`. -/
def u64 (n : Nat) : Nat := n % 2 ^ 64

/-- Subtraction `a - b` of two `uint32_t` values (wraps below zero). -/
def sub32 (a b : Nat) : Nat := (a % 2 ^ 32 + 2 ^ 32 - b % 2 ^ 32) % 2 ^ 32

/-- Subtraction `a - b` of two `uint64_t` values (wraps below zero). -/
def sub64 (a b : Nat) : Nat := (a % 2 ^ 64 + 2 ^ 64 - b % 2 ^ 64) % 2 ^ 64

/-! ## Data model -/

/-- What a decoder call can throw.  `invalidArgument` is `CArgumentException`,
`decodeFailed` and `checksumError` are the `CException` codes of `DecodeBlock`,
`divideByZero` stands for an integer division by zero (undefined behaviour in
C++, a trap on the target), `outOfFuel` is the only value that is not in the
source: the copy loop of `Read` is run with a step budget. -/
inductive OpResult where
  | invalidArgument
  | decodeFailed
  | checksumError
  | divideByZero
  | outOfFuel
  deriving DecidableEq, Repr

/-- The fields of `HCA_INFO` the stream adapter reads.  The record is declared
in a header that is not part of the source tree; the fields are the unsigned
32-bit fields of the HCA file header (`commentLength` is a `uint8_t`). -/
structure HCA_INFO where
  channelCount : Nat
  blockCount : Nat
  loopExists : Bool
  loopStart : Nat
  loopEnd : Nat
  commentLength : Nat

/-- The fields of `HCA_DECODER_CONFIG` the stream adapter reads
(`loopCount` is a `uint32_t`: it is an argument of `std::min` next to a
`static_cast<uint32_t>`). -/
structure HCA_DECODER_CONFIG where
  waveHeaderEnabled : Bool
  loopEnabled : Bool
  loopCount : Nat

/-- Compile-time constants used by the adapter and declared outside the
source tree: the two `WaveSettings` members and the `sizeof` of the three RIFF
section records. -/
structure WaveSettings where
  BitPerChannel : Nat
  SoftLoop : Bool
  sizeofWaveRiffSection : Nat
  sizeofWaveSampleSection : Nat
  sizeofWaveDataSection : Nat

/-- A byte buffer addressed from its first byte (`const uint8_t *`). -/
abbrev Buffer := Nat → Nat

/-- The immutable part of a decoder: header information, configuration,
constants, the bytes of the buffer `GenerateWaveHeader` returns, and block
decoding (stream read, checksum, decryption, unpacking, transform and sample
encoding of `DecodeBlock`) taken as a fixed function of the block index. -/
structure Decoder where
  hcaInfo : HCA_INFO
  decoderConfig : HCA_DECODER_CONFIG
  settings : WaveSettings
  waveHeader : Buffer
  decode : Nat → Except OpResult Buffer

/-- The mutable part of a decoder: `_position` and `_decodedBlocks`. -/
structure State where
  position : Nat
  decodedBlocks : List (Nat × Buffer)

/-! ## Sizes -/

/-- Embeds `CHcaDecoder::GetWaveHeaderSize` (the memoised `_waveHeaderSize` holds the
same value on every call). -/
def GetWaveHeaderSize (d : Decoder) : Nat :=
  let sizeNeeded := u32 d.settings.sizeofWaveRiffSection
  let sizeNeeded :=
    if d.hcaInfo.loopExists && !d.settings.SoftLoop then
      u32 (sizeNeeded + d.settings.sizeofWaveSampleSection)
    else sizeNeeded
  let sizeNeeded :=
    if d.hcaInfo.commentLength > 0 then
      let noteSize := u32 (4 + d.hcaInfo.commentLength + 1)
      let noteSize :=
        if noteSize % 4 ≠ 0 then u32 (noteSize + (4 - noteSize % 4)) else noteSize
      u32 (sizeNeeded + u32 (8 + noteSize))
    else sizeNeeded
  u32 (sizeNeeded + d.settings.sizeofWaveDataSection)

/-- Embeds `CHcaDecoder::GetWaveBlockSize` (the memoised `_waveBlockSize` holds
the same value on every call); the product is formed in `size_t` and stored in
a `uint32_t`. -/
def GetWaveBlockSize (d : Decoder) : Nat :=
  let audioBitPerChannel :=
    if d.settings.BitPerChannel ≠ 0 then u32 d.settings.BitPerChannel else 4
  u32 (0x80 * (audioBitPerChannel / 1) * d.hcaInfo.channelCount)

/-- Embeds `CHcaDecoder::GetPosition`. -/
def GetPosition (s : State) : Nat := s.position

/-- Embeds `CHcaDecoder::SetPosition`. -/
def SetPosition (s : State) (value : Nat) : State := { s with position := value }

/-- The local `waveHeaderSize` of `MapLoopedPosition` and `Read`. -/
def waveHeaderSizeOf (d : Decoder) : Nat :=
  if d.decoderConfig.waveHeaderEnabled then GetWaveHeaderSize d else 0

/-- The local `beforeLoopStart` of `MapLoopedPosition` and `GetLength`. -/
def beforeLoopStart (d : Decoder) : Nat :=
  if d.hcaInfo.loopStart > 1 then sub32 d.hcaInfo.loopStart 1 else 0

/-- The local `afterLoopEnd` of `GetLength`. -/
def afterLoopEnd (d : Decoder) : Nat :=
  if d.hcaInfo.loopEnd < sub32 d.hcaInfo.blockCount 1 then
    sub32 (sub32 d.hcaInfo.blockCount 1) d.hcaInfo.loopEnd
  else 0

/-- The local `inLoop` of `MapLoopedPosition` and `GetLength`. -/
def inLoop (d : Decoder) : Nat :=
  u32 (sub32 d.hcaInfo.loopEnd d.hcaInfo.loopStart + 1)

/-! ## Position mapping and length -/

/-- The value the local `loopCount` of `MapLoopedPosition` holds when the
function returns from its last line: the quotient computed in `uint64_t`,
truncated to `uint32_t` and bounded by the configured loop count. -/
def elapsedLoops (d : Decoder) (linearPosition : Nat) : Nat :=
  let q := sub64 (sub64 linearPosition (waveHeaderSizeOf d))
      (u32 (beforeLoopStart d * GetWaveBlockSize d)) / u32 (inLoop d * GetWaveBlockSize d)
  min (u32 q) d.decoderConfig.loopCount

/-- The bound of the first pass in `MapLoopedPosition`, computed in
`uint32_t`: `waveHeaderSize + (beforeLoopStart + inLoop) * waveBlockSize`. -/
def firstPassBound (d : Decoder) : Nat :=
  u32 (waveHeaderSizeOf d + u32 (u32 (beforeLoopStart d + inLoop d) * GetWaveBlockSize d))

/-- Embeds `CHcaDecoder::MapLoopedPosition`.  The division by
`inLoop * waveBlockSize` (a `uint32_t` product) traps when the product is 0. -/
def MapLoopedPosition (d : Decoder) (linearPosition : Nat) : Except OpResult Nat :=
  if !d.hcaInfo.loopExists || !d.decoderConfig.loopEnabled then
    .ok linearPosition
  else if linearPosition ≤ firstPassBound d then
    .ok linearPosition
  else if d.decoderConfig.loopCount = 0 then
    .error .invalidArgument
  else if u32 (inLoop d * GetWaveBlockSize d) = 0 then
    .error .divideByZero
  else
    let loopCount := elapsedLoops d linearPosition
    .ok (sub64 (sub64 linearPosition (u64 (u64 (loopCount * inLoop d) * GetWaveBlockSize d)))
      (waveHeaderSizeOf d))

/-- Embeds `CHcaDecoder::GetLength`: the products are formed in `uint32_t`,
the sums of the looping branch in the `uint64_t` local `total`. -/
def GetLength (d : Decoder) : Except OpResult Nat :=
  if d.hcaInfo.loopExists && d.decoderConfig.loopEnabled then
    if d.decoderConfig.loopCount = 0 then
      .error .invalidArgument
    else
      let total := 0
      let total :=
        if d.decoderConfig.waveHeaderEnabled then u64 (total + GetWaveHeaderSize d) else total
      let total :=
        u64 (total + u32 (u32 (beforeLoopStart d + afterLoopEnd d) * GetWaveBlockSize d))
      let total :=
        u64 (total + u32 (u32 (inLoop d * d.decoderConfig.loopCount) * GetWaveBlockSize d))
      .ok total
  else
    if d.decoderConfig.waveHeaderEnabled then
      .ok (u32 (GetWaveHeaderSize d + u32 (GetWaveBlockSize d * d.hcaInfo.blockCount)))
    else
      .ok (u32 (GetWaveBlockSize d * d.hcaInfo.blockCount))

/-! ## Block cache and reading -/

/-- Embeds `CHcaDecoder::DecodeBlock`: a block found in `_decodedBlocks` is returned
as it is; otherwise the block is decoded and, if decoding did not throw, stored
in the cache.  The cache comes back also when the call throws. -/
def DecodeBlock (d : Decoder) (blockIndex : Nat) (decodedBlocks : List (Nat × Buffer)) :
    Except OpResult Buffer × List (Nat × Buffer) :=
  match decodedBlocks.lookup blockIndex with
  | some decodedItem => (.ok decodedItem, decodedBlocks)
  | none =>
    match d.decode blockIndex with
    | .error e => (.error e, decodedBlocks)
    | .ok waveBlockBuffer => (.ok waveBlockBuffer, (blockIndex, waveBlockBuffer) :: decodedBlocks)

/-- The bytes `memcpy(dst, src + start, n)` stores at `dst`, in order. -/
def memcpy (src : Buffer) (start n : Nat) : List Nat :=
  (List.range n).map fun i => src (start + i)

/-- The locals of `Read` that its copy loop updates; `written` collects the
bytes stored so far from `byteBuffer + offset` (the original `offset`) on. -/
structure ReadLocals where
  bufferSize : Nat
  mappedPosition : Nat
  streamPosition : Nat
  totalRead : Nat
  written : List Nat

/-- The `while` loop of `CHcaDecoder::Read`, run for at most `fuel`
iterations. -/
def readLoop (d : Decoder) (waveHeaderSize waveBlockSize waveStreamLength : Nat) :
    Nat → ReadLocals → List (Nat × Buffer) → Except OpResult ReadLocals × List (Nat × Buffer)
  | fuel, l, decodedBlocks =>
    if l.bufferSize > 0 ∧ l.mappedPosition < waveStreamLength then
      match fuel with
      | 0 => (.error .outOfFuel, decodedBlocks)
      | fuel + 1 =>
        if waveBlockSize = 0 then (.error .divideByZero, decodedBlocks)
        else
          let blockIndex := u32 (sub64 l.mappedPosition waveHeaderSize / waveBlockSize)
          let startOffset := sub64 l.mappedPosition waveHeaderSize % waveBlockSize
          match DecodeBlock d blockIndex decodedBlocks with
          | (.error e, decodedBlocks) => (.error e, decodedBlocks)
          | (.ok blockData, decodedBlocks) =>
            let copyLength := min (sub64 waveStreamLength l.mappedPosition)
              (min (sub64 waveBlockSize startOffset) (u64 l.bufferSize))
            readLoop d waveHeaderSize waveBlockSize waveStreamLength fuel
              { bufferSize := u32 (sub64 l.bufferSize copyLength)
                mappedPosition := u64 (l.mappedPosition + copyLength)
                streamPosition := u64 (l.streamPosition + copyLength)
                totalRead := u32 (l.totalRead + copyLength)
                written := l.written ++ memcpy blockData startOffset copyLength }
              decodedBlocks
    else (.ok l, decodedBlocks)

/-- How the header part of `Read` ends: with the `return bufferSize` inside
it (returned count, bytes stored, new `streamPosition`), or by falling through
to the copy loop with the locals as they stand. -/
inductive HeaderStep where
  | returned (count : Nat) (written : List Nat) (streamPosition : Nat)
  | fallThrough (l : ReadLocals)

/-- The `if (mappedPosition < waveHeaderSize)` part of `CHcaDecoder::Read`. -/
def readHeader (d : Decoder) (waveHeaderSize bufferSize mappedPosition streamPosition : Nat) :
    HeaderStep :=
  if mappedPosition < waveHeaderSize then
    let headerLeftLength := sub64 waveHeaderSize mappedPosition
    let headerCopyLength := min (u32 headerLeftLength) bufferSize
    let written := memcpy d.waveHeader mappedPosition headerCopyLength
    let streamPosition := u64 (streamPosition + headerCopyLength)
    if bufferSize ≤ headerCopyLength then
      .returned bufferSize written streamPosition
    else
      .fallThrough
        { bufferSize := sub32 bufferSize headerCopyLength
          mappedPosition := u64 (mappedPosition + headerCopyLength)
          streamPosition := streamPosition
          totalRead := u32 (0 + headerCopyLength)
          written := written }
  else
    .fallThrough
      { bufferSize := bufferSize
        mappedPosition := mappedPosition
        streamPosition := streamPosition
        totalRead := 0
        written := [] }

/-- Embeds `CHcaDecoder::Read`.  `bufferNull` says whether `buffer` is the null
pointer; `offset` is a `size_t`.  The result is the returned byte count and
the bytes stored from `buffer + offset` on, or the exception thrown, next to
the decoder state the call leaves.  The copy loop gets one step of budget for
each byte of the clamped request. -/
def Read (d : Decoder) (bufferNull : Bool) (bufferSize offset count : Nat) (s : State) :
    Except OpResult (Nat × List Nat) × State :=
  if bufferNull then (.error .invalidArgument, s)
  else
    let bufferSize := max 0 (min count (u32 (sub64 bufferSize offset)))
    if bufferSize = 0 then (.ok (bufferSize, []), s)
    else
      let streamPosition := GetPosition s
      match MapLoopedPosition d streamPosition with
      | .error e => (.error e, s)
      | .ok mappedPosition =>
        match GetLength d with
        | .error e => (.error e, s)
        | .ok waveStreamLength =>
          if mappedPosition ≥ waveStreamLength then (.ok (0, []), s)
          else
            let waveHeaderSize := waveHeaderSizeOf d
            match readHeader d waveHeaderSize bufferSize mappedPosition streamPosition with
            | .returned count written streamPosition =>
              (.ok (count, written), SetPosition s streamPosition)
            | .fallThrough l =>
              let waveBlockSize := GetWaveBlockSize d
              match readLoop d waveHeaderSize waveBlockSize waveStreamLength l.bufferSize l
                  s.decodedBlocks with
              | (.error e, decodedBlocks) => (.error e, { s with decodedBlocks := decodedBlocks })
              | (.ok l, decodedBlocks) =>
                (.ok (l.totalRead, l.written),
                  SetPosition { s with decodedBlocks := decodedBlocks } l.streamPosition)

/-- The byte count a `Read` call returned, if it did not throw. -/
def returnedCount (r : Except OpResult (Nat × List Nat) × State) : Option Nat :=
  match r.1 with
  | .ok (n, _) => some n
  | .error _ => none

/-- The bytes a `Read` call stored from `buffer + offset` on, if it did not
throw. -/
def storedBytes (r : Except OpResult (Nat × List Nat) × State) : Option (List Nat) :=
  match r.1 with
  | .ok (_, written) => some written
  | .error _ => none

/-- What successive `Read` calls deliver. -/
structure Delivered where
  total : Nat
  bytes : List Nat
  ended : Bool
  deriving DecidableEq, Repr

/-- Successive `Read` calls of `request` bytes each (into a buffer of that
size, at offset 0) from the state given, up to the first call that returns 0
and at most `calls` of them: the sum of the returned counts, the bytes stored
in order, and whether a call returned 0. -/
def readSuccessively (d : Decoder) (request : Nat) : Nat → State → Except OpResult Delivered
  | 0, _ => .ok { total := 0, bytes := [], ended := false }
  | calls + 1, s =>
    match Read d false request 0 request s with
    | (.error e, _) => .error e
    | (.ok (n, written), s) =>
      if n = 0 then .ok { total := 0, bytes := [], ended := true }
      else
        match readSuccessively d request calls s with
        | .error e => .error e
        | .ok r => .ok { total := n + r.total, bytes := written ++ r.bytes, ended := r.ended }

/-! ## Sample decoders -/

/-- The constants of a 16-bit build: `BitPerChannel = 16`, no soft loop, and
the sizes of the packed RIFF (36), sample (68) and data (8) records. -/
def settings16 : WaveSettings :=
  { BitPerChannel := 16, SoftLoop := false, sizeofWaveRiffSection := 36,
    sizeofWaveSampleSection := 68, sizeofWaveDataSection := 8 }

/-- A decoded block whose bytes tell the block index and the offset apart. -/
def sampleBlock (blockIndex : Nat) : Buffer := fun i => (16 * (blockIndex + 1) + i) % 256

/-- A decoder over a stream without comment whose blocks all decode (to
`sampleBlock`), with a header buffer of bytes `i % 7`. -/
def sampleDecoder (channelCount blockCount : Nat) (loopExists : Bool) (loopStart loopEnd : Nat)
    (waveHeaderEnabled loopEnabled : Bool) (loopCount : Nat) : Decoder :=
  { hcaInfo :=
      { channelCount := channelCount, blockCount := blockCount, loopExists := loopExists,
        loopStart := loopStart, loopEnd := loopEnd, commentLength := 0 }
    decoderConfig :=
      { waveHeaderEnabled := waveHeaderEnabled, loopEnabled := loopEnabled,
        loopCount := loopCount }
    settings := settings16
    waveHeader := fun i => i % 7
    decode := fun blockIndex => .ok (sampleBlock blockIndex) }

/-- A freshly constructed decoder state: position 0, nothing decoded. -/
def initialState : State := { position := 0, decodedBlocks := [] }

/-- Mono, two blocks, no loop, header off. -/
def plainStream : Decoder := sampleDecoder 1 2 false 0 0 false false 0

/-- Mono, two blocks, no loop, header on (a header of 44 bytes). -/
def plainStreamWithHeader : Decoder := sampleDecoder 1 2 false 0 0 true false 0

/-- Stereo, `2 ^ 20` blocks, no loop, header off. -/
def longStream : Decoder := sampleDecoder 2 1048576 false 0 0 false false 0

/-- Mono, two blocks, loop region block 0 alone, header off, looping on,
`loopCount = 1`. -/
def loopFirstBlock : Decoder := sampleDecoder 1 2 true 0 0 false true 1

/-- Mono, two blocks, loop region block 0 alone, header off, looping on,
`loopCount = 2`. -/
def loopFirstBlockTwice : Decoder := sampleDecoder 1 2 true 0 0 false true 2

/-- Mono, two blocks, loop region block 0 alone, header on (112 bytes), looping
on, `loopCount = 2`. -/
def loopFirstBlockTwiceWithHeader : Decoder := sampleDecoder 1 2 true 0 0 true true 2

/-- Mono, two blocks, loop region block 0 alone, header off, looping on,
`loopCount = 0`. -/
def loopCountZero : Decoder := sampleDecoder 1 2 true 0 0 false true 0

/-- Mono, two blocks, loop region block 1 alone, header off, looping on,
`loopCount = 1`. -/
def loopSecondBlock : Decoder := sampleDecoder 1 2 true 1 1 false true 1

/-- Mono, four blocks, loop region blocks 2 and 3, header off, looping on,
`loopCount = 2`. -/
def loopLastTwoOfFour : Decoder := sampleDecoder 1 4 true 2 3 false true 2

/-- Mono, `2 ^ 21 + 2` blocks, loop region blocks 1 to `2 ^ 21 + 1` (a region
of `2 ^ 32 + 2048` bytes), header off, looping on, `loopCount = 2`. -/
def longLoop : Decoder := sampleDecoder 1 2097154 true 1 2097153 false true 2

/-- Two blocks without loop, none of which decodes: every block fails with
`decodeFailed`. -/
def brokenStream : Decoder := { plainStream with decode := fun _ => .error .decodeFailed }

end CHcaDecoder

/-!
# Bit reader and block unpacking (`CHcaDecoder_vgmstream.cpp`)

The C functions of the block decoder that work on integers.  An `int` is an
integer wrapped into `-2 ^ 31 .. 2 ^ 31 - 1`, an `unsigned int` a natural number
reduced modulo `2 ^ 32`, an `unsigned char` one reduced modulo `2 ^ 8`.  An
array is the function from index to element: an index past the declared length
addresses the memory that follows the array.
-/

namespace Vgmstream

/-! ## Machine arithmetic -/

/-- Conversion of an `int` to `unsigned int`. -/
def toUnsigned (x : Int) : Nat := (x % 2 ^ 32).toNat

/-- Result of `int` arithmetic, wrapped into 32 bits. -/
def toInt32 (x : Int) : Int := (x + 2 ^ 31) % 2 ^ 32 - 2 ^ 31

/-- Truncation to `unsigned int`. -/
def uint (n : Nat) : Nat := n % 2 ^ 32

/-- Subtraction `a - b` of two `unsigned int` values. -/
def usub (a b : Nat) : Nat := (a % 2 ^ 32 + 2 ^ 32 - b % 2 ^ 32) % 2 ^ 32

/-- Truncation to `unsigned char`. -/
def uchar (n : Nat) : Nat := n % 2 ^ 8

/-- The operation `v >> count` on `unsigned int`.  A count of 32 or more is
undefined in C; the count is taken modulo 32, as the shift instructions of the
x86 targets of the plugin take it. -/
def shr (v count : Nat) : Nat := v >>> (count % 32)

/-! ## Bitstream reader -/

/-- The record `clData`: `data` holds the bytes from the start of the buffer on,
`size` is the size in bits and `bit` the cursor, both `int`. -/
structure clData where
  data : Nat → Nat
  size : Int
  bit : Int

/-- Embeds `bitreader_init`. -/
def bitreader_init (data : Nat → Nat) (size : Int) : clData :=
  { data := data, size := toInt32 (size * 8), bit := 0 }

/-- The `mask` table of the 32-bit branch of `bitreader_peek`. -/
def mask32 : List Nat :=
  [0xFFFFFFFF, 0x7FFFFFFF, 0x3FFFFFFF, 0x1FFFFFFF, 0x0FFFFFFF, 0x07FFFFFF, 0x03FFFFFF, 0x01FFFFFF]

/-- The `mask` table of the 24-bit branch of `bitreader_peek`. -/
def mask24 : List Nat :=
  [0xFFFFFF, 0x7FFFFF, 0x3FFFFF, 0x1FFFFF, 0x0FFFFF, 0x07FFFF, 0x03FFFF, 0x01FFFF]

/-- The `mask` table of the 16-bit branch of `bitreader_peek`. -/
def mask16 : List Nat :=
  [0xFFFF, 0x7FFF, 0x3FFF, 0x1FFF, 0x0FFF, 0x07FF, 0x03FF, 0x01FF]

/-- The `mask` table of the 8-bit branch of `bitreader_peek`. -/
def mask8 : List Nat :=
  [0xFF, 0x7F, 0x3F, 0x1F, 0x0F, 0x07, 0x03, 0x01]

/-- The byte `data[i]` of a buffer of `unsigned char`. -/
def byteAt (data : Nat → Nat) (i : Nat) : Nat := uchar (data i)

/-- The step `v = (v << 8) | data[i]` on an `unsigned int`. -/
def pushByte (v : Nat) (data : Nat → Nat) (i : Nat) : Nat :=
  uint (v <<< 8) ||| byteAt data i

/-- Embeds `bitreader_peek`. -/
def bitreader_peek (br : clData) (bitsize : Int) : Nat :=
  let bit := toUnsigned br.bit
  let bit_rem := bit &&& 7
  let size := toUnsigned br.size
  if ¬ (uint (bit + toUnsigned bitsize) ≤ size) then 0
  else
    let bit_offset := uint (toUnsigned bitsize + bit_rem)
    let bit_left := usub size bit
    if bit_left ≥ 32 ∧ bit_offset ≥ 25 then
      let v := byteAt br.data (bit >>> 3)
      let v := pushByte v br.data ((bit >>> 3) + 1)
      let v := pushByte v br.data ((bit >>> 3) + 2)
      let v := pushByte v br.data ((bit >>> 3) + 3)
      let v := v &&& mask32.getD bit_rem 0
      shr v (usub (usub 32 bit_rem) (toUnsigned bitsize))
    else if bit_left ≥ 24 ∧ bit_offset ≥ 17 then
      let v := byteAt br.data (bit >>> 3)
      let v := pushByte v br.data ((bit >>> 3) + 1)
      let v := pushByte v br.data ((bit >>> 3) + 2)
      let v := v &&& mask24.getD bit_rem 0
      shr v (usub (usub 24 bit_rem) (toUnsigned bitsize))
    else if bit_left ≥ 16 ∧ bit_offset ≥ 9 then
      let v := byteAt br.data (bit >>> 3)
      let v := pushByte v br.data ((bit >>> 3) + 1)
      let v := v &&& mask16.getD bit_rem 0
      shr v (usub (usub 16 bit_rem) (toUnsigned bitsize))
    else
      let v := byteAt br.data (bit >>> 3)
      let v := v &&& mask8.getD bit_rem 0
      shr v (usub (usub 8 bit_rem) (toUnsigned bitsize))

/-- Embeds `bitreader_read`: the value read and the reader with the cursor
moved. -/
def bitreader_read (br : clData) (bitsize : Int) : Nat × clData :=
  (bitreader_peek br bitsize, { br with bit := toInt32 (br.bit + bitsize) })

/-- Embeds `bitreader_skip`. -/
def bitreader_skip (br : clData) (bitsize : Int) : clData :=
  { br with bit := toInt32 (br.bit + bitsize) }

/-- Bit `k` of a buffer, counting from the most significant bit of byte 0. -/
def bitAt (data : Nat → Nat) (k : Nat) : Nat :=
  byteAt data (k / 8) / 2 ^ (7 - k % 8) % 2

/-- The unsigned integer whose binary digits are bits `c .. c + n - 1` of the
buffer, the first of them the most significant. -/
def bitsValue (data : Nat → Nat) (c : Nat) : Nat → Nat
  | 0 => 0
  | n + 1 => 2 * bitsValue data c n + bitAt data (c + n)

/-- A buffer given by the list of its bytes, followed by zero bytes. -/
def bufferOf (bytes : List Nat) : Nat → Nat := fun i => bytes.getD i 0

/-- The first `m` bits of the bytes from byte `q` on, as a number. -/
def headValue (data : Nat → Nat) (q : Nat) : Nat → Nat
  | 0 => 0
  | m + 1 => 2 * headValue data q m + bitAt data (8 * q + m)

/-! ## Channel state -/

/-- The version constant `HCA_VERSION_V200`. -/
def HCA_VERSION_V200 : Nat := 0x0200

/-- The constant `HCA_SAMPLES_PER_SUBFRAME`. -/
def HCA_SAMPLES_PER_SUBFRAME : Nat := 128

/-- The constant `HCA_SUBFRAMES`. -/
def HCA_SUBFRAMES : Nat := 8

/-- The result code `HCA_RESULT_OK`. -/
def HCA_RESULT_OK : Int := 0

/-- The result code `HCA_ERROR_UNPACK`. -/
def HCA_ERROR_UNPACK : Int := -5

/-- The enumeration `channel_type_t`. -/
inductive channel_type_t where
  | DISCRETE
  | STEREO_PRIMARY
  | STEREO_SECONDARY
  deriving DecidableEq, Repr

/-- The record `stChannel`.  The arrays are functions from the index; the
`float` arrays hold the bit patterns of their elements. -/
structure stChannel where
  type : channel_type_t
  coded_count : Nat
  intensity : Nat → Nat
  scalefactors : Nat → Nat
  resolution : Nat → Nat
  noises : Nat → Nat
  noise_count : Nat
  valid_count : Nat
  gain : Nat → Nat
  spectra : Nat → Nat → Nat
  temp : Nat → Nat
  dct : Nat → Nat
  imdct_previous : Nat → Nat
  wave : Nat → Nat → Nat

/-- The assignment `a[i] = v`. -/
def setAt (a : Nat → Nat) (i v : Nat) : Nat → Nat := fun j => if j = i then v else a j

/-- Conversion of an `int` to `unsigned char`. -/
def ucharOfInt (x : Int) : Nat := (x % 2 ^ 8).toNat

/-! ## Scalefactors -/

/-- The loop `for (i = 0; i < cs_count; i++) scalefactors[i] = bitreader_read(br, 6)`
of `unpack_scalefactors`, from index `i` for `count` more elements. -/
def fixedScalefactors : Nat → Nat → (Nat → Nat) → clData → (Nat → Nat) × clData
  | 0, _, scalefactors, br => (scalefactors, br)
  | count + 1, i, scalefactors, br =>
    let r := bitreader_read br 6
    fixedScalefactors count (i + 1) (setAt scalefactors i (uchar r.1)) r.2

/-- The value `scalefactor_test` of `unpack_scalefactors`. -/
def scalefactorTest (value delta expected_delta : Nat) : Int :=
  (value : Int) + ((delta : Int) - ((expected_delta >>> 1 : Nat) : Int))

/-- The two assignments `value = value - (expected_delta >> 1) + delta` and
`value = value & 0x3F` of `unpack_scalefactors`, on an `unsigned char`. -/
def differentialValue (value delta expected_delta : Nat) : Nat :=
  ucharOfInt ((value : Int) - ((expected_delta >>> 1 : Nat) : Int) + (delta : Int)) &&& 0x3F

/-- The loop over the delta coded scalefactors of `unpack_scalefactors`, from
index `i` for `count` more elements, with the running `value`; `false` when it
leaves through `return HCA_ERROR_UNPACK`. -/
def deltaScalefactors (delta_bits expected_delta : Nat) :
    Nat → Nat → Nat → (Nat → Nat) → clData → Bool × (Nat → Nat) × clData
  | 0, _, _, scalefactors, br => (true, scalefactors, br)
  | count + 1, i, value, scalefactors, br =>
    let r := bitreader_read br delta_bits
    let delta := uchar r.1
    if delta = expected_delta then
      let r6 := bitreader_read r.2 6
      let value := uchar r6.1
      deltaScalefactors delta_bits expected_delta count (i + 1) value
        (setAt scalefactors i value) r6.2
    else
      let scalefactor_test := scalefactorTest value delta expected_delta
      if scalefactor_test < 0 ∨ scalefactor_test ≥ 64 then
        (false, scalefactors, r.2)
      else
        let value := differentialValue value delta expected_delta
        deltaScalefactors delta_bits expected_delta count (i + 1) value
          (setAt scalefactors i value) r.2

/-- The loop `for (i = 0; i < 128; i++) scalefactors[i] = 0`, from index `i` for
`count` more elements. -/
def clearScalefactors : Nat → Nat → (Nat → Nat) → (Nat → Nat)
  | 0, _, scalefactors => scalefactors
  | count + 1, i, scalefactors => clearScalefactors count (i + 1) (setAt scalefactors i 0)

/-- The index `cs_count - i` the loop over the derived scales reads. -/
def derivedScaleSource (cs_count i : Nat) : Nat := usub cs_count i

/-- The index `HCA_SAMPLES_PER_SUBFRAME - 1 - i` the loop over the derived
scales writes. -/
def derivedScaleTarget (i : Nat) : Nat := HCA_SAMPLES_PER_SUBFRAME - 1 - i

/-- The element `ch->scalefactors[j]` as a read finds it: `scalefactors` has
`HCA_SAMPLES_PER_SUBFRAME` elements and `resolution` follows it in `stChannel`,
so an index from 128 on addresses `resolution[j - 128]`. -/
def scalefactorsRead (scalefactors resolution : Nat → Nat) (j : Nat) : Nat :=
  if j < HCA_SAMPLES_PER_SUBFRAME then scalefactors j
  else resolution (j - HCA_SAMPLES_PER_SUBFRAME)

/-- The loop over the derived scales of `unpack_scalefactors`, from index `i`
for `count` more elements. -/
def derivedScales (cs_count : Nat) (resolution : Nat → Nat) :
    Nat → Nat → (Nat → Nat) → (Nat → Nat)
  | 0, _, scalefactors => scalefactors
  | count + 1, i, scalefactors =>
    derivedScales cs_count resolution count (i + 1)
      (setAt scalefactors (derivedScaleTarget i)
        (scalefactorsRead scalefactors resolution (derivedScaleSource cs_count i)))

/-- Embeds `unpack_scalefactors`: the result code, the channel and the reader as
the call leaves them. -/
def unpack_scalefactors (ch : stChannel) (br : clData) (hfr_group_count version : Nat) :
    Int × stChannel × clData :=
  let cs_count := ch.coded_count
  let r := bitreader_read br 3
  let delta_bits := uchar r.1
  let br := r.2
  let noExtra : Bool := ch.type = channel_type_t.STEREO_SECONDARY ∨ hfr_group_count ≤ 0 ∨
    version ≤ HCA_VERSION_V200
  let extra_count := if noExtra then 0 else hfr_group_count
  let cs_count := if noExtra then cs_count else uint (cs_count + extra_count)
  if ¬ noExtra ∧ cs_count > HCA_SAMPLES_PER_SUBFRAME then
    (HCA_ERROR_UNPACK, ch, br)
  else
    let body : Bool × (Nat → Nat) × clData :=
      if delta_bits ≥ 6 then
        let f := fixedScalefactors cs_count 0 ch.scalefactors br
        (true, f.1, f.2)
      else if delta_bits > 0 then
        let expected_delta := uchar ((1 <<< delta_bits) - 1)
        let r6 := bitreader_read br 6
        let value := uchar r6.1
        deltaScalefactors delta_bits expected_delta (cs_count - 1) 1 value
          (setAt ch.scalefactors 0 value) r6.2
      else
        (true, clearScalefactors HCA_SAMPLES_PER_SUBFRAME 0 ch.scalefactors, br)
    if body.1 then
      (HCA_RESULT_OK,
        { ch with
          scalefactors := derivedScales cs_count ch.resolution extra_count 0 body.2.1 },
        body.2.2)
    else
      (HCA_ERROR_UNPACK, { ch with scalefactors := body.2.1 }, body.2.2)

/-- Condition under which `unpack_scalefactors` reads scales for the high
frequency groups too: a version above 2.0, a channel that is not stereo
secondary, and a positive `hfr_group_count`. -/
def readsDerivedScales (ch : stChannel) (hfr_group_count version : Nat) : Prop :=
  version > HCA_VERSION_V200 ∧ ch.type ≠ channel_type_t.STEREO_SECONDARY ∧ hfr_group_count > 0

instance (ch : stChannel) (hfr_group_count version : Nat) :
    Decidable (readsDerivedScales ch hfr_group_count version) := by
  unfold readsDerivedScales; infer_instance

/-- The number of scalefactors `unpack_scalefactors` reads from the bitstream:
`coded_count`, plus `hfr_group_count` when the derived scales are read. -/
def scaleCount (ch : stChannel) (hfr_group_count version : Nat) : Nat :=
  if readsDerivedScales ch hfr_group_count version then ch.coded_count + hfr_group_count
  else ch.coded_count

/-- Says that, reading `count` delta coded scalefactors from `br` with `delta_bits`
bits each and the running value `v`, some non-escape delta `d` (one that is
not `2 ^ delta_bits - 1`), read while the running value is `v`, gives
`v + d - (2 ^ (delta_bits - 1) - 1)` outside `0 .. 63`.  An escape is followed by
the 6 bits of the new running value. -/
def deltaOutOfRange (delta_bits : Nat) : Nat → Int → clData → Prop
  | 0, _, _ => False
  | count + 1, v, br =>
    if ((uchar (bitreader_read br delta_bits).1 : Nat) : Int) = 2 ^ delta_bits - 1 then
      deltaOutOfRange delta_bits count
        (uchar (bitreader_read (bitreader_read br delta_bits).2 6).1 : Nat)
        (bitreader_read (bitreader_read br delta_bits).2 6).2
    else
      (v + (uchar (bitreader_read br delta_bits).1 : Nat) - (2 ^ (delta_bits - 1) - 1) < 0 ∨
        63 < v + (uchar (bitreader_read br delta_bits).1 : Nat) - (2 ^ (delta_bits - 1) - 1)) ∨
      deltaOutOfRange delta_bits count
        (v + (uchar (bitreader_read br delta_bits).1 : Nat) - (2 ^ (delta_bits - 1) - 1))
        (bitreader_read br delta_bits).2

/-! ## Intensity -/

/-- The loop `for (i = 1; i < HCA_SUBFRAMES; i++) intensity[i] = bitreader_read(br, 4)`
of `unpack_intensity`, from index `i` for `count` more elements. -/
def fixedIntensity : Nat → Nat → (Nat → Nat) → clData → (Nat → Nat) × clData
  | 0, _, intensity, br => (intensity, br)
  | count + 1, i, intensity, br =>
    let r := bitreader_read br 4
    fixedIntensity count (i + 1) (setAt intensity i (uchar r.1)) r.2

/-- The loop over the delta coded intensities of `unpack_intensity`, from index
`i` for `count` more elements, with the running `value`; `false` when it leaves
through `return HCA_ERROR_UNPACK`. -/
def deltaIntensity (bits bmax : Nat) :
    Nat → Nat → Nat → (Nat → Nat) → clData → Bool × (Nat → Nat) × clData
  | 0, _, _, intensity, br => (true, intensity, br)
  | count + 1, i, value, intensity, br =>
    let r := bitreader_read br bits
    let delta := uchar r.1
    if delta = bmax then
      let r4 := bitreader_read r.2 4
      let value := uchar r4.1
      deltaIntensity bits bmax count (i + 1) value (setAt intensity i value) r4.2
    else
      let value := ucharOfInt ((value : Int) - ((bmax >>> 1 : Nat) : Int) + (delta : Int))
      if value > 15 then
        (false, intensity, r.2)
      else
        deltaIntensity bits bmax count (i + 1) value (setAt intensity i value) r.2

/-- The loop `for (i = 0; i < HCA_SUBFRAMES; i++) intensity[i] = 7`, from index
`i` for `count` more elements. -/
def defaultIntensity : Nat → Nat → (Nat → Nat) → (Nat → Nat)
  | 0, _, intensity => intensity
  | count + 1, i, intensity => defaultIntensity count (i + 1) (setAt intensity i 7)

/-- The loop `for (i = 0; i < hfr_group_count; i++) hfr_scales[i] = bitreader_read(br, 6)`
of `unpack_intensity`, where `hfr_scales` is `&scalefactors[128 - hfr_group_count]`,
from index `i` for `count` more elements. -/
def hfrScales (hfr_group_count : Nat) : Nat → Nat → (Nat → Nat) → clData → (Nat → Nat) × clData
  | 0, _, scalefactors, br => (scalefactors, br)
  | count + 1, i, scalefactors, br =>
    let r := bitreader_read br 6
    hfrScales hfr_group_count count (i + 1)
      (setAt scalefactors (usub 128 hfr_group_count + i) (uchar r.1)) r.2

/-- Embeds `unpack_intensity`: the result code, the channel and the reader as the
call leaves them. -/
def unpack_intensity (ch : stChannel) (br : clData) (hfr_group_count version : Nat) :
    Int × stChannel × clData :=
  if ch.type = channel_type_t.STEREO_SECONDARY then
    if version ≤ HCA_VERSION_V200 then
      let value := uchar (bitreader_peek br 4)
      let intensity := setAt ch.intensity 0 value
      if value < 15 then
        let br := bitreader_skip br 4
        let f := fixedIntensity (HCA_SUBFRAMES - 1) 1 intensity br
        (HCA_RESULT_OK, { ch with intensity := f.1 }, f.2)
      else
        (HCA_RESULT_OK, { ch with intensity := intensity }, br)
    else
      let value := uchar (bitreader_peek br 4)
      if value < 15 then
        let br := bitreader_skip br 4
        let r := bitreader_read br 2
        let delta_bits := uchar r.1
        let br := r.2
        let intensity := setAt ch.intensity 0 value
        if delta_bits = 3 then
          let f := fixedIntensity (HCA_SUBFRAMES - 1) 1 intensity br
          (HCA_RESULT_OK, { ch with intensity := f.1 }, f.2)
        else
          let bmax := uchar ((2 <<< delta_bits) - 1)
          let bits := uchar (delta_bits + 1)
          let f := deltaIntensity bits bmax (HCA_SUBFRAMES - 1) 1 value intensity br
          if f.1 then (HCA_RESULT_OK, { ch with intensity := f.2.1 }, f.2.2)
          else (HCA_ERROR_UNPACK, { ch with intensity := f.2.1 }, f.2.2)
      else
        let br := bitreader_skip br 4
        (HCA_RESULT_OK, { ch with intensity := defaultIntensity HCA_SUBFRAMES 0 ch.intensity }, br)
  else
    if version ≤ HCA_VERSION_V200 then
      let f := hfrScales hfr_group_count hfr_group_count 0 ch.scalefactors br
      (HCA_RESULT_OK, { ch with scalefactors := f.1 }, f.2)
    else
      (HCA_RESULT_OK, ch, br)

/-! ## Resolution -/

/-- The table `hcadecoder_invert_table`. -/
def hcadecoder_invert_table : List Nat :=
  [14,14,14,14,14,14,13,13, 13,13,13,13,12,12,12,12,
   12,12,11,11,11,11,11,11, 10,10,10,10,10,10,10, 9,
    9, 9, 9, 9, 9, 8, 8, 8,  8, 8, 8, 7, 6, 6, 5, 4,
    4, 4, 3, 3, 3, 2, 2, 2,  2, 1, 1, 1, 1, 1, 1, 1,
    1, 1]

/-- The value `new_resolution` that the body of the loop of `calculate_resolution`
stores in `resolution[i]`, for the `scalefactor` and the ATH byte of index `i`. -/
def newResolution (scalefactor athByte packed_noise_level i min_resolution max_resolution : Nat) :
    Nat :=
  if scalefactor > 0 then
    let noise_level : Int := toInt32 (uint (athByte + (uint (packed_noise_level + i) >>> 8)))
    let curve_position : Int := toInt32 (noise_level + 1 - ((5 * scalefactor) >>> 1 : Nat))
    let new_resolution :=
      if curve_position < 0 then 15
      else if curve_position ≤ 65 then hcadecoder_invert_table.getD curve_position.toNat 0
      else 0
    if new_resolution > max_resolution then uchar max_resolution
    else if new_resolution < min_resolution then uchar min_resolution
    else new_resolution
  else 0

/-- The locals and arrays the loop of `calculate_resolution` updates. -/
structure ResolutionState where
  resolution : Nat → Nat
  noises : Nat → Nat
  noise_count : Nat
  valid_count : Nat

/-- The loop of `calculate_resolution`, from index `i` for `count` more
elements. -/
def resolutionLoop (scalefactors ath_curve : Nat → Nat)
    (packed_noise_level min_resolution max_resolution : Nat) :
    Nat → Nat → ResolutionState → ResolutionState
  | 0, _, s => s
  | count + 1, i, s =>
    let scalefactor := uchar (scalefactors i)
    let new_resolution := newResolution scalefactor (uchar (ath_curve i)) packed_noise_level i
      min_resolution max_resolution
    let s :=
      if scalefactor > 0 then
        if new_resolution < 1 then
          { s with noises := setAt s.noises s.noise_count (uchar i),
                   noise_count := uint (s.noise_count + 1) }
        else
          { s with noises := setAt s.noises (usub (HCA_SAMPLES_PER_SUBFRAME - 1) s.valid_count)
                     (uchar i),
                   valid_count := uint (s.valid_count + 1) }
      else s
    resolutionLoop scalefactors ath_curve packed_noise_level min_resolution max_resolution count
      (i + 1) { s with resolution := setAt s.resolution i new_resolution }

/-- Embeds `calculate_resolution`; the `memset` at its end clears
`HCA_SAMPLES_PER_SUBFRAME - cr_count` elements (an `unsigned int`) from
`resolution[cr_count]` on. -/
def calculate_resolution (ch : stChannel) (packed_noise_level : Nat) (ath_curve : Nat → Nat)
    (min_resolution max_resolution : Nat) : stChannel :=
  let cr_count := ch.coded_count
  let s := resolutionLoop ch.scalefactors ath_curve packed_noise_level min_resolution
    max_resolution cr_count 0
    { resolution := ch.resolution, noises := ch.noises, noise_count := 0, valid_count := 0 }
  { ch with
    resolution := fun j =>
      if cr_count ≤ j ∧ j < cr_count + usub HCA_SAMPLES_PER_SUBFRAME cr_count then 0
      else s.resolution j
    noises := s.noises
    noise_count := s.noise_count
    valid_count := s.valid_count }

/-- A channel whose arrays are all zero. -/
def zeroChannel (type : channel_type_t) (coded_count : Nat) : stChannel :=
  { type := type, coded_count := coded_count, intensity := fun _ => 0,
    scalefactors := fun _ => 0, resolution := fun _ => 0, noises := fun _ => 0,
    noise_count := 0, valid_count := 0, gain := fun _ => 0, spectra := fun _ _ => 0,
    temp := fun _ => 0, dct := fun _ => 0, imdct_previous := fun _ => 0, wave := fun _ _ => 0 }

/-! ## Gain -/

/-- The table `hcadequantizer_scaling_table_float_hex`. -/
def hcadequantizer_scaling_table_float_hex : List Nat :=
  [0x342A8D26,0x34633F89,0x3497657D,0x34C9B9BE,0x35066491,0x353311C4,0x356E9910,0x359EF532,
   0x35D3CCF1,0x360D1ADF,0x363C034A,0x367A83B3,0x36A6E595,0x36DE60F5,0x371426FF,0x3745672A,
   0x37838359,0x37AF3B79,0x37E97C38,0x381B8D3A,0x384F4319,0x388A14D5,0x38B7FBF0,0x38F5257D,
   0x3923520F,0x39599D16,0x3990FA4D,0x39C12C4D,0x3A00B1ED,0x3A2B7A3A,0x3A647B6D,0x3A9837F0,
   0x3ACAD226,0x3B071F62,0x3B340AAF,0x3B6FE4BA,0x3B9FD228,0x3BD4F35B,0x3C0DDF04,0x3C3D08A4,
   0x3C7BDFED,0x3CA7CD94,0x3CDF9613,0x3D14F4F0,0x3D467991,0x3D843A29,0x3DB02F0E,0x3DEAC0C7,
   0x3E1C6573,0x3E506334,0x3E8AD4C6,0x3EB8FBAF,0x3EF67A41,0x3F243516,0x3F5ACB94,0x3F91C3D3,
   0x3FC238D2,0x400164D2,0x402C6897,0x4065B907,0x40990B88,0x40CBEC15,0x4107DB35,0x413504F3]

/-- The table `hcadequantizer_range_table_float_hex`. -/
def hcadequantizer_range_table_float_hex : List Nat :=
  [0x3F800000,0x3F2AAAAB,0x3ECCCCCD,0x3E924925,0x3E638E39,0x3E3A2E8C,0x3E1D89D9,0x3E088889,
   0x3D842108,0x3D020821,0x3C810204,0x3C008081,0x3B804020,0x3B002008,0x3A801002,0x3A000801]

/-- Embeds `calculate_gain`; `fmul` is the multiplication of two `float` values
given by their bit patterns. -/
def calculate_gain (fmul : Nat → Nat → Nat) (ch : stChannel) : stChannel :=
  { ch with
    gain := fun i =>
      if i < ch.coded_count then
        fmul (hcadequantizer_scaling_table_float_hex.getD (uchar (ch.scalefactors i)) 0)
          (hcadequantizer_range_table_float_hex.getD (uchar (ch.resolution i)) 0)
      else ch.gain i }

/-! ## Sample channels and readers -/

/-- A reader at the start of the bytes `40 00 00 00`: `delta_bits` 2, first
scalefactor 0, then the delta 0. -/
def deltaReader : clData := bitreader_init (bufferOf [0x40, 0, 0, 0]) 4

/-- A reader at the start of four zero bytes. -/
def zeroReader : clData := bitreader_init (bufferOf [0, 0, 0, 0]) 4

/-- A discrete channel of 127 coded coefficients whose scalefactors are all 0
and whose `resolution[0]` is 200. -/
def fullChannel : stChannel :=
  { zeroChannel channel_type_t.DISCRETE 127 with resolution := fun i => if i = 0 then 200 else 0 }

end Vgmstream

namespace CHcaDecoder.Pipeline

open Vgmstream

/-! ## Decoding of one block

`CHcaDecoder::DecodeBlock` with its stages spelled out as far as they decide
whether the call throws and what it leaves behind. -/

/-- The fields of `HCA_INFO` that `DecodeBlock` reads (`random` is kept in the
state: `reconstruct_noise` writes it).  `compR01`, `compR02` and `compR09` are the
minimum resolution, the maximum resolution and the count of high frequency
groups. -/
structure BlockInfo where
  blockSize : Nat
  dataOffset : Nat
  versionMajor : Nat
  versionMinor : Nat
  compR01 : Nat
  compR02 : Nat
  compR09 : Nat

/-- The collaborators of `DecodeBlock` that are declared outside the source
tree, and its stages on `float` data.  `streamRead offset count` is the list of
bytes that `Seek(offset)` followed by `Read(buffer, count, 0, count)` delivers
(its length is `actualRead`); `ComputeChecksum buffer size` is
`ComputeChecksum(buffer, size, 0)`; `Decrypt` is `_cipher->Decrypt` for the key
of the decoder; `GetBit16` is `CHcaData::GetBit(16)` on a fresh `CHcaData`;
`athTable` is `_ath->GetTable()`; `transform` stands for the stages after
unpacking (`dequantize_coefficients`, the reconstruction and transform stages
under `br.bit >= 0`, and the generation of wave data): from the unpacked
channels, the reader and the random seed to the channels afterwards, the seed
afterwards and the wave block buffer; none of these stages throws. -/
structure Collaborators where
  streamRead : Nat → Nat → List Nat
  ComputeChecksum : List Nat → Nat → Nat
  Decrypt : List Nat → List Nat
  GetBit16 : List Nat → Nat
  athTable : Nat → Nat
  fmul : Nat → Nat → Nat
  transform : List stChannel → clData → Nat → List stChannel × Nat × Buffer

/-- The state `DecodeBlock` works on: the cache `_decodedBlocks`, the channels
`_channels_vgmstream`, the seed `_hcaInfo.random`, the contents of
`_hcaBlockBuffer`, and the list of the stream offsets read so far. -/
structure DecoderState where
  decodedBlocks : List (Nat × Buffer)
  channels : List stChannel
  random : Nat
  hcaBlockBuffer : List Nat
  streamReads : List Nat

/-- What the loop `for (ch = 0; ch < hcaInfo.channelCount; ch++)` over the
channels leaves: whether it ended without `throw`, the channels, the reader,
and the values `unpack_intensity` returned, which the loop does not look at. -/
structure Unpacked where
  completed : Bool
  channels : List stChannel
  br : clData
  intensityResults : List Int

/-- The loop over the channels in the unpack part of `DecodeBlock`. -/
def unpackChannels (info : BlockInfo) (c : Collaborators) (hcaInfoVersion packed_noise_level : Nat) :
    List stChannel → clData → Unpacked
  | [], br => { completed := true, channels := [], br := br, intensityResults := [] }
  | ch :: rest, br =>
    let sf := unpack_scalefactors ch br info.compR09 hcaInfoVersion
    if sf.1 < 0 then
      { completed := false, channels := sf.2.1 :: rest, br := sf.2.2, intensityResults := [] }
    else
      let it := unpack_intensity sf.2.1 sf.2.2 info.compR09 hcaInfoVersion
      let ch := calculate_resolution it.2.1 packed_noise_level c.athTable info.compR01 info.compR02
      let ch := calculate_gain c.fmul ch
      let u := unpackChannels info c hcaInfoVersion packed_noise_level rest it.2.2
      { completed := u.completed, channels := ch :: u.channels, br := u.br,
        intensityResults := it.1 :: u.intensityResults }

/-- The reader and the packed noise level after the frame values of a block:
the 16 bits of the sync word, `frame_acceptable_noise_level` (9 bits) and
`frame_evaluation_boundary` (7 bits). -/
def frameValues (block : List Nat) (blockSize : Nat) : Nat × clData :=
  let br := bitreader_init (bufferOf block) blockSize
  let br := (bitreader_read br 16).2
  let n := bitreader_read br 9
  let e := bitreader_read n.2 7
  (usub (uint (n.1 <<< 8)) e.1, e.2)

/-- Embeds `CHcaDecoder::DecodeBlock`. -/
def DecodeBlock (info : BlockInfo) (c : Collaborators) (blockIndex : Nat) (s : DecoderState) :
    Except OpResult Buffer × DecoderState :=
  match s.decodedBlocks.lookup blockIndex with
  | some decodedItem => (.ok decodedItem, s)
  | none =>
    let offset := u32 (info.dataOffset + u32 (info.blockSize * blockIndex))
    let hcaBlockBuffer := c.streamRead offset info.blockSize
    let s := { s with hcaBlockBuffer := hcaBlockBuffer, streamReads := s.streamReads ++ [offset] }
    if hcaBlockBuffer.length < info.blockSize then (.error .decodeFailed, s)
    else if c.ComputeChecksum hcaBlockBuffer info.blockSize ≠ 0 then (.error .checksumError, s)
    else
      let hcaBlockBuffer := c.Decrypt hcaBlockBuffer
      let s := { s with hcaBlockBuffer := hcaBlockBuffer }
      let magic := c.GetBit16 hcaBlockBuffer
      if magic ≠ 0xffff then (.error .decodeFailed, s)
      else
        let hcaInfoVersion := u32 (info.versionMajor * 0x100 + info.versionMinor)
        let frame := frameValues hcaBlockBuffer info.blockSize
        let u := unpackChannels info c hcaInfoVersion frame.1 s.channels frame.2
        if ¬ u.completed then (.error .decodeFailed, { s with channels := u.channels })
        else
          let t := c.transform u.channels u.br s.random
          (.ok t.2.2,
            { s with decodedBlocks := (blockIndex, t.2.2) :: s.decodedBlocks,
                     channels := t.1, random := t.2.1 })

/-- The state after a list of further `DecodeBlock` calls, whatever they
return. -/
def afterDecodes (info : BlockInfo) (c : Collaborators) : List Nat → DecoderState → DecoderState
  | [], s => s
  | blockIndex :: rest, s => afterDecodes info c rest (DecodeBlock info c blockIndex s).2

/-! ## Sample block decoders -/

/-- Stand-ins for the collaborators: the stream holds the same `block` at every
offset, the checksum is the sum of the bytes modulo 256, the cipher
complements each byte when `keyed` and does nothing otherwise, `GetBit(16)` is
the first two bytes as a big-endian number, the ATH table is zero, and the
stages on `float` data leave the channels and the seed alone and give a zero
wave block. -/
def sampleCollaborators (block : List Nat) (keyed : Bool) : Collaborators :=
  { streamRead := fun _ count => block.take count
    ComputeChecksum := fun buffer size => (buffer.take size).sum % 256
    Decrypt := fun buffer => if keyed then buffer.map (fun b => 255 - b) else buffer
    GetBit16 := fun buffer => buffer.getD 0 0 * 256 + buffer.getD 1 0
    athTable := fun _ => 0
    fmul := fun _ _ => 0
    transform := fun channels _ random => (channels, random, fun _ => 0) }

/-- Header values of a version 3.0 stream with blocks of `blockSize` bytes,
resolutions 0 to 15 and no high frequency groups. -/
def sampleInfo (blockSize : Nat) : BlockInfo :=
  { blockSize := blockSize, dataOffset := 0, versionMajor := 3, versionMinor := 0,
    compR01 := 0, compR02 := 15, compR09 := 0 }

/-- A block of 8 bytes that passes the checksum and the sync word test of
the sample collaborators: noise level 0, evaluation boundary 0, `delta_bits` 0
for the scalefactors of both channels, then for the secondary channel the
intensity 0, `delta_bits` 1 and the delta 0, which leads to the intensity
`0 - 1 + 0`. -/
def intensityBlock : List Nat := [0xFF, 0xFF, 0, 0, 0, 0x10, 0, 0xF2]

/-- A block of four zero bytes. -/
def zeroBlock : List Nat := [0, 0, 0, 0]

/-- A block of four bytes `FF`. -/
def onesBlock : List Nat := [0xFF, 0xFF, 0xFF, 0xFF]

/-- A stereo pair of channels, nothing decoded yet. -/
def stereoState : DecoderState :=
  { decodedBlocks := []
    channels := [zeroChannel channel_type_t.STEREO_PRIMARY 4,
      zeroChannel channel_type_t.STEREO_SECONDARY 4]
    random := 1
    hcaBlockBuffer := []
    streamReads := [] }

end CHcaDecoder.Pipeline

namespace Vgmstream

/-! ## ATH curve -/

/-- The result code `HCA_ERROR_HEADER`. -/
def HCA_ERROR_HEADER : Int := -2

/-- The table `ath_base_curve`. -/
def ath_base_curve : List Nat :=
  [0x78,0x5F,0x56,0x51,0x4E,0x4C,0x4B,0x49,0x48,0x48,0x47,0x46,0x46,0x45,0x45,0x45,
   0x44,0x44,0x44,0x44,0x43,0x43,0x43,0x43,0x43,0x43,0x42,0x42,0x42,0x42,0x42,0x42,
   0x42,0x42,0x41,0x41,0x41,0x41,0x41,0x41,0x41,0x41,0x41,0x41,0x40,0x40,0x40,0x40,
   0x40,0x40,0x40,0x40,0x40,0x3F,0x3F,0x3F,0x3F,0x3F,0x3F,0x3F,0x3F,0x3F,0x3F,0x3F,
   0x3F,0x3F,0x3F,0x3E,0x3E,0x3E,0x3E,0x3E,0x3E,0x3D,0x3D,0x3D,0x3D,0x3D,0x3D,0x3D,
   0x3C,0x3C,0x3C,0x3C,0x3C,0x3C,0x3C,0x3C,0x3B,0x3B,0x3B,0x3B,0x3B,0x3B,0x3B,0x3B,
   0x3B,0x3B,0x3B,0x3B,0x3B,0x3B,0x3B,0x3B,0x3B,0x3B,0x3B,0x3B,0x3B,0x3B,0x3B,0x3B,
   0x3B,0x3B,0x3B,0x3B,0x3B,0x3B,0x3B,0x3B,0x3C,0x3C,0x3C,0x3C,0x3C,0x3C,0x3C,0x3C,
   0x3D,0x3D,0x3D,0x3D,0x3D,0x3D,0x3D,0x3D,0x3E,0x3E,0x3E,0x3E,0x3E,0x3E,0x3E,0x3F,
   0x3F,0x3F,0x3F,0x3F,0x3F,0x3F,0x3F,0x3F,0x3F,0x3F,0x3F,0x3F,0x3F,0x3F,0x3F,0x3F,
   0x3F,0x3F,0x3F,0x3F,0x40,0x40,0x40,0x40,0x40,0x40,0x40,0x40,0x40,0x40,0x40,0x40,
   0x40,0x40,0x40,0x40,0x40,0x40,0x40,0x40,0x40,0x41,0x41,0x41,0x41,0x41,0x41,0x41,
   0x41,0x41,0x41,0x41,0x41,0x41,0x41,0x41,0x41,0x41,0x41,0x41,0x41,0x41,0x41,0x41,
   0x41,0x41,0x41,0x41,0x41,0x41,0x41,0x42,0x42,0x42,0x42,0x42,0x42,0x42,0x42,0x42,
   0x42,0x42,0x42,0x42,0x42,0x42,0x42,0x42,0x42,0x42,0x42,0x42,0x42,0x43,0x43,0x43,
   0x43,0x43,0x43,0x43,0x43,0x43,0x43,0x43,0x43,0x43,0x43,0x43,0x43,0x43,0x44,0x44,
   0x44,0x44,0x44,0x44,0x44,0x44,0x44,0x44,0x44,0x44,0x44,0x44,0x45,0x45,0x45,0x45,
   0x45,0x45,0x45,0x45,0x45,0x45,0x45,0x45,0x46,0x46,0x46,0x46,0x46,0x46,0x46,0x46,
   0x46,0x46,0x47,0x47,0x47,0x47,0x47,0x47,0x47,0x47,0x47,0x47,0x48,0x48,0x48,0x48,
   0x48,0x48,0x48,0x48,0x49,0x49,0x49,0x49,0x49,0x49,0x49,0x49,0x4A,0x4A,0x4A,0x4A,
   0x4A,0x4A,0x4A,0x4A,0x4B,0x4B,0x4B,0x4B,0x4B,0x4B,0x4B,0x4C,0x4C,0x4C,0x4C,0x4C,
   0x4C,0x4D,0x4D,0x4D,0x4D,0x4D,0x4D,0x4E,0x4E,0x4E,0x4E,0x4E,0x4E,0x4F,0x4F,0x4F,
   0x4F,0x4F,0x4F,0x50,0x50,0x50,0x50,0x50,0x51,0x51,0x51,0x51,0x51,0x52,0x52,0x52,
   0x52,0x52,0x53,0x53,0x53,0x53,0x54,0x54,0x54,0x54,0x54,0x55,0x55,0x55,0x55,0x56,
   0x56,0x56,0x56,0x57,0x57,0x57,0x57,0x57,0x58,0x58,0x58,0x59,0x59,0x59,0x59,0x5A,
   0x5A,0x5A,0x5A,0x5B,0x5B,0x5B,0x5B,0x5C,0x5C,0x5C,0x5D,0x5D,0x5D,0x5D,0x5E,0x5E,
   0x5E,0x5F,0x5F,0x5F,0x60,0x60,0x60,0x61,0x61,0x61,0x61,0x62,0x62,0x62,0x63,0x63,
   0x63,0x64,0x64,0x64,0x65,0x65,0x66,0x66,0x66,0x67,0x67,0x67,0x68,0x68,0x68,0x69,
   0x69,0x6A,0x6A,0x6A,0x6B,0x6B,0x6B,0x6C,0x6C,0x6D,0x6D,0x6D,0x6E,0x6E,0x6F,0x6F,
   0x70,0x70,0x70,0x71,0x71,0x72,0x72,0x73,0x73,0x73,0x74,0x74,0x75,0x75,0x76,0x76,
   0x77,0x77,0x78,0x78,0x78,0x79,0x79,0x7A,0x7A,0x7B,0x7B,0x7C,0x7C,0x7D,0x7D,0x7E,
   0x7E,0x7F,0x7F,0x80,0x80,0x81,0x81,0x82,0x83,0x83,0x84,0x84,0x85,0x85,0x86,0x86,
   0x87,0x88,0x88,0x89,0x89,0x8A,0x8A,0x8B,0x8C,0x8C,0x8D,0x8D,0x8E,0x8F,0x8F,0x90,
   0x90,0x91,0x92,0x92,0x93,0x94,0x94,0x95,0x95,0x96,0x97,0x97,0x98,0x99,0x99,0x9A,
   0x9B,0x9B,0x9C,0x9D,0x9D,0x9E,0x9F,0xA0,0xA0,0xA1,0xA2,0xA2,0xA3,0xA4,0xA5,0xA5,
   0xA6,0xA7,0xA7,0xA8,0xA9,0xAA,0xAA,0xAB,0xAC,0xAD,0xAE,0xAE,0xAF,0xB0,0xB1,0xB1,
   0xB2,0xB3,0xB4,0xB5,0xB6,0xB6,0xB7,0xB8,0xB9,0xBA,0xBA,0xBB,0xBC,0xBD,0xBE,0xBF,
   0xC0,0xC1,0xC1,0xC2,0xC3,0xC4,0xC5,0xC6,0xC7,0xC8,0xC9,0xC9,0xCA,0xCB,0xCC,0xCD,
   0xCE,0xCF,0xD0,0xD1,0xD2,0xD3,0xD4,0xD5,0xD6,0xD7,0xD8,0xD9,0xDA,0xDB,0xDC,0xDD,
   0xDE,0xDF,0xE0,0xE1,0xE2,0xE3,0xE4,0xE5,0xE6,0xE7,0xE8,0xE9,0xEA,0xEB,0xED,0xEE,
   0xEF,0xF0,0xF1,0xF2,0xF3,0xF4,0xF5,0xF7,0xF8,0xF9,0xFA,0xFB,0xFC,0xFD,0xFF,0xFF]

/-- The call `memset(a + i, v, n)` on an array of bytes. -/
def memsetAt (a : Nat → Nat) (i v n : Nat) : Nat → Nat :=
  fun j => if i ≤ j ∧ j < i + n then v else a j

/-- Embeds `ath_init0`. -/
def ath_init0 (ath_curve : Nat → Nat) : Nat → Nat :=
  memsetAt ath_curve 0 0 HCA_SAMPLES_PER_SUBFRAME

/-- The loop of `ath_init1`, from index `i` for `count` more elements, with the
accumulator `acc`.  Next to the curve it gives the list of the indices at which
it has read `ath_base_curve`, in order. -/
def ath_init1Loop (sample_rate : Nat) :
    Nat → Nat → Nat → (Nat → Nat) → List Nat → (Nat → Nat) × List Nat
  | 0, _, _, ath_curve, reads => (ath_curve, reads)
  | count + 1, i, acc, ath_curve, reads =>
    let acc := uint (acc + sample_rate)
    let index := acc >>> 13
    if index ≥ 654 then
      (memsetAt ath_curve i 0xFF (usub HCA_SAMPLES_PER_SUBFRAME i), reads)
    else
      ath_init1Loop sample_rate count (i + 1) acc
        (setAt ath_curve i (ath_base_curve.getD index 0)) (reads ++ [index])

/-- Embeds `ath_init1`: the curve it leaves and the indices at which it has read
`ath_base_curve`. -/
def ath_init1 (ath_curve : Nat → Nat) (sample_rate : Nat) : (Nat → Nat) × List Nat :=
  ath_init1Loop sample_rate HCA_SAMPLES_PER_SUBFRAME 0 0 ath_curve []

/-- Embeds `ath_init`: the result code and the curve as the call leaves it. -/
def ath_init (ath_curve : Nat → Nat) (type : Int) (sample_rate : Nat) : Int × (Nat → Nat) :=
  if type = 0 then (HCA_RESULT_OK, ath_init0 ath_curve)
  else if type = 1 then (HCA_RESULT_OK, (ath_init1 ath_curve sample_rate).1)
  else (HCA_ERROR_HEADER, ath_curve)

end Vgmstream

namespace Vgmstream

/-! ## Dequantization -/

/-- The table `hcatbdecoder_max_bit_table`. -/
def hcatbdecoder_max_bit_table : List Nat :=
  [0, 2, 3, 3, 4, 4, 4, 4, 5, 6, 7, 8, 9, 10, 11, 12]

/-- The table `hcatbdecoder_read_bit_table`. -/
def hcatbdecoder_read_bit_table : List Nat :=
  [0, 0, 0, 0, 0, 0, 0, 0, 0, 0, 0, 0, 0, 0, 0, 0,
   1, 1, 2, 2, 0, 0, 0, 0, 0, 0, 0, 0, 0, 0, 0, 0,
   2, 2, 2, 2, 2, 2, 3, 3, 0, 0, 0, 0, 0, 0, 0, 0,
   2, 2, 3, 3, 3, 3, 3, 3, 0, 0, 0, 0, 0, 0, 0, 0,
   3, 3, 3, 3, 3, 3, 3, 3, 3, 3, 3, 3, 3, 3, 4, 4,
   3, 3, 3, 3, 3, 3, 3, 3, 3, 3, 4, 4, 4, 4, 4, 4,
   3, 3, 3, 3, 3, 3, 4, 4, 4, 4, 4, 4, 4, 4, 4, 4,
   3, 3, 4, 4, 4, 4, 4, 4, 4, 4, 4, 4, 4, 4, 4, 4]

/-- The table `hcatbdecoder_read_val_table`.  Its `float` entries are whole
numbers from `-7.0f` to `+7.0f` (every zero is `+0.0f`); the list holds them as
integers. -/
def hcatbdecoder_read_val_table : List Int :=
  [0, 0, 0, 0, 0, 0, 0, 0, 0, 0, 0, 0, 0, 0, 0, 0,
   0, 0, 1, -1, 0, 0, 0, 0, 0, 0, 0, 0, 0, 0, 0, 0,
   0, 0, 1, 1, -1, -1, 2, -2, 0, 0, 0, 0, 0, 0, 0, 0,
   0, 0, 1, -1, 2, -2, 3, -3, 0, 0, 0, 0, 0, 0, 0, 0,
   0, 0, 1, 1, -1, -1, 2, 2, -2, -2, 3, 3, -3, -3, 4, -4,
   0, 0, 1, 1, -1, -1, 2, 2, -2, -2, 3, -3, 4, -4, 5, -5,
   0, 0, 1, 1, -1, -1, 2, -2, 3, -3, 4, -4, 5, -5, 6, -6,
   0, 0, 1, -1, 2, -2, 3, -3, 4, -4, 5, -5, 6, -6, 7, -7]

/-- The number of bits `hcatbdecoder_read_bit_table[(r << 4) | c]` that the code `c`
takes at resolution `r`. -/
def codeLength (r c : Nat) : Nat := hcatbdecoder_read_bit_table.getD ((r <<< 4) ||| c) 0

/-- The value `hcatbdecoder_read_val_table[(r << 4) | c]` of the code `c` at
resolution `r`. -/
def codeValue (r c : Nat) : Int := hcatbdecoder_read_val_table.getD ((r <<< 4) ||| c) 0

/-- The assignment `a[s][i] = v` on an array of rows. -/
def setAt2 (a : Nat → Nat → Nat) (s i v : Nat) : Nat → Nat → Nat :=
  fun t j => if t = s ∧ j = i then v else a t j

/-- The part of the loop body of `dequantize_coefficients` that reads the code of
one coefficient of the given `resolution`: the quantized value, `signed_code` or
the entry of `hcatbdecoder_read_val_table`, before it becomes the `float` `qc`,
and the reader afterwards. -/
def dequantizeCode (resolution : Nat) (br : clData) : Int × clData :=
  let bits := uchar (hcatbdecoder_max_bit_table.getD resolution 0)
  let r := bitreader_read br bits
  let code := r.1
  if resolution > 7 then
    let signed_code : Int := toInt32 (uint (usub 1 (uint ((code &&& 1) <<< 1)) * (code >>> 1)))
    if signed_code = 0 then (signed_code, bitreader_skip r.2 (-1))
    else (signed_code, r.2)
  else
    let index : Int := toInt32 (uint ((resolution <<< 4) + code))
    let skip : Int := (hcatbdecoder_read_bit_table.getD index.toNat 0 : Nat) - (bits : Nat)
    (hcatbdecoder_read_val_table.getD index.toNat 0, bitreader_skip r.2 skip)

/-- The loop of `dequantize_coefficients`, from index `i` for `count` more
elements.  `ofInt` is the conversion of an `int` to `float` and `fmul` the
multiplication of two `float` values, both on bit patterns. -/
def dequantizeLoop (ofInt : Int → Nat) (fmul : Nat → Nat → Nat) (subframe : Nat) :
    Nat → Nat → stChannel → clData → stChannel × clData
  | 0, _, ch, br => (ch, br)
  | count + 1, i, ch, br =>
    let q := dequantizeCode (uchar (ch.resolution i)) br
    dequantizeLoop ofInt fmul subframe count (i + 1)
      { ch with spectra := setAt2 ch.spectra subframe i (fmul (ch.gain i) (ofInt q.1)) } q.2

/-- Embeds `dequantize_coefficients`; the `memset` at its end clears
`HCA_SAMPLES_PER_SUBFRAME - cc_count` elements (an `unsigned int`) of the row from
`spectra[subframe][cc_count]` on. -/
def dequantize_coefficients (ofInt : Int → Nat) (fmul : Nat → Nat → Nat) (ch : stChannel)
    (br : clData) (subframe : Nat) : stChannel × clData :=
  let cc_count := ch.coded_count
  let r := dequantizeLoop ofInt fmul subframe cc_count 0 ch br
  ({ r.1 with
      spectra := fun t j =>
        if t = subframe ∧ cc_count ≤ j ∧ j < cc_count + usub HCA_SAMPLES_PER_SUBFRAME cc_count
        then 0 else r.1.spectra t j },
    r.2)

/-! ## Noise reconstruction -/

/-- The table `hcadecoder_scale_conversion_table_hex`. -/
def hcadecoder_scale_conversion_table_hex : List Nat :=
  [0x00000000, 0x32A0B051, 0x32D61B5E, 0x330EA43A, 0x333E0F68, 0x337D3E0C, 0x33A8B6D5, 0x33E0CCDF,
   0x3415C3FF, 0x34478D75, 0x3484F1F6, 0x34B123F6, 0x34EC0719, 0x351D3EDA, 0x355184DF, 0x358B95C2,
   0x35B9FCD2, 0x35F7D0DF, 0x36251958, 0x365BFBB8, 0x36928E72, 0x36C346CD, 0x370218AF, 0x372D583F,
   0x3766F85B, 0x3799E046, 0x37CD078C, 0x3808980F, 0x38360094, 0x38728177, 0x38A18FAF, 0x38D744FD,
   0x390F6A81, 0x393F179A, 0x397E9E11, 0x39A9A15B, 0x39E2055B, 0x3A16942D, 0x3A48A2D8, 0x3A85AAC3,
   0x3AB21A32, 0x3AED4F30, 0x3B1E196E, 0x3B52A81E, 0x3B8C57CA, 0x3BBAFF5B, 0x3BF9295A, 0x3C25FED7,
   0x3C5D2D82, 0x3C935A2B, 0x3CC4563F, 0x3D02CD87, 0x3D2E4934, 0x3D68396A, 0x3D9AB62B, 0x3DCE248C,
   0x3E0955EE, 0x3E36FD92, 0x3E73D290, 0x3EA27043, 0x3ED87039, 0x3F1031DC, 0x3F40213B, 0x3F800000,
   0x3FAA8D26, 0x3FE33F89, 0x4017657D, 0x4049B9BE, 0x40866491, 0x40B311C4, 0x40EE9910, 0x411EF532,
   0x4153CCF1, 0x418D1ADF, 0x41BC034A, 0x41FA83B3, 0x4226E595, 0x425E60F5, 0x429426FF, 0x42C5672A,
   0x43038359, 0x432F3B79, 0x43697C38, 0x439B8D3A, 0x43CF4319, 0x440A14D5, 0x4437FBF0, 0x4475257D,
   0x44A3520F, 0x44D99D16, 0x4510FA4D, 0x45412C4D, 0x4580B1ED, 0x45AB7A3A, 0x45E47B6D, 0x461837F0,
   0x464AD226, 0x46871F62, 0x46B40AAF, 0x46EFE4BA, 0x471FD228, 0x4754F35B, 0x478DDF04, 0x47BD08A4,
   0x47FBDFED, 0x4827CD94, 0x485F9613, 0x4894F4F0, 0x48C67991, 0x49043A29, 0x49302F0E, 0x496AC0C7,
   0x499C6573, 0x49D06334, 0x4A0AD4C6, 0x4A38FBAF, 0x4A767A41, 0x4AA43516, 0x4ADACB94, 0x4B11C3D3,
   0x4B4238D2, 0x4B8164D2, 0x4BAC6897, 0x4BE5B907, 0x4C190B88, 0x4C4BEC15, 0x00000000, 0x00000000]

/-- One step `random = 0x343FD * random + 0x269EC3` on an `unsigned int`. -/
def nextRandom (random : Nat) : Nat := uint (0x343FD * random + 0x269EC3)

/-- The value `random_index` of `reconstruct_noise` for the stepped `random`. -/
def randomIndex (valid_count random : Nat) : Int :=
  toInt32 (uint (usub HCA_SAMPLES_PER_SUBFRAME valid_count
    + (uint ((random &&& 0x7FFF) * valid_count) >>> 15)))

/-- The value `sc_index` of `reconstruct_noise`,
`(sf_noise - sf_valid + 62) & ~((sf_noise - sf_valid + 62) >> 31)` with an arithmetic
shift: `sf_noise - sf_valid + 62`, or 0 when that is negative. -/
def noiseScaleIndex (sf_noise sf_valid : Nat) : Int :=
  if (sf_noise : Int) - sf_valid + 62 < 0 then 0 else (sf_noise : Int) - sf_valid + 62

/-- The body of the loop of `reconstruct_noise` for the index `i`, on the rows
`spectra` and the local `random`.  The `int` values `random_index` and `sc_index`
index their arrays from the start; a negative one, which points before the
array, is taken as 0. -/
def noiseStep (fmul : Nat → Nat → Nat) (ch : stChannel) (subframe i : Nat)
    (spectra : Nat → Nat → Nat) (random : Nat) : (Nat → Nat → Nat) × Nat :=
  let random := nextRandom random
  let random_index := randomIndex ch.valid_count random
  let noise_index := uchar (ch.noises i)
  let valid_index := uchar (ch.noises random_index.toNat)
  let sf_noise := uchar (ch.scalefactors noise_index)
  let sf_valid := uchar (ch.scalefactors valid_index)
  let sc_index := noiseScaleIndex sf_noise sf_valid
  (setAt2 spectra subframe noise_index
      (fmul (hcadecoder_scale_conversion_table_hex.getD sc_index.toNat 0)
        (spectra subframe valid_index)),
    random)

/-- A loop `for (i = first; i < first + count; i++)` whose body maps the state
`s` to `body i s`. -/
def forLoop {σ : Type} (body : Nat → σ → σ) : Nat → Nat → σ → σ
  | 0, _, s => s
  | count + 1, i, s => forLoop body count (i + 1) (body i s)

/-- The loop of `reconstruct_noise`, from index `i` for `count` more elements. -/
def noiseLoop (fmul : Nat → Nat → Nat) (ch : stChannel) (subframe count i : Nat)
    (spectra : Nat → Nat → Nat) (random : Nat) : (Nat → Nat → Nat) × Nat :=
  forLoop (fun i s => noiseStep fmul ch subframe i s.1 s.2) count i (spectra, random)

/-- Embeds `reconstruct_noise`: the channel and the value of `*random_p` as the call
leaves them. -/
def reconstruct_noise (fmul : Nat → Nat → Nat) (ch : stChannel)
    (min_resolution ms_stereo random subframe : Nat) : stChannel × Nat :=
  if min_resolution > 0 then (ch, random)
  else if ch.valid_count ≤ 0 ∨ ch.noise_count ≤ 0 then (ch, random)
  else if ¬ (ms_stereo = 0 ∨ ch.type = channel_type_t.STEREO_PRIMARY) then (ch, random)
  else
    let r := noiseLoop fmul ch subframe ch.noise_count 0 ch.spectra random
    ({ ch with spectra := r.1 }, r.2)

end Vgmstream

namespace Vgmstream

/-! ## Noise and valid partitions -/

/-- Says that `calculate_resolution` puts coefficient `j` on its noise list: the
scalefactor is not 0 and the new resolution is below 1. -/
def noiseCoefficient (scalefactors ath_curve : Nat → Nat)
    (packed_noise_level min_resolution max_resolution j : Nat) : Bool :=
  decide (uchar (scalefactors j) > 0 ∧
    newResolution (uchar (scalefactors j)) (uchar (ath_curve j)) packed_noise_level j
      min_resolution max_resolution < 1)

/-- Says that `calculate_resolution` puts coefficient `j` on its valid list: the
scalefactor is not 0 and the new resolution is not below 1. -/
def validCoefficient (scalefactors ath_curve : Nat → Nat)
    (packed_noise_level min_resolution max_resolution j : Nat) : Bool :=
  decide (uchar (scalefactors j) > 0 ∧
    ¬ newResolution (uchar (scalefactors j)) (uchar (ath_curve j)) packed_noise_level j
      min_resolution max_resolution < 1)

/-- The state of the lists of `calculate_resolution` after the coefficients below
`i`: `noises[0 .. noise_count)` holds the noise coefficients below `i` in
increasing order, `noises[127 - k]` for `k < valid_count` the valid ones. -/
structure ListsUpTo (scalefactors ath_curve : Nat → Nat)
    (packed_noise_level min_resolution max_resolution i : Nat) (s : ResolutionState) : Prop where
  noise : (List.range s.noise_count).map s.noises
    = (List.range i).filter
        (noiseCoefficient scalefactors ath_curve packed_noise_level min_resolution max_resolution)
  valid : (List.range s.valid_count).map (fun k => s.noises (127 - k))
    = (List.range i).filter
        (validCoefficient scalefactors ath_curve packed_noise_level min_resolution max_resolution)
  bound : s.noise_count + s.valid_count ≤ i

/-- A discrete channel of six coded coefficients with the scalefactors 0, 10,
40, 63, 1 and 30. -/
def mixedChannel : stChannel :=
  { zeroChannel channel_type_t.DISCRETE 6 with
    scalefactors := fun i => [0, 10, 40, 63, 1, 30].getD i 0 }

/-- The channel `mixedChannel` after `calculate_resolution` with the packed noise
level `100 << 8`, a zero ATH curve and the resolutions 0 to 15, and with the
spectra `100 + j` in every row: its noise list is 1, 4 and its valid list 2, 3,
5. -/
def resolvedChannel : stChannel :=
  { calculate_resolution mixedChannel 25600 (fun _ => 0) 0 15 with
    spectra := fun _ j => 100 + j }

end Vgmstream

namespace Vgmstream

/-! ## Packed noise level -/

/-- The value `packed_noise_level` that `DecodeBlock` forms from the two frame
values, `(frame_acceptable_noise_level << 8) - frame_evaluation_boundary` on
`unsigned int`. -/
def packedNoiseLevel (frame_acceptable_noise_level frame_evaluation_boundary : Nat) : Nat :=
  usub (uint (frame_acceptable_noise_level <<< 8)) frame_evaluation_boundary

/-- The term `(packed_noise_level + i) >> 8` that `calculate_resolution` adds to
`ath_curve[i]`, on `unsigned int`. -/
def noiseTerm (packed_noise_level i : Nat) : Nat := uint (packed_noise_level + i) >>> 8

/-- The noise term read in signed arithmetic: the floor of `(256 * n - e + i) / 256`
for the noise level `n`, the evaluation boundary `e` and the index `i`. -/
def signedNoiseTerm (n e i : Nat) : Int := (256 * (n : Int) - e + i) / 256

end Vgmstream

namespace CHcaDecoder

/-! ## Wave header -/

/-- Truncation to `uint16_t`. -/
def u16 (n : Nat) : Nat := n % 2 ^ 16

/-- The value `GenerateWaveHeader` stores in `wavData.dataSize`.  The records of the
header are declared outside the source tree: `fmtChannelCount`, `fmtBitCount` and
`fmtSamplingSize` are the 16-bit fields of the `fmt` chunk that the casts to
`uint16_t` name, `loopStart`, `loopEnd` and `dataSize` 32-bit fields.  `fmtR02` is
the field of that name of `HCA_INFO`; `smplLoopStart` and `smplLoopEnd` are the
values the initialiser of `wavSmpl` gives to `loopStart` and `loopEnd`, which
stay when the stream has no loop and `SoftLoop` is off. -/
def wavDataSize (d : Decoder) (fmtR02 smplLoopStart smplLoopEnd : Nat) : Nat :=
  let fmtChannelCount := u16 d.hcaInfo.channelCount
  let fmtBitCount :=
    u16 (if d.settings.BitPerChannel > 0 then d.settings.BitPerChannel else 32)
  let fmtSamplingSize := u16 (fmtBitCount / 8 * fmtChannelCount)
  let loop : Nat × Nat :=
    if d.hcaInfo.loopExists then
      (u32 (u32 (u32 (d.hcaInfo.loopStart * 0x80) * 8) + fmtR02),
        u32 (u32 (d.hcaInfo.loopEnd * 0x80) * 8))
    else if d.settings.SoftLoop then
      (0, u32 (u32 (d.hcaInfo.blockCount * 0x80) * 8))
    else (smplLoopStart, smplLoopEnd)
  u32 (fmtSamplingSize *
    u32 (u32 (u32 (d.hcaInfo.blockCount * 0x80) * 8)
      + u32 (sub32 loop.2 loop.1 * d.decoderConfig.loopCount)))

/-- Mono, two blocks, loop region blocks 0 and 1, header on, looping off,
`loopCount = 1`. -/
def loopOffWithHeader : Decoder := sampleDecoder 1 2 true 0 1 true false 1

end CHcaDecoder

namespace Vgmstream

/-! ## Reconstruction of the high frequencies -/

/-- The locals of `reconstruct_high_frequency` that its loops update, with the
row `spectra[subframe]` inside `spectra`; `stopped` says that the inner loop has
left through `break`. -/
structure HfrState where
  highband : Int
  lowband : Int
  spectra : Nat → Nat → Nat
  stopped : Bool

/-- The body of the inner loop of `reconstruct_high_frequency` for the group
`group`.  An `int` used as an index counts from the start of the array; a
negative one, which points before the array, is taken as 0. -/
def hfrStep (fmul : Nat → Nat → Nat) (ch : stChannel)
    (hfr_group_count total_band_count subframe group : Nat) (lowband_sub : Int)
    (s : HfrState) : HfrState :=
  if s.stopped then s
  else if toUnsigned s.highband ≥ uint total_band_count ∨ s.lowband < 0 then
    { s with stopped := true }
  else
    let hfr_scale := uchar (ch.scalefactors (usub 128 hfr_group_count + group))
    let sc_index : Int := (hfr_scale : Int) - (uchar (ch.scalefactors s.lowband.toNat) : Nat) + 63
    let sc_index : Int := if sc_index < 0 then 0 else sc_index
    { highband := toInt32 (s.highband + 1)
      lowband := toInt32 (s.lowband - lowband_sub)
      spectra := setAt2 s.spectra subframe s.highband.toNat
        (fmul (hcadecoder_scale_conversion_table_hex.getD sc_index.toNat 0)
          (s.spectra subframe s.lowband.toNat))
      stopped := false }

/-- The body of the outer loop of `reconstruct_high_frequency`: the inner loop over
the bands of the group. -/
def hfrGroup (fmul : Nat → Nat → Nat) (ch : stChannel)
    (hfr_group_count bands_per_hfr_group total_band_count subframe : Nat) (group_limit : Int)
    (group : Nat) (s : HfrState) : HfrState :=
  let lowband_sub : Int := if (group : Int) < group_limit then 1 else 0
  forLoop (fun _ s => hfrStep fmul ch hfr_group_count total_band_count subframe group
    lowband_sub s) bands_per_hfr_group 0 { s with stopped := false }

/-- Embeds `reconstruct_high_frequency`. -/
def reconstruct_high_frequency (fmul : Nat → Nat → Nat) (ch : stChannel)
    (hfr_group_count bands_per_hfr_group stereo_band_count base_band_count total_band_count
      version subframe : Nat) : stChannel :=
  if bands_per_hfr_group = 0 then ch
  else if ch.type = channel_type_t.STEREO_SECONDARY then ch
  else
    let start_band : Int := toInt32 (uint (stereo_band_count + base_band_count))
    let group_limit : Int :=
      if version ≤ HCA_VERSION_V200 then toInt32 (uint hfr_group_count)
      else toInt32 (uint hfr_group_count) / 2
    let s := forLoop
      (hfrGroup fmul ch hfr_group_count bands_per_hfr_group total_band_count subframe
        group_limit)
      hfr_group_count 0
      { highband := start_band, lowband := toInt32 (start_band - 1), spectra := ch.spectra,
        stopped := false }
    { ch with spectra := setAt2 s.spectra subframe (toInt32 (s.highband - 1)).toNat 0 }

/-! ## Joint stereo -/

/-- The table `hcadecoder_intensity_ratio_table_hex`. -/
def hcadecoder_intensity_ratio_table_hex : List Nat :=
  [0x40000000, 0x3FEDB6DB, 0x3FDB6DB7, 0x3FC92492, 0x3FB6DB6E, 0x3FA49249, 0x3F924925, 0x3F800000,
   0x3F5B6DB7, 0x3F36DB6E, 0x3F124925, 0x3EDB6DB7, 0x3E924925, 0x3E124925, 0x00000000, 0x00000000]

/-- The body of the loop of `apply_intensity_stereo` for the band `band`, on the
rows `sp_l` and `sp_r`. -/
def intensityStep (fmul : Nat → Nat → Nat) (ratio_l ratio_r band : Nat)
    (sp : (Nat → Nat) × (Nat → Nat)) : (Nat → Nat) × (Nat → Nat) :=
  let coef_l := fmul (sp.1 band) ratio_l
  let coef_r := fmul (sp.1 band) ratio_r
  (setAt sp.1 band coef_l, setAt sp.2 band coef_r)

/-- The row `a[s]` of an array of rows with the row `s` replaced. -/
def setRow (a : Nat → Nat → Nat) (s : Nat) (row : Nat → Nat) : Nat → Nat → Nat :=
  fun t j => if t = s then row j else a t j

/-- Embeds `apply_intensity_stereo` on the pair `ch_pair[0]`, `ch_pair[1]`; `fsub` is the
subtraction of two `float` values. -/
def apply_intensity_stereo (fmul fsub : Nat → Nat → Nat) (ch0 ch1 : stChannel)
    (subframe base_band_count total_band_count : Nat) : stChannel × stChannel :=
  if ch0.type ≠ channel_type_t.STEREO_PRIMARY then (ch0, ch1)
  else
    let ratio_l := hcadecoder_intensity_ratio_table_hex.getD (uchar (ch1.intensity subframe)) 0
    let ratio_r := fsub 0x40000000 ratio_l
    let sp := forLoop (intensityStep fmul ratio_l ratio_r)
      (uint total_band_count - toInt32 (uint base_band_count)).toNat
      (toInt32 (uint base_band_count)).toNat (ch0.spectra subframe, ch1.spectra subframe)
    ({ ch0 with spectra := setRow ch0.spectra subframe sp.1 },
      { ch1 with spectra := setRow ch1.spectra subframe sp.2 })

/-- The body of the loop of `apply_ms_stereo` for the band `band`. -/
def msStep (fmul fadd fsub : Nat → Nat → Nat) (band : Nat)
    (sp : (Nat → Nat) × (Nat → Nat)) : (Nat → Nat) × (Nat → Nat) :=
  let coef_l := fmul (fadd (sp.1 band) (sp.2 band)) 0x3F3504F3
  let coef_r := fmul (fsub (sp.1 band) (sp.2 band)) 0x3F3504F3
  (setAt sp.1 band coef_l, setAt sp.2 band coef_r)

/-- Embeds `apply_ms_stereo` on the pair `ch_pair[0]`, `ch_pair[1]`. -/
def apply_ms_stereo (fmul fadd fsub : Nat → Nat → Nat) (ch0 ch1 : stChannel)
    (ms_stereo base_band_count total_band_count subframe : Nat) : stChannel × stChannel :=
  if ms_stereo = 0 then (ch0, ch1)
  else if ch0.type ≠ channel_type_t.STEREO_PRIMARY then (ch0, ch1)
  else
    let sp := forLoop (msStep fmul fadd fsub)
      (uint total_band_count - toInt32 (uint base_band_count)).toNat
      (toInt32 (uint base_band_count)).toNat (ch0.spectra subframe, ch1.spectra subframe)
    ({ ch0 with spectra := setRow ch0.spectra subframe sp.1 },
      { ch1 with spectra := setRow ch1.spectra subframe sp.2 })

/-! ## Inverse transform -/

/-- The constant `HCA_MDCT_BITS`. -/
def HCA_MDCT_BITS : Nat := 7

/-- The table `sin_tables_hex`, row after row. -/
def sin_tables_hex : List Nat :=
  [0x3DA73D75, 0x3DA73D75, 0x3DA73D75, 0x3DA73D75, 0x3DA73D75, 0x3DA73D75, 0x3DA73D75, 0x3DA73D75,
   0x3DA73D75, 0x3DA73D75, 0x3DA73D75, 0x3DA73D75, 0x3DA73D75, 0x3DA73D75, 0x3DA73D75, 0x3DA73D75,
   0x3DA73D75, 0x3DA73D75, 0x3DA73D75, 0x3DA73D75, 0x3DA73D75, 0x3DA73D75, 0x3DA73D75, 0x3DA73D75,
   0x3DA73D75, 0x3DA73D75, 0x3DA73D75, 0x3DA73D75, 0x3DA73D75, 0x3DA73D75, 0x3DA73D75, 0x3DA73D75,
   0x3DA73D75, 0x3DA73D75, 0x3DA73D75, 0x3DA73D75, 0x3DA73D75, 0x3DA73D75, 0x3DA73D75, 0x3DA73D75,
   0x3DA73D75, 0x3DA73D75, 0x3DA73D75, 0x3DA73D75, 0x3DA73D75, 0x3DA73D75, 0x3DA73D75, 0x3DA73D75,
   0x3DA73D75, 0x3DA73D75, 0x3DA73D75, 0x3DA73D75, 0x3DA73D75, 0x3DA73D75, 0x3DA73D75, 0x3DA73D75,
   0x3DA73D75, 0x3DA73D75, 0x3DA73D75, 0x3DA73D75, 0x3DA73D75, 0x3DA73D75, 0x3DA73D75, 0x3DA73D75,
   0x3F7B14BE, 0x3F54DB31, 0x3F7B14BE, 0x3F54DB31, 0x3F7B14BE, 0x3F54DB31, 0x3F7B14BE, 0x3F54DB31,
   0x3F7B14BE, 0x3F54DB31, 0x3F7B14BE, 0x3F54DB31, 0x3F7B14BE, 0x3F54DB31, 0x3F7B14BE, 0x3F54DB31,
   0x3F7B14BE, 0x3F54DB31, 0x3F7B14BE, 0x3F54DB31, 0x3F7B14BE, 0x3F54DB31, 0x3F7B14BE, 0x3F54DB31,
   0x3F7B14BE, 0x3F54DB31, 0x3F7B14BE, 0x3F54DB31, 0x3F7B14BE, 0x3F54DB31, 0x3F7B14BE, 0x3F54DB31,
   0x3F7B14BE, 0x3F54DB31, 0x3F7B14BE, 0x3F54DB31, 0x3F7B14BE, 0x3F54DB31, 0x3F7B14BE, 0x3F54DB31,
   0x3F7B14BE, 0x3F54DB31, 0x3F7B14BE, 0x3F54DB31, 0x3F7B14BE, 0x3F54DB31, 0x3F7B14BE, 0x3F54DB31,
   0x3F7B14BE, 0x3F54DB31, 0x3F7B14BE, 0x3F54DB31, 0x3F7B14BE, 0x3F54DB31, 0x3F7B14BE, 0x3F54DB31,
   0x3F7B14BE, 0x3F54DB31, 0x3F7B14BE, 0x3F54DB31, 0x3F7B14BE, 0x3F54DB31, 0x3F7B14BE, 0x3F54DB31,
   0x3F7EC46D, 0x3F74FA0B, 0x3F61C598, 0x3F45E403, 0x3F7EC46D, 0x3F74FA0B, 0x3F61C598, 0x3F45E403,
   0x3F7EC46D, 0x3F74FA0B, 0x3F61C598, 0x3F45E403, 0x3F7EC46D, 0x3F74FA0B, 0x3F61C598, 0x3F45E403,
   0x3F7EC46D, 0x3F74FA0B, 0x3F61C598, 0x3F45E403, 0x3F7EC46D, 0x3F74FA0B, 0x3F61C598, 0x3F45E403,
   0x3F7EC46D, 0x3F74FA0B, 0x3F61C598, 0x3F45E403, 0x3F7EC46D, 0x3F74FA0B, 0x3F61C598, 0x3F45E403,
   0x3F7EC46D, 0x3F74FA0B, 0x3F61C598, 0x3F45E403, 0x3F7EC46D, 0x3F74FA0B, 0x3F61C598, 0x3F45E403,
   0x3F7EC46D, 0x3F74FA0B, 0x3F61C598, 0x3F45E403, 0x3F7EC46D, 0x3F74FA0B, 0x3F61C598, 0x3F45E403,
   0x3F7EC46D, 0x3F74FA0B, 0x3F61C598, 0x3F45E403, 0x3F7EC46D, 0x3F74FA0B, 0x3F61C598, 0x3F45E403,
   0x3F7EC46D, 0x3F74FA0B, 0x3F61C598, 0x3F45E403, 0x3F7EC46D, 0x3F74FA0B, 0x3F61C598, 0x3F45E403,
   0x3F7FB10F, 0x3F7D3AAC, 0x3F7853F8, 0x3F710908, 0x3F676BD8, 0x3F5B941A, 0x3F4D9F02, 0x3F3DAEF9,
   0x3F7FB10F, 0x3F7D3AAC, 0x3F7853F8, 0x3F710908, 0x3F676BD8, 0x3F5B941A, 0x3F4D9F02, 0x3F3DAEF9,
   0x3F7FB10F, 0x3F7D3AAC, 0x3F7853F8, 0x3F710908, 0x3F676BD8, 0x3F5B941A, 0x3F4D9F02, 0x3F3DAEF9,
   0x3F7FB10F, 0x3F7D3AAC, 0x3F7853F8, 0x3F710908, 0x3F676BD8, 0x3F5B941A, 0x3F4D9F02, 0x3F3DAEF9,
   0x3F7FB10F, 0x3F7D3AAC, 0x3F7853F8, 0x3F710908, 0x3F676BD8, 0x3F5B941A, 0x3F4D9F02, 0x3F3DAEF9,
   0x3F7FB10F, 0x3F7D3AAC, 0x3F7853F8, 0x3F710908, 0x3F676BD8, 0x3F5B941A, 0x3F4D9F02, 0x3F3DAEF9,
   0x3F7FB10F, 0x3F7D3AAC, 0x3F7853F8, 0x3F710908, 0x3F676BD8, 0x3F5B941A, 0x3F4D9F02, 0x3F3DAEF9,
   0x3F7FB10F, 0x3F7D3AAC, 0x3F7853F8, 0x3F710908, 0x3F676BD8, 0x3F5B941A, 0x3F4D9F02, 0x3F3DAEF9,
   0x3F7FEC43, 0x3F7F4E6D, 0x3F7E1324, 0x3F7C3B28, 0x3F79C79D, 0x3F76BA07, 0x3F731447, 0x3F6ED89E,
   0x3F6A09A7, 0x3F64AA59, 0x3F5EBE05, 0x3F584853, 0x3F514D3D, 0x3F49D112, 0x3F41D870, 0x3F396842,
   0x3F7FEC43, 0x3F7F4E6D, 0x3F7E1324, 0x3F7C3B28, 0x3F79C79D, 0x3F76BA07, 0x3F731447, 0x3F6ED89E,
   0x3F6A09A7, 0x3F64AA59, 0x3F5EBE05, 0x3F584853, 0x3F514D3D, 0x3F49D112, 0x3F41D870, 0x3F396842,
   0x3F7FEC43, 0x3F7F4E6D, 0x3F7E1324, 0x3F7C3B28, 0x3F79C79D, 0x3F76BA07, 0x3F731447, 0x3F6ED89E,
   0x3F6A09A7, 0x3F64AA59, 0x3F5EBE05, 0x3F584853, 0x3F514D3D, 0x3F49D112, 0x3F41D870, 0x3F396842,
   0x3F7FEC43, 0x3F7F4E6D, 0x3F7E1324, 0x3F7C3B28, 0x3F79C79D, 0x3F76BA07, 0x3F731447, 0x3F6ED89E,
   0x3F6A09A7, 0x3F64AA59, 0x3F5EBE05, 0x3F584853, 0x3F514D3D, 0x3F49D112, 0x3F41D870, 0x3F396842,
   0x3F7FFB11, 0x3F7FD397, 0x3F7F84AB, 0x3F7F0E58, 0x3F7E70B0, 0x3F7DABCC, 0x3F7CBFC9, 0x3F7BACCD,
   0x3F7A7302, 0x3F791298, 0x3F778BC5, 0x3F75DEC6, 0x3F740BDD, 0x3F721352, 0x3F6FF573, 0x3F6DB293,
   0x3F6B4B0C, 0x3F68BF3C, 0x3F660F88, 0x3F633C5A, 0x3F604621, 0x3F5D2D53, 0x3F59F26A, 0x3F5695E5,
   0x3F531849, 0x3F4F7A1F, 0x3F4BBBF8, 0x3F47DE65, 0x3F43E200, 0x3F3FC767, 0x3F3B8F3B, 0x3F373A23,
   0x3F7FFB11, 0x3F7FD397, 0x3F7F84AB, 0x3F7F0E58, 0x3F7E70B0, 0x3F7DABCC, 0x3F7CBFC9, 0x3F7BACCD,
   0x3F7A7302, 0x3F791298, 0x3F778BC5, 0x3F75DEC6, 0x3F740BDD, 0x3F721352, 0x3F6FF573, 0x3F6DB293,
   0x3F6B4B0C, 0x3F68BF3C, 0x3F660F88, 0x3F633C5A, 0x3F604621, 0x3F5D2D53, 0x3F59F26A, 0x3F5695E5,
   0x3F531849, 0x3F4F7A1F, 0x3F4BBBF8, 0x3F47DE65, 0x3F43E200, 0x3F3FC767, 0x3F3B8F3B, 0x3F373A23,
   0x3F7FFEC4, 0x3F7FF4E6, 0x3F7FE129, 0x3F7FC38F, 0x3F7F9C18, 0x3F7F6AC7, 0x3F7F2F9D, 0x3F7EEA9D,
   0x3F7E9BC9, 0x3F7E4323, 0x3F7DE0B1, 0x3F7D7474, 0x3F7CFE73, 0x3F7C7EB0, 0x3F7BF531, 0x3F7B61FC,
   0x3F7AC516, 0x3F7A1E84, 0x3F796E4E, 0x3F78B47B, 0x3F77F110, 0x3F772417, 0x3F764D97, 0x3F756D97,
   0x3F748422, 0x3F73913F, 0x3F7294F8, 0x3F718F57, 0x3F708066, 0x3F6F6830, 0x3F6E46BE, 0x3F6D1C1D,
   0x3F6BE858, 0x3F6AAB7B, 0x3F696591, 0x3F6816A8, 0x3F66BECC, 0x3F655E0B, 0x3F63F473, 0x3F628210,
   0x3F6106F2, 0x3F5F8327, 0x3F5DF6BE, 0x3F5C61C7, 0x3F5AC450, 0x3F591E6A, 0x3F577026, 0x3F55B993,
   0x3F53FAC3, 0x3F5233C6, 0x3F5064AF, 0x3F4E8D90, 0x3F4CAE79, 0x3F4AC77F, 0x3F48D8B3, 0x3F46E22A,
   0x3F44E3F5, 0x3F42DE29, 0x3F40D0DA, 0x3F3EBC1B, 0x3F3CA003, 0x3F3A7CA4, 0x3F385216, 0x3F36206C]

/-- The table `cos_tables_hex`, row after row. -/
def cos_tables_hex : List Nat :=
  [0xBD0A8BD4, 0x3D0A8BD4, 0x3D0A8BD4, 0xBD0A8BD4, 0x3D0A8BD4, 0xBD0A8BD4, 0xBD0A8BD4, 0x3D0A8BD4,
   0x3D0A8BD4, 0xBD0A8BD4, 0xBD0A8BD4, 0x3D0A8BD4, 0xBD0A8BD4, 0x3D0A8BD4, 0x3D0A8BD4, 0xBD0A8BD4,
   0x3D0A8BD4, 0xBD0A8BD4, 0xBD0A8BD4, 0x3D0A8BD4, 0xBD0A8BD4, 0x3D0A8BD4, 0x3D0A8BD4, 0xBD0A8BD4,
   0xBD0A8BD4, 0x3D0A8BD4, 0x3D0A8BD4, 0xBD0A8BD4, 0x3D0A8BD4, 0xBD0A8BD4, 0xBD0A8BD4, 0x3D0A8BD4,
   0x3D0A8BD4, 0xBD0A8BD4, 0xBD0A8BD4, 0x3D0A8BD4, 0xBD0A8BD4, 0x3D0A8BD4, 0x3D0A8BD4, 0xBD0A8BD4,
   0xBD0A8BD4, 0x3D0A8BD4, 0x3D0A8BD4, 0xBD0A8BD4, 0x3D0A8BD4, 0xBD0A8BD4, 0xBD0A8BD4, 0x3D0A8BD4,
   0xBD0A8BD4, 0x3D0A8BD4, 0x3D0A8BD4, 0xBD0A8BD4, 0x3D0A8BD4, 0xBD0A8BD4, 0xBD0A8BD4, 0x3D0A8BD4,
   0x3D0A8BD4, 0xBD0A8BD4, 0xBD0A8BD4, 0x3D0A8BD4, 0xBD0A8BD4, 0x3D0A8BD4, 0x3D0A8BD4, 0xBD0A8BD4,
   0xBE47C5C2, 0xBF0E39DA, 0x3E47C5C2, 0x3F0E39DA, 0x3E47C5C2, 0x3F0E39DA, 0xBE47C5C2, 0xBF0E39DA,
   0x3E47C5C2, 0x3F0E39DA, 0xBE47C5C2, 0xBF0E39DA, 0xBE47C5C2, 0xBF0E39DA, 0x3E47C5C2, 0x3F0E39DA,
   0x3E47C5C2, 0x3F0E39DA, 0xBE47C5C2, 0xBF0E39DA, 0xBE47C5C2, 0xBF0E39DA, 0x3E47C5C2, 0x3F0E39DA,
   0xBE47C5C2, 0xBF0E39DA, 0x3E47C5C2, 0x3F0E39DA, 0x3E47C5C2, 0x3F0E39DA, 0xBE47C5C2, 0xBF0E39DA,
   0x3E47C5C2, 0x3F0E39DA, 0xBE47C5C2, 0xBF0E39DA, 0xBE47C5C2, 0xBF0E39DA, 0x3E47C5C2, 0x3F0E39DA,
   0xBE47C5C2, 0xBF0E39DA, 0x3E47C5C2, 0x3F0E39DA, 0x3E47C5C2, 0x3F0E39DA, 0xBE47C5C2, 0xBF0E39DA,
   0xBE47C5C2, 0xBF0E39DA, 0x3E47C5C2, 0x3F0E39DA, 0x3E47C5C2, 0x3F0E39DA, 0xBE47C5C2, 0xBF0E39DA,
   0x3E47C5C2, 0x3F0E39DA, 0xBE47C5C2, 0xBF0E39DA, 0xBE47C5C2, 0xBF0E39DA, 0x3E47C5C2, 0x3F0E39DA,
   0xBDC8BD36, 0xBE94A031, 0xBEF15AEA, 0xBF226799, 0x3DC8BD36, 0x3E94A031, 0x3EF15AEA, 0x3F226799,
   0x3DC8BD36, 0x3E94A031, 0x3EF15AEA, 0x3F226799, 0xBDC8BD36, 0xBE94A031, 0xBEF15AEA, 0xBF226799,
   0x3DC8BD36, 0x3E94A031, 0x3EF15AEA, 0x3F226799, 0xBDC8BD36, 0xBE94A031, 0xBEF15AEA, 0xBF226799,
   0xBDC8BD36, 0xBE94A031, 0xBEF15AEA, 0xBF226799, 0x3DC8BD36, 0x3E94A031, 0x3EF15AEA, 0x3F226799,
   0x3DC8BD36, 0x3E94A031, 0x3EF15AEA, 0x3F226799, 0xBDC8BD36, 0xBE94A031, 0xBEF15AEA, 0xBF226799,
   0xBDC8BD36, 0xBE94A031, 0xBEF15AEA, 0xBF226799, 0x3DC8BD36, 0x3E94A031, 0x3EF15AEA, 0x3F226799,
   0xBDC8BD36, 0xBE94A031, 0xBEF15AEA, 0xBF226799, 0x3DC8BD36, 0x3E94A031, 0x3EF15AEA, 0x3F226799,
   0x3DC8BD36, 0x3E94A031, 0x3EF15AEA, 0x3F226799, 0xBDC8BD36, 0xBE94A031, 0xBEF15AEA, 0xBF226799,
   0xBD48FB30, 0xBE164083, 0xBE78CFCC, 0xBEAC7CD4, 0xBEDAE880, 0xBF039C3D, 0xBF187FC0, 0xBF2BEB4A,
   0x3D48FB30, 0x3E164083, 0x3E78CFCC, 0x3EAC7CD4, 0x3EDAE880, 0x3F039C3D, 0x3F187FC0, 0x3F2BEB4A,
   0x3D48FB30, 0x3E164083, 0x3E78CFCC, 0x3EAC7CD4, 0x3EDAE880, 0x3F039C3D, 0x3F187FC0, 0x3F2BEB4A,
   0xBD48FB30, 0xBE164083, 0xBE78CFCC, 0xBEAC7CD4, 0xBEDAE880, 0xBF039C3D, 0xBF187FC0, 0xBF2BEB4A,
   0x3D48FB30, 0x3E164083, 0x3E78CFCC, 0x3EAC7CD4, 0x3EDAE880, 0x3F039C3D, 0x3F187FC0, 0x3F2BEB4A,
   0xBD48FB30, 0xBE164083, 0xBE78CFCC, 0xBEAC7CD4, 0xBEDAE880, 0xBF039C3D, 0xBF187FC0, 0xBF2BEB4A,
   0xBD48FB30, 0xBE164083, 0xBE78CFCC, 0xBEAC7CD4, 0xBEDAE880, 0xBF039C3D, 0xBF187FC0, 0xBF2BEB4A,
   0x3D48FB30, 0x3E164083, 0x3E78CFCC, 0x3EAC7CD4, 0x3EDAE880, 0x3F039C3D, 0x3F187FC0, 0x3F2BEB4A,
   0xBCC90AB0, 0xBD96A905, 0xBDFAB273, 0xBE2F10A2, 0xBE605C13, 0xBE888E93, 0xBEA09AE5, 0xBEB8442A,
   0xBECF7BCA, 0xBEE63375, 0xBEFC5D27, 0xBF08F59B, 0xBF13682A, 0xBF1D7FD1, 0xBF273656, 0xBF3085BB,
   0x3CC90AB0, 0x3D96A905, 0x3DFAB273, 0x3E2F10A2, 0x3E605C13, 0x3E888E93, 0x3EA09AE5, 0x3EB8442A,
   0x3ECF7BCA, 0x3EE63375, 0x3EFC5D27, 0x3F08F59B, 0x3F13682A, 0x3F1D7FD1, 0x3F273656, 0x3F3085BB,
   0x3CC90AB0, 0x3D96A905, 0x3DFAB273, 0x3E2F10A2, 0x3E605C13, 0x3E888E93, 0x3EA09AE5, 0x3EB8442A,
   0x3ECF7BCA, 0x3EE63375, 0x3EFC5D27, 0x3F08F59B, 0x3F13682A, 0x3F1D7FD1, 0x3F273656, 0x3F3085BB,
   0xBCC90AB0, 0xBD96A905, 0xBDFAB273, 0xBE2F10A2, 0xBE605C13, 0xBE888E93, 0xBEA09AE5, 0xBEB8442A,
   0xBECF7BCA, 0xBEE63375, 0xBEFC5D27, 0xBF08F59B, 0xBF13682A, 0xBF1D7FD1, 0xBF273656, 0xBF3085BB,
   0xBC490E90, 0xBD16C32C, 0xBD7B2B74, 0xBDAFB680, 0xBDE1BC2E, 0xBE09CF86, 0xBE22ABB6, 0xBE3B6ECF,
   0xBE541501, 0xBE6C9A7F, 0xBE827DC0, 0xBE8E9A22, 0xBE9AA086, 0xBEA68F12, 0xBEB263EF, 0xBEBE1D4A,
   0xBEC9B953, 0xBED53641, 0xBEE0924F, 0xBEEBCBBB, 0xBEF6E0CB, 0xBF00E7E4, 0xBF064B82, 0xBF0B9A6B,
   0xBF10D3CD, 0xBF15F6D9, 0xBF1B02C6, 0xBF1FF6CB, 0xBF24D225, 0xBF299415, 0xBF2E3BDE, 0xBF32C8C9,
   0x3C490E90, 0x3D16C32C, 0x3D7B2B74, 0x3DAFB680, 0x3DE1BC2E, 0x3E09CF86, 0x3E22ABB6, 0x3E3B6ECF,
   0x3E541501, 0x3E6C9A7F, 0x3E827DC0, 0x3E8E9A22, 0x3E9AA086, 0x3EA68F12, 0x3EB263EF, 0x3EBE1D4A,
   0x3EC9B953, 0x3ED53641, 0x3EE0924F, 0x3EEBCBBB, 0x3EF6E0CB, 0x3F00E7E4, 0x3F064B82, 0x3F0B9A6B,
   0x3F10D3CD, 0x3F15F6D9, 0x3F1B02C6, 0x3F1FF6CB, 0x3F24D225, 0x3F299415, 0x3F2E3BDE, 0x3F32C8C9,
   0xBBC90F88, 0xBC96C9B6, 0xBCFB49BA, 0xBD2FE007, 0xBD621469, 0xBD8A200A, 0xBDA3308C, 0xBDBC3AC3,
   0xBDD53DB9, 0xBDEE3876, 0xBE039502, 0xBE1008B7, 0xBE1C76DE, 0xBE28DEFC, 0xBE354098, 0xBE419B37,
   0xBE4DEE60, 0xBE5A3997, 0xBE667C66, 0xBE72B651, 0xBE7EE6E1, 0xBE8586CE, 0xBE8B9507, 0xBE919DDD,
   0xBE97A117, 0xBE9D9E78, 0xBEA395C5, 0xBEA986C4, 0xBEAF713A, 0xBEB554EC, 0xBEBB31A0, 0xBEC1071E,
   0xBEC6D529, 0xBECC9B8B, 0xBED25A09, 0xBED8106B, 0xBEDDBE79, 0xBEE363FA, 0xBEE900B7, 0xBEEE9479,
   0xBEF41F07, 0xBEF9A02D, 0xBEFF17B2, 0xBF0242B1, 0xBF04F484, 0xBF07A136, 0xBF0A48AD, 0xBF0CEAD0,
   0xBF0F8784, 0xBF121EB0, 0xBF14B039, 0xBF173C07, 0xBF19C200, 0xBF1C420C, 0xBF1EBC12, 0xBF212FF9,
   0xBF239DA9, 0xBF26050A, 0xBF286605, 0xBF2AC082, 0xBF2D1469, 0xBF2F61A5, 0xBF31A81D, 0xBF33E7BC]

/-- The table `hcaimdct_window_float_hex`. -/
def hcaimdct_window_float_hex : List Nat :=
  [0x3A3504F0, 0x3B0183B8, 0x3B70C538, 0x3BBB9268, 0x3C04A809, 0x3C308200, 0x3C61284C, 0x3C8B3F17,
   0x3CA83992, 0x3CC77FBD, 0x3CE91110, 0x3D0677CD, 0x3D198FC4, 0x3D2DD35C, 0x3D434643, 0x3D59ECC1,
   0x3D71CBA8, 0x3D85741E, 0x3D92A413, 0x3DA078B4, 0x3DAEF522, 0x3DBE1C9E, 0x3DCDF27B, 0x3DDE7A1D,
   0x3DEFB6ED, 0x3E00D62B, 0x3E0A2EDA, 0x3E13E72A, 0x3E1E00B1, 0x3E287CF2, 0x3E335D55, 0x3E3EA321,
   0x3E4A4F75, 0x3E56633F, 0x3E62DF37, 0x3E6FC3D1, 0x3E7D1138, 0x3E8563A2, 0x3E8C72B7, 0x3E93B561,
   0x3E9B2AEF, 0x3EA2D26F, 0x3EAAAAAB, 0x3EB2B222, 0x3EBAE706, 0x3EC34737, 0x3ECBD03D, 0x3ED47F46,
   0x3EDD5128, 0x3EE6425C, 0x3EEF4EFF, 0x3EF872D7, 0x3F00D4A9, 0x3F0576CA, 0x3F0A1D3B, 0x3F0EC548,
   0x3F136C25, 0x3F180EF2, 0x3F1CAAC2, 0x3F213CA2, 0x3F25C1A5, 0x3F2A36E7, 0x3F2E9998, 0x3F32E705,
   0xBF371C9E, 0xBF3B37FE, 0xBF3F36F2, 0xBF431780, 0xBF46D7E6, 0xBF4A76A4, 0xBF4DF27C, 0xBF514A6F,
   0xBF547DC5, 0xBF578C03, 0xBF5A74EE, 0xBF5D3887, 0xBF5FD707, 0xBF6250DA, 0xBF64A699, 0xBF66D908,
   0xBF68E90E, 0xBF6AD7B1, 0xBF6CA611, 0xBF6E5562, 0xBF6FE6E7, 0xBF715BEF, 0xBF72B5D1, 0xBF73F5E6,
   0xBF751D89, 0xBF762E13, 0xBF7728D7, 0xBF780F20, 0xBF78E234, 0xBF79A34C, 0xBF7A5397, 0xBF7AF439,
   0xBF7B8648, 0xBF7C0ACE, 0xBF7C82C8, 0xBF7CEF26, 0xBF7D50CB, 0xBF7DA88E, 0xBF7DF737, 0xBF7E3D86,
   0xBF7E7C2A, 0xBF7EB3CC, 0xBF7EE507, 0xBF7F106C, 0xBF7F3683, 0xBF7F57CA, 0xBF7F74B6, 0xBF7F8DB6,
   0xBF7FA32E, 0xBF7FB57B, 0xBF7FC4F6, 0xBF7FD1ED, 0xBF7FDCAD, 0xBF7FE579, 0xBF7FEC90, 0xBF7FF22E,
   0xBF7FF688, 0xBF7FF9D0, 0xBF7FFC32, 0xBF7FFDDA, 0xBF7FFEED, 0xBF7FFF8F, 0xBF7FFFDF, 0xBF7FFFFC]

/-- One pass of the two inner loops of the first part of `imdct_transform`, the
`n`-th of the `count1 * count2 = 64` passes in the order the loops make them
(`j = n / count2`, `k = n % count2`): it reads `temp1[2 n]` and `temp1[2 n + 1]` from
`src` and stores their sum at `d1` and their difference at `d2`, where `d1` is
`2 j count2 + k` and `d2` is `d1 + count2` elements from the start of `dst`. -/
def sumDifferenceStep (fadd fsub : Nat → Nat → Nat) (count2 : Nat) (src : Nat → Nat) (n : Nat)
    (dst : Nat → Nat) : Nat → Nat :=
  let a := src (2 * n)
  let b := src (2 * n + 1)
  let d1 := n / count2 * (2 * count2) + n % count2
  setAt (setAt dst d1 (fadd a b)) (d1 + count2) (fsub a b)

/-- One pass of the two inner loops of the second part of `imdct_transform` in the
iteration `i` of the outer loop, the `n`-th of the 64 passes (`j = n / count2`,
`k = n % count2`): it reads `a` at `s1 = 2 j count2 + k` and `b` at `s2 = s1 + count2` from
`src`, the entries `n` of row `i` of the two tables, and stores at `d1 = s1` and at
`d2 = 2 j count2 + 2 count2 - 1 - k` of `dst`. -/
def rotationStep (fmul fadd fsub : Nat → Nat → Nat) (i count2 : Nat) (src : Nat → Nat) (n : Nat)
    (dst : Nat → Nat) : Nat → Nat :=
  let s1 := n / count2 * (2 * count2) + n % count2
  let a := src s1
  let b := src (s1 + count2)
  let sin := sin_tables_hex.getD (64 * i + n) 0
  let cos := cos_tables_hex.getD (64 * i + n) 0
  setAt (setAt dst s1 (fsub (fmul a sin) (fmul b cos)))
    (n / count2 * (2 * count2) + (2 * count2 - 1 - n % count2)) (fadd (fmul a cos) (fmul b sin))

/-- The two buffers the loops of `imdct_transform` work on, the row
`spectra[subframe]` and `temp`; `fromRow` says that `temp1`, the buffer read, is the
row. -/
structure TransformBuffers where
  row : Nat → Nat
  temp : Nat → Nat
  fromRow : Bool

/-- The body of the outer loop of the first part of `imdct_transform`, with the swap
of the two buffers at its end. -/
def sumDifferencePass (fadd fsub : Nat → Nat → Nat) (i : Nat) (b : TransformBuffers) :
    TransformBuffers :=
  let count2 := (HCA_SAMPLES_PER_SUBFRAME / 2) >>> i
  if b.fromRow then
    { b with temp := forLoop (sumDifferenceStep fadd fsub count2 b.row) 64 0 b.temp,
             fromRow := false }
  else
    { b with row := forLoop (sumDifferenceStep fadd fsub count2 b.temp) 64 0 b.row,
             fromRow := true }

/-- The body of the outer loop of the second part of `imdct_transform`, with the swap
of the two buffers at its end. -/
def rotationPass (fmul fadd fsub : Nat → Nat → Nat) (i : Nat) (b : TransformBuffers) :
    TransformBuffers :=
  let count2 := 1 <<< i
  if b.fromRow then
    { b with temp := forLoop (rotationStep fmul fadd fsub i count2 b.row) 64 0 b.temp,
             fromRow := false }
  else
    { b with row := forLoop (rotationStep fmul fadd fsub i count2 b.temp) 64 0 b.row,
             fromRow := true }

/-- The arrays the last loop of `imdct_transform` writes: the row `wave[subframe]` and
`imdct_previous`. -/
structure WindowState where
  wave : Nat → Nat
  imdct_previous : Nat → Nat

/-- The body of the last loop of `imdct_transform` for the index `i`; `dct` is the row
`spectra[subframe]`. -/
def windowStep (fmul fadd fsub : Nat → Nat → Nat) (dct : Nat → Nat) (i : Nat)
    (s : WindowState) : WindowState :=
  let size := HCA_SAMPLES_PER_SUBFRAME
  let half := HCA_SAMPLES_PER_SUBFRAME / 2
  let wave := setAt s.wave i
    (fadd (fmul (hcaimdct_window_float_hex.getD i 0) (dct (i + half))) (s.imdct_previous i))
  let wave := setAt wave (i + half)
    (fsub (fmul (hcaimdct_window_float_hex.getD (i + half) 0) (dct (size - 1 - i)))
      (s.imdct_previous (i + half)))
  let prev := setAt s.imdct_previous i
    (fmul (hcaimdct_window_float_hex.getD (size - 1 - i) 0) (dct (half - i - 1)))
  let prev := setAt prev (i + half)
    (fmul (hcaimdct_window_float_hex.getD (half - i - 1) 0) (dct i))
  { wave := wave, imdct_previous := prev }

/-- Embeds `imdct_transform`; `fadd` is the addition of two `float` values. -/
def imdct_transform (fmul fadd fsub : Nat → Nat → Nat) (ch : stChannel) (subframe : Nat) :
    stChannel :=
  let b := forLoop (sumDifferencePass fadd fsub) HCA_MDCT_BITS 0
    { row := ch.spectra subframe, temp := ch.temp, fromRow := true }
  let b := forLoop (rotationPass fmul fadd fsub) HCA_MDCT_BITS 0
    { b with fromRow := false }
  let w := forLoop (windowStep fmul fadd fsub b.row) (HCA_SAMPLES_PER_SUBFRAME / 2) 0
    { wave := ch.wave subframe, imdct_previous := ch.imdct_previous }
  { ch with
    spectra := setRow ch.spectra subframe b.row
    temp := b.temp
    wave := setRow ch.wave subframe w.wave
    imdct_previous := w.imdct_previous }

end Vgmstream

namespace CHcaDecoder.Pipeline

open Vgmstream

/-! ## The stages after unpacking -/

/-- The band counts of `HCA_INFO` that the stages after unpacking read, `compR05`
the total, `compR06` the base and `compR07` the stereo band count, `compR08` the
bands of a high frequency group, and the `float` `rvaVolume`. -/
structure BandInfo where
  compR05 : Nat
  compR06 : Nat
  compR07 : Nat
  compR08 : Nat
  rvaVolume : Nat

/-- The operations on `float` values that the stages use, on bit patterns: the
conversion of an `int`, product, sum and difference, and `clamp(f, -1.0f, 1.0f)`. -/
structure FloatOps where
  ofInt : Int → Nat
  fmul : Nat → Nat → Nat
  fadd : Nat → Nat → Nat
  fsub : Nat → Nat → Nat
  clamp : Nat → Nat

/-- The generation of wave data: `decodeFunc` of the decoder configuration, if it
is not null, maps a sample, the buffer and the cursor to the buffer and the
cursor afterwards; `allocated` is what `new uint8_t[waveBlockSize]` holds. -/
structure WaveGenerator where
  decodeFunc : Option (Nat → Buffer → Nat → Buffer × Nat)
  allocated : Buffer

/-- The loop `for (ch = 0; ch < hcaInfo.channelCount; ch++)` over
`dequantize_coefficients` for one subframe. -/
def dequantizeChannels (ops : FloatOps) (subframe : Nat) :
    List stChannel → clData → List stChannel × clData
  | [], br => ([], br)
  | ch :: rest, br =>
    let r := dequantize_coefficients ops.ofInt ops.fmul ch br subframe
    let t := dequantizeChannels ops subframe rest r.2
    (r.1 :: t.1, t.2)

/-- The loop over the channels that restores the missing bands of one subframe
with `reconstruct_noise` and `reconstruct_high_frequency`. -/
def restoreChannels (ops : FloatOps) (info : BlockInfo) (bands : BandInfo)
    (hcaInfoVersion subframe : Nat) : List stChannel → Nat → List stChannel × Nat
  | [], random => ([], random)
  | ch :: rest, random =>
    let r := reconstruct_noise ops.fmul ch info.compR01 0 random subframe
    let h := reconstruct_high_frequency ops.fmul r.1 info.compR09 bands.compR08 bands.compR07
      bands.compR06 bands.compR05 hcaInfoVersion subframe
    let t := restoreChannels ops info bands hcaInfoVersion subframe rest r.2
    (h :: t.1, t.2)

/-- The loop `for (ch = 0; ch < hcaInfo.channelCount - 1; ch++)` over
`apply_intensity_stereo` and `apply_ms_stereo`, for the pairs that start with the
channel `ch0` and go on through `rest`. -/
def stereoFrom (ops : FloatOps) (bands : BandInfo) (subframe : Nat) (ch0 : stChannel) :
    List stChannel → List stChannel
  | [] => [ch0]
  | ch1 :: rest =>
    let p := apply_intensity_stereo ops.fmul ops.fsub ch0 ch1 subframe bands.compR06
      bands.compR05
    let q := apply_ms_stereo ops.fmul ops.fadd ops.fsub p.1 p.2 0 bands.compR06 bands.compR05
      subframe
    q.1 :: stereoFrom ops bands subframe q.2 rest

/-- The part `if (hcaInfo.compR07 > 0)` of the transform of one subframe. -/
def stereoChannels (ops : FloatOps) (bands : BandInfo) (subframe : Nat) :
    List stChannel → List stChannel
  | [] => []
  | ch0 :: rest =>
    if bands.compR07 > 0 then stereoFrom ops bands subframe ch0 rest else ch0 :: rest

/-- The body of the loop over the subframes under `if (br.bit >= 0)`, on the
channels and `hcaInfo.random`. -/
def transformSubframe (ops : FloatOps) (info : BlockInfo) (bands : BandInfo)
    (hcaInfoVersion subframe : Nat) (s : List stChannel × Nat) : List stChannel × Nat :=
  let r := restoreChannels ops info bands hcaInfoVersion subframe s.1 s.2
  let channels := stereoChannels ops bands subframe r.1
  (channels.map fun ch => imdct_transform ops.fmul ops.fadd ops.fsub ch subframe, r.2)

/-- The innermost loop of the generation of wave data, over the channels, for
the sample `j` of the subframe `i`, on the buffer and the cursor. -/
def waveSample (ops : FloatOps) (bands : BandInfo)
    (decodeFunc : Nat → Buffer → Nat → Buffer × Nat) (i j : Nat) :
    List stChannel → Buffer × Nat → Buffer × Nat
  | [], s => s
  | ch :: rest, s =>
    let f := ops.fmul (ch.wave i j) bands.rvaVolume
    let f := ops.clamp f
    waveSample ops bands decodeFunc i j rest (decodeFunc f s.1 s.2)

/-- The generation of wave data at the end of `DecodeBlock`: the buffer
`waveBlockBuffer`. -/
def generateWave (ops : FloatOps) (bands : BandInfo) (gen : WaveGenerator)
    (channels : List stChannel) : Buffer :=
  match gen.decodeFunc with
  | none => gen.allocated
  | some decodeFunc =>
    (forLoop (fun i s => forLoop (fun j s => waveSample ops bands decodeFunc i j channels s)
      0x80 0 s) 8 0 (gen.allocated, 0)).1

/-- The stages of `DecodeBlock` after unpacking: dequantization of the eight
subframes, the transform under `if (br.bit >= 0)` and the generation of wave data.
The result is the channels and `hcaInfo.random` as the stages leave them, and the
wave block buffer. -/
def decodeStages (ops : FloatOps) (info : BlockInfo) (bands : BandInfo) (gen : WaveGenerator)
    (channels : List stChannel) (br : clData) (random : Nat) : List stChannel × Nat × Buffer :=
  let hcaInfoVersion := u32 (info.versionMajor * 0x100 + info.versionMinor)
  let d := forLoop (fun subframe s => dequantizeChannels ops subframe s.1 s.2) 8 0
    (channels, br)
  let t :=
    if d.2.bit ≥ 0 then
      forLoop (transformSubframe ops info bands hcaInfoVersion) 8 0 (d.1, random)
    else (d.1, random)
  (t.1, t.2, generateWave ops bands gen t.1)

/-- The collaborators `c` with the stages after unpacking spelled out. -/
def withStages (c : Collaborators) (ops : FloatOps) (info : BlockInfo) (bands : BandInfo)
    (gen : WaveGenerator) : Collaborators :=
  { c with transform := decodeStages ops info bands gen }

end CHcaDecoder.Pipeline

namespace Vgmstream

/-! ## State carried from one block to the next -/

/-- Says that two channels agree on `imdct_previous`, the array a block decode reads as
the earlier one left it, and on `type` and `coded_count`, which the header sets. -/
structure CarriedAgree (a b : stChannel) : Prop where
  type : a.type = b.type
  coded_count : a.coded_count = b.coded_count
  imdct_previous : a.imdct_previous = b.imdct_previous

/-- Says that two channels agree on what the stages of a block decode after
unpacking read, when the rows of `spectra` below `d` hold dequantized
coefficients and the subframes below `w` have gone through the transform, and that
the coded coefficients of a channel that is not stereo secondary reach up to the
band `start`: the carried fields; `scalefactors`, `resolution` and `gain` below `coded_count`; the
`hfr` scales from `scalefactors[128 - hfr]` on of a channel that is not stereo
secondary; the eight elements of `intensity` of a stereo secondary channel; the two
lists in `noises` with their counts, whose entries are indices below `coded_count`;
the first 128 elements of the rows `w .. d - 1` of `spectra` and of the rows below `w`
of `wave`. -/
structure StageAgree (hfr start d w : Nat) (a b : stChannel) : Prop where
  carried : CarriedAgree a b
  coded : a.coded_count ≤ 128
  bands : a.type ≠ channel_type_t.STEREO_SECONDARY → start ≤ a.coded_count
  scalefactors : ∀ i, i < a.coded_count → a.scalefactors i = b.scalefactors i
  scales : a.type ≠ channel_type_t.STEREO_SECONDARY → ∀ g, g < hfr →
    a.scalefactors (usub 128 hfr + g) = b.scalefactors (usub 128 hfr + g)
  intensity : a.type = channel_type_t.STEREO_SECONDARY → ∀ k, k < 8 →
    a.intensity k = b.intensity k
  resolution : ∀ i, i < a.coded_count → a.resolution i = b.resolution i
  noise_count : a.noise_count = b.noise_count
  valid_count : a.valid_count = b.valid_count
  valid_le : a.valid_count ≤ 128
  noise : ∀ i, i < a.noise_count → a.noises i = b.noises i ∧ a.noises i < a.coded_count
  valid : ∀ i, 128 - a.valid_count ≤ i → i < 128 →
    a.noises i = b.noises i ∧ a.noises i < a.coded_count
  gain : ∀ i, i < a.coded_count → a.gain i = b.gain i
  spectra : ∀ t j, w ≤ t → t < d → j < 128 → a.spectra t j = b.spectra t j
  wave : ∀ t j, t < w → j < 128 → a.wave t j = b.wave t j

/-- Says that the locals of `reconstruct_high_frequency` in two runs agree: the two
band indices and the `break` flag are equal, the rows `w .. d - 1` of `spectra` agree on
their first 128 elements, and the band read next lies below `limit` and below the
band written next unless that one is negative. -/
structure HfrAgree (limit : Int) (d w : Nat) (s t : HfrState) : Prop where
  highband : s.highband = t.highband
  lowband : s.lowband = t.lowband
  stopped : s.stopped = t.stopped
  spectra : ∀ r j, w ≤ r → r < d → j < 128 → s.spectra r j = t.spectra r j
  below : s.lowband < s.highband ∨ s.highband < 0
  low : s.lowband < limit
  range : -2 ^ 31 ≤ s.highband ∧ s.highband < 2 ^ 31

/-- The relation between a channel and the next one that `apply_intensity_stereo`
relies on: after a stereo primary channel comes a stereo secondary one. -/
def pairedWith (a b : stChannel) : Prop :=
  a.type = channel_type_t.STEREO_PRIMARY → b.type = channel_type_t.STEREO_SECONDARY

instance (a b : stChannel) : Decidable (pairedWith a b) := by
  unfold pairedWith; infer_instance

/-- Whether `unpack_intensity`, called on a stereo secondary channel, assigns all eight
elements of `intensity`: it returns `HCA_RESULT_OK` and, up to version 2.0, the first
intensity it reads is not 15 (for 15 the code leaves the other seven elements as
they were).  A call on another channel assigns none and none is read. -/
def intensityWritten (ch : stChannel) (br : clData) (hfr_group_count version : Nat) : Bool :=
  decide (ch.type = channel_type_t.STEREO_SECONDARY →
    (unpack_intensity ch br hfr_group_count version).1 = HCA_RESULT_OK ∧
      (version ≤ HCA_VERSION_V200 → uchar (bitreader_peek br 4) < 15))

end Vgmstream

namespace Vgmstream

/-! ## Bytes the reader loads -/

/-- The indices `i` of the bytes `br->data[i]` that `bitreader_peek` loads, in the
order it loads them: none when the test `bit + bitsize <= size` fails, and else the
4, 3, 2 or 1 bytes from `bit >> 3` on of the branch taken. -/
def bitreader_peek_loads (br : clData) (bitsize : Int) : List Nat :=
  let bit := toUnsigned br.bit
  let bit_rem := bit &&& 7
  let size := toUnsigned br.size
  if ¬ (uint (bit + toUnsigned bitsize) ≤ size) then []
  else
    let bit_offset := uint (toUnsigned bitsize + bit_rem)
    let bit_left := usub size bit
    if bit_left ≥ 32 ∧ bit_offset ≥ 25 then
      [bit >>> 3, (bit >>> 3) + 1, (bit >>> 3) + 2, (bit >>> 3) + 3]
    else if bit_left ≥ 24 ∧ bit_offset ≥ 17 then
      [bit >>> 3, (bit >>> 3) + 1, (bit >>> 3) + 2]
    else if bit_left ≥ 16 ∧ bit_offset ≥ 9 then
      [bit >>> 3, (bit >>> 3) + 1]
    else
      [bit >>> 3]

end Vgmstream

namespace CHcaDecoder

open Vgmstream

/-! ## Channel types -/

/-- The body of the loop over the tracks in `InitializeExtra`: the assignments of
the `switch (b)` to the array `r` through the pointer `c = r + offset`; `none` is the
`throw` of the default case. -/
def trackTypes (compR04 b : Nat) (r : Nat → Nat) (offset : Nat) : Option (Nat → Nat) :=
  if b = 2 ∨ b = 3 then
    some (setAt (setAt r offset 1) (offset + 1) 2)
  else if b = 4 then
    let r := setAt (setAt r offset 1) (offset + 1) 2
    if compR04 = 0 then some (setAt (setAt r (offset + 2) 1) (offset + 3) 2) else some r
  else if b = 5 then
    let r := setAt (setAt r offset 1) (offset + 1) 2
    if compR04 ≤ 2 then some (setAt (setAt r (offset + 3) 1) (offset + 4) 2) else some r
  else if b = 6 ∨ b = 7 then
    let r := setAt (setAt r offset 1) (offset + 1) 2
    let r := setAt (setAt r (offset + 4) 1) (offset + 5) 2
    some (setAt (setAt r (offset + 6) 1) (offset + 7) 2)
  else if b = 8 then
    some (setAt (setAt r (offset + 6) 1) (offset + 7) 2)
  else none

/-- The loop `for (auto i = 0; i < hcaInfo.compR03; ++i, c += b)` of `InitializeExtra`, for
`count` more tracks from the offset `offset` of `c` in `r`. -/
def tracksLoop (compR04 b : Nat) : Nat → Nat → (Nat → Nat) → Option (Nat → Nat)
  | 0, _, r => some r
  | count + 1, offset, r =>
    match trackTypes compR04 b r offset with
    | none => none
    | some r => tracksLoop compR04 b count (offset + b) r

/-- The channel types `InitializeExtra` assigns: the entries `r[0 .. channelCount)` that
become `channels_vgmstream[i].type` (0 is `DISCRETE`, 1 `STEREO_PRIMARY`, 2 `STEREO_SECONDARY`),
or the exception it throws; the division by `compR03 = 0` traps. -/
def InitializeExtra (channelCount compR03 compR04 compR07 : Nat) : Except OpResult (List Nat) :=
  if compR03 = 0 then .error .divideByZero
  else
    let b := u32 (channelCount / compR03)
    let r : Option (Nat → Nat) :=
      if compR07 ≠ 0 ∧ b > 1 then tracksLoop compR04 b compR03 0 (fun _ => 0)
      else some (fun _ => 0)
    match r with
    | none => .error .invalidArgument
    | some r => .ok ((List.range channelCount).map r)

/-- Says that the types come in adjacent pairs: the channel `i` is `STEREO_PRIMARY` if
and only if a channel `i + 1` exists and is `STEREO_SECONDARY`. -/
def pairedTypes (types : List Nat) : Bool :=
  (List.range types.length).all fun i =>
    decide (types.getD i 0 = 1 ↔ (i + 1 < types.length ∧ types.getD (i + 1) 0 = 2))

end CHcaDecoder

namespace Vgmstream

/-! ## Derived scales -/

/-- A discrete channel of 2 coded coefficients whose `scalefactors[3]`, left by an
earlier block, is 55, all other entries 0. -/
def staleScaleChannel : stChannel :=
  { zeroChannel channel_type_t.DISCRETE 2 with scalefactors := fun i => if i = 3 then 55 else 0 }

/-- A reader at the start of the bytes `C0 84 18 00`: `delta_bits` 6, then the 6-bit
scalefactors 1, 2 and 3. -/
def threeScalesReader : clData := bitreader_init (bufferOf [0xC0, 0x84, 0x18, 0]) 4

end Vgmstream

namespace Vgmstream

/-! ## Sample channel for the high frequencies -/

/-- A discrete channel of 2 coded coefficients whose rows of `spectra` hold 7 at
every index. -/
def codedPairChannel : stChannel :=
  { zeroChannel channel_type_t.DISCRETE 2 with spectra := fun _ _ => 7 }

end Vgmstream

namespace Vgmstream

/-! ## Source bands of the high frequencies -/

/-- The number of groups after which `lowband` stops moving: `hfr_group_count` up to
version 2.0 and `floor(hfr_group_count / 2)` above. -/
def hfrGroupLimit (hfr_group_count version : Nat) : Nat :=
  if version ≤ HCA_VERSION_V200 then hfr_group_count else hfr_group_count / 2

/-- The source band of the `k`-th reconstructed band in closed form:
`start - 1 - min(k, group_limit * bands_per_hfr_group)`. -/
def hfrSourceBand (start_band group_limit bands_per_hfr_group k : Nat) : Int :=
  (start_band : Int) - 1 - ((min k (group_limit * bands_per_hfr_group) : Nat) : Int)

/-- A discrete channel with the scalefactors `60 - j` and the spectra `100 + j` in
every row. -/
def rampChannel : stChannel :=
  { zeroChannel channel_type_t.DISCRETE 4 with
    scalefactors := fun j => 60 - j
    spectra := fun _ j => 100 + j }

/-- The state of the loops of `reconstruct_high_frequency` on `rampChannel`, with 2 groups of
2 bands, the start band 4, 8 bands in all and version 3.0, before the pass 1 of the
inner loop for the group 1; `fmul` is taken as the sum of the bit patterns. -/
def rampBefore : HfrState :=
  forLoop (fun _ s => hfrStep (fun a b => a + b) rampChannel 2 8 0 1
      (if ((1 : Nat) : Int) < (if 0x300 ≤ HCA_VERSION_V200 then toInt32 (uint 2)
        else toInt32 (uint 2) / 2) then 1 else 0) s) 1 0
    { forLoop (hfrGroup (fun a b => a + b) rampChannel 2 2 8 0
        (if 0x300 ≤ HCA_VERSION_V200 then toInt32 (uint 2) else toInt32 (uint 2) / 2)) 1 0
        { highband := toInt32 (uint (0 + 4))
          lowband := toInt32 (toInt32 (uint (0 + 4)) - 1)
          spectra := rampChannel.spectra
          stopped := false } with stopped := false }

end Vgmstream

namespace Vgmstream

/-! ## Sample channel for the inverse transform -/

/-- A discrete channel whose spectra are all zero and whose `imdct_previous` holds
`1000 + i`. -/
def silentChannel : stChannel :=
  { zeroChannel channel_type_t.DISCRETE 4 with imdct_previous := fun i => 1000 + i }

end Vgmstream

namespace CHcaDecoder.Pipeline

open Vgmstream

/-! ## Arithmetic of `float`

The `float` operations of the decoder on bit patterns: IEEE 754 binary32 with
rounding to nearest, ties to even, each operation rounded once. -/

/-- The number of binary digits of `m`, counted with `fuel` steps. -/
def bitLength : Nat → Nat → Nat
  | 0, _ => 0
  | fuel + 1, m => if m = 0 then 0 else bitLength fuel (m / 2) + 1

/-- The sign bit of a `float`. -/
def floatSign (bits : Nat) : Bool := bits / 2 ^ 31 % 2 = 1

/-- The exponent field of a `float`. -/
def floatExponent (bits : Nat) : Nat := bits / 2 ^ 23 % 256

/-- The fraction field of a `float`. -/
def floatFraction (bits : Nat) : Nat := bits % 2 ^ 23

/-- The significand of a finite `float` as an integer: its value is
`floatMantissa * 2 ^ floatScale`, negated when the sign bit is set. -/
def floatMantissa (bits : Nat) : Nat :=
  if floatExponent bits = 0 then floatFraction bits else floatFraction bits + 2 ^ 23

/-- The power of two that scales `floatMantissa`. -/
def floatScale (bits : Nat) : Int :=
  if floatExponent bits = 0 then -149 else (floatExponent bits : Int) - 150

/-- Whether a `float` is a NaN. -/
def floatIsNaN (bits : Nat) : Bool := floatExponent bits = 255 ∧ floatFraction bits ≠ 0

/-- Whether a `float` is an infinity. -/
def floatIsInf (bits : Nat) : Bool := floatExponent bits = 255 ∧ floatFraction bits = 0

/-- The `float` nearest to `m * 2 ^ e`, negated when `sign` is set, ties to the even
significand; an infinity when the exponent is out of range. -/
def floatRound (sign : Bool) (m : Nat) (e : Int) : Nat :=
  let s := if sign then 2 ^ 31 else 0
  if m = 0 then s
  else
    let q : Int := max (e + (bitLength m m : Nat) - 24) (-149)
    let shift := (q - e).toNat
    let kept := m / 2 ^ shift
    let rest := m % 2 ^ shift
    let significand :=
      if q ≤ e then m * 2 ^ (e - q).toNat
      else if rest * 2 > 2 ^ shift ∨ (rest * 2 = 2 ^ shift ∧ kept % 2 = 1) then kept + 1
      else kept
    let q := if significand = 2 ^ 24 then q + 1 else q
    let significand := if significand = 2 ^ 24 then 2 ^ 23 else significand
    if significand < 2 ^ 23 then s + significand
    else if q + 150 ≥ 255 then s + 0x7F800000
    else s + (q + 150).toNat * 2 ^ 23 + (significand - 2 ^ 23)

/-- The product `a * b` of two `float` values. -/
def floatMul (a b : Nat) : Nat :=
  if floatIsNaN a ∨ floatIsNaN b then 0x7FC00000
  else if floatIsInf a ∨ floatIsInf b then
    if (¬ floatIsInf a ∧ floatMantissa a = 0) ∨ (¬ floatIsInf b ∧ floatMantissa b = 0) then
      0x7FC00000
    else (if floatSign a ≠ floatSign b then 2 ^ 31 else 0) + 0x7F800000
  else
    floatRound (floatSign a ≠ floatSign b) (floatMantissa a * floatMantissa b)
      (floatScale a + floatScale b)

/-- The sum `a + b` of two `float` values. -/
def floatAdd (a b : Nat) : Nat :=
  if floatIsNaN a ∨ floatIsNaN b then 0x7FC00000
  else if floatIsInf a then
    if floatIsInf b ∧ floatSign a ≠ floatSign b then 0x7FC00000 else a
  else if floatIsInf b then b
  else
    let e := min (floatScale a) (floatScale b)
    let va : Int := floatMantissa a * 2 ^ (floatScale a - e).toNat
    let vb : Int := floatMantissa b * 2 ^ (floatScale b - e).toNat
    let v : Int := (if floatSign a then -va else va) + (if floatSign b then -vb else vb)
    if v = 0 then (if floatSign a ∧ floatSign b then 2 ^ 31 else 0)
    else floatRound (v < 0) v.natAbs e

/-- The difference `a - b` of two `float` values. -/
def floatSub (a b : Nat) : Nat :=
  if floatIsNaN a ∨ floatIsNaN b then 0x7FC00000
  else floatAdd a (if floatSign b then b - 2 ^ 31 else b + 2 ^ 31)

/-- The conversion `(float)x` of an `int`. -/
def floatOfInt (x : Int) : Nat := floatRound (x < 0) x.natAbs 0

/-- The call `clamp(f, -1.0f, 1.0f)`: the function is declared outside the source
tree and is taken as the one that returns the bound when `f` lies beyond it and
`f` otherwise. -/
def floatClamp (f : Nat) : Nat :=
  if floatIsNaN f then f
  else if floatSign f ∧ f - 2 ^ 31 > 0x3F800000 then 0xBF800000
  else if ¬ floatSign f ∧ f > 0x3F800000 then 0x3F800000
  else f

/-- The operations on `float` values of IEEE 754 arithmetic. -/
def ieeeOps : FloatOps :=
  { ofInt := floatOfInt, fmul := floatMul, fadd := floatAdd, fsub := floatSub,
    clamp := floatClamp }

end CHcaDecoder.Pipeline

namespace CHcaDecoder.Pipeline

open Vgmstream

/-- The packed noise level and the reader after the frame values of the block
`blockIndex`, as `DecodeBlock` has them when it starts to unpack the channels. -/
def blockFrame (info : BlockInfo) (c : Collaborators) (blockIndex : Nat) : Nat × clData :=
  let offset := u32 (info.dataOffset + u32 (info.blockSize * blockIndex))
  frameValues (c.Decrypt (c.streamRead offset info.blockSize)) info.blockSize

/-- Whether every call of `unpack_intensity` that the loop over the channels in the
unpack part of `DecodeBlock` makes on a stereo secondary channel assigns all eight
elements of `intensity`, for the channels from the reader `br` on; the loop ends at
a channel whose `unpack_scalefactors` fails. -/
def intensitiesWritten (info : BlockInfo) (hcaInfoVersion : Nat) :
    List stChannel → clData → Bool
  | [], _ => true
  | ch :: rest, br =>
    let sf := unpack_scalefactors ch br info.compR09 hcaInfoVersion
    if sf.1 < 0 then true
    else
      intensityWritten sf.2.1 sf.2.2 info.compR09 hcaInfoVersion &&
        intensitiesWritten info hcaInfoVersion rest
          (unpack_intensity sf.2.1 sf.2.2 info.compR09 hcaInfoVersion).2.2

/-- The cursor `br.bit` that `DecodeBlock` tests in `if (br.bit >= 0)`, after the
dequantization of the eight subframes of the block `blockIndex`, when the call gets
that far from the state `s`. -/
def dequantizedCursor (ops : FloatOps) (info : BlockInfo) (c : Collaborators)
    (blockIndex : Nat) (s : DecoderState) : Int :=
  let hcaInfoVersion := u32 (info.versionMajor * 0x100 + info.versionMinor)
  let frame := blockFrame info c blockIndex
  let u := unpackChannels info c hcaInfoVersion frame.1 s.channels frame.2
  (forLoop (fun subframe s => dequantizeChannels ops subframe s.1 s.2) 8 0
    (u.channels, u.br)).2.bit

end CHcaDecoder.Pipeline

namespace CHcaDecoder.Pipeline

open Vgmstream

/-- A block of 16 bytes for one discrete channel of four coded coefficients that
passes the checksum and the sync word test of the sample collaborators: noise
level 221, evaluation boundary 0, `delta_bits` 6 and the scalefactors 62, 63, 63, 62,
which give the resolutions 0, 1, 1, 0, then in each subframe the codes `10` and
`11` of the coefficients 1 and 2, the values 1 and -1. -/
def seedBlock : List Nat :=
  [0xFF, 0xFF, 0x6E, 0x80, 0xDF, 0x7F, 0xFF, 0xD7, 0x77, 0x77, 0x77, 0x60, 0, 0, 0, 0x1B]

/-- Band counts of four bands without high frequency groups and without joint
stereo, and the volume `1.0f`. -/
def seedBands : BandInfo :=
  { compR05 := 4, compR06 := 4, compR07 := 0, compR08 := 0, rvaVolume := 0x3F800000 }

/-- A generator of wave data whose `decodeFunc` stores the bit pattern of the sample
at the cursor and moves the cursor by one element. -/
def storeSamples : WaveGenerator :=
  { decodeFunc := some fun f buffer cursor => (setAt buffer cursor f, cursor + 1)
    allocated := fun _ => 0 }

/-- The sample collaborators on `seedBlock` with the product of two `float` values
and the stages after unpacking spelled out in IEEE 754 arithmetic. -/
def seedCollaborators : Collaborators :=
  withStages { sampleCollaborators seedBlock false with fmul := floatMul } ieeeOps
    (sampleInfo 16) seedBands storeSamples

/-- A decoder state with an empty cache and one discrete channel of four coded
coefficients whose arrays are all zero, and the given `random`. -/
def seededState (random : Nat) : DecoderState :=
  { decodedBlocks := [], channels := [zeroChannel channel_type_t.DISCRETE 4], random := random,
    hcaBlockBuffer := [], streamReads := [] }

/-- The state `seededState 0` with other values in every array of its channel but
`imdct_previous`, and in the two counts. -/
def scratchState : DecoderState :=
  { seededState 0 with
    channels :=
      [{ zeroChannel channel_type_t.DISCRETE 4 with
          intensity := fun i => i + 1, scalefactors := fun i => 63 - i % 64,
          resolution := fun i => 15 - i % 16,
          noises := fun i => i + 9, noise_count := 5, valid_count := 77, gain := fun _ => 3,
          spectra := fun t j => t + j, temp := fun _ => 1, dct := fun _ => 2,
          wave := fun _ _ => 5 }] }

end CHcaDecoder.Pipeline

namespace CHcaDecoder

/-! ## Lemmas on the copy loop and the header part of `Read` -/

/-- What the copy loop keeps when it ends normally, started with locals whose
`totalRead + bufferSize` fits a `uint32_t`: the bytes still requested and the
bytes read add up to the same sum, `streamPosition` has advanced (in
`uint64_t`) by the bytes read, and so has the number of bytes stored. -/
theorem readLoop_ok (d : Decoder) (H B len : Nat) :
    ∀ (fuel : Nat) (l : ReadLocals) (c : List (Nat × Buffer)) (l' : ReadLocals)
      (c' : List (Nat × Buffer)),
      l.totalRead + l.bufferSize < 4294967296 →
      readLoop d H B len fuel l c = (.ok l', c') →
      l.totalRead ≤ l'.totalRead ∧
      l'.totalRead + l'.bufferSize = l.totalRead + l.bufferSize ∧
      l'.streamPosition % 18446744073709551616
        = (l.streamPosition + (l'.totalRead - l.totalRead)) % 18446744073709551616 ∧
      (l.streamPosition < 18446744073709551616 → l'.streamPosition < 18446744073709551616) ∧
      l'.written.length = l.written.length + (l'.totalRead - l.totalRead) := by
  intro fuel
  induction fuel with
  | zero =>
    intro l c l' c' hb h
    unfold readLoop at h
    split at h
    · simp at h
    · simp only [Prod.mk.injEq, Except.ok.injEq] at h
      obtain ⟨rfl, -⟩ := h
      simp
  | succ fuel ih =>
    intro l c l' c' hb h
    unfold readLoop at h
    split at h
    · rename_i hcond
      simp only at h
      split at h
      · simp at h
      · split at h
        · simp at h
        · rename_i blockData c1 hdec
          have hcl : min (sub64 len l.mappedPosition)
              (min (sub64 B (sub64 l.mappedPosition H % B)) (u64 l.bufferSize)) ≤ l.bufferSize :=
            le_trans (min_le_right _ _) (le_trans (min_le_right _ _) (Nat.mod_le _ _))
          generalize min (sub64 len l.mappedPosition)
              (min (sub64 B (sub64 l.mappedPosition H % B)) (u64 l.bufferSize)) = cl at h hcl
          have hstep := ih _ _ _ _ ?_ h
          · simp only [memcpy, List.length_append, List.length_map, List.length_range] at hstep
            obtain ⟨h1, h2, h3, h4, h5⟩ := hstep
            simp only [u32, u64, sub64, Nat.reducePow] at h1 h2 h3 h4 h5
            refine ⟨?_, ?_, ?_, ?_, ?_⟩ <;> omega
          · simp only [u32, u64, sub64, Nat.reducePow]
            omega
    · simp only [Prod.mk.injEq, Except.ok.injEq] at h
      obtain ⟨rfl, -⟩ := h
      simp

/-- The `return bufferSize` inside the header part returns the whole clamped
request, all of it header bytes, and advances `streamPosition` by it. -/
theorem readHeader_returned (d : Decoder) (H bs mp sp cnt sp' : Nat) (w : List Nat)
    (h : readHeader d H bs mp sp = .returned cnt w sp') :
    cnt = bs ∧ sp' = (sp + cnt) % 18446744073709551616 ∧ w.length = cnt := by
  unfold readHeader at h
  split at h
  · simp only at h
    split at h
    · rename_i hle
      simp only [HeaderStep.returned.injEq] at h
      obtain ⟨rfl, rfl, rfl⟩ := h
      have hmin : min (u32 (sub64 H mp)) bs = bs :=
        le_antisymm (min_le_right _ _) hle
      simp [memcpy, u64, hmin]
    · simp at h
  · simp at h

/-- The locals the header part hands to the copy loop: the bytes read so far
and the bytes still requested add up to the clamped request, and
`streamPosition` and the bytes stored have advanced by the bytes read. -/
theorem readHeader_fallThrough (d : Decoder) (H bs mp sp : Nat) (l : ReadLocals)
    (hbs : bs < 4294967296) (h : readHeader d H bs mp sp = .fallThrough l) :
    l.totalRead + l.bufferSize = bs ∧
    l.streamPosition % 18446744073709551616 = (sp + l.totalRead) % 18446744073709551616 ∧
    (sp < 18446744073709551616 → l.streamPosition < 18446744073709551616) ∧
    l.written.length = l.totalRead := by
  unfold readHeader at h
  split at h
  · simp only at h
    split at h
    · simp at h
    · rename_i hlt
      simp only [HeaderStep.fallThrough.injEq] at h
      subst h
      have hcl : min (u32 (sub64 H mp)) bs ≤ bs := min_le_right _ _
      generalize min (u32 (sub64 H mp)) bs = cl at hcl hlt
      simp only [memcpy, List.length_map, List.length_range, u32, u64, sub32, Nat.reducePow]
      refine ⟨?_, ?_, ?_, ?_⟩ <;> omega
  · simp only [HeaderStep.fallThrough.injEq] at h
    subst h
    simp

/-! ## Reading the whole stream -/

/-- C1, evaluated on `loopFirstBlock` (blocks of 2048 bytes, `GetLength` 4096):
one `Read` of 4096 bytes at position 0 returns 4096 and stores byte 1 of block 1
at index 2049, while the first 2050 successive 1-byte reads from position 0 all
return one byte and the last of them stores byte 1 of block 0; so the two byte
sequences differ at index 2049. -/
theorem read_whole_differs_from_bytewise :
    GetLength loopFirstBlock = .ok 4096 ∧
    returnedCount (Read loopFirstBlock false 4096 0 4096 initialState) = some 4096 ∧
    (storedBytes (Read loopFirstBlock false 4096 0 4096 initialState)).map (·.get? 2049)
      = some (some (sampleBlock 1 1)) ∧
    (readSuccessively loopFirstBlock 1 2050 initialState).toOption.map
        (fun r => (r.total, r.ended, r.bytes.get? 2049))
      = some (2050, false, some (sampleBlock 0 1)) ∧
    sampleBlock 1 1 ≠ sampleBlock 0 1 := by
  refine ⟨rfl, ?_, ?_, ?_, ?_⟩ <;> decide!

/-- C2, evaluated on `loopFirstBlock`: `GetLength` is 4096, but successive
reads of 1024 bytes from position 0 return 1024 six times before the first 0,
6144 bytes in all; the read at position 4096 does not return 0. -/
theorem read_total_exceeds_length :
    GetLength loopFirstBlock = .ok 4096 ∧
    (readSuccessively loopFirstBlock 1024 7 initialState).toOption.map
        (fun r => (r.total, r.ended)) = some (6144, true) ∧
    returnedCount (Read loopFirstBlock false 1024 0 1024 { initialState with position := 4096 })
      = some 1024 := by
  refine ⟨rfl, ?_, ?_⟩ <;> decide!

/-! ## Length of the stream -/

/-- C3, evaluated on `longStream` (no loop, header off, blocks of 4096 bytes,
`2 ^ 20` blocks): `blockCount * GetWaveBlockSize()` is `2 ^ 32`, and `GetLength`
returns 0, the product reduced modulo `2 ^ 32`. -/
theorem GetLength_wraps_at_32_bits :
    GetWaveBlockSize longStream = 4096 ∧
    longStream.hcaInfo.blockCount * GetWaveBlockSize longStream = 4294967296 ∧
    GetLength longStream = .ok 0 := by
  exact ⟨rfl, rfl, rfl⟩

/-- C4, evaluated on `loopSecondBlock` (two blocks of 2048 bytes, loop region
block 1, `loopCount = 1`, header off): the length
`headerSize + (loopStart + (blockCount - 1 - loopEnd)) * B + loopCount * (loopEnd - loopStart + 1) * B`
is 4096, as is `GetLength` of the same stream with looping disabled, but
`GetLength` returns 2048. -/
theorem GetLength_single_loop_one_block_short :
    GetWaveBlockSize loopSecondBlock = 2048 ∧
    waveHeaderSizeOf loopSecondBlock
      + (loopSecondBlock.hcaInfo.loopStart
          + (loopSecondBlock.hcaInfo.blockCount - 1 - loopSecondBlock.hcaInfo.loopEnd))
        * GetWaveBlockSize loopSecondBlock
      + loopSecondBlock.decoderConfig.loopCount
        * (loopSecondBlock.hcaInfo.loopEnd - loopSecondBlock.hcaInfo.loopStart + 1)
        * GetWaveBlockSize loopSecondBlock = 4096 ∧
    GetLength (sampleDecoder 1 2 true 1 1 false false 1) = .ok 4096 ∧
    GetLength loopSecondBlock = .ok 2048 := by
  exact ⟨rfl, rfl, rfl, rfl⟩

/-! ## Mapping of looped positions -/

/-- C5, evaluated on `loopFirstBlockTwice` and `loopFirstBlockTwiceWithHeader`
(loop region block 0, `L = 2048`, `loopCount = 2`).  Header off: position 2048,
the first byte of repetition 1, is returned unchanged where `p - 1 * L` is 0.
Header on (112 bytes): position `112 + 2048 + 5`, in repetition 1, is mapped to
5, a position inside the header, where `p - 1 * L` is 117. -/
theorem MapLoopedPosition_misses_repetition :
    (loopFirstBlockTwice.hcaInfo.loopEnd - loopFirstBlockTwice.hcaInfo.loopStart + 1)
      * GetWaveBlockSize loopFirstBlockTwice = 2048 ∧
    MapLoopedPosition loopFirstBlockTwice 2048 = .ok 2048 ∧
    2048 - 1 * 2048 = 0 ∧
    waveHeaderSizeOf loopFirstBlockTwiceWithHeader = 112 ∧
    MapLoopedPosition loopFirstBlockTwiceWithHeader (112 + 2048 + 5) = .ok 5 ∧
    (112 + 2048 + 5) - 1 * 2048 = 117 := by
  exact ⟨rfl, rfl, rfl, rfl, rfl, rfl⟩

/-- C6, evaluated on `loopSecondBlock` (loop region block 1, blocks of 2048
bytes, header off): position 2049 is below
`headerSize + (loopEnd + 1) * GetWaveBlockSize() = 4096`, inside the first pass,
and `MapLoopedPosition` maps it to 1. -/
theorem MapLoopedPosition_changes_first_pass :
    GetWaveBlockSize loopSecondBlock = 2048 ∧
    waveHeaderSizeOf loopSecondBlock
      + (loopSecondBlock.hcaInfo.loopEnd + 1) * GetWaveBlockSize loopSecondBlock = 4096 ∧
    MapLoopedPosition loopSecondBlock 2049 = .ok 1 := by
  exact ⟨rfl, rfl, rfl⟩

/-- C7, evaluated twice.  On `loopLastTwoOfFour` (blocks of 2048 bytes, loop
region blocks 2 and 3 played twice) the positions 10239 and 10240 both lie in
the second traversal of the loop region, bytes 8192 to 12287 of the looped
stream, and are mapped to 6143 and 2048.  On `longLoop` the positions
`2 ^ 33 + 4095` and `2 ^ 33 + 4096` are both past the bound of the first pass
and `MapLoopedPosition` computes 2 elapsed loops for both; they are mapped to
`2 ^ 64 - 1` and 0. -/
theorem MapLoopedPosition_not_monotone_in_cycle :
    (GetWaveBlockSize loopLastTwoOfFour = 2048 ∧
      (10239 - 2 * 2048) / (2 * 2048) = 1 ∧ (10240 - 2 * 2048) / (2 * 2048) = 1 ∧
      MapLoopedPosition loopLastTwoOfFour 10239 = .ok 6143 ∧
      MapLoopedPosition loopLastTwoOfFour 10240 = .ok 2048) ∧
    (firstPassBound longLoop < 8589938687 ∧
      elapsedLoops longLoop 8589938687 = 2 ∧ elapsedLoops longLoop 8589938688 = 2 ∧
      MapLoopedPosition longLoop 8589938687 = .ok 18446744073709551615 ∧
      MapLoopedPosition longLoop 8589938688 = .ok 0) := by
  refine ⟨⟨rfl, rfl, rfl, rfl, rfl⟩, by decide, rfl, rfl, rfl, rfl⟩

/-! ## Errors, position and buffer bounds of `Read` -/

/-- C8: `GetLength()` throws the argument exception exactly when the source
declares a loop, looping is enabled and `loopCount` is 0, and returns a value in
every other configuration; in that configuration every `Read` with a non-empty
request (a positive `count` and a positive clamped room) throws the argument
exception, whatever the position, and leaves the decoder state as it was. -/
theorem GetLength_fails_iff_loopCount_zero (d : Decoder) :
    (GetLength d = .error .invalidArgument ↔
      (d.hcaInfo.loopExists = true ∧ d.decoderConfig.loopEnabled = true ∧
        d.decoderConfig.loopCount = 0)) ∧
    (¬ (d.hcaInfo.loopExists = true ∧ d.decoderConfig.loopEnabled = true ∧
        d.decoderConfig.loopCount = 0) → ∃ v, GetLength d = .ok v) ∧
    ((d.hcaInfo.loopExists = true ∧ d.decoderConfig.loopEnabled = true ∧
        d.decoderConfig.loopCount = 0) →
      ∀ (bufferNull : Bool) (bufferSize offset count : Nat) (s : State),
        0 < count → 0 < u32 (sub64 bufferSize offset) →
        Read d bufferNull bufferSize offset count s = (.error .invalidArgument, s)) := by
  refine ⟨?_, ?_, ?_⟩
  · unfold GetLength
    constructor
    · intro h
      split at h
      · rename_i hc
        simp only [Bool.and_eq_true] at hc
        split at h
        · rename_i hz
          exact ⟨hc.1, hc.2, hz⟩
        · simp at h
      · split at h <;> simp at h
    · rintro ⟨h1, h2, h3⟩
      simp [h1, h2, h3]
  · intro h
    unfold GetLength
    split
    · rename_i hc
      simp only [Bool.and_eq_true] at hc
      split
      · rename_i hz
        exact absurd ⟨hc.1, hc.2, hz⟩ h
      · exact ⟨_, rfl⟩
    · split <;> exact ⟨_, rfl⟩
  · rintro ⟨h1, h2, h3⟩ bufferNull bufferSize offset count s hcount hroom
    have hlen : GetLength d = .error .invalidArgument := by
      unfold GetLength
      simp [h1, h2, h3]
    have hmap : MapLoopedPosition d (GetPosition s) = .error .invalidArgument ∨
        ∃ m, MapLoopedPosition d (GetPosition s) = .ok m := by
      unfold MapLoopedPosition
      simp only [h1, h2, h3]
      split
      · exact Or.inr ⟨_, rfl⟩
      · split
        · exact Or.inr ⟨_, rfl⟩
        · exact Or.inl (by simp)
    have hne : ¬ max 0 (min count (u32 (sub64 bufferSize offset))) = 0 := by
      simp only [Nat.zero_max]
      intro h0
      rcases Nat.min_eq_zero_iff.mp h0 with h | h <;> omega
    unfold Read
    cases bufferNull with
    | true => simp
    | false =>
      simp only [Bool.false_eq_true, if_false, hne]
      rcases hmap with hm | ⟨m, hm⟩
      · simp only [hm]
      · simp only [hm, hlen]

/-- The theorem of C8 on `loopCountZero`, read at position 4096 for 16 bytes,
and on `plainStream`, which declares no loop. -/
theorem GetLength_fails_iff_loopCount_zero_witness :
    GetLength loopCountZero = .error .invalidArgument ∧
    Read loopCountZero false 16 0 16 { position := 4096, decodedBlocks := [] }
      = (.error .invalidArgument, { position := 4096, decodedBlocks := [] }) ∧
    (∃ v, GetLength plainStream = .ok v) :=
  ⟨(GetLength_fails_iff_loopCount_zero loopCountZero).1.2 ⟨rfl, rfl, rfl⟩,
    (GetLength_fails_iff_loopCount_zero loopCountZero).2.2 ⟨rfl, rfl, rfl⟩ false 16 0 16 _
      (by decide) (by decide),
    (GetLength_fails_iff_loopCount_zero plainStream).2.1 (by decide)⟩

/-- C9: after a `Read` call that returns, `GetPosition()` is `GetPosition()`
before the call plus the returned byte count, the sum taken in `uint64_t` as
the code takes it (so it is the plain sum whenever that fits 64 bits); the
bytes stored are as many as the returned count, whether they came from the
header or from blocks; and a call that returns 0 leaves the position as it
was. -/
theorem Read_advances_position (d : Decoder) (bufferNull : Bool)
    (bufferSize offset count : Nat) (s s' : State) (n : Nat) (w : List Nat)
    (hpos : GetPosition s < 2 ^ 64)
    (h : Read d bufferNull bufferSize offset count s = (.ok (n, w), s')) :
    GetPosition s' = (GetPosition s + n) % 2 ^ 64 ∧
    (GetPosition s + n < 2 ^ 64 → GetPosition s' = GetPosition s + n) ∧
    w.length = n ∧
    (n = 0 → GetPosition s' = GetPosition s) := by
  have key : GetPosition s' = (GetPosition s + n) % 18446744073709551616 ∧ w.length = n := by
    unfold Read at h
    split at h
    · simp at h
    · simp only at h
      split at h
      · rename_i hz
        simp only [Prod.mk.injEq, Except.ok.injEq] at h
        obtain ⟨⟨rfl, rfl⟩, rfl⟩ := h
        rw [hz]
        simp only [GetPosition, Nat.reducePow] at hpos ⊢
        refine ⟨?_, rfl⟩
        omega
      · rename_i hnz
        split at h
        · simp at h
        · split at h
          · simp at h
          · split at h
            · simp only [Prod.mk.injEq, Except.ok.injEq] at h
              obtain ⟨⟨rfl, rfl⟩, rfl⟩ := h
              simp only [GetPosition, Nat.reducePow] at hpos ⊢
              simp
              omega
            · have hbs : max 0 (min count (u32 (sub64 bufferSize offset))) < 4294967296 := by
                have : u32 (sub64 bufferSize offset) < 4294967296 := Nat.mod_lt _ (by decide)
                simp only [Nat.zero_max]
                exact lt_of_le_of_lt (min_le_right _ _) this
              split at h
              · rename_i cnt w1 sp1 hh
                simp only [Prod.mk.injEq, Except.ok.injEq] at h
                obtain ⟨⟨rfl, rfl⟩, rfl⟩ := h
                obtain ⟨-, h2, h3⟩ := readHeader_returned _ _ _ _ _ _ _ _ hh
                simp only [GetPosition, SetPosition] at h2 ⊢
                exact ⟨h2, h3⟩
              · rename_i l hh
                obtain ⟨a1, a2, a3, a4⟩ := readHeader_fallThrough _ _ _ _ _ _ hbs hh
                split at h
                · simp at h
                · rename_i l' c' hl
                  simp only [Prod.mk.injEq, Except.ok.injEq] at h
                  obtain ⟨⟨rfl, rfl⟩, rfl⟩ := h
                  obtain ⟨b1, b2, b3, b4, b5⟩ :=
                    readLoop_ok _ _ _ _ _ _ _ _ _ (by omega) hl
                  simp only [GetPosition, SetPosition, Nat.reducePow] at hpos a2 a3 ⊢
                  have := b4 (a3 hpos)
                  refine ⟨?_, ?_⟩ <;> omega
  simp only [Nat.reducePow] at hpos ⊢
  obtain ⟨k1, k2⟩ := key
  refine ⟨k1, ?_, k2, ?_⟩
  · intro hlt; rw [k1]; exact Nat.mod_eq_of_lt hlt
  · intro hn; subst hn; rw [k1]; exact Nat.mod_eq_of_lt (by simpa using hpos)

/-- The theorem of C9 on `plainStreamWithHeader` (a header of 44 bytes): a read
of 3 bytes at position 43 stores the last header byte and the first two bytes
of block 0, returns 3 and leaves the position at 46. -/
theorem Read_advances_position_witness :
    GetPosition { position := 43, decodedBlocks := [] } < 2 ^ 64 ∧
    Read plainStreamWithHeader false 3 0 3 { position := 43, decodedBlocks := [] }
      = (.ok (3, [1, 16, 17]), { position := 46, decodedBlocks := [(0, sampleBlock 0)] }) ∧
    GetPosition { position := 46, decodedBlocks := [(0, sampleBlock 0)] }
      = (GetPosition { position := 43, decodedBlocks := [] } + 3) % 2 ^ 64 :=
  ⟨by decide, rfl,
    (Read_advances_position plainStreamWithHeader false 3 0 3
      { position := 43, decodedBlocks := [] }
      { position := 46, decodedBlocks := [(0, sampleBlock 0)] } 3 [1, 16, 17]
      (by decide) rfl).1⟩

/-- C10, evaluated on `plainStream`: `Read(buffer, 4, 5, 3)`, with `offset`
past a buffer of 4 bytes, returns 3 and stores 3 bytes at `buffer + 5`; the room
`bufferSize - offset` wraps to `2 ^ 32 - 1` and does not clamp the request. -/
theorem Read_writes_past_buffer_end :
    u32 (sub64 4 5) = 4294967295 ∧
    returnedCount (Read plainStream false 4 5 3 initialState) = some 3 ∧
    (storedBytes (Read plainStream false 4 5 3 initialState)).map List.length = some 3 ∧
    ¬ (5 + 3 ≤ 4) := by
  refine ⟨rfl, ?_, ?_, ?_⟩ <;> decide!

/-- C11 fails on a stream of two blocks whose first block is the loop region,
played with `loopCount = 2`: `GetLength` succeeds with 6144 bytes, and a `Read` of
6144 bytes from position 0 passes the block indices 0, 1 and 2 to `DecodeBlock`
(the keys of the cache afterwards, newest first), the last of which is not below
`blockCount = 2`. -/
theorem Read_decodes_block_past_blockCount :
    (GetLength loopFirstBlockTwice).toOption = some 6144 ∧
    loopFirstBlockTwice.hcaInfo.blockCount = 2 ∧
    GetPosition initialState = 0 ∧
    (Read loopFirstBlockTwice false 6144 0 6144 initialState).2.decodedBlocks.map Prod.fst
      = [2, 1, 0] ∧
    ¬ (2 < loopFirstBlockTwice.hcaInfo.blockCount) := by
  refine ⟨?_, ?_, ?_, ?_, ?_⟩ <;> decide!

end CHcaDecoder

namespace Vgmstream

/-! ## Bit reader -/

theorem toUnsigned_natCast (c : Nat) (h : c < 4294967296) : toUnsigned (c : Int) = c := by
  unfold toUnsigned
  omega

theorem toInt32_natCast (c : Nat) (h : c < 2147483648) : toInt32 (c : Int) = c := by
  unfold toInt32
  omega

theorem bitAt_lt (data : Nat → Nat) (k : Nat) : bitAt data k < 2 :=
  Nat.mod_lt _ (by decide)

theorem headValue_lt (data : Nat → Nat) (q m : Nat) : headValue data q m < 2 ^ m := by
  induction m with
  | zero => simp [headValue]
  | succ m ih =>
    have := bitAt_lt data (8 * q + m)
    simp only [headValue, Nat.pow_succ]
    omega

theorem headValue_div (data : Nat → Nat) (q t : Nat) :
    ∀ s, headValue data q (t + s) / 2 ^ s = headValue data q t := by
  intro s
  induction s with
  | zero => simp
  | succ s ih =>
    have hb := bitAt_lt data (8 * q + (t + s))
    rw [← Nat.add_assoc, headValue, Nat.pow_succ, Nat.mul_comm (2 ^ s) 2,
      ← Nat.div_div_eq_div_mul]
    have : (2 * headValue data q (t + s) + bitAt data (8 * q + (t + s))) / 2
        = headValue data q (t + s) := by omega
    rw [this, ih]

theorem headValue_mod (data : Nat → Nat) (q r : Nat) :
    ∀ n, headValue data q (r + n) % 2 ^ n = bitsValue data (8 * q + r) n := by
  intro n
  induction n with
  | zero => simp [bitsValue, Nat.mod_one]
  | succ n ih =>
    have hb := bitAt_lt data (8 * q + (r + n))
    rw [← Nat.add_assoc, headValue, bitsValue, ← ih, Nat.add_assoc (8 * q) r n]
    have h2 : (2 : Nat) ^ (n + 1) = 2 * 2 ^ n := by rw [Nat.pow_succ, Nat.mul_comm]
    rw [h2]
    generalize headValue data q (r + n) = X at *
    generalize bitAt data (8 * q + (r + n)) = b at *
    have hpos : 0 < 2 ^ n := Nat.two_pow_pos n
    generalize 2 ^ n = P at *
    have h1 : (2 * X + b) / 2 = X := by omega
    have h3 : (2 * X + b) % 2 = b := by omega
    rw [Nat.mod_mul, h1, h3]
    omega

theorem bitAt_byte (data : Nat → Nat) (i t : Nat) (ht : t < 8) :
    bitAt data (8 * i + t) = byteAt data i / 2 ^ (7 - t) % 2 := by
  unfold bitAt
  have h1 : (8 * i + t) / 8 = i := by omega
  have h2 : (8 * i + t) % 8 = t := by omega
  rw [h1, h2]

theorem byteAt_lt (data : Nat → Nat) (i : Nat) : byteAt data i < 256 :=
  Nat.mod_lt _ (by decide)

theorem headValue_byte (data : Nat → Nat) (q j : Nat) :
    headValue data q (8 * j + 8) = 256 * headValue data q (8 * j) + byteAt data (q + j) := by
  have e : ∀ t, 8 * q + (8 * j + t) = 8 * (q + j) + t := by intro t; omega
  have hb := byteAt_lt data (q + j)
  simp only [headValue, e, Nat.add_zero]
  rw [bitAt_byte data (q + j) 7 (by decide), bitAt_byte data (q + j) 6 (by decide),
    bitAt_byte data (q + j) 5 (by decide), bitAt_byte data (q + j) 4 (by decide),
    bitAt_byte data (q + j) 3 (by decide), bitAt_byte data (q + j) 2 (by decide),
    bitAt_byte data (q + j) 1 (by decide)]
  have h0 := bitAt_byte data (q + j) 0 (by decide)
  have e0 : 8 * (q + j) + 0 = 8 * q + 8 * j := by omega
  rw [e0] at h0
  rw [h0]
  generalize byteAt data (q + j) = b at *
  generalize headValue data q (8 * j) = X
  have key : ∀ b < 256, 2 * (2 * (2 * (2 * (2 * (2 * (2 * (b / 2 ^ (7 - 0) % 2)
      + b / 2 ^ (7 - 1) % 2) + b / 2 ^ (7 - 2) % 2) + b / 2 ^ (7 - 3) % 2)
      + b / 2 ^ (7 - 4) % 2) + b / 2 ^ (7 - 5) % 2) + b / 2 ^ (7 - 6) % 2)
      + b / 2 ^ (7 - 7) % 2 = b := by decide!
  have hk := key b hb
  generalize b / 2 ^ (7 - 0) % 2 = b7 at hk ⊢
  generalize b / 2 ^ (7 - 1) % 2 = b6 at hk ⊢
  generalize b / 2 ^ (7 - 2) % 2 = b5 at hk ⊢
  generalize b / 2 ^ (7 - 3) % 2 = b4 at hk ⊢
  generalize b / 2 ^ (7 - 4) % 2 = b3 at hk ⊢
  generalize b / 2 ^ (7 - 5) % 2 = b2 at hk ⊢
  generalize b / 2 ^ (7 - 6) % 2 = b1 at hk ⊢
  generalize b / 2 ^ (7 - 7) % 2 = b0 at hk ⊢
  omega

theorem pushByte_eq (v : Nat) (data : Nat → Nat) (i : Nat) (hv : v < 2 ^ 24) :
    pushByte v data i = 256 * v + byteAt data i := by
  unfold pushByte uint
  have hb : byteAt data i < 2 ^ 8 := byteAt_lt data i
  have hlt : 2 ^ 8 * v < 2 ^ 32 := by
    simp only [Nat.reducePow] at hv ⊢
    omega
  rw [Nat.shiftLeft_eq, Nat.mul_comm v (2 ^ 8), Nat.mod_eq_of_lt hlt,
    ← Nat.mul_add_lt_is_or hb]

theorem window_value (data : Nat → Nat) (q r n m : Nat) (h : r + n ≤ m) :
    headValue data q m % 2 ^ (m - r) / 2 ^ (m - r - n) = bitsValue data (8 * q + r) n := by
  obtain ⟨s, rfl⟩ : ∃ s, m = r + n + s := ⟨m - r - n, by omega⟩
  have e1 : r + n + s - r = s + n := by omega
  have e2 : s + n - n = s := by omega
  rw [e1, e2, Nat.pow_add, Nat.mod_mul_right_div_self, headValue_div, headValue_mod]

theorem mask8_getD (r : Nat) (h : r < 8) : mask8.getD r 0 = 2 ^ (8 - r) - 1 := by
  interval_cases r <;> rfl

theorem mask16_getD (r : Nat) (h : r < 8) : mask16.getD r 0 = 2 ^ (16 - r) - 1 := by
  interval_cases r <;> rfl

theorem mask24_getD (r : Nat) (h : r < 8) : mask24.getD r 0 = 2 ^ (24 - r) - 1 := by
  interval_cases r <;> rfl

theorem mask32_getD (r : Nat) (h : r < 8) : mask32.getD r 0 = 2 ^ (32 - r) - 1 := by
  interval_cases r <;> rfl

theorem shr_eq (v r n m : Nat) (hm : m ≤ 32) (h : r + n ≤ m) (hpos : 0 < r + n ∨ m < 32) :
    shr v (usub (usub m r) n) = v / 2 ^ (m - r - n) := by
  have hc : usub (usub m r) n = m - r - n := by
    unfold usub
    simp only [Nat.reducePow]
    omega
  unfold shr
  rw [hc, Nat.shiftRight_eq_div_pow]
  congr 2
  omega

theorem word1 (data : Nat → Nat) (q : Nat) :
    byteAt data q = headValue data q 8 := by
  have := headValue_byte data q 0
  simp only [Nat.mul_zero, Nat.zero_add, headValue, Nat.add_zero] at this ⊢
  omega

theorem word2 (data : Nat → Nat) (q : Nat) :
    pushByte (byteAt data q) data (q + 1) = headValue data q 16 := by
  have h := headValue_byte data q 1
  have hb := byteAt_lt data q
  rw [pushByte_eq _ _ _ (by simp only [Nat.reducePow]; omega), word1]
  simpa using h.symm

theorem word3 (data : Nat → Nat) (q : Nat) :
    pushByte (pushByte (byteAt data q) data (q + 1)) data (q + 2) = headValue data q 24 := by
  have h := headValue_byte data q 2
  have hlt := headValue_lt data q 16
  rw [word2, pushByte_eq _ _ _ (by simp only [Nat.reducePow] at hlt ⊢; omega)]
  simpa using h.symm

theorem word4 (data : Nat → Nat) (q : Nat) :
    pushByte (pushByte (pushByte (byteAt data q) data (q + 1)) data (q + 2)) data (q + 3)
      = headValue data q 32 := by
  have h := headValue_byte data q 3
  have hlt := headValue_lt data q 24
  rw [word3, pushByte_eq _ _ _ hlt]
  simpa using h.symm

/-- What `bitreader_peek` returns when the bits asked for lie in the bytes the
branch taken loads. -/
theorem bitreader_peek_window (data : Nat → Nat) (byteSize c n : Nat)
    (hsize : 8 * byteSize < 2 ^ 31) (hfit : c + n ≤ 8 * byteSize)
    (hwin : c % 8 + n ≤ 8 ∨
      (c % 8 + n ≤ 32 ∧ 8 * ((c % 8 + n + 7) / 8) ≤ 8 * byteSize - c)) :
    bitreader_peek { data := data, size := (8 * byteSize : Nat), bit := (c : Nat) } n
      = bitsValue data c n := by
  simp only [Nat.reducePow] at hsize
  have hc : toUnsigned ((c : Nat) : Int) = c :=
    toUnsigned_natCast c (by omega)
  have hn : toUnsigned ((n : Nat) : Int) = n :=
    toUnsigned_natCast n (by omega)
  have hs : toUnsigned ((8 * byteSize : Nat) : Int) = 8 * byteSize :=
    toUnsigned_natCast _ (by omega)
  have hrem : c &&& 7 = c % 8 := Nat.and_pow_two_sub_one_eq_mod c 3
  have hq : c >>> 3 = c / 8 := Nat.shiftRight_eq_div_pow c 3
  have hr8 : c % 8 < 8 := Nat.mod_lt _ (by decide)
  have hcq : c = 8 * (c / 8) + c % 8 := by omega
  have hsum : uint (c + n) = c + n := by
    unfold uint; simp only [Nat.reducePow]; omega
  have hoff : uint (n + c % 8) = n + c % 8 := by
    unfold uint; simp only [Nat.reducePow]; omega
  have hleft : usub (8 * byteSize) c = 8 * byteSize - c := by
    unfold usub; simp only [Nat.reducePow]; omega
  unfold bitreader_peek
  simp only [hc, hn, hs, hrem, hq, hsum, hoff, hleft]
  rw [if_neg (by omega)]
  generalize hr : c % 8 = r at *
  generalize hqq : c / 8 = q at *
  subst hcq
  split_ifs with h1 h2 h3
  · rw [word4, mask32_getD r hr8, Nat.and_pow_two_sub_one_eq_mod,
      shr_eq _ r n 32 (by decide) (by omega) (by omega)]
    exact window_value data q r n 32 (by omega)
  · rw [word3, mask24_getD r hr8, Nat.and_pow_two_sub_one_eq_mod,
      shr_eq _ r n 24 (by decide) (by omega) (by omega)]
    exact window_value data q r n 24 (by omega)
  · rw [word2, mask16_getD r hr8, Nat.and_pow_two_sub_one_eq_mod,
      shr_eq _ r n 16 (by decide) (by omega) (by omega)]
    exact window_value data q r n 16 (by omega)
  · rw [word1, mask8_getD r hr8, Nat.and_pow_two_sub_one_eq_mod,
      shr_eq _ r n 8 (by decide) (by omega) (by omega)]
    exact window_value data q r n 8 (by omega)

/-- C19 fails on a buffer of the two bytes `0x01 0x80`: at cursor 7 a read of 2
bits lies inside the buffer (`7 + 2 <= 16`) and passes the test
`bit + bitsize <= size`; the bits 7 and 8 are both 1, the integer 3, but
`bitreader_read(2)` returns 0.  The branches of `bitreader_peek` compare `bit_left`,
the bits left from the cursor, with the bits of the bytes they load from the start
of the byte of the cursor, so with 9 bits left the reader takes its one-byte
branch, loads the byte `0x01` alone and shifts it by `8 - 7 - 2`, a negative count.
Whatever the shift does, the loaded byte masked to its last bit is 1 and no right
shift of it is 3.  The same read at the same cursor of the three bytes
`0x01 0x80 0x00`, with 17 bits left, takes the two-byte branch and returns 3. -/
theorem bitreader_read_wrong_near_end :
    7 + 2 ≤ 8 * 2 ∧ 2 ≤ 32 ∧
    bitsValue (bufferOf [0x01, 0x80]) 7 2 = 3 ∧
    (bitreader_read { bitreader_init (bufferOf [0x01, 0x80]) 2 with bit := 7 } 2).1 = 0 ∧
    (bitreader_read { bitreader_init (bufferOf [0x01, 0x80, 0x00]) 3 with bit := 7 } 2).1 = 3 ∧
    ∀ count : Nat, (byteAt (bufferOf [0x01, 0x80]) 0 &&& mask8.getD 7 0) >>> count ≠ 3 := by
  refine ⟨by decide, by decide, by decide!, by decide!, by decide!, ?_⟩
  intro count
  have h : byteAt (bufferOf [0x01, 0x80]) 0 &&& mask8.getD 7 0 = 1 := by decide!
  rw [h, Nat.shiftRight_eq_div_pow]
  have := Nat.div_le_self 1 (2 ^ count)
  omega

/-- The reads that `bitreader_read` gets right: for a buffer of `byteSize` bytes,
a cursor `c` and a bit count `n` with `c + n <= 8 * byteSize`, when the bits asked
for lie in the bytes the reader loads, that is `c mod 8 + n <= 8`, or
`c mod 8 + n <= 32` and the `ceil((c mod 8 + n) / 8)` bytes they span count at most
as many bits as are left from `c`, `bitreader_read(n)` returns the unsigned integer
whose binary digits are the bits `c .. c + n - 1` of the buffer, most significant
bit of each byte first and bytes in increasing order, and moves the cursor to
`c + n`. -/
theorem bitreader_read_loaded_bits (data : Nat → Nat) (byteSize c n : Nat)
    (hsize : 8 * byteSize < 2 ^ 31) (hfit : c + n ≤ 8 * byteSize)
    (hwin : c % 8 + n ≤ 8 ∨
      (c % 8 + n ≤ 32 ∧ 8 * ((c % 8 + n + 7) / 8) ≤ 8 * byteSize - c)) :
    bitreader_read { bitreader_init data byteSize with bit := c } n
      = (bitsValue data c n, { bitreader_init data byteSize with bit := (c + n : Nat) }) := by
  have hsize' : 8 * byteSize < 2147483648 := by simpa using hsize
  have hs : toInt32 ((byteSize : Int) * 8) = ((8 * byteSize : Nat) : Int) := by
    unfold toInt32
    omega
  have hb : toInt32 ((c : Int) + (n : Int)) = ((c + n : Nat) : Int) := by
    unfold toInt32
    omega
  unfold bitreader_read bitreader_init
  simp only [hs, hb]
  rw [bitreader_peek_window data byteSize c n hsize hfit hwin]

/-- A read that `bitreader_read` gets right: 13 bits from cursor 3 of the bytes
`AB CD EF 12 34`. -/
theorem bitreader_read_loaded_bits_witness :
    8 * 5 < 2 ^ 31 ∧ 3 + 13 ≤ 8 * 5 ∧
    bitreader_read { bitreader_init (bufferOf [0xAB, 0xCD, 0xEF, 0x12, 0x34]) 5 with bit := 3 } 13
      = (bitsValue (bufferOf [0xAB, 0xCD, 0xEF, 0x12, 0x34]) 3 13,
        { bitreader_init (bufferOf [0xAB, 0xCD, 0xEF, 0x12, 0x34]) 5 with bit := (3 + 13 : Nat) }) ∧
    bitsValue (bufferOf [0xAB, 0xCD, 0xEF, 0x12, 0x34]) 3 13 = 3021 :=
  ⟨by decide, by decide,
    bitreader_read_loaded_bits (bufferOf [0xAB, 0xCD, 0xEF, 0x12, 0x34]) 5 3 13
      (by decide) (by decide) (by decide),
    by decide!⟩

/-- C20: on a buffer of `byteSize` bytes, for every cursor `c` and bit count `n`
(two `int` values whose sum is an `int`) with `c + n > 8 * byteSize`,
`bitreader_read(n)` returns 0 whatever the buffer holds, returns normally (the
function has no error result), and moves the cursor to `c + n`. -/
theorem bitreader_read_past_end (data : Nat → Nat) (byteSize : Nat) (c n : Int)
    (hsize : 8 * byteSize < 2 ^ 31)
    (hc : -2 ^ 31 ≤ c ∧ c < 2 ^ 31) (hn : -2 ^ 31 ≤ n ∧ n < 2 ^ 31)
    (hsum : c + n < 2 ^ 31) (hpast : c + n > 8 * (byteSize : Int)) :
    bitreader_read { bitreader_init data byteSize with bit := c } n
      = (0, { bitreader_init data byteSize with bit := c + n }) ∧
    ∀ data' : Nat → Nat,
      (bitreader_read { bitreader_init data' byteSize with bit := c } n).1 = 0 := by
  have hsize' : 8 * byteSize < 2147483648 := by simpa using hsize
  have hs : toInt32 ((byteSize : Int) * 8) = ((8 * byteSize : Nat) : Int) := by
    unfold toInt32
    omega
  have hb : toInt32 (c + n) = c + n := by
    unfold toInt32
    simp only [Nat.reducePow] at hsize
    omega
  have hpeek : ∀ d : Nat → Nat,
      bitreader_peek { data := d, size := ((8 * byteSize : Nat) : Int), bit := c } n = 0 := by
    intro d
    unfold bitreader_peek
    have hcond : ¬ uint (toUnsigned c + toUnsigned n) ≤ toUnsigned ((8 * byteSize : Nat) : Int) := by
      unfold uint toUnsigned
      simp only [Nat.reducePow] at hsize ⊢
      push_cast at hpast ⊢
      omega
    simp only [hcond, not_false_eq_true, if_true]
  unfold bitreader_read bitreader_init
  simp only [hs, hb, hpeek, implies_true, and_self]

/-- The theorem of C20 on a buffer of 2 bytes: 8 bits from cursor 10. -/
theorem bitreader_read_past_end_witness :
    (10 : Int) + 8 > 8 * ((2 : Nat) : Int) ∧
    bitreader_read { bitreader_init (bufferOf [0xFF, 0xFF]) (2 : Nat) with bit := 10 } 8
      = (0, { bitreader_init (bufferOf [0xFF, 0xFF]) (2 : Nat) with bit := 10 + 8 }) :=
  ⟨by decide,
    (bitreader_read_past_end (bufferOf [0xFF, 0xFF]) 2 10 8 (by decide) (by decide) (by decide)
      (by decide) (by decide)).1⟩

/-! ## Scalefactors -/

theorem expected_delta_eq (delta_bits : Nat) (h1 : 1 ≤ delta_bits) (h5 : delta_bits ≤ 5) :
    uchar ((1 <<< delta_bits) - 1) = 2 ^ delta_bits - 1 ∧
    (uchar ((1 <<< delta_bits) - 1)) >>> 1 = 2 ^ (delta_bits - 1) - 1 := by
  interval_cases delta_bits <;> exact ⟨rfl, rfl⟩

theorem differentialValue_eq (value delta expected_delta : Nat)
    (h0 : 0 ≤ scalefactorTest value delta expected_delta)
    (h63 : scalefactorTest value delta expected_delta < 64) :
    ((differentialValue value delta expected_delta : Nat) : Int)
      = scalefactorTest value delta expected_delta := by
  unfold differentialValue
  unfold scalefactorTest at h0 h63 ⊢
  have hm : ∀ x : Nat, x &&& 0x3F = x % 2 ^ 6 := fun x => Nat.and_pow_two_sub_one_eq_mod x 6
  rw [hm]
  unfold ucharOfInt
  generalize ((expected_delta >>> 1 : Nat) : Int) = e at *
  simp only [Nat.reducePow]
  omega

theorem deltaScalefactors_fails_iff (delta_bits : Nat) (h1 : 1 ≤ delta_bits) (h5 : delta_bits ≤ 5) :
    ∀ (count i value : Nat) (scalefactors : Nat → Nat) (br : clData),
      (deltaScalefactors delta_bits (uchar ((1 <<< delta_bits) - 1)) count i value
          scalefactors br).1 = false
        ↔ deltaOutOfRange delta_bits count (value : Nat) br := by
  obtain ⟨he, hh⟩ := expected_delta_eq delta_bits h1 h5
  have hpos : 1 ≤ 2 ^ delta_bits := Nat.one_le_two_pow
  have hpos' : 1 ≤ 2 ^ (delta_bits - 1) := Nat.one_le_two_pow
  have heI : ((2 ^ delta_bits - 1 : Nat) : Int) = 2 ^ delta_bits - 1 := by
    rw [Nat.cast_sub hpos]; simp
  have hhI : ((2 ^ (delta_bits - 1) - 1 : Nat) : Int) = 2 ^ (delta_bits - 1) - 1 := by
    rw [Nat.cast_sub hpos']; simp
  intro count
  induction count with
  | zero => intro i value scalefactors br; simp [deltaScalefactors, deltaOutOfRange]
  | succ count ih =>
    intro i value scalefactors br
    rw [deltaScalefactors, deltaOutOfRange]
    simp only [he]
    by_cases hesc : uchar (bitreader_read br delta_bits).1 = 2 ^ delta_bits - 1
    · have hescI : ((uchar (bitreader_read br delta_bits).1 : Nat) : Int) = 2 ^ delta_bits - 1 := by
        rw [hesc, heI]
      rw [if_pos hesc, if_pos hescI]
      rw [← he]
      exact ih _ _ _ _
    · have hescI : ¬ ((uchar (bitreader_read br delta_bits).1 : Nat) : Int) = 2 ^ delta_bits - 1 := by
        intro h; apply hesc; rw [← heI] at h; exact_mod_cast h
      rw [if_neg hesc, if_neg hescI]
      have htest : scalefactorTest value (uchar (bitreader_read br delta_bits).1)
          (2 ^ delta_bits - 1)
          = (value : Int) + (uchar (bitreader_read br delta_bits).1 : Nat)
            - (2 ^ (delta_bits - 1) - 1) := by
        unfold scalefactorTest
        rw [← he, hh, hhI]
        ring
      by_cases hbad : scalefactorTest value (uchar (bitreader_read br delta_bits).1)
          (2 ^ delta_bits - 1) < 0 ∨
          scalefactorTest value (uchar (bitreader_read br delta_bits).1)
            (2 ^ delta_bits - 1) ≥ 64
      · rw [if_pos hbad]
        simp only [true_iff]
        left
        rw [htest] at hbad
        omega
      · rw [if_neg hbad]
        have hv := differentialValue_eq value (uchar (bitreader_read br delta_bits).1)
          (2 ^ delta_bits - 1) (by omega) (by omega)
        rw [← he]
        rw [ih]
        rw [he, hv, htest]
        rw [htest] at hbad
        constructor
        · intro h; exact Or.inr h
        · intro h
          rcases h with h | h
          · omega
          · exact h

/-- C16: `unpack_scalefactors` returns `HCA_ERROR_UNPACK` if and only if either
(a) the version is above 2.0, the channel is not stereo secondary,
`hfr_group_count > 0` and `coded_count + hfr_group_count > 128`, or (b)
`delta_bits` (the first 3 bits) is in `1 .. 5` and, in the scan of the delta coded
scalefactors that follows the 6 bits of the first value, some non-escape delta
`d` read while the running value is `v` gives `v + d - (2 ^ (delta_bits - 1) - 1)`
outside `0 .. 63`; in every other case it returns `HCA_RESULT_OK`; and a delta
that passes the test makes the running value exactly `v + d -
(2 ^ (delta_bits - 1) - 1)`, the mask `0x3F` changing nothing.  The counts are
those of a header: `coded_count` a sum of two 16-bit fields, `hfr_group_count`
a 16-bit field. -/
theorem unpack_scalefactors_error_iff (ch : stChannel) (br : clData)
    (hfr_group_count version : Nat)
    (hcoded : ch.coded_count < 2 ^ 17) (hhfr : hfr_group_count < 2 ^ 16) :
    ((unpack_scalefactors ch br hfr_group_count version).1 = HCA_ERROR_UNPACK ↔
      (readsDerivedScales ch hfr_group_count version ∧
        ch.coded_count + hfr_group_count > 128) ∨
      (1 ≤ uchar (bitreader_read br 3).1 ∧ uchar (bitreader_read br 3).1 ≤ 5 ∧
        deltaOutOfRange (uchar (bitreader_read br 3).1)
          (scaleCount ch hfr_group_count version - 1)
          (uchar (bitreader_read (bitreader_read br 3).2 6).1 : Nat)
          (bitreader_read (bitreader_read br 3).2 6).2)) ∧
    ((unpack_scalefactors ch br hfr_group_count version).1 ≠ HCA_ERROR_UNPACK →
      (unpack_scalefactors ch br hfr_group_count version).1 = HCA_RESULT_OK) ∧
    (∀ delta_bits v d : Nat, 1 ≤ delta_bits → delta_bits ≤ 5 →
      0 ≤ (v : Int) + d - (2 ^ (delta_bits - 1) - 1) →
      (v : Int) + d - (2 ^ (delta_bits - 1) - 1) ≤ 63 →
      ((differentialValue v d (uchar ((1 <<< delta_bits) - 1)) : Nat) : Int)
        = (v : Int) + d - (2 ^ (delta_bits - 1) - 1)) := by
  have hne : HCA_RESULT_OK ≠ HCA_ERROR_UNPACK := by decide
  have hnoExtra : (decide (ch.type = channel_type_t.STEREO_SECONDARY ∨ hfr_group_count ≤ 0 ∨
      version ≤ HCA_VERSION_V200) = true) ↔ ¬ readsDerivedScales ch hfr_group_count version := by
    unfold readsDerivedScales
    simp only [decide_eq_true_eq]
    constructor
    · rintro h ⟨h1, h2, h3⟩
      rcases h with h | h | h
      · exact h2 h
      · omega
      · omega
    · intro h
      by_cases a : ch.type = channel_type_t.STEREO_SECONDARY
      · exact Or.inl a
      · by_cases b : hfr_group_count ≤ 0
        · exact Or.inr (Or.inl b)
        · by_cases c : version ≤ HCA_VERSION_V200
          · exact Or.inr (Or.inr c)
          · exact absurd ⟨by omega, a, by omega⟩ h
  have hsum : uint (ch.coded_count + hfr_group_count) = ch.coded_count + hfr_group_count := by
    unfold uint
    simp only [Nat.reducePow] at hcoded hhfr ⊢
    omega
  refine ⟨?_, ?_, ?_⟩
  · unfold unpack_scalefactors scaleCount
    by_cases hx : readsDerivedScales ch hfr_group_count version
    · have hd : decide (ch.type = channel_type_t.STEREO_SECONDARY ∨ hfr_group_count ≤ 0 ∨
          version ≤ HCA_VERSION_V200) = false := by
        rw [← Bool.not_eq_true, hnoExtra]; exact not_not.mpr hx
      simp only [hd, hx, if_true, hsum, Bool.false_eq_true, if_false, not_false_eq_true,
        true_and, HCA_SAMPLES_PER_SUBFRAME]
      by_cases hbig : ch.coded_count + hfr_group_count > 128
      · simp [hbig]
      · simp only [hbig, if_false, false_or]
        by_cases h6 : uchar (bitreader_read br 3).1 ≥ 6
        · simp only [h6, if_true]
          constructor
          · intro h; exact absurd h hne
          · rintro ⟨-, h5, -⟩; omega
        · simp only [h6, if_false]
          by_cases h0 : uchar (bitreader_read br 3).1 > 0
          · simp only [h0, if_true]
            have hiff := deltaScalefactors_fails_iff (uchar (bitreader_read br 3).1)
              (by omega) (by omega) (ch.coded_count + hfr_group_count - 1) 1
              (uchar (bitreader_read (bitreader_read br 3).2 6).1)
              (setAt ch.scalefactors 0 (uchar (bitreader_read (bitreader_read br 3).2 6).1))
              (bitreader_read (bitreader_read br 3).2 6).2
            cases hb : (deltaScalefactors (uchar (bitreader_read br 3).1)
              (uchar ((1 <<< uchar (bitreader_read br 3).1) - 1))
              (ch.coded_count + hfr_group_count - 1) 1
              (uchar (bitreader_read (bitreader_read br 3).2 6).1)
              (setAt ch.scalefactors 0 (uchar (bitreader_read (bitreader_read br 3).2 6).1))
              (bitreader_read (bitreader_read br 3).2 6).2).1 with
            | false =>
              simp only [Bool.false_eq_true, if_false, true_iff]
              exact ⟨by omega, by omega, hiff.mp hb⟩
            | true =>
              simp only [if_true]
              constructor
              · intro h; exact absurd h hne
              · rintro ⟨-, -, h⟩
                have := hiff.mpr h
                rw [hb] at this
                exact absurd this (by decide)
          · simp only [h0, if_false, if_true]
            constructor
            · intro h; exact absurd h hne
            · rintro ⟨h1, -, -⟩; omega
    · have hd : decide (ch.type = channel_type_t.STEREO_SECONDARY ∨ hfr_group_count ≤ 0 ∨
          version ≤ HCA_VERSION_V200) = true := hnoExtra.mpr hx
      simp only [hd, hx, if_true, if_false, not_true_eq_false, false_and, false_or]
      by_cases h6 : uchar (bitreader_read br 3).1 ≥ 6
      · simp only [h6, if_true]
        constructor
        · intro h; exact absurd h hne
        · rintro ⟨-, h5, -⟩; omega
      · simp only [h6, if_false]
        by_cases h0 : uchar (bitreader_read br 3).1 > 0
        · simp only [h0, if_true]
          have hiff := deltaScalefactors_fails_iff (uchar (bitreader_read br 3).1)
            (by omega) (by omega) (ch.coded_count - 1) 1
            (uchar (bitreader_read (bitreader_read br 3).2 6).1)
            (setAt ch.scalefactors 0 (uchar (bitreader_read (bitreader_read br 3).2 6).1))
            (bitreader_read (bitreader_read br 3).2 6).2
          cases hb : (deltaScalefactors (uchar (bitreader_read br 3).1)
            (uchar ((1 <<< uchar (bitreader_read br 3).1) - 1))
            (ch.coded_count - 1) 1
            (uchar (bitreader_read (bitreader_read br 3).2 6).1)
            (setAt ch.scalefactors 0 (uchar (bitreader_read (bitreader_read br 3).2 6).1))
            (bitreader_read (bitreader_read br 3).2 6).2).1 with
          | false =>
            simp only [Bool.false_eq_true, if_false, true_iff]
            exact ⟨by omega, by omega, hiff.mp hb⟩
          | true =>
            simp only [if_true]
            constructor
            · intro h; exact absurd h hne
            · rintro ⟨-, -, h⟩
              have := hiff.mpr h
              rw [hb] at this
              exact absurd this (by decide)
        · simp only [h0, if_false, if_true]
          constructor
          · intro h; exact absurd h hne
          · rintro ⟨h1, -, -⟩; omega
  · intro h
    have hcases : (unpack_scalefactors ch br hfr_group_count version).1 = HCA_ERROR_UNPACK ∨
        (unpack_scalefactors ch br hfr_group_count version).1 = HCA_RESULT_OK := by
      unfold unpack_scalefactors
      simp only
      by_cases hc : (¬ decide (ch.type = channel_type_t.STEREO_SECONDARY ∨ hfr_group_count ≤ 0 ∨
          version ≤ HCA_VERSION_V200) = true) ∧
          (if decide (ch.type = channel_type_t.STEREO_SECONDARY ∨ hfr_group_count ≤ 0 ∨
            version ≤ HCA_VERSION_V200) = true then ch.coded_count
            else uint (ch.coded_count + if decide (ch.type = channel_type_t.STEREO_SECONDARY ∨
              hfr_group_count ≤ 0 ∨ version ≤ HCA_VERSION_V200) = true then 0
              else hfr_group_count)) > HCA_SAMPLES_PER_SUBFRAME
      · rw [if_pos hc]; exact Or.inl rfl
      · rw [if_neg hc]
        generalize (if uchar (bitreader_read br 3).1 ≥ 6 then _ else _ :
          Bool × (Nat → Nat) × clData) = body
        cases hb : body.1 with
        | true => rw [if_pos rfl]; exact Or.inr rfl
        | false => rw [if_neg (by decide)]; exact Or.inl rfl
    rcases hcases with h' | h'
    · exact absurd h' h
    · exact h'
  · intro delta_bits v d h1 h5 h0 h63
    obtain ⟨he, hh⟩ := expected_delta_eq delta_bits h1 h5
    have hpos' : 1 ≤ 2 ^ (delta_bits - 1) := Nat.one_le_two_pow
    have hhI : ((2 ^ (delta_bits - 1) - 1 : Nat) : Int) = 2 ^ (delta_bits - 1) - 1 := by
      rw [Nat.cast_sub hpos']; simp
    have htest : scalefactorTest v d (uchar ((1 <<< delta_bits) - 1))
        = (v : Int) + d - (2 ^ (delta_bits - 1) - 1) := by
      unfold scalefactorTest
      rw [hh, hhI]
      ring
    rw [← htest]
    exact differentialValue_eq v d _ (by rw [htest]; exact h0) (by rw [htest]; omega)

/-- The theorem of C16 on a discrete channel of four coded coefficients and the
bytes `40 00 00 00` (`delta_bits` 2, first value 0, then the delta 0, which
gives `0 + 0 - 1`): the call returns `HCA_ERROR_UNPACK`. -/
theorem unpack_scalefactors_error_iff_witness :
    (zeroChannel channel_type_t.DISCRETE 4).coded_count < 2 ^ 17 ∧ (0 : Nat) < 2 ^ 16 ∧
    (unpack_scalefactors (zeroChannel channel_type_t.DISCRETE 4) deltaReader 0 0x300).1
      = HCA_ERROR_UNPACK :=
  ⟨by decide, by decide,
    (unpack_scalefactors_error_iff (zeroChannel channel_type_t.DISCRETE 4) deltaReader 0 0x300
      (by decide) (by decide)).1.mpr
      (Or.inr ⟨by decide!, by decide!, by
        have h1 : uchar (bitreader_read deltaReader 3).1 = 2 := by decide!
        have h2 : scaleCount (zeroChannel channel_type_t.DISCRETE 4) 0 0x300 - 1 = 3 := by decide!
        have h3 : uchar (bitreader_read (bitreader_read deltaReader 3).2 6).1 = 0 := by decide!
        have h4 : uchar (bitreader_read (bitreader_read (bitreader_read deltaReader 3).2 6).2
            ((2 : Nat) : Int)).1 = 0 := by decide!
        rw [h1, h2, h3]
        unfold deltaOutOfRange
        rw [h4]
        norm_num⟩)⟩

theorem resolutionLoop_resolution (scalefactors ath_curve : Nat → Nat)
    (packed_noise_level min_resolution max_resolution : Nat) :
    ∀ (count i : Nat) (s : ResolutionState) (j : Nat),
      (resolutionLoop scalefactors ath_curve packed_noise_level min_resolution max_resolution
          count i s).resolution j
        = if i ≤ j ∧ j < i + count then
            newResolution (uchar (scalefactors j)) (uchar (ath_curve j)) packed_noise_level j
              min_resolution max_resolution
          else s.resolution j := by
  intro count
  induction count with
  | zero =>
    intro i s j
    have : ¬ (i ≤ j ∧ j < i + 0) := by omega
    rw [resolutionLoop, if_neg this]
  | succ count ih =>
    intro i s j
    rw [resolutionLoop, ih]
    by_cases h1 : i + 1 ≤ j ∧ j < i + 1 + count
    · have h2 : i ≤ j ∧ j < i + (count + 1) := by omega
      rw [if_pos h1, if_pos h2]
    · rw [if_neg h1]
      by_cases h3 : j = i
      · subst h3
        have h2 : j ≤ j ∧ j < j + (count + 1) := by omega
        rw [if_pos h2]
        simp [setAt]
      · have h2 : ¬ (i ≤ j ∧ j < i + (count + 1)) := by omega
        rw [if_neg h2]
        simp only [setAt, if_neg h3]
        split <;> [split; skip] <;> rfl

theorem newResolution_clamped (scalefactor athByte packed_noise_level i min_resolution
    max_resolution : Nat) (hsf : scalefactor > 0) (hmm : min_resolution ≤ max_resolution)
    (hmax : max_resolution ≤ 15) :
    min_resolution ≤ newResolution scalefactor athByte packed_noise_level i min_resolution
        max_resolution ∧
      newResolution scalefactor athByte packed_noise_level i min_resolution max_resolution
        ≤ max_resolution := by
  have hu : uchar max_resolution = max_resolution := by
    unfold uchar; simp only [Nat.reducePow]; omega
  have hu' : uchar min_resolution = min_resolution := by
    unfold uchar; simp only [Nat.reducePow]; omega
  unfold newResolution
  rw [if_pos hsf]
  simp only [hu, hu']
  split_ifs <;> omega

/-- C18 as stated fails on a channel with one coded coefficient whose
scalefactor is 0: with `min_resolution = 1` and `max_resolution = 15`,
`calculate_resolution` leaves `resolution[0] = 0`, below `min_resolution`. -/
theorem calculate_resolution_below_min :
    (1 : Nat) ≤ 15 ∧ (15 : Nat) ≤ 15 ∧ 0 < (zeroChannel channel_type_t.DISCRETE 1).coded_count ∧
    (calculate_resolution (zeroChannel channel_type_t.DISCRETE 1) 0 (fun _ => 0) 1 15).resolution 0
      = 0 ∧
    ¬ (1 ≤ (calculate_resolution (zeroChannel channel_type_t.DISCRETE 1) 0 (fun _ => 0) 1
      15).resolution 0) := by
  refine ⟨by decide, by decide, by decide, ?_, ?_⟩ <;> decide!

/-- C18 as amended: after `calculate_resolution` with
`min_resolution <= max_resolution <= 15`, the resolution of every coded
coefficient (index `i < coded_count`) whose scalefactor is not 0 lies in
`[min_resolution, max_resolution]`, and the resolution of a coded coefficient
whose scalefactor is 0 is 0. -/
theorem calculate_resolution_in_range (ch : stChannel) (packed_noise_level : Nat)
    (ath_curve : Nat → Nat) (min_resolution max_resolution : Nat)
    (hmm : min_resolution ≤ max_resolution) (hmax : max_resolution ≤ 15)
    (i : Nat) (hi : i < ch.coded_count) :
    (uchar (ch.scalefactors i) > 0 →
      min_resolution ≤ (calculate_resolution ch packed_noise_level ath_curve min_resolution
          max_resolution).resolution i ∧
        (calculate_resolution ch packed_noise_level ath_curve min_resolution
          max_resolution).resolution i ≤ max_resolution) ∧
    (uchar (ch.scalefactors i) = 0 →
      (calculate_resolution ch packed_noise_level ath_curve min_resolution
        max_resolution).resolution i = 0) := by
  have hres : (calculate_resolution ch packed_noise_level ath_curve min_resolution
      max_resolution).resolution i
      = newResolution (uchar (ch.scalefactors i)) (uchar (ath_curve i)) packed_noise_level i
          min_resolution max_resolution := by
    unfold calculate_resolution
    simp only
    rw [if_neg (by omega), resolutionLoop_resolution, if_pos (by omega)]
  rw [hres]
  constructor
  · intro hsf
    exact newResolution_clamped _ _ _ _ _ _ hsf hmm hmax
  · intro hsf
    unfold newResolution
    rw [if_neg (by omega)]

/-- The theorem of C18 on a channel of four coded coefficients with the
scalefactors 0, 10, 40 and 63. -/
theorem calculate_resolution_in_range_witness :
    (1 : Nat) ≤ 15 ∧ (15 : Nat) ≤ 15 ∧
    (1 ≤ (calculate_resolution
        { zeroChannel channel_type_t.DISCRETE 4 with
          scalefactors := fun i => [0, 10, 40, 63].getD i 0 }
        25600 (fun _ => 0) 1 15).resolution 2 ∧
      (calculate_resolution
        { zeroChannel channel_type_t.DISCRETE 4 with
          scalefactors := fun i => [0, 10, 40, 63].getD i 0 }
        25600 (fun _ => 0) 1 15).resolution 2 ≤ 15) :=
  ⟨by decide, by decide,
    (calculate_resolution_in_range
      { zeroChannel channel_type_t.DISCRETE 4 with
        scalefactors := fun i => [0, 10, 40, 63].getD i 0 }
      25600 (fun _ => 0) 1 15 (by decide) (by decide) 2 (by decide)).1 (by decide)⟩

end Vgmstream

namespace CHcaDecoder.Pipeline

open Vgmstream

/-! ## Decoding of one block -/

theorem unpack_scalefactors_imdct_previous (ch : stChannel) (br : clData)
    (hfr_group_count version : Nat) :
    (unpack_scalefactors ch br hfr_group_count version).2.1.imdct_previous
      = ch.imdct_previous := by
  unfold unpack_scalefactors
  simp only
  split_ifs <;> rfl

theorem unpack_intensity_imdct_previous (ch : stChannel) (br : clData)
    (hfr_group_count version : Nat) :
    (unpack_intensity ch br hfr_group_count version).2.1.imdct_previous
      = ch.imdct_previous := by
  unfold unpack_intensity
  simp only
  split_ifs <;> rfl

theorem unpackChannels_imdct_previous (info : BlockInfo) (c : Collaborators)
    (hcaInfoVersion packed_noise_level : Nat) :
    ∀ (channels : List stChannel) (br : clData),
      (unpackChannels info c hcaInfoVersion packed_noise_level channels br).channels.map
          (fun ch => ch.imdct_previous)
        = channels.map (fun ch => ch.imdct_previous) := by
  intro channels
  induction channels with
  | nil => intro br; rfl
  | cons ch rest ih =>
    intro br
    unfold unpackChannels
    simp only
    split_ifs
    · simp only [List.map_cons, unpack_scalefactors_imdct_previous]
    · simp only [List.map_cons, ih, calculate_gain, calculate_resolution,
        unpack_intensity_imdct_previous, unpack_scalefactors_imdct_previous]

theorem DecodeBlock_keeps_entry (info : BlockInfo) (c : Collaborators) (i j : Nat)
    (s : DecoderState) (b : Buffer) (h : s.decodedBlocks.lookup i = some b) :
    (DecodeBlock info c j s).2.decodedBlocks.lookup i = some b := by
  unfold DecodeBlock
  split
  · exact h
  · rename_i hj
    have hij : (i == j) = false := by
      rw [beq_eq_false_iff_ne]
      intro hij
      rw [hij, hj] at h
      exact Option.noConfusion h
    simp only
    split_ifs <;> first
      | exact h
      | (simp only [List.lookup_cons, hij]; exact h)

theorem afterDecodes_keeps_entry (info : BlockInfo) (c : Collaborators) (i : Nat) (b : Buffer) :
    ∀ (later : List Nat) (s : DecoderState), s.decodedBlocks.lookup i = some b →
      (afterDecodes info c later s).decodedBlocks.lookup i = some b := by
  intro later
  induction later with
  | nil => intro s h; exact h
  | cons j rest ih =>
    intro s h
    exact ih _ (DecodeBlock_keeps_entry info c i j s b h)

theorem DecodeBlock_ok_cached (info : BlockInfo) (c : Collaborators) (i : Nat)
    (s : DecoderState) (b : Buffer) (h : (DecodeBlock info c i s).1 = .ok b) :
    (DecodeBlock info c i s).2.decodedBlocks.lookup i = some b := by
  unfold DecodeBlock at h ⊢
  split at h
  · rename_i b' hb
    simp only [hb]
    injection h with h
    rw [← h]
  · rename_i hb
    simp only [hb] at h ⊢
    split_ifs at h ⊢
    simp only [List.lookup_cons, beq_self_eq_true]
    injection h with h
    rw [← h]

theorem DecodeBlock_of_cached (info : BlockInfo) (c : Collaborators) (i : Nat)
    (s : DecoderState) (b : Buffer) (h : s.decodedBlocks.lookup i = some b) :
    DecodeBlock info c i s = (.ok b, s) := by
  unfold DecodeBlock
  simp only [h]

/-- C12: once `DecodeBlock(i)` has succeeded with the bytes `b`, after any list
of further `DecodeBlock` calls a call `DecodeBlock(i)` returns `b` again and
leaves the whole decoder state as it finds it: the cache, the channels (their
`imdct_previous` included), the random seed, the block buffer and the list of
stream reads, so the stream is not read again. -/
theorem DecodeBlock_again_returns_cached (info : BlockInfo) (c : Collaborators) (i : Nat)
    (s : DecoderState) (b : Buffer) (h : (DecodeBlock info c i s).1 = .ok b)
    (later : List Nat) :
    DecodeBlock info c i (afterDecodes info c later (DecodeBlock info c i s).2)
      = (.ok b, afterDecodes info c later (DecodeBlock info c i s).2) :=
  DecodeBlock_of_cached info c i _ b
    (afterDecodes_keeps_entry info c i b later _ (DecodeBlock_ok_cached info c i s b h))

/-- The theorem of C12 on the sample block: block 0 decodes, then blocks 1, 0
and 2 are asked for, then block 0 again. -/
theorem DecodeBlock_again_returns_cached_witness :
    (DecodeBlock (sampleInfo 8) (sampleCollaborators intensityBlock false) 0 stereoState).1
      = .ok (fun _ => 0) ∧
    DecodeBlock (sampleInfo 8) (sampleCollaborators intensityBlock false) 0
        (afterDecodes (sampleInfo 8) (sampleCollaborators intensityBlock false) [1, 0, 2]
          (DecodeBlock (sampleInfo 8) (sampleCollaborators intensityBlock false) 0 stereoState).2)
      = (.ok (fun _ => 0),
        afterDecodes (sampleInfo 8) (sampleCollaborators intensityBlock false) [1, 0, 2]
          (DecodeBlock (sampleInfo 8) (sampleCollaborators intensityBlock false) 0 stereoState).2) :=
  ⟨rfl,
    DecodeBlock_again_returns_cached (sampleInfo 8) (sampleCollaborators intensityBlock false) 0
      stereoState (fun _ => 0) rfl [1, 0, 2]⟩

/-- C13 as stated fails in both directions, with a cipher that complements
every byte and a checksum that adds the bytes up.  A block of four zero bytes
has checksum 0 as read and a non-zero checksum once decrypted, and `DecodeBlock`
succeeds on it; a block of four bytes `FF` has checksum 0 once decrypted and a
non-zero checksum as read, and `DecodeBlock` fails on it with `checksumError`. -/
theorem DecodeBlock_checks_before_decrypting :
    ((sampleCollaborators zeroBlock true).ComputeChecksum
        ((sampleCollaborators zeroBlock true).Decrypt zeroBlock) 4 ≠ 0 ∧
      (DecodeBlock (sampleInfo 4) (sampleCollaborators zeroBlock true) 0 stereoState).1.isOk
        = true) ∧
    ((sampleCollaborators onesBlock true).ComputeChecksum
        ((sampleCollaborators onesBlock true).Decrypt onesBlock) 4 = 0 ∧
      (DecodeBlock (sampleInfo 4) (sampleCollaborators onesBlock true) 0 stereoState).1
        = .error .checksumError) := by
  refine ⟨⟨by decide!, by decide!⟩, by decide!, rfl⟩

/-- C13 as amended: `DecodeBlock` validates the checksum over the block buffer
as the stream delivered it, before decryption: it fails with `checksumError` if
and only if the block is not in the cache, the stream delivered a whole block
and the checksum of the block as read is not 0; so whether it fails with
`checksumError` does not depend on the cipher. -/
theorem DecodeBlock_checksumError_iff (info : BlockInfo) (c : Collaborators) (blockIndex : Nat)
    (s : DecoderState) :
    ((DecodeBlock info c blockIndex s).1 = .error .checksumError ↔
      s.decodedBlocks.lookup blockIndex = none ∧
      ¬ (c.streamRead (u32 (info.dataOffset + u32 (info.blockSize * blockIndex)))
          info.blockSize).length < info.blockSize ∧
      c.ComputeChecksum
        (c.streamRead (u32 (info.dataOffset + u32 (info.blockSize * blockIndex))) info.blockSize)
        info.blockSize ≠ 0) ∧
    ∀ Decrypt : List Nat → List Nat,
      ((DecodeBlock info { c with Decrypt := Decrypt } blockIndex s).1 = .error .checksumError ↔
        (DecodeBlock info c blockIndex s).1 = .error .checksumError) := by
  have key : ∀ c : Collaborators,
      ((DecodeBlock info c blockIndex s).1 = .error .checksumError ↔
        s.decodedBlocks.lookup blockIndex = none ∧
        ¬ (c.streamRead (u32 (info.dataOffset + u32 (info.blockSize * blockIndex)))
            info.blockSize).length < info.blockSize ∧
        c.ComputeChecksum
          (c.streamRead (u32 (info.dataOffset + u32 (info.blockSize * blockIndex)))
            info.blockSize)
          info.blockSize ≠ 0) := by
    intro c
    unfold DecodeBlock
    split
    · rename_i b hb
      simp only [hb]
      constructor
      · intro h; exact Except.noConfusion h
      · intro h; exact Option.noConfusion h.1
    · rename_i hb
      simp only []
      by_cases h1 : (c.streamRead (u32 (info.dataOffset + u32 (info.blockSize * blockIndex)))
          info.blockSize).length < info.blockSize
      · rw [if_pos h1]
        constructor
        · intro h; simp at h
        · intro h; exact absurd h1 h.2.1
      · rw [if_neg h1]
        by_cases h2 : c.ComputeChecksum
            (c.streamRead (u32 (info.dataOffset + u32 (info.blockSize * blockIndex)))
              info.blockSize)
            info.blockSize ≠ 0
        · rw [if_pos h2]
          exact ⟨fun _ => ⟨hb, h1, h2⟩, fun _ => rfl⟩
        · rw [if_neg h2]
          constructor
          · intro h; split_ifs at h <;> simp at h
          · intro h; exact absurd h.2.2 h2
  refine ⟨key c, ?_⟩
  intro Decrypt
  rw [key c, key { c with Decrypt := Decrypt }]

/-- C14: when `DecodeBlock` fails, whatever the failure, the cache is as it was
(no entry is added for the block), the random seed is as it was and the
`imdct_previous` buffer of every channel is as it was; and when `Read` fails,
the stream position is the one before the call. -/
theorem DecodeBlock_failure_leaves_state (info : BlockInfo) (c : Collaborators)
    (blockIndex : Nat) (s : DecoderState) (d : Decoder) (bufferNull : Bool)
    (bufferSize offset count : Nat) (st : State) :
    ((DecodeBlock info c blockIndex s).1.isOk = false →
      (DecodeBlock info c blockIndex s).2.decodedBlocks = s.decodedBlocks ∧
      (DecodeBlock info c blockIndex s).2.random = s.random ∧
      (DecodeBlock info c blockIndex s).2.channels.map (fun ch => ch.imdct_previous)
        = s.channels.map (fun ch => ch.imdct_previous)) ∧
    ((Read d bufferNull bufferSize offset count st).1.isOk = false →
      (Read d bufferNull bufferSize offset count st).2.position = st.position) := by
  constructor
  · unfold DecodeBlock
    split
    · intro h; exact absurd h (by simp [Except.isOk, Except.toBool])
    · simp only
      split_ifs <;> intro h <;> first
        | exact ⟨rfl, rfl, rfl⟩
        | exact ⟨rfl, rfl, unpackChannels_imdct_previous _ _ _ _ _ _⟩
        | exact absurd h (by simp [Except.isOk, Except.toBool])
  · unfold Read
    simp only []
    repeat' split
    all_goals first
      | (intro _; rfl)
      | (intro h; exact absurd h (by simp [Except.isOk, Except.toBool]))

/-- The theorem of C14 on a block of four zero bytes, which fails the sync
word test, and on a `Read` of 16 bytes from a stream whose blocks do not
decode. -/
theorem DecodeBlock_failure_leaves_state_witness :
    (DecodeBlock (sampleInfo 4) (sampleCollaborators zeroBlock false) 0 stereoState).1.isOk
      = false ∧
    (DecodeBlock (sampleInfo 4) (sampleCollaborators zeroBlock false) 0
      stereoState).2.decodedBlocks = stereoState.decodedBlocks ∧
    (Read brokenStream false 16 0 16 initialState).1.isOk = false ∧
    (Read brokenStream false 16 0 16 initialState).2.position = initialState.position :=
  ⟨by decide!,
    ((DecodeBlock_failure_leaves_state (sampleInfo 4) (sampleCollaborators zeroBlock false) 0
      stereoState brokenStream false 16 0 16 initialState).1 (by decide!)).1,
    by decide!,
    (DecodeBlock_failure_leaves_state (sampleInfo 4) (sampleCollaborators zeroBlock false) 0
      stereoState brokenStream false 16 0 16 initialState).2 (by decide!)⟩

/-- C15 fails on a stereo pair whose block carries a malformed intensity delta
for the secondary channel: `unpack_intensity` returns `HCA_ERROR_UNPACK` for that
channel, and `DecodeBlock` nevertheless succeeds and puts the block in the
cache. -/
theorem DecodeBlock_ignores_intensity_error :
    (unpackChannels (sampleInfo 8) (sampleCollaborators intensityBlock false) 0x300
        (frameValues intensityBlock 8).1 stereoState.channels
        (frameValues intensityBlock 8).2).intensityResults
      = [HCA_RESULT_OK, HCA_ERROR_UNPACK] ∧
    (DecodeBlock (sampleInfo 8) (sampleCollaborators intensityBlock false) 0 stereoState).1.isOk
      = true ∧
    (DecodeBlock (sampleInfo 8) (sampleCollaborators intensityBlock false) 0
      stereoState).2.decodedBlocks.map Prod.fst = [0] := by
  refine ⟨?_, ?_, ?_⟩ <;> decide!

end CHcaDecoder.Pipeline

namespace Vgmstream

/-! ## ATH curve -/

theorem ath_init1Loop_spec (sample_rate : Nat) (hsr : sample_rate ≤ 8388607) :
    ∀ (count i acc : Nat) (ath_curve : Nat → Nat) (reads : List Nat),
      i + count = 128 → acc = i * sample_rate → (∀ j ∈ reads, j < 654) →
      (∀ j, j < 128 →
        (ath_init1Loop sample_rate count i acc ath_curve reads).1 j
          = if j < i then ath_curve j
            else if ((j + 1) * sample_rate) >>> 13 < 654 then
              ath_base_curve.getD (((j + 1) * sample_rate) >>> 13) 0
            else 0xFF) ∧
      (∀ j ∈ (ath_init1Loop sample_rate count i acc ath_curve reads).2, j < 654) := by
  intro count
  induction count with
  | zero =>
    intro i acc ath_curve reads hi _ hreads
    refine ⟨?_, hreads⟩
    intro j hj
    have : j < i := by omega
    simp only [ath_init1Loop, if_pos this]
  | succ count ih =>
    intro i acc ath_curve reads hi hacc hreads
    have hmul : i * sample_rate ≤ 127 * 8388607 := Nat.mul_le_mul (by omega) hsr
    have hacc' : uint (acc + sample_rate) = (i + 1) * sample_rate := by
      unfold uint
      rw [hacc, Nat.add_mul, Nat.one_mul]
      simp only [Nat.reducePow]
      omega
    rw [ath_init1Loop]
    simp only [hacc']
    by_cases hidx : ((i + 1) * sample_rate) >>> 13 ≥ 654
    · rw [if_pos hidx]
      refine ⟨?_, hreads⟩
      intro j hj
      have hu : usub HCA_SAMPLES_PER_SUBFRAME i = 128 - i := by
        unfold usub HCA_SAMPLES_PER_SUBFRAME
        simp only [Nat.reducePow]
        omega
      simp only [memsetAt, hu]
      by_cases hji : j < i
      · rw [if_neg (by omega), if_pos hji]
      · rw [if_pos (by omega), if_neg hji]
        have hmono : ((i + 1) * sample_rate) >>> 13 ≤ ((j + 1) * sample_rate) >>> 13 := by
          rw [Nat.shiftRight_eq_div_pow, Nat.shiftRight_eq_div_pow]
          exact Nat.div_le_div_right (Nat.mul_le_mul_right _ (by omega))
        rw [if_neg (by omega)]
    · rw [if_neg hidx]
      have hreads' : ∀ j ∈ reads ++ [((i + 1) * sample_rate) >>> 13], j < 654 := by
        intro j hj
        rcases List.mem_append.mp hj with h | h
        · exact hreads j h
        · rw [List.mem_singleton] at h
          omega
      obtain ⟨h1, h2⟩ := ih (i + 1) ((i + 1) * sample_rate)
        (setAt ath_curve i (ath_base_curve.getD (((i + 1) * sample_rate) >>> 13) 0))
        (reads ++ [((i + 1) * sample_rate) >>> 13]) (by omega) rfl hreads'
      refine ⟨?_, h2⟩
      intro j hj
      rw [h1 j hj]
      by_cases hji : j < i
      · rw [if_pos (by omega), if_pos hji, setAt, if_neg (by omega)]
      · rw [if_neg hji]
        by_cases hje : j = i
        · subst hje
          rw [if_pos (by omega), setAt, if_pos rfl, if_pos (by omega)]
        · rw [if_neg (by omega)]

theorem ath_init1_entry (ath_curve : Nat → Nat) (sample_rate : Nat)
    (hmax : sample_rate ≤ 8388607) (i : Nat) (hi : i < 128) :
    (ath_init ath_curve 1 sample_rate).2 i
      = if ((i + 1) * sample_rate) >>> 13 < 654 then
          ath_base_curve.getD (((i + 1) * sample_rate) >>> 13) 0
        else 0xFF := by
  have h1 := (ath_init1Loop_spec sample_rate hmax 128 0 0 ath_curve [] (by omega)
    (by omega) (by intro j hj; cases hj)).1
  have : (ath_init ath_curve 1 sample_rate).2 i = (ath_init1 ath_curve sample_rate).1 i := rfl
  rw [this]
  unfold ath_init1 HCA_SAMPLES_PER_SUBFRAME
  rw [h1 i hi, if_neg (by omega)]

/-- C21: for `athType` 1 and every sample rate up to 8388607, so every one in
`1 .. 8388607`, entry `i` (below 128) of the curve `ath_init` leaves is
`ath_base_curve[((i + 1) * sampleRate) >> 13]` when that index is below 654 and `0xFF`
otherwise, and every index at which the base curve, of 656 entries, is read is
below 654. -/
theorem ath_init1_entries (ath_curve : Nat → Nat) (sample_rate : Nat)
    (hmax : sample_rate ≤ 8388607) :
    (ath_init ath_curve 1 sample_rate).1 = HCA_RESULT_OK ∧
    (∀ i, i < 128 →
      (ath_init ath_curve 1 sample_rate).2 i
        = if ((i + 1) * sample_rate) >>> 13 < 654 then
            ath_base_curve.getD (((i + 1) * sample_rate) >>> 13) 0
          else 0xFF) ∧
    (∀ j ∈ (ath_init1 ath_curve sample_rate).2, j < 654) ∧
    ath_base_curve.length = 656 :=
  ⟨rfl, ath_init1_entry ath_curve sample_rate hmax,
    (ath_init1Loop_spec sample_rate hmax 128 0 0 ath_curve [] (by omega)
      (by omega) (by intro j hj; cases hj)).2,
    by decide!⟩

/-- The theorem of C21 at 44100 Hz: entry 0 is `ath_base_curve[5]` and entry 127
is `0xFF`. -/
theorem ath_init1_entries_witness :
    (1 ≤ 44100 ∧ 44100 ≤ 8388607) ∧
    (ath_init (fun _ => 0) 1 44100).2 0 = 0x4C ∧
    (ath_init (fun _ => 0) 1 44100).2 127 = 0xFF :=
  ⟨by decide,
    ((ath_init1_entries (fun _ => 0) 44100 (by decide)).2.1 0 (by decide)).trans
      (by decide!),
    ((ath_init1_entries (fun _ => 0) 44100 (by decide)).2.1 127 (by decide)).trans
      (by decide!)⟩

/-- C22: for `athType` 0 and every sample rate `ath_init` returns `HCA_RESULT_OK`
and leaves the 128 entries of the curve 0; for every `athType` other than 0 and 1
it returns `HCA_ERROR_HEADER` and leaves the curve as it was. -/
theorem ath_init_type0_and_unknown (ath_curve : Nat → Nat) (type : Int) (sample_rate : Nat) :
    ((ath_init ath_curve 0 sample_rate).1 = HCA_RESULT_OK ∧
      ∀ i, i < 128 → (ath_init ath_curve 0 sample_rate).2 i = 0) ∧
    (type ≠ 0 → type ≠ 1 →
      ath_init ath_curve type sample_rate = (HCA_ERROR_HEADER, ath_curve)) := by
  refine ⟨⟨rfl, ?_⟩, ?_⟩
  · intro i hi
    have : (ath_init ath_curve 0 sample_rate).2 i = ath_init0 ath_curve i := rfl
    rw [this]
    unfold ath_init0 memsetAt HCA_SAMPLES_PER_SUBFRAME
    rw [if_pos (by omega)]
  · intro h0 h1
    unfold ath_init
    rw [if_neg h0, if_neg h1]

/-- The theorem of C22 on `athType` 2 at 44100 Hz, with a curve of entries 9. -/
theorem ath_init_type0_and_unknown_witness :
    (2 : Int) ≠ 0 ∧ (2 : Int) ≠ 1 ∧
    (ath_init (fun _ => 9) 2 44100).1 = HCA_ERROR_HEADER ∧
    (ath_init (fun _ => 9) 2 44100).2 5 = 9 :=
  ⟨by decide, by decide,
    congrArg Prod.fst
      ((ath_init_type0_and_unknown (fun _ => 9) 2 44100).2 (by decide) (by decide)),
    congrFun (congrArg Prod.snd
      ((ath_init_type0_and_unknown (fun _ => 9) 2 44100).2 (by decide) (by decide))) 5⟩

/-- C23 as stated fails: at 41856 Hz entry 0 of the curve is
`ath_base_curve[41856 >> 13] = ath_base_curve[5] = 0x4C`, not
`ath_base_curve[0] = 0x78`, so no `N >= 1` has entry `i` equal to `ath_base_curve[i]`
for every `i < N`. -/
theorem ath_init1_reference_rate_resamples :
    (ath_init (fun _ => 0) 1 41856).2 0 = 0x4C ∧
    ath_base_curve.getD 0 0 = 0x78 ∧
    ¬ ∃ N, 1 ≤ N ∧
      ∀ i, i < N → (ath_init (fun _ => 0) 1 41856).2 i = ath_base_curve.getD i 0 := by
  have h0 : (ath_init (fun _ => 0) 1 41856).2 0 = 0x4C := by decide!
  have hb : ath_base_curve.getD 0 0 = 0x78 := by decide!
  refine ⟨h0, hb, ?_⟩
  rintro ⟨N, hN, h⟩
  have := h 0 (by omega)
  rw [h0, hb] at this
  exact absurd this (by decide)

/-- C23 as amended: for `athType` 1 at 41856 Hz, whatever the curve held before,
entry `i` of the curve is `ath_base_curve[((i + 1) * 41856) >> 13]`, that is
`ath_base_curve[(327 * (i + 1)) / 64]`, for every `i < 127`, a step of about 5.1
entries of the base curve for each entry, and entry 127, whose index would be
654, is `0xFF`. -/
theorem ath_init1_reference_rate (ath_curve : Nat → Nat) :
    (∀ i, i < 127 →
      (ath_init ath_curve 1 41856).2 i = ath_base_curve.getD (((i + 1) * 41856) >>> 13) 0 ∧
      ((i + 1) * 41856) >>> 13 = (327 * (i + 1)) / 64) ∧
    (ath_init ath_curve 1 41856).2 127 = 0xFF ∧ (128 * 41856) >>> 13 = 654 := by
  have key := ath_init1_entry ath_curve 41856 (by decide)
  refine ⟨?_, ?_, by decide⟩
  · intro i hi
    have hidx : ((i + 1) * 41856) >>> 13 = (327 * (i + 1)) / 64 := by
      rw [Nat.shiftRight_eq_div_pow]
      simp only [Nat.reducePow]
      omega
    refine ⟨?_, hidx⟩
    rw [key i (by omega), if_pos]
    rw [hidx]
    omega
  · rw [key 127 (by decide), if_neg (by decide)]

end Vgmstream

namespace Vgmstream

/-! ## Dequantization -/

theorem bitreader_peek_zero (br : clData) : bitreader_peek br 0 = 0 := by
  unfold bitreader_peek
  have h0 : toUnsigned 0 = 0 := by decide
  have hr : toUnsigned br.bit &&& 7 < 8 :=
    Nat.lt_of_le_of_lt Nat.and_le_right (by decide)
  have hoff : uint (0 + (toUnsigned br.bit &&& 7)) = toUnsigned br.bit &&& 7 := by
    unfold uint
    simp only [Nat.reducePow]
    omega
  simp only [h0, hoff]
  by_cases h1 : uint (toUnsigned br.bit + 0) ≤ toUnsigned br.size
  · rw [if_neg (not_not.mpr h1), if_neg (by omega), if_neg (by omega), if_neg (by omega),
      shr_eq _ (toUnsigned br.bit &&& 7) 0 8 (by decide) (by omega) (Or.inr (by decide))]
    apply Nat.div_eq_of_lt
    rw [mask8_getD (toUnsigned br.bit &&& 7) hr]
    have hle : byteAt br.data (toUnsigned br.bit >>> 3) &&& (2 ^ (8 - (toUnsigned br.bit &&& 7)) - 1)
        ≤ 2 ^ (8 - (toUnsigned br.bit &&& 7)) - 1 := Nat.and_le_right
    have hp : 0 < 2 ^ (8 - (toUnsigned br.bit &&& 7)) := Nat.two_pow_pos _
    rw [Nat.sub_zero]
    omega
  · rw [if_pos h1]

theorem signed_code_eq (code : Nat) (h : code < 4294967296) :
    toInt32 (uint (usub 1 (uint ((code &&& 1) <<< 1)) * (code >>> 1)))
      = if code % 2 = 1 then -((code >>> 1 : Nat) : Int) else ((code >>> 1 : Nat) : Int) := by
  have hand : code &&& 1 = code % 2 := Nat.and_one_is_mod code
  have hshr : code >>> 1 = code / 2 := by
    rw [Nat.shiftRight_eq_div_pow]
  rw [hand, hshr]
  rcases Nat.mod_two_eq_zero_or_one code with h0 | h1
  · rw [h0, if_neg (by decide)]
    have : usub 1 (uint (0 <<< 1)) = 1 := by decide
    rw [this, Nat.one_mul]
    unfold uint toInt32
    simp only [Nat.reducePow]
    omega
  · rw [h1, if_pos rfl]
    have : usub 1 (uint (1 <<< 1)) = 4294967295 := by decide
    rw [this]
    unfold uint toInt32
    simp only [Nat.reducePow]
    omega

theorem bitreader_peek_lt (br : clData) (bitsize : Int) :
    bitreader_peek br bitsize < 4294967296 := by
  have hr : toUnsigned br.bit &&& 7 < 8 :=
    Nat.lt_of_le_of_lt Nat.and_le_right (by decide)
  have h8 := mask8_getD _ hr
  have h16 := mask16_getD _ hr
  have h24 := mask24_getD _ hr
  have h32 := mask32_getD _ hr
  have hp8 : 2 ^ (8 - (toUnsigned br.bit &&& 7)) ≤ 2 ^ 32 :=
    Nat.pow_le_pow_right (by decide) (by omega)
  have hp16 : 2 ^ (16 - (toUnsigned br.bit &&& 7)) ≤ 2 ^ 32 :=
    Nat.pow_le_pow_right (by decide) (by omega)
  have hp24 : 2 ^ (24 - (toUnsigned br.bit &&& 7)) ≤ 2 ^ 32 :=
    Nat.pow_le_pow_right (by decide) (by omega)
  have hp32 : 2 ^ (32 - (toUnsigned br.bit &&& 7)) ≤ 2 ^ 32 :=
    Nat.pow_le_pow_right (by decide) (by omega)
  have hpos8 : 0 < 2 ^ (8 - (toUnsigned br.bit &&& 7)) := Nat.two_pow_pos _
  have hpos16 : 0 < 2 ^ (16 - (toUnsigned br.bit &&& 7)) := Nat.two_pow_pos _
  have hpos24 : 0 < 2 ^ (24 - (toUnsigned br.bit &&& 7)) := Nat.two_pow_pos _
  have hpos32 : 0 < 2 ^ (32 - (toUnsigned br.bit &&& 7)) := Nat.two_pow_pos _
  have key : ∀ v m c : Nat, m < 4294967296 → shr (v &&& m) c < 4294967296 := by
    intro v m c hm
    unfold shr
    rw [Nat.shiftRight_eq_div_pow]
    exact Nat.lt_of_le_of_lt (Nat.div_le_self _ _)
      (Nat.lt_of_le_of_lt Nat.and_le_right hm)
  simp only [Nat.reducePow] at hp8 hp16 hp24 hp32
  have hm8 : mask8.getD (toUnsigned br.bit &&& 7) 0 < 4294967296 := by omega
  have hm16 : mask16.getD (toUnsigned br.bit &&& 7) 0 < 4294967296 := by omega
  have hm24 : mask24.getD (toUnsigned br.bit &&& 7) 0 < 4294967296 := by omega
  have hm32 : mask32.getD (toUnsigned br.bit &&& 7) 0 < 4294967296 := by omega
  unfold bitreader_peek
  simp only []
  split_ifs <;> first
    | decide
    | exact key _ _ _ hm8
    | exact key _ _ _ hm16
    | exact key _ _ _ hm24
    | exact key _ _ _ hm32

theorem clData_bit_eta (br : clData) : { br with bit := br.bit } = br := by
  cases br
  rfl

/-- C27: in `dequantize_coefficients`, for a coefficient of resolution `r` in
`8 .. 15` the code `c` is read with `max_bit_table[r] = r - 3` bits, the quantized
value is `c >> 1`, negated when the low bit of `c` is 1, and the cursor ends
`r - 3` bits further when `c >> 1` is not zero and `r - 4` bits further when it is
zero; for resolution 0 no bit is consumed and the value is 0.  The cursor is an
`int` that the read does not overflow. -/
theorem dequantizeCode_sign_magnitude (br : clData)
    (hbit : -2147483648 ≤ br.bit ∧ br.bit + 12 < 2147483648) :
    (∀ r : Nat, 8 ≤ r → r ≤ 15 →
      hcatbdecoder_max_bit_table.getD r 0 = r - 3 ∧
      (dequantizeCode r br).1
        = (if (bitreader_read br ((r - 3 : Nat) : Int)).1 % 2 = 1 then
            -(((bitreader_read br ((r - 3 : Nat) : Int)).1 >>> 1 : Nat) : Int)
          else (((bitreader_read br ((r - 3 : Nat) : Int)).1 >>> 1 : Nat) : Int)) ∧
      ((bitreader_read br ((r - 3 : Nat) : Int)).1 >>> 1 ≠ 0 →
        (dequantizeCode r br).2 = { br with bit := br.bit + ((r - 3 : Nat) : Int) }) ∧
      ((bitreader_read br ((r - 3 : Nat) : Int)).1 >>> 1 = 0 →
        (dequantizeCode r br).2 = { br with bit := br.bit + ((r - 4 : Nat) : Int) })) ∧
    dequantizeCode 0 br = (0, br) := by
  constructor
  · intro r h8 h15
    have hbits : hcatbdecoder_max_bit_table.getD r 0 = r - 3 := by
      interval_cases r <;> rfl
    have hub : uchar (r - 3) = r - 3 := by
      unfold uchar
      simp only [Nat.reducePow]
      omega
    have hcode : (bitreader_read br ((r - 3 : Nat) : Int)).1 < 4294967296 :=
      bitreader_peek_lt br _
    have hsc := signed_code_eq _ hcode
    have hbr : (bitreader_read br ((r - 3 : Nat) : Int)).2
        = { br with bit := br.bit + ((r - 3 : Nat) : Int) } := by
      have : toInt32 (br.bit + ((r - 3 : Nat) : Int)) = br.bit + ((r - 3 : Nat) : Int) := by
        unfold toInt32
        omega
      unfold bitreader_read
      rw [this]
    refine ⟨hbits, ?_, ?_, ?_⟩
    · unfold dequantizeCode
      simp only [hbits, hub, if_pos (show r > 7 by omega)]
      rw [hsc]
      split_ifs <;> rfl
    · intro hne
      have hnz : toInt32 (uint (usub 1 (uint (((bitreader_read br ((r - 3 : Nat) : Int)).1 &&& 1)
          <<< 1)) * ((bitreader_read br ((r - 3 : Nat) : Int)).1 >>> 1))) ≠ 0 := by
        rw [hsc]
        split_ifs <;> omega
      unfold dequantizeCode
      simp only [hbits, hub, if_pos (show r > 7 by omega), if_neg hnz]
      exact hbr
    · intro hz
      have hzz : toInt32 (uint (usub 1 (uint (((bitreader_read br ((r - 3 : Nat) : Int)).1 &&& 1)
          <<< 1)) * ((bitreader_read br ((r - 3 : Nat) : Int)).1 >>> 1))) = 0 := by
        rw [hsc, hz]
        split_ifs <;> rfl
      unfold dequantizeCode
      simp only [hbits, hub, if_pos (show r > 7 by omega), if_pos hzz, hbr]
      have : toInt32 (br.bit + ((r - 3 : Nat) : Int) + -1) = br.bit + ((r - 4 : Nat) : Int) := by
        unfold toInt32
        omega
      unfold bitreader_skip
      simp only [this]
  · have hb0 : uchar (hcatbdecoder_max_bit_table.getD 0 0) = 0 := by decide
    have hidx : toInt32 ((uint ((0 <<< 4) + 0) : Nat) : Int) = 0 := by decide
    unfold dequantizeCode
    simp only [hb0, if_neg (show ¬ 0 > 7 by decide)]
    have hread : bitreader_read br ((0 : Nat) : Int) = (0, br) := by
      unfold bitreader_read
      rw [show ((0 : Nat) : Int) = 0 from rfl, bitreader_peek_zero]
      have : toInt32 (br.bit + 0) = br.bit := by
        unfold toInt32
        omega
      rw [this, clData_bit_eta]
    rw [hread]
    simp only [hidx]
    have hskip : bitreader_skip br
        (((hcatbdecoder_read_bit_table.getD (0 : Int).toNat 0 : Nat) : Int) - ((0 : Nat) : Int))
        = br := by
      have h0 : (((hcatbdecoder_read_bit_table.getD (0 : Int).toNat 0 : Nat) : Int)
          - ((0 : Nat) : Int)) = 0 := by decide
      rw [h0]
      unfold bitreader_skip
      have : toInt32 (br.bit + 0) = br.bit := by
        unfold toInt32
        omega
      rw [this, clData_bit_eta]
    rw [hskip]
    rfl

/-- The theorem of C27 on the bytes `70 03`: at resolution 8 the five bits `01110`
give 14, the value 7, and the cursor ends at 5; at cursor 11 the five bits `00011`
give 3, the value -1; and five zero bits give the value 0 and move the cursor by
4. -/
theorem dequantizeCode_sign_magnitude_witness :
    (dequantizeCode 8 (bitreader_init (bufferOf [0x70, 0x03, 0, 0]) 4)).1 = 7 ∧
    (dequantizeCode 8 (bitreader_init (bufferOf [0x70, 0x03, 0, 0]) 4)).2
      = { bitreader_init (bufferOf [0x70, 0x03, 0, 0]) 4 with bit := 0 + ((8 - 3 : Nat) : Int) } ∧
    (dequantizeCode 8 { bitreader_init (bufferOf [0x70, 0x03, 0, 0]) 4 with bit := 11 }).1 = -1 ∧
    (dequantizeCode 8 { bitreader_init (bufferOf [0x70, 0x03, 0, 0]) 4 with bit := 16 }).2.bit
      = 20 :=
  ⟨((dequantizeCode_sign_magnitude (bitreader_init (bufferOf [0x70, 0x03, 0, 0]) 4)
      (by decide)).1 8 (by decide) (by decide)).2.1.trans (by decide!),
    ((dequantizeCode_sign_magnitude (bitreader_init (bufferOf [0x70, 0x03, 0, 0]) 4)
      (by decide)).1 8 (by decide) (by decide)).2.2.1 (by decide!),
    ((dequantizeCode_sign_magnitude
      { bitreader_init (bufferOf [0x70, 0x03, 0, 0]) 4 with bit := 11 }
      (by decide)).1 8 (by decide) (by decide)).2.1.trans (by decide!),
    congrArg clData.bit (((dequantizeCode_sign_magnitude
      { bitreader_init (bufferOf [0x70, 0x03, 0, 0]) 4 with bit := 16 }
      (by decide)).1 8 (by decide) (by decide)).2.2.2 (by decide!))⟩

end Vgmstream

namespace Vgmstream

theorem codebook_index (r c : Nat) (hr : r < 8) (hc : c < 16) :
    (toInt32 ((uint ((r <<< 4) + c) : Nat) : Int)).toNat = (r <<< 4) ||| c := by
  have key : ∀ r, r < 8 → ∀ c, c < 16 →
      (toInt32 ((uint ((r <<< 4) + c) : Nat) : Int)).toNat = (r <<< 4) ||| c := by decide!
  exact key r hr c hc

set_option synthInstance.maxSize 4096 in
set_option synthInstance.maxHeartbeats 200000 in
theorem codebook_table (r : Nat) (hr : r < 8) (h1 : 1 ≤ r) :
    hcatbdecoder_max_bit_table.getD r 0 ≤ 4 ∧
    uchar (hcatbdecoder_max_bit_table.getD r 0) = hcatbdecoder_max_bit_table.getD r 0 ∧
    ∀ c, c < 16 → c < 2 ^ hcatbdecoder_max_bit_table.getD r 0 →
      1 ≤ codeLength r c ∧ codeLength r c ≤ hcatbdecoder_max_bit_table.getD r 0 ∧
      (codeValue r c).natAbs ≤ r ∧
      ∀ c', c' < 16 → c' < 2 ^ hcatbdecoder_max_bit_table.getD r 0 →
        c' >>> (hcatbdecoder_max_bit_table.getD r 0 - codeLength r c)
          = c >>> (hcatbdecoder_max_bit_table.getD r 0 - codeLength r c) →
        codeLength r c' = codeLength r c ∧ codeValue r c' = codeValue r c := by
  have table : ∀ r, r < 8 → 1 ≤ r →
      hcatbdecoder_max_bit_table.getD r 0 ≤ 4 ∧
      uchar (hcatbdecoder_max_bit_table.getD r 0) = hcatbdecoder_max_bit_table.getD r 0 ∧
      ∀ c, c < 16 → c < 2 ^ hcatbdecoder_max_bit_table.getD r 0 →
      1 ≤ codeLength r c ∧ codeLength r c ≤ hcatbdecoder_max_bit_table.getD r 0 ∧
      (codeValue r c).natAbs ≤ r ∧
      ∀ c', c' < 16 → c' < 2 ^ hcatbdecoder_max_bit_table.getD r 0 →
        c' >>> (hcatbdecoder_max_bit_table.getD r 0 - codeLength r c)
          = c >>> (hcatbdecoder_max_bit_table.getD r 0 - codeLength r c) →
        codeLength r c' = codeLength r c ∧ codeValue r c' = codeValue r c := by
    decide!
  exact table r hr h1

/-- C28: the codebook of the low resolutions is a consistent prefix code.  For
every resolution `r` in `1 .. 7` and every code `c` below `2 ^ max_bit_table[r]`, the
length `L = read_bit_table[(r << 4) | c]` is between 1 and `max_bit_table[r]`, the
value `read_val_table[(r << 4) | c]` is at most `r` in magnitude, and every code
that agrees with `c` on its top `L` bits has the same length and the same value;
and `dequantize_coefficients`, reading such a code `c` at a cursor that does not
overflow, gives that value and ends `L` bits further. -/
theorem codebook_prefix_code (r : Nat) (h1 : 1 ≤ r) (h7 : r ≤ 7) :
    (∀ c, c < 16 → c < 2 ^ hcatbdecoder_max_bit_table.getD r 0 →
      1 ≤ codeLength r c ∧ codeLength r c ≤ hcatbdecoder_max_bit_table.getD r 0 ∧
      (codeValue r c).natAbs ≤ r ∧
      ∀ c', c' < 16 → c' < 2 ^ hcatbdecoder_max_bit_table.getD r 0 →
        c' >>> (hcatbdecoder_max_bit_table.getD r 0 - codeLength r c)
          = c >>> (hcatbdecoder_max_bit_table.getD r 0 - codeLength r c) →
        codeLength r c' = codeLength r c ∧ codeValue r c' = codeValue r c) ∧
    (∀ br : clData, -2147483648 ≤ br.bit ∧ br.bit + 4 < 2147483648 →
      (bitreader_read br (hcatbdecoder_max_bit_table.getD r 0 : Nat)).1
        < 2 ^ hcatbdecoder_max_bit_table.getD r 0 →
      dequantizeCode r br
        = (codeValue r (bitreader_read br (hcatbdecoder_max_bit_table.getD r 0 : Nat)).1,
          { br with
            bit := br.bit + (codeLength r
              (bitreader_read br (hcatbdecoder_max_bit_table.getD r 0 : Nat)).1 : Nat) })) := by
  obtain ⟨hmax, hub, htab⟩ := codebook_table r (by omega) h1
  refine ⟨htab, ?_⟩
  intro br hbit hlt
  have hc16 : (bitreader_read br (hcatbdecoder_max_bit_table.getD r 0 : Nat)).1 < 16 := by
    have : 2 ^ hcatbdecoder_max_bit_table.getD r 0 ≤ 2 ^ 4 :=
      Nat.pow_le_pow_right (by decide) hmax
    simp only [Nat.reducePow] at this
    omega
  have hlen := (htab _ hc16 hlt).2.1
  unfold dequantizeCode
  simp only [hub, if_neg (show ¬ r > 7 by omega), codebook_index r _ (by omega) hc16]
  unfold codeLength at hlen
  have hpos : toInt32 (toInt32 (br.bit + (hcatbdecoder_max_bit_table.getD r 0 : Nat))
      + (((hcatbdecoder_read_bit_table.getD
          ((r <<< 4) ||| (bitreader_read br (hcatbdecoder_max_bit_table.getD r 0 : Nat)).1) 0
          : Nat) : Int) - (hcatbdecoder_max_bit_table.getD r 0 : Nat)))
      = br.bit + (hcatbdecoder_read_bit_table.getD
          ((r <<< 4) ||| (bitreader_read br (hcatbdecoder_max_bit_table.getD r 0 : Nat)).1) 0
          : Nat) := by
    unfold toInt32
    omega
  unfold codeValue codeLength bitreader_skip
  simp only [bitreader_read] at hpos ⊢
  rw [hpos]

/-- The theorem of C28 at resolution 2 on the byte `40`: of the three bits `010`
read, the code 2, the first two are the code word, so the value is 1 and the
cursor ends at 2. -/
theorem codebook_prefix_code_witness :
    codeLength 2 2 = 2 ∧ codeValue 2 3 = codeValue 2 2 ∧
    dequantizeCode 2 (bitreader_init (bufferOf [0x40, 0, 0, 0]) 4)
      = (1, { bitreader_init (bufferOf [0x40, 0, 0, 0]) 4 with bit := 2 }) :=
  ⟨by decide!,
    (((codebook_prefix_code 2 (by decide) (by decide)).1 2 (by decide) (by decide)).2.2.2 3
      (by decide) (by decide) (by decide!)).2,
    ((codebook_prefix_code 2 (by decide) (by decide)).2
      (bitreader_init (bufferOf [0x40, 0, 0, 0]) 4) (by decide) (by decide!)).trans
      (by
        have h1 : (bitreader_read (bitreader_init (bufferOf [0x40, 0, 0, 0]) 4)
          (hcatbdecoder_max_bit_table.getD 2 0 : Nat)).1 = 2 := by decide!
        rw [h1]
        rfl)⟩

end Vgmstream

namespace Vgmstream

/-! ## Noise and valid partitions -/

theorem map_range_length {f : Nat → Nat} {n : Nat} {l : List Nat}
    (h : (List.range n).map f = l) : n = l.length := by
  rw [← h, List.length_map, List.length_range]

theorem resolutionLoop_lists (scalefactors ath_curve : Nat → Nat)
    (packed_noise_level min_resolution max_resolution : Nat) :
    ∀ (count i : Nat) (s : ResolutionState), i + count ≤ 128 →
      ListsUpTo scalefactors ath_curve packed_noise_level min_resolution max_resolution i s →
      ListsUpTo scalefactors ath_curve packed_noise_level min_resolution max_resolution
        (i + count)
        (resolutionLoop scalefactors ath_curve packed_noise_level min_resolution max_resolution
          count i s) := by
  intro count
  induction count with
  | zero =>
    intro i s _ h
    exact h
  | succ count ih =>
    intro i s hi h
    rw [resolutionLoop, show i + (count + 1) = (i + 1) + count by omega]
    have hui : uchar i = i := by
      unfold uchar
      simp only [Nat.reducePow]
      omega
    have hnc := map_range_length h.noise
    have hvc := map_range_length h.valid
    have hb := h.bound
    apply ih (i + 1) _ (by omega)
    by_cases hsf : uchar (scalefactors i) > 0
    · by_cases hres : newResolution (uchar (scalefactors i)) (uchar (ath_curve i)) packed_noise_level i min_resolution max_resolution < 1
      · have hN : noiseCoefficient scalefactors ath_curve packed_noise_level min_resolution
            max_resolution i = true := by
          unfold noiseCoefficient
          exact decide_eq_true ⟨hsf, hres⟩
        have hV : validCoefficient scalefactors ath_curve packed_noise_level min_resolution
            max_resolution i = false := by
          unfold validCoefficient
          exact decide_eq_false (fun h => h.2 hres)
        have hu : uint (s.noise_count + 1) = s.noise_count + 1 := by
          unfold uint
          simp only [Nat.reducePow]
          omega
        simp only [hsf, hres, if_true, hui, hu]
        refine ⟨?_, ?_, ?_⟩
        · simp only [List.range_succ, List.map_append, List.filter_append, List.map_cons,
            List.map_nil, List.filter_cons, List.filter_nil, hN, if_true]
          congr 1
          · rw [← h.noise]
            apply List.map_congr_left
            intro k hk
            rw [List.mem_range] at hk
            simp only [setAt, if_neg (show ¬ k = s.noise_count by omega)]
          · simp only [setAt, if_true]
        · simp only [List.range_succ, List.filter_append, List.filter_cons, List.filter_nil,
            hV, Bool.false_eq_true, if_false, List.append_nil]
          rw [← h.valid]
          apply List.map_congr_left
          intro k hk
          rw [List.mem_range] at hk
          simp only [setAt, if_neg (show ¬ 127 - k = s.noise_count by omega)]
        · show s.noise_count + 1 + s.valid_count ≤ i + 1
          omega
      · have hN : noiseCoefficient scalefactors ath_curve packed_noise_level min_resolution
            max_resolution i = false := by
          unfold noiseCoefficient
          exact decide_eq_false (fun h => hres h.2)
        have hV : validCoefficient scalefactors ath_curve packed_noise_level min_resolution
            max_resolution i = true := by
          unfold validCoefficient
          exact decide_eq_true ⟨hsf, hres⟩
        have hu : uint (s.valid_count + 1) = s.valid_count + 1 := by
          unfold uint
          simp only [Nat.reducePow]
          omega
        have hus : usub (HCA_SAMPLES_PER_SUBFRAME - 1) s.valid_count = 127 - s.valid_count := by
          unfold usub HCA_SAMPLES_PER_SUBFRAME
          simp only [Nat.reducePow]
          omega
        simp only [hsf, hres, if_true, if_false, hui, hu, hus]
        refine ⟨?_, ?_, ?_⟩
        · simp only [List.range_succ, List.filter_append, List.filter_cons, List.filter_nil,
            hN, Bool.false_eq_true, if_false, List.append_nil]
          rw [← h.noise]
          apply List.map_congr_left
          intro k hk
          rw [List.mem_range] at hk
          simp only [setAt, if_neg (show ¬ k = 127 - s.valid_count by omega)]
        · simp only [List.range_succ, List.map_append, List.filter_append, List.map_cons,
            List.map_nil, List.filter_cons, List.filter_nil, hV, if_true]
          congr 1
          · rw [← h.valid]
            apply List.map_congr_left
            intro k hk
            rw [List.mem_range] at hk
            simp only [setAt, if_neg (show ¬ 127 - k = 127 - s.valid_count by omega)]
          · simp only [setAt, if_true]
        · show s.noise_count + (s.valid_count + 1) ≤ i + 1
          omega
    · have hN : noiseCoefficient scalefactors ath_curve packed_noise_level min_resolution
          max_resolution i = false := by
        unfold noiseCoefficient
        exact decide_eq_false (fun h => hsf h.1)
      have hV : validCoefficient scalefactors ath_curve packed_noise_level min_resolution
          max_resolution i = false := by
        unfold validCoefficient
        exact decide_eq_false (fun h => hsf h.1)
      simp only [hsf, if_false]
      refine ⟨?_, ?_, ?_⟩
      · simp only [List.range_succ, List.filter_append, List.filter_cons, List.filter_nil,
          hN, Bool.false_eq_true, if_false, List.append_nil]
        exact h.noise
      · simp only [List.range_succ, List.filter_append, List.filter_cons, List.filter_nil,
          hV, Bool.false_eq_true, if_false, List.append_nil]
        exact h.valid
      · show s.noise_count + s.valid_count ≤ i + 1
        omega

end Vgmstream

namespace Vgmstream

theorem calculate_resolution_coded (ch : stChannel) (packed_noise_level : Nat)
    (ath_curve : Nat → Nat) (min_resolution max_resolution i : Nat) (hi : i < ch.coded_count) :
    (calculate_resolution ch packed_noise_level ath_curve min_resolution max_resolution).resolution i
      = newResolution (uchar (ch.scalefactors i)) (uchar (ath_curve i)) packed_noise_level i
          min_resolution max_resolution := by
  unfold calculate_resolution
  simp only
  rw [if_neg (by omega), resolutionLoop_resolution, if_pos (by omega)]

theorem filter_split_length (p q r : Nat → Bool) (l : List Nat)
    (h : ∀ x, (p x = true ∧ q x = false ∧ r x = true) ∨ (p x = false ∧ q x = true ∧ r x = true)
      ∨ (p x = false ∧ q x = false ∧ r x = false)) :
    (l.filter p).length + (l.filter q).length = (l.filter r).length := by
  induction l with
  | nil => rfl
  | cons x l ih =>
    rcases h x with ⟨h1, h2, h3⟩ | ⟨h1, h2, h3⟩ | ⟨h1, h2, h3⟩ <;>
      simp only [List.filter_cons, h1, h2, h3, if_true, Bool.false_eq_true, if_false,
        List.length_cons] <;> omega

/-- C29: after `calculate_resolution` on a channel with `coded_count <= 128`,
`noise_count + valid_count` is the number of indices below `coded_count` whose
scalefactor is not 0; `noises[0 .. noise_count)` is the increasing list of those of
them whose resolution is 0; `noises[127 - k]` for `k = 0 .. valid_count - 1` is the
increasing list of those whose resolution is at least 1; and the two regions of
`noises` do not overlap. -/
theorem calculate_resolution_lists (ch : stChannel) (packed_noise_level : Nat)
    (ath_curve : Nat → Nat) (min_resolution max_resolution : Nat)
    (hcount : ch.coded_count ≤ 128) :
    (calculate_resolution ch packed_noise_level ath_curve min_resolution max_resolution).noise_count
      + (calculate_resolution ch packed_noise_level ath_curve min_resolution
          max_resolution).valid_count
      = ((List.range ch.coded_count).filter
          fun i => decide (uchar (ch.scalefactors i) > 0)).length ∧
    (List.range (calculate_resolution ch packed_noise_level ath_curve min_resolution
        max_resolution).noise_count).map
        (calculate_resolution ch packed_noise_level ath_curve min_resolution
          max_resolution).noises
      = ((List.range ch.coded_count).filter fun i =>
          decide (uchar (ch.scalefactors i) > 0 ∧
            (calculate_resolution ch packed_noise_level ath_curve min_resolution
              max_resolution).resolution i = 0)) ∧
    (List.range (calculate_resolution ch packed_noise_level ath_curve min_resolution
        max_resolution).valid_count).map
        (fun k => (calculate_resolution ch packed_noise_level ath_curve min_resolution
          max_resolution).noises (127 - k))
      = ((List.range ch.coded_count).filter fun i =>
          decide (uchar (ch.scalefactors i) > 0 ∧
            (calculate_resolution ch packed_noise_level ath_curve min_resolution
              max_resolution).resolution i ≥ 1)) ∧
    ((List.range ch.coded_count).filter fun i =>
      decide (uchar (ch.scalefactors i) > 0 ∧
        (calculate_resolution ch packed_noise_level ath_curve min_resolution
          max_resolution).resolution i = 0)).Pairwise (· < ·) ∧
    ((List.range ch.coded_count).filter fun i =>
      decide (uchar (ch.scalefactors i) > 0 ∧
        (calculate_resolution ch packed_noise_level ath_curve min_resolution
          max_resolution).resolution i ≥ 1)).Pairwise (· < ·) ∧
    ∀ i k,
      i < (calculate_resolution ch packed_noise_level ath_curve min_resolution
        max_resolution).noise_count →
      k < (calculate_resolution ch packed_noise_level ath_curve min_resolution
        max_resolution).valid_count →
      i < 127 - k := by
  have hinit : ListsUpTo ch.scalefactors ath_curve packed_noise_level min_resolution
      max_resolution 0
      { resolution := ch.resolution, noises := ch.noises, noise_count := 0, valid_count := 0 } :=
    ⟨rfl, rfl, Nat.le_refl 0⟩
  have hl := resolutionLoop_lists ch.scalefactors ath_curve packed_noise_level min_resolution
    max_resolution ch.coded_count 0 _ (by omega) hinit
  rw [Nat.zero_add] at hl
  have hnc := map_range_length hl.noise
  have hvc := map_range_length hl.valid
  have hN : ((List.range ch.coded_count).filter fun i =>
      decide (uchar (ch.scalefactors i) > 0 ∧
        (calculate_resolution ch packed_noise_level ath_curve min_resolution
          max_resolution).resolution i = 0))
      = (List.range ch.coded_count).filter
          (noiseCoefficient ch.scalefactors ath_curve packed_noise_level min_resolution
            max_resolution) := by
    apply List.filter_congr
    intro i hi
    rw [List.mem_range] at hi
    unfold noiseCoefficient
    rw [calculate_resolution_coded ch _ _ _ _ i hi]
    congr 1
    apply propext
    constructor
    · rintro ⟨h1, h2⟩; exact ⟨h1, by omega⟩
    · rintro ⟨h1, h2⟩; exact ⟨h1, by omega⟩
  have hV : ((List.range ch.coded_count).filter fun i =>
      decide (uchar (ch.scalefactors i) > 0 ∧
        (calculate_resolution ch packed_noise_level ath_curve min_resolution
          max_resolution).resolution i ≥ 1))
      = (List.range ch.coded_count).filter
          (validCoefficient ch.scalefactors ath_curve packed_noise_level min_resolution
            max_resolution) := by
    apply List.filter_congr
    intro i hi
    rw [List.mem_range] at hi
    unfold validCoefficient
    rw [calculate_resolution_coded ch _ _ _ _ i hi]
    congr 1
    apply propext
    constructor
    · rintro ⟨h1, h2⟩; exact ⟨h1, by omega⟩
    · rintro ⟨h1, h2⟩; exact ⟨h1, by omega⟩
  rw [hN, hV]
  refine ⟨?_, hl.noise, hl.valid, ?_, ?_, ?_⟩
  · show _ + _ = _
    have := filter_split_length
      (noiseCoefficient ch.scalefactors ath_curve packed_noise_level min_resolution
        max_resolution)
      (validCoefficient ch.scalefactors ath_curve packed_noise_level min_resolution
        max_resolution)
      (fun i => decide (uchar (ch.scalefactors i) > 0)) (List.range ch.coded_count)
      (by
        intro x
        unfold noiseCoefficient validCoefficient
        by_cases h1 : uchar (ch.scalefactors x) > 0
        · by_cases h2 : newResolution (uchar (ch.scalefactors x)) (uchar (ath_curve x)) packed_noise_level x min_resolution max_resolution < 1
          · left
            simp [h1, h2]
          · right; left
            simp [h1, h2]
        · right; right
          simp [h1])
    rw [← this]
    exact congrArg₂ (· + ·) hnc hvc
  · exact List.Pairwise.filter _ (List.pairwise_lt_range _)
  · exact List.Pairwise.filter _ (List.pairwise_lt_range _)
  · intro i k hi hk
    have hb := hl.bound
    have hi' : i < (resolutionLoop ch.scalefactors ath_curve packed_noise_level min_resolution
        max_resolution ch.coded_count 0
        { resolution := ch.resolution, noises := ch.noises, noise_count := 0,
          valid_count := 0 }).noise_count := hi
    have hk' : k < (resolutionLoop ch.scalefactors ath_curve packed_noise_level min_resolution
        max_resolution ch.coded_count 0
        { resolution := ch.resolution, noises := ch.noises, noise_count := 0,
          valid_count := 0 }).valid_count := hk
    omega

end Vgmstream

namespace Vgmstream

/-- The theorem of C29 on a channel with the scalefactors 0, 10, 40, 63, 1 and
30: the noise list is 1, 4 and the valid list 2, 3, 5. -/
theorem calculate_resolution_lists_witness :
    mixedChannel.coded_count ≤ 128 ∧
    (List.range (calculate_resolution mixedChannel 25600 (fun _ => 0) 0 15).noise_count).map
        (calculate_resolution mixedChannel 25600 (fun _ => 0) 0 15).noises = [1, 4] ∧
    (List.range (calculate_resolution mixedChannel 25600 (fun _ => 0) 0 15).valid_count).map
        (fun k => (calculate_resolution mixedChannel 25600 (fun _ => 0) 0 15).noises (127 - k))
      = [2, 3, 5] :=
  ⟨by decide,
    (calculate_resolution_lists mixedChannel 25600 (fun _ => 0) 0 15 (by decide)).2.1.trans
      (by decide!),
    (calculate_resolution_lists mixedChannel 25600 (fun _ => 0) 0 15 (by decide)).2.2.1.trans
      (by decide!)⟩

/-! ## Noise reconstruction -/

theorem forLoop_succ {σ : Type} (body : Nat → σ → σ) (count i : Nat) (s : σ) :
    forLoop body (count + 1) i s = forLoop body count (i + 1) (body i s) := rfl

theorem noiseLoop_succ (fmul : Nat → Nat → Nat) (ch : stChannel) (subframe : Nat)
    (count i : Nat) (spectra : Nat → Nat → Nat) (random : Nat) :
    noiseLoop fmul ch subframe (count + 1) i spectra random
      = noiseLoop fmul ch subframe count (i + 1)
          (noiseStep fmul ch subframe i spectra random).1
          (noiseStep fmul ch subframe i spectra random).2 := by
  unfold noiseLoop
  rw [forLoop_succ]

theorem noiseStep_random (fmul : Nat → Nat → Nat) (ch : stChannel) (subframe i : Nat)
    (spectra : Nat → Nat → Nat) (random : Nat) :
    (noiseStep fmul ch subframe i spectra random).2 = nextRandom random := by
  unfold noiseStep
  simp only []

theorem noiseStep_spectra (fmul : Nat → Nat → Nat) (ch : stChannel) (subframe i : Nat)
    (spectra : Nat → Nat → Nat) (random t j : Nat)
    (h : ¬ (t = subframe ∧ j = uchar (ch.noises i))) :
    (noiseStep fmul ch subframe i spectra random).1 t j = spectra t j := by
  unfold noiseStep
  simp only [setAt2]
  rw [if_neg h]

theorem noiseLoop_effect (fmul : Nat → Nat → Nat) (ch : stChannel) (subframe : Nat) :
    ∀ (count i : Nat) (spectra : Nat → Nat → Nat) (random : Nat),
      (noiseLoop fmul ch subframe count i spectra random).2 = nextRandom^[count] random ∧
      ∀ t j, (t ≠ subframe ∨ ∀ k, i ≤ k → k < i + count → j ≠ uchar (ch.noises k)) →
        (noiseLoop fmul ch subframe count i spectra random).1 t j = spectra t j := by
  intro count
  induction count with
  | zero =>
    intro i spectra random
    exact ⟨rfl, fun _ _ _ => rfl⟩
  | succ count ih =>
    intro i spectra random
    rw [noiseLoop_succ]
    obtain ⟨h1, h2⟩ := ih (i + 1) (noiseStep fmul ch subframe i spectra random).1
      (noiseStep fmul ch subframe i spectra random).2
    refine ⟨?_, ?_⟩
    · rw [h1, noiseStep_random, Function.iterate_succ_apply]
    · intro t j hj
      rw [h2 t j, noiseStep_spectra]
      · rintro ⟨ht, hji⟩
        rcases hj with hj | hj
        · exact hj ht
        · exact hj i (Nat.le_refl i) (by omega) hji
      · rcases hj with hj | hj
        · exact Or.inl hj
        · exact Or.inr (fun k hk1 hk2 => hj k (by omega) (by omega))

/-- C30: `reconstruct_noise` changes nothing, neither the channel nor the random
state, when `min_resolution > 0`, when `valid_count = 0`, when `noise_count = 0`, or
when `ms_stereo` is set and the channel is not stereo primary.  Otherwise the
random state after the call is the step `x -> (0x343FD * x + 0x269EC3) mod 2 ^ 32`
applied `noise_count` times to the state before the call, nothing but `spectra`
changes, and when the `noise_count` listed noise indices are coefficient indices
(below 128), every entry of `spectra` other than those of the given subframe at
the listed noise indices keeps its value. -/
theorem reconstruct_noise_effect (fmul : Nat → Nat → Nat) (ch : stChannel)
    (min_resolution ms_stereo random subframe : Nat) :
    ((min_resolution > 0 ∨ ch.valid_count = 0 ∨ ch.noise_count = 0 ∨
        (ms_stereo ≠ 0 ∧ ch.type ≠ channel_type_t.STEREO_PRIMARY)) →
      reconstruct_noise fmul ch min_resolution ms_stereo random subframe = (ch, random)) ∧
    (¬ (min_resolution > 0 ∨ ch.valid_count = 0 ∨ ch.noise_count = 0 ∨
        (ms_stereo ≠ 0 ∧ ch.type ≠ channel_type_t.STEREO_PRIMARY)) →
      (reconstruct_noise fmul ch min_resolution ms_stereo random subframe).2
        = nextRandom^[ch.noise_count] random ∧
      (reconstruct_noise fmul ch min_resolution ms_stereo random subframe).1
        = { ch with
            spectra :=
              (reconstruct_noise fmul ch min_resolution ms_stereo random subframe).1.spectra } ∧
      ((∀ i, i < ch.noise_count → uchar (ch.noises i) < 128) →
        ∀ t j, (t ≠ subframe ∨ ∀ i, i < ch.noise_count → j ≠ uchar (ch.noises i)) →
          (reconstruct_noise fmul ch min_resolution ms_stereo random subframe).1.spectra t j
            = ch.spectra t j)) ∧
    ∀ x, nextRandom x = (0x343FD * x + 0x269EC3) % 2 ^ 32 := by
  refine ⟨?_, ?_, fun _ => rfl⟩
  · intro h
    unfold reconstruct_noise
    by_cases h1 : min_resolution > 0
    · rw [if_pos h1]
    · rw [if_neg h1]
      by_cases h2 : ch.valid_count ≤ 0 ∨ ch.noise_count ≤ 0
      · rw [if_pos h2]
      · rw [if_neg h2]
        have h3 : ¬ (ms_stereo = 0 ∨ ch.type = channel_type_t.STEREO_PRIMARY) := by
          rcases h with h | h | h | h
          · exact absurd h h1
          · exact absurd (Or.inl (by omega)) h2
          · exact absurd (Or.inr (by omega)) h2
          · rintro (h' | h')
            · exact h.1 h'
            · exact h.2 h'
        rw [if_pos h3]
  · intro h
    have h1 : ¬ min_resolution > 0 := fun h' => h (Or.inl h')
    have h2 : ¬ (ch.valid_count ≤ 0 ∨ ch.noise_count ≤ 0) := by
      rintro (h' | h')
      · exact h (Or.inr (Or.inl (by omega)))
      · exact h (Or.inr (Or.inr (Or.inl (by omega))))
    have h3 : ¬ ¬ (ms_stereo = 0 ∨ ch.type = channel_type_t.STEREO_PRIMARY) := by
      intro h'
      apply h
      right; right; right
      exact ⟨fun h0 => h' (Or.inl h0), fun hp => h' (Or.inr hp)⟩
    obtain ⟨hr, hs⟩ := noiseLoop_effect fmul ch subframe ch.noise_count 0 ch.spectra random
    unfold reconstruct_noise
    rw [if_neg h1, if_neg h2, if_neg h3]
    refine ⟨hr, rfl, ?_⟩
    intro _ t j hj
    apply hs t j
    rcases hj with hj | hj
    · exact Or.inl hj
    · exact Or.inr (fun k _ hk => hj k (by omega))

/-- The theorem of C30 on a channel with the noise list 1, 4 and the valid list
2, 3, 5, from the random state 1: the state after the call is two steps further,
and the entry `spectra[0][2]` keeps its value. -/
theorem reconstruct_noise_effect_witness :
    ¬ ((0 : Nat) > 0 ∨ resolvedChannel.valid_count = 0 ∨ resolvedChannel.noise_count = 0 ∨
        ((0 : Nat) ≠ 0 ∧ resolvedChannel.type ≠ channel_type_t.STEREO_PRIMARY)) ∧
    (reconstruct_noise (fun _ b => b) resolvedChannel 0 0 1 0).2 = nextRandom (nextRandom 1) ∧
    (reconstruct_noise (fun _ b => b) resolvedChannel 0 0 1 0).1.spectra 0 2
      = resolvedChannel.spectra 0 2 :=
  ⟨by decide!,
    ((reconstruct_noise_effect (fun _ b => b) resolvedChannel 0 0 1 0).2.1 (by decide!)).1.trans
      (by
        have h : resolvedChannel.noise_count = 2 := by decide!
        rw [h]
        rfl),
    ((reconstruct_noise_effect (fun _ b => b) resolvedChannel 0 0 1 0).2.1 (by decide!)).2.2
      (by decide!) 0 2 (Or.inr (by decide!))⟩

end Vgmstream

namespace Vgmstream

/-! ## Packed noise level -/

theorem frameValues_packedNoiseLevel (block : List Nat) (blockSize : Nat) :
    (CHcaDecoder.Pipeline.frameValues block blockSize).1
      = packedNoiseLevel
          (bitreader_read (bitreader_read (bitreader_init (bufferOf block) blockSize) 16).2 9).1
          (bitreader_read (bitreader_read
            (bitreader_read (bitreader_init (bufferOf block) blockSize) 16).2 9).2 7).1 :=
  rfl

theorem newResolution_noiseTerm (scalefactor athByte packed_noise_level i min_resolution
    max_resolution : Nat) (h : scalefactor > 0) :
    newResolution scalefactor athByte packed_noise_level i min_resolution max_resolution
      = newResolution scalefactor (athByte + noiseTerm packed_noise_level i) 0 0 min_resolution
          max_resolution := by
  have h0 : uint (0 + 0) >>> 8 = 0 := by decide
  unfold newResolution noiseTerm
  simp only [if_pos h, h0, Nat.add_zero]

theorem packedNoiseLevel_eq (n e : Nat) (hn : n ≤ 511) (he : e ≤ 127) :
    packedNoiseLevel n e = if e ≤ 256 * n then 256 * n - e else 4294967296 + 256 * n - e := by
  unfold packedNoiseLevel usub uint
  rw [Nat.shiftLeft_eq]
  simp only [Nat.reducePow]
  split_ifs <;> omega

/-- C25 as stated fails for the noise level 0 with an evaluation boundary above
the index: for `n = 0`, `e = 1` and `i = 0` the packed noise level is the
`unsigned int` `4294967295` and the noise term is `16777215`, where the signed
reading gives `-1`; for a scalefactor 1 and a zero ATH entry
`calculate_resolution` then takes the curve position `16777215 + 1 - 2`, above the
table, and gives the new resolution 0. -/
theorem noiseTerm_wraps_below_zero :
    (0 : Nat) ≤ 511 ∧ (1 : Nat) ≤ 127 ∧ (0 : Nat) < 128 ∧
    packedNoiseLevel 0 1 = 4294967295 ∧
    noiseTerm (packedNoiseLevel 0 1) 0 = 16777215 ∧
    signedNoiseTerm 0 1 0 = -1 ∧
    ((noiseTerm (packedNoiseLevel 0 1) 0 : Nat) : Int) ≠ signedNoiseTerm 0 1 0 ∧
    newResolution 1 0 (packedNoiseLevel 0 1) 0 0 15 = 0 := by
  refine ⟨by decide, by decide, by decide, ?_, ?_, ?_, ?_, ?_⟩ <;> decide!

/-- C25 as amended: for every noise level `n` in `0 .. 511`, evaluation boundary `e`
in `0 .. 127` and index `i < 128`, the packed noise level is `256 * n - e` reduced
modulo `2 ^ 32`, an `unsigned int`; the noise term `calculate_resolution` adds to
`ath_curve[i]` is the floor of `(256 * n - e + i) / 256` whenever `256 * n - e + i` is
not negative, which is so for every `n >= 1` and for every `i >= e`, and it is
`16777215` (`2 ^ 24 - 1`) when `256 * n - e + i` is negative, that is when `n = 0` and
`i < e`. -/
theorem noiseTerm_unsigned (n e i : Nat) (hn : n ≤ 511) (he : e ≤ 127) (hi : i < 128) :
    ((packedNoiseLevel n e : Nat) : Int) = (256 * (n : Int) - e) % 4294967296 ∧
    (0 ≤ 256 * (n : Int) - e + i →
      ((noiseTerm (packedNoiseLevel n e) i : Nat) : Int) = signedNoiseTerm n e i) ∧
    (256 * (n : Int) - e + i < 0 →
      n = 0 ∧ i < e ∧ noiseTerm (packedNoiseLevel n e) i = 16777215) ∧
    (1 ≤ n ∨ e ≤ i → 0 ≤ 256 * (n : Int) - e + i) := by
  have hp := packedNoiseLevel_eq n e hn he
  have hterm : noiseTerm (packedNoiseLevel n e) i = (packedNoiseLevel n e + i) % 4294967296 / 256 := by
    unfold noiseTerm uint
    rw [Nat.shiftRight_eq_div_pow]
    rfl
  refine ⟨?_, ?_, ?_, ?_⟩
  · rw [hp]
    split_ifs <;> omega
  · intro h
    unfold signedNoiseTerm
    rw [hterm, hp]
    split_ifs <;> omega
  · intro h
    refine ⟨by omega, by omega, ?_⟩
    rw [hterm, hp]
    split_ifs <;> omega
  · intro h
    omega

/-- The theorem of C25 for `n = 100`, `e = 127` and `i = 5`: the noise term is 99. -/
theorem noiseTerm_unsigned_witness :
    (100 : Nat) ≤ 511 ∧ (127 : Nat) ≤ 127 ∧ (5 : Nat) < 128 ∧
    ((noiseTerm (packedNoiseLevel 100 127) 5 : Nat) : Int) = signedNoiseTerm 100 127 5 ∧
    signedNoiseTerm 100 127 5 = 99 :=
  ⟨by decide, by decide, by decide,
    (noiseTerm_unsigned 100 127 5 (by decide) (by decide) (by decide)).2.1 (by decide),
    by decide!⟩

end Vgmstream

namespace CHcaDecoder

/-- C24 fails whenever the header has a loop.  On a stream of two blocks whose
first block is the loop region, with the header on, looping on and
`loopCount = 2`, `GetLength() - GetWaveHeaderSize()` is `6256 - 112 = 6144` and the
data size is 4096, whatever the initial loop values of `wavSmpl`; on a stream of
two blocks that are both the loop region, with looping off and `loopCount = 1`,
`GetLength() - GetWaveHeaderSize()` is `4208 - 112 = 4096` and the data size is
6144. -/
theorem wavDataSize_differs_from_length :
    (loopFirstBlockTwiceWithHeader.decoderConfig.waveHeaderEnabled = true ∧
      loopFirstBlockTwiceWithHeader.decoderConfig.loopCount = 2 ∧
      (GetLength loopFirstBlockTwiceWithHeader).toOption = some 6256 ∧
      GetWaveHeaderSize loopFirstBlockTwiceWithHeader = 112 ∧
      ∀ smplLoopStart smplLoopEnd,
        wavDataSize loopFirstBlockTwiceWithHeader 0 smplLoopStart smplLoopEnd = 4096) ∧
    (loopOffWithHeader.decoderConfig.waveHeaderEnabled = true ∧
      loopOffWithHeader.decoderConfig.loopCount = 1 ∧
      (GetLength loopOffWithHeader).toOption = some 4208 ∧
      GetWaveHeaderSize loopOffWithHeader = 112 ∧
      ∀ smplLoopStart smplLoopEnd,
        wavDataSize loopOffWithHeader 0 smplLoopStart smplLoopEnd = 6144) := by
  refine ⟨⟨by decide!, by decide!, by decide!, by decide!, ?_⟩,
    ⟨by decide!, by decide!, by decide!, by decide!, ?_⟩⟩
  · intro a b
    have h : loopFirstBlockTwiceWithHeader.hcaInfo.loopExists = true := by decide!
    unfold wavDataSize
    simp only [h, if_true]
    decide!
  · intro a b
    have h : loopOffWithHeader.hcaInfo.loopExists = true := by decide!
    unfold wavDataSize
    simp only [h, if_true]
    decide!

end CHcaDecoder

namespace Vgmstream

/-! ## Reads with 32 bits left -/

theorem bitsValue_lt (data : Nat → Nat) (c : Nat) : ∀ n, bitsValue data c n < 2 ^ n := by
  intro n
  induction n with
  | zero => simp [bitsValue]
  | succ n ih =>
    have hb := bitAt_lt data (c + n)
    rw [bitsValue, Nat.pow_succ]
    omega

/-- C35: on a buffer of `byteSize` bytes, at a cursor `c` with at least 32 bits
left and for a bit count `n` with `c mod 8 + n <= 32`, `bitreader_peek(n)` returns the
unsigned integer whose binary digits are the bits `c .. c + n - 1` of the buffer,
most significant bit first, a value below `2 ^ n`; and each of the four branches
of the function whose bytes hold the `c mod 8 + n` bits (the branch of 4 bytes is
never entered with `c mod 8 + n = 0`) computes that same value from the bytes it
loads.  The function returns the value only: it does not write the reader. -/
theorem bitreader_peek_with_32_bits_left (data : Nat → Nat) (byteSize c n : Nat)
    (hsize : 8 * byteSize < 2 ^ 31) (hleft : 32 ≤ 8 * byteSize - c) (hn : c % 8 + n ≤ 32) :
    bitreader_peek { bitreader_init data byteSize with bit := c } n = bitsValue data c n ∧
    bitsValue data c n < 2 ^ n ∧
    (c % 8 + n ≤ 8 →
      shr (byteAt data (c / 8) &&& mask8.getD (c % 8) 0) (usub (usub 8 (c % 8)) n)
        = bitsValue data c n) ∧
    (c % 8 + n ≤ 16 →
      shr (pushByte (byteAt data (c / 8)) data (c / 8 + 1) &&& mask16.getD (c % 8) 0)
          (usub (usub 16 (c % 8)) n)
        = bitsValue data c n) ∧
    (c % 8 + n ≤ 24 →
      shr (pushByte (pushByte (byteAt data (c / 8)) data (c / 8 + 1)) data (c / 8 + 2)
            &&& mask24.getD (c % 8) 0)
          (usub (usub 24 (c % 8)) n)
        = bitsValue data c n) ∧
    (0 < c % 8 + n →
      shr (pushByte (pushByte (pushByte (byteAt data (c / 8)) data (c / 8 + 1)) data (c / 8 + 2))
              data (c / 8 + 3)
            &&& mask32.getD (c % 8) 0)
          (usub (usub 32 (c % 8)) n)
        = bitsValue data c n) := by
  have hsize' : 8 * byteSize < 2147483648 := by simpa using hsize
  have hs : toInt32 ((byteSize : Int) * 8) = ((8 * byteSize : Nat) : Int) := by
    unfold toInt32
    omega
  have hr8 : c % 8 < 8 := Nat.mod_lt _ (by decide)
  have hcq : 8 * (c / 8) + c % 8 = c := by omega
  refine ⟨?_, bitsValue_lt data c n, ?_, ?_, ?_, ?_⟩
  · unfold bitreader_init
    simp only [hs]
    exact bitreader_peek_window data byteSize c n hsize (by omega) (Or.inr ⟨hn, by omega⟩)
  · intro h
    rw [word1, mask8_getD _ hr8, Nat.and_pow_two_sub_one_eq_mod,
      shr_eq _ (c % 8) n 8 (by decide) h (Or.inr (by decide)),
      window_value data (c / 8) (c % 8) n 8 h, hcq]
  · intro h
    rw [word2, mask16_getD _ hr8, Nat.and_pow_two_sub_one_eq_mod,
      shr_eq _ (c % 8) n 16 (by decide) h (Or.inr (by decide)),
      window_value data (c / 8) (c % 8) n 16 h, hcq]
  · intro h
    rw [word3, mask24_getD _ hr8, Nat.and_pow_two_sub_one_eq_mod,
      shr_eq _ (c % 8) n 24 (by decide) h (Or.inr (by decide)),
      window_value data (c / 8) (c % 8) n 24 h, hcq]
  · intro h
    rw [word4, mask32_getD _ hr8, Nat.and_pow_two_sub_one_eq_mod,
      shr_eq _ (c % 8) n 32 (by decide) hn (Or.inl h),
      window_value data (c / 8) (c % 8) n 32 hn, hcq]

/-- The theorem of C35 on the bytes `AB CD EF 12 34 56`: 25 bits from cursor 5,
with 43 bits left, are `0x0F37BC4`. -/
theorem bitreader_peek_with_32_bits_left_witness :
    8 * 6 < 2 ^ 31 ∧ 32 ≤ 8 * 6 - 5 ∧ 5 % 8 + 25 ≤ 32 ∧
    bitreader_peek
        { bitreader_init (bufferOf [0xAB, 0xCD, 0xEF, 0x12, 0x34, 0x56]) (6 : Nat) with
          bit := (5 : Nat) } (25 : Nat)
      = bitsValue (bufferOf [0xAB, 0xCD, 0xEF, 0x12, 0x34, 0x56]) 5 25 ∧
    bitsValue (bufferOf [0xAB, 0xCD, 0xEF, 0x12, 0x34, 0x56]) 5 25 = 0x0F37BC4 :=
  ⟨by decide, by decide, by decide,
    (bitreader_peek_with_32_bits_left (bufferOf [0xAB, 0xCD, 0xEF, 0x12, 0x34, 0x56]) 6 5 25
      (by decide) (by decide) (by decide)).1,
    by decide!⟩

end Vgmstream

namespace Vgmstream

/-! ## Bytes the reader loads -/

theorem bitreader_peek_of_loads (br : clData) (bitsize : Int) (data : Nat → Nat)
    (h : ∀ i, i ∈ bitreader_peek_loads br bitsize → data i = br.data i) :
    bitreader_peek { br with data := data } bitsize = bitreader_peek br bitsize := by
  unfold bitreader_peek_loads at h
  unfold bitreader_peek
  simp only [] at h ⊢
  split_ifs at h ⊢ <;>
    first
    | rfl
    | (simp only [List.mem_cons, List.mem_singleton, List.not_mem_nil, or_false,
        forall_eq_or_imp, forall_eq] at h
       first
       | simp only [byteAt, pushByte, h.1, h.2.1, h.2.2.1, h.2.2.2]
       | simp only [byteAt, pushByte, h.1, h.2.1, h.2.2]
       | simp only [byteAt, pushByte, h.1, h.2]
       | simp only [byteAt, h])

/-- C34 fails at one point: on a buffer of `byteSize` bytes, with the cursor `c` in
`0 .. 8 * byteSize` and a bit count `n` in `0 .. 32`, every byte `bitreader_peek` loads has
an index below `byteSize` unless `c = 8 * byteSize` and `n = 0`; there the test
`bit + bitsize <= size` passes and the function loads `data[byteSize]`, the byte after
the buffer. -/
theorem bitreader_peek_loads_in_buffer (data : Nat → Nat) (byteSize c n : Nat)
    (hsize : 8 * byteSize < 2 ^ 31) (hc : c ≤ 8 * byteSize) (hn : n ≤ 32) :
    ((∀ i, i ∈ bitreader_peek_loads { bitreader_init data byteSize with bit := c } n →
        i < byteSize) ↔ ¬ (c = 8 * byteSize ∧ n = 0)) ∧
    (c = 8 * byteSize → n = 0 →
      bitreader_peek_loads { bitreader_init data byteSize with bit := c } n = [byteSize]) := by
  have hsize' : 8 * byteSize < 2147483648 := by simpa using hsize
  have hs : toInt32 ((byteSize : Int) * 8) = ((8 * byteSize : Nat) : Int) := by
    unfold toInt32
    omega
  have hc' : toUnsigned ((c : Nat) : Int) = c := toUnsigned_natCast c (by omega)
  have hn' : toUnsigned ((n : Nat) : Int) = n := toUnsigned_natCast n (by omega)
  have hs' : toUnsigned ((8 * byteSize : Nat) : Int) = 8 * byteSize :=
    toUnsigned_natCast _ (by omega)
  have hrem : c &&& 7 = c % 8 := Nat.and_pow_two_sub_one_eq_mod c 3
  have hq : c >>> 3 = c / 8 := Nat.shiftRight_eq_div_pow c 3
  have hsum : uint (c + n) = c + n := by
    unfold uint; simp only [Nat.reducePow]; omega
  have hoff : uint (n + c % 8) = n + c % 8 := by
    unfold uint; simp only [Nat.reducePow]; omega
  have hleft : usub (8 * byteSize) c = 8 * byteSize - c := by
    unfold usub; simp only [Nat.reducePow]; omega
  unfold bitreader_peek_loads bitreader_init
  simp only [hs, hc', hn', hs', hrem, hq, hsum, hoff, hleft]
  refine ⟨?_, ?_⟩
  · split_ifs <;>
      simp only [List.mem_cons, List.mem_singleton, List.not_mem_nil, or_false,
        forall_eq_or_imp, forall_eq, false_imp_iff, implies_true, true_iff] <;>
      omega
  · intro h1 h2
    subst h2
    split_ifs <;>
      first
      | omega
      | (simp only [List.cons.injEq, and_true]
         omega)

/-- The theorem of C34 on a buffer of 4 bytes: at the cursor 32 a read of 0 bits
loads `data[4]`, and at the cursor 31 a read of 1 bit loads `data[3]` alone. -/
theorem bitreader_peek_loads_in_buffer_witness :
    8 * 4 < 2 ^ 31 ∧ 32 ≤ 8 * 4 ∧ 0 ≤ 32 ∧
    bitreader_peek_loads
      { bitreader_init (bufferOf [1, 2, 3, 4]) (4 : Nat) with bit := (32 : Nat) } (0 : Nat)
      = [4] ∧
    bitreader_peek_loads
      { bitreader_init (bufferOf [1, 2, 3, 4]) (4 : Nat) with bit := (31 : Nat) } (1 : Nat)
      = [3] :=
  ⟨by decide, by decide, by decide,
    (bitreader_peek_loads_in_buffer (bufferOf [1, 2, 3, 4]) 4 32 0 (by decide) (by decide)
      (by decide)).2 rfl rfl,
    by decide!⟩

end Vgmstream

namespace Vgmstream

/-! ## State carried from one block to the next -/

theorem forLoop_rel {σ τ : Type} (R : Nat → σ → τ → Prop) (f : Nat → σ → σ) (g : Nat → τ → τ) :
    ∀ (count i : Nat) (s : σ) (t : τ),
      (∀ k s t, i ≤ k → k < i + count → R k s t → R (k + 1) (f k s) (g k t)) →
      R i s t → R (i + count) (forLoop f count i s) (forLoop g count i t) := by
  intro count
  induction count with
  | zero =>
    intro i s t _ h
    exact h
  | succ count ih =>
    intro i s t hstep h
    rw [forLoop_succ, forLoop_succ]
    have := ih (i + 1) (f i s) (g i t)
      (fun k s t hk1 hk2 hR => hstep k s t (by omega) (by omega) hR)
      (hstep i s t (Nat.le_refl i) (by omega) h)
    rw [show i + (count + 1) = i + 1 + count by omega]
    exact this

theorem setAt_agree (sa sb : Nat → Nat) (i v j : Nat) (h : sa j = sb j ∨ j = i) :
    setAt sa i v j = setAt sb i v j := by
  unfold setAt
  by_cases hj : j = i
  · rw [if_pos hj, if_pos hj]
  · rw [if_neg hj, if_neg hj]
    rcases h with h | h
    · exact h
    · exact absurd h hj

theorem fixedScalefactors_agree :
    ∀ (count i : Nat) (sa sb : Nat → Nat) (br : clData),
      (fixedScalefactors count i sa br).2 = (fixedScalefactors count i sb br).2 ∧
        ∀ j, (sa j = sb j ∨ (i ≤ j ∧ j < i + count)) →
          (fixedScalefactors count i sa br).1 j = (fixedScalefactors count i sb br).1 j := by
  intro count
  induction count with
  | zero =>
    intro i sa sb br
    refine ⟨rfl, fun j hj => ?_⟩
    rcases hj with h | h
    · exact h
    · omega
  | succ count ih =>
    intro i sa sb br
    rw [fixedScalefactors, fixedScalefactors]
    obtain ⟨h1, h2⟩ := ih (i + 1) (setAt sa i (uchar (bitreader_read br 6).1))
      (setAt sb i (uchar (bitreader_read br 6).1)) (bitreader_read br 6).2
    refine ⟨h1, fun j hj => h2 j ?_⟩
    by_cases hji : j = i
    · exact Or.inl (setAt_agree sa sb i _ j (Or.inr hji))
    · rcases hj with h | h
      · exact Or.inl (setAt_agree sa sb i _ j (Or.inl h))
      · exact Or.inr (by omega)

theorem deltaScalefactors_agree (delta_bits expected_delta : Nat) :
    ∀ (count i value : Nat) (sa sb : Nat → Nat) (br : clData),
      (deltaScalefactors delta_bits expected_delta count i value sa br).1
          = (deltaScalefactors delta_bits expected_delta count i value sb br).1 ∧
        (deltaScalefactors delta_bits expected_delta count i value sa br).2.2
          = (deltaScalefactors delta_bits expected_delta count i value sb br).2.2 ∧
        ∀ j, (sa j = sb j ∨ (i ≤ j ∧ j < i + count)) →
          (deltaScalefactors delta_bits expected_delta count i value sa br).1 = true →
          (deltaScalefactors delta_bits expected_delta count i value sa br).2.1 j
            = (deltaScalefactors delta_bits expected_delta count i value sb br).2.1 j := by
  intro count
  induction count with
  | zero =>
    intro i value sa sb br
    refine ⟨rfl, rfl, fun j hj _ => ?_⟩
    rcases hj with h | h
    · exact h
    · omega
  | succ count ih =>
    intro i value sa sb br
    rw [deltaScalefactors, deltaScalefactors]
    simp only []
    by_cases hesc : uchar (bitreader_read br delta_bits).1 = expected_delta
    · rw [if_pos hesc, if_pos hesc]
      obtain ⟨h1, h2, h3⟩ := ih (i + 1)
        (uchar (bitreader_read (bitreader_read br delta_bits).2 6).1)
        (setAt sa i (uchar (bitreader_read (bitreader_read br delta_bits).2 6).1))
        (setAt sb i (uchar (bitreader_read (bitreader_read br delta_bits).2 6).1))
        (bitreader_read (bitreader_read br delta_bits).2 6).2
      refine ⟨h1, h2, fun j hj => h3 j ?_⟩
      by_cases hji : j = i
      · exact Or.inl (setAt_agree sa sb i _ j (Or.inr hji))
      · rcases hj with h | h
        · exact Or.inl (setAt_agree sa sb i _ j (Or.inl h))
        · exact Or.inr (by omega)
    · rw [if_neg hesc, if_neg hesc]
      by_cases hbad : scalefactorTest value (uchar (bitreader_read br delta_bits).1)
          expected_delta < 0 ∨
          scalefactorTest value (uchar (bitreader_read br delta_bits).1) expected_delta ≥ 64
      · rw [if_pos hbad, if_pos hbad]
        exact ⟨rfl, rfl, fun _ _ hok => absurd hok (by simp)⟩
      · rw [if_neg hbad, if_neg hbad]
        obtain ⟨h1, h2, h3⟩ := ih (i + 1)
          (differentialValue value (uchar (bitreader_read br delta_bits).1) expected_delta)
          (setAt sa i
            (differentialValue value (uchar (bitreader_read br delta_bits).1) expected_delta))
          (setAt sb i
            (differentialValue value (uchar (bitreader_read br delta_bits).1) expected_delta))
          (bitreader_read br delta_bits).2
        refine ⟨h1, h2, fun j hj => h3 j ?_⟩
        by_cases hji : j = i
        · exact Or.inl (setAt_agree sa sb i _ j (Or.inr hji))
        · rcases hj with h | h
          · exact Or.inl (setAt_agree sa sb i _ j (Or.inl h))
          · exact Or.inr (by omega)

theorem clearScalefactors_agree :
    ∀ (count i : Nat) (sa sb : Nat → Nat) (j : Nat),
      (sa j = sb j ∨ (i ≤ j ∧ j < i + count)) →
      clearScalefactors count i sa j = clearScalefactors count i sb j := by
  intro count
  induction count with
  | zero =>
    intro i sa sb j hj
    rcases hj with h | h
    · exact h
    · omega
  | succ count ih =>
    intro i sa sb j hj
    rw [clearScalefactors, clearScalefactors]
    apply ih
    by_cases hji : j = i
    · exact Or.inl (setAt_agree sa sb i _ j (Or.inr hji))
    · rcases hj with h | h
      · exact Or.inl (setAt_agree sa sb i _ j (Or.inl h))
      · exact Or.inr (by omega)

theorem fixedIntensity_agree :
    ∀ (count i : Nat) (sa sb : Nat → Nat) (br : clData),
      (fixedIntensity count i sa br).2 = (fixedIntensity count i sb br).2 ∧
        ∀ j, (sa j = sb j ∨ (i ≤ j ∧ j < i + count)) →
          (fixedIntensity count i sa br).1 j = (fixedIntensity count i sb br).1 j := by
  intro count
  induction count with
  | zero =>
    intro i sa sb br
    refine ⟨rfl, fun j hj => ?_⟩
    rcases hj with h | h
    · exact h
    · omega
  | succ count ih =>
    intro i sa sb br
    rw [fixedIntensity, fixedIntensity]
    obtain ⟨h1, h2⟩ := ih (i + 1) (setAt sa i (uchar (bitreader_read br 4).1))
      (setAt sb i (uchar (bitreader_read br 4).1)) (bitreader_read br 4).2
    refine ⟨h1, fun j hj => h2 j ?_⟩
    by_cases hji : j = i
    · exact Or.inl (setAt_agree sa sb i _ j (Or.inr hji))
    · rcases hj with h | h
      · exact Or.inl (setAt_agree sa sb i _ j (Or.inl h))
      · exact Or.inr (by omega)

theorem deltaIntensity_agree (bits bmax : Nat) :
    ∀ (count i value : Nat) (sa sb : Nat → Nat) (br : clData),
      (deltaIntensity bits bmax count i value sa br).1
          = (deltaIntensity bits bmax count i value sb br).1 ∧
        (deltaIntensity bits bmax count i value sa br).2.2
          = (deltaIntensity bits bmax count i value sb br).2.2 ∧
        ∀ j, (sa j = sb j ∨ (i ≤ j ∧ j < i + count)) →
          (deltaIntensity bits bmax count i value sa br).1 = true →
          (deltaIntensity bits bmax count i value sa br).2.1 j
            = (deltaIntensity bits bmax count i value sb br).2.1 j := by
  intro count
  induction count with
  | zero =>
    intro i value sa sb br
    refine ⟨rfl, rfl, fun j hj _ => ?_⟩
    rcases hj with h | h
    · exact h
    · omega
  | succ count ih =>
    intro i value sa sb br
    rw [deltaIntensity, deltaIntensity]
    simp only []
    by_cases hesc : uchar (bitreader_read br bits).1 = bmax
    · rw [if_pos hesc, if_pos hesc]
      obtain ⟨h1, h2, h3⟩ := ih (i + 1)
        (uchar (bitreader_read (bitreader_read br bits).2 4).1)
        (setAt sa i (uchar (bitreader_read (bitreader_read br bits).2 4).1))
        (setAt sb i (uchar (bitreader_read (bitreader_read br bits).2 4).1))
        (bitreader_read (bitreader_read br bits).2 4).2
      refine ⟨h1, h2, fun j hj => h3 j ?_⟩
      by_cases hji : j = i
      · exact Or.inl (setAt_agree sa sb i _ j (Or.inr hji))
      · rcases hj with h | h
        · exact Or.inl (setAt_agree sa sb i _ j (Or.inl h))
        · exact Or.inr (by omega)
    · rw [if_neg hesc, if_neg hesc]
      by_cases hbad : ucharOfInt ((value : Int) - ((bmax >>> 1 : Nat) : Int)
          + (uchar (bitreader_read br bits).1 : Int)) > 15
      · rw [if_pos hbad, if_pos hbad]
        exact ⟨rfl, rfl, fun _ _ hok => absurd hok (by simp)⟩
      · rw [if_neg hbad, if_neg hbad]
        obtain ⟨h1, h2, h3⟩ := ih (i + 1)
          (ucharOfInt ((value : Int) - ((bmax >>> 1 : Nat) : Int)
            + (uchar (bitreader_read br bits).1 : Int)))
          (setAt sa i (ucharOfInt ((value : Int) - ((bmax >>> 1 : Nat) : Int)
            + (uchar (bitreader_read br bits).1 : Int))))
          (setAt sb i (ucharOfInt ((value : Int) - ((bmax >>> 1 : Nat) : Int)
            + (uchar (bitreader_read br bits).1 : Int))))
          (bitreader_read br bits).2
        refine ⟨h1, h2, fun j hj => h3 j ?_⟩
        by_cases hji : j = i
        · exact Or.inl (setAt_agree sa sb i _ j (Or.inr hji))
        · rcases hj with h | h
          · exact Or.inl (setAt_agree sa sb i _ j (Or.inl h))
          · exact Or.inr (by omega)

theorem defaultIntensity_agree :
    ∀ (count i : Nat) (sa sb : Nat → Nat) (j : Nat),
      (sa j = sb j ∨ (i ≤ j ∧ j < i + count)) →
      defaultIntensity count i sa j = defaultIntensity count i sb j := by
  intro count
  induction count with
  | zero =>
    intro i sa sb j hj
    rcases hj with h | h
    · exact h
    · omega
  | succ count ih =>
    intro i sa sb j hj
    rw [defaultIntensity, defaultIntensity]
    apply ih
    by_cases hji : j = i
    · exact Or.inl (setAt_agree sa sb i _ j (Or.inr hji))
    · rcases hj with h | h
      · exact Or.inl (setAt_agree sa sb i _ j (Or.inl h))
      · exact Or.inr (by omega)

theorem hfrScales_agree (hfr_group_count : Nat) :
    ∀ (count i : Nat) (sa sb : Nat → Nat) (br : clData),
      (hfrScales hfr_group_count count i sa br).2 = (hfrScales hfr_group_count count i sb br).2 ∧
        ∀ j, (sa j = sb j ∨ ∃ g, i ≤ g ∧ g < i + count ∧ j = usub 128 hfr_group_count + g) →
          (hfrScales hfr_group_count count i sa br).1 j
            = (hfrScales hfr_group_count count i sb br).1 j := by
  intro count
  induction count with
  | zero =>
    intro i sa sb br
    refine ⟨rfl, fun j hj => ?_⟩
    rcases hj with h | ⟨g, h1, h2, _⟩
    · exact h
    · omega
  | succ count ih =>
    intro i sa sb br
    rw [hfrScales, hfrScales]
    obtain ⟨h1, h2⟩ := ih (i + 1)
      (setAt sa (usub 128 hfr_group_count + i) (uchar (bitreader_read br 6).1))
      (setAt sb (usub 128 hfr_group_count + i) (uchar (bitreader_read br 6).1))
      (bitreader_read br 6).2
    refine ⟨h1, fun j hj => h2 j ?_⟩
    by_cases hji : j = usub 128 hfr_group_count + i
    · exact Or.inl (setAt_agree sa sb _ _ j (Or.inr hji))
    · rcases hj with h | ⟨g, g1, g2, g3⟩
      · exact Or.inl (setAt_agree sa sb _ _ j (Or.inl h))
      · refine Or.inr ⟨g, ?_, by omega, g3⟩
        by_contra hlt
        have : g = i := by omega
        subst this
        exact hji g3

theorem unpack_scalefactors_coded_count (a : stChannel) (br : clData)
    (hfr_group_count version : Nat) :
    (unpack_scalefactors a br hfr_group_count version).2.1.coded_count = a.coded_count := by
  unfold unpack_scalefactors
  simp only []
  split_ifs <;> rfl

theorem unpack_intensity_coded_count (a : stChannel) (br : clData)
    (hfr_group_count version : Nat) :
    (unpack_intensity a br hfr_group_count version).2.1.coded_count = a.coded_count := by
  unfold unpack_intensity
  simp only []
  split_ifs <;> rfl

theorem unpack_scalefactors_type (a : stChannel) (br : clData)
    (hfr_group_count version : Nat) :
    (unpack_scalefactors a br hfr_group_count version).2.1.type = a.type := by
  unfold unpack_scalefactors
  simp only []
  split_ifs <;> rfl

theorem unpack_intensity_type (a : stChannel) (br : clData)
    (hfr_group_count version : Nat) :
    (unpack_intensity a br hfr_group_count version).2.1.type = a.type := by
  unfold unpack_intensity
  simp only []
  split_ifs <;> rfl

end Vgmstream

namespace Vgmstream

theorem unpack_scalefactors_agree (a b : stChannel) (h : CarriedAgree a b) (br : clData)
    (hfr_group_count version : Nat) (hno : ¬ readsDerivedScales a hfr_group_count version)
    (hcoded : a.coded_count ≤ 128) :
    (unpack_scalefactors a br hfr_group_count version).1
        = (unpack_scalefactors b br hfr_group_count version).1 ∧
      CarriedAgree (unpack_scalefactors a br hfr_group_count version).2.1
        (unpack_scalefactors b br hfr_group_count version).2.1 ∧
      (unpack_scalefactors a br hfr_group_count version).2.2
        = (unpack_scalefactors b br hfr_group_count version).2.2 ∧
      (¬ (unpack_scalefactors a br hfr_group_count version).1 < 0 →
        ∀ i, i < a.coded_count →
          (unpack_scalefactors a br hfr_group_count version).2.1.scalefactors i
            = (unpack_scalefactors b br hfr_group_count version).2.1.scalefactors i) := by
  obtain ⟨h1, h2, h3⟩ := h
  have hna : a.type = channel_type_t.STEREO_SECONDARY ∨ hfr_group_count ≤ 0 ∨
      version ≤ HCA_VERSION_V200 := by
    unfold readsDerivedScales at hno
    by_contra hc
    push_neg at hc
    exact hno ⟨hc.2.2, hc.1, hc.2.1⟩
  clear hno
  obtain ⟨ty, coded_count, intensity, scalefactors, res, noises, nc, vc, gain, spectra, temp, dct,
    prev, wave⟩ := a
  obtain ⟨ty2, coded_count2, intensity2, scalefactors_1, res2, noises2, nc2, vc2, gain2, spectra2,
    temp2, dct2, prev2, wave2⟩ := b
  simp only at h1 h2 h3 hna hcoded
  subst h1 h2 h3
  unfold unpack_scalefactors
  simp only [hna, decide_True, if_true, not_true_eq_false, false_and, if_false]
  generalize bitreader_read br 3 = r
  have hder : ∀ (cs : Nat) (res sf : Nat → Nat), derivedScales cs res 0 0 sf = sf :=
    fun _ _ _ => rfl
  simp only [hder]
  have herr : HCA_ERROR_UNPACK < 0 := by decide
  have hok : ¬ HCA_RESULT_OK < 0 := by decide
  by_cases hd6 : uchar r.1 ≥ 6
  · simp only [if_pos hd6, if_true]
    obtain ⟨f1, f2⟩ := fixedScalefactors_agree coded_count 0 scalefactors scalefactors_1 r.2
    refine ⟨trivial, ⟨rfl, rfl, rfl⟩, f1, fun _ i hi => f2 i (Or.inr ⟨Nat.zero_le i, by omega⟩)⟩
  · simp only [if_neg hd6]
    by_cases hd0 : uchar r.1 > 0
    · simp only [if_pos hd0]
      obtain ⟨d1, d2, d3⟩ := deltaScalefactors_agree (uchar r.1)
        (uchar ((1 <<< uchar r.1) - 1)) (coded_count - 1) 1 (uchar (bitreader_read r.2 6).1)
        (setAt scalefactors 0 (uchar (bitreader_read r.2 6).1))
        (setAt scalefactors_1 0 (uchar (bitreader_read r.2 6).1)) (bitreader_read r.2 6).2
      rw [← d1, ← d2]
      by_cases hflag : (deltaScalefactors (uchar r.1) (uchar ((1 <<< uchar r.1) - 1))
          (coded_count - 1) 1 (uchar (bitreader_read r.2 6).1)
          (setAt scalefactors 0 (uchar (bitreader_read r.2 6).1)) (bitreader_read r.2 6).2).1
          = true
      · simp only [if_pos hflag]
        refine ⟨trivial, ⟨rfl, rfl, rfl⟩, trivial, fun _ i hi => d3 i ?_ hflag⟩
        by_cases hi0 : i = 0
        · exact Or.inl (setAt_agree _ _ 0 _ i (Or.inr hi0))
        · exact Or.inr ⟨by omega, by omega⟩
      · simp only [if_neg hflag]
        exact ⟨trivial, ⟨rfl, rfl, rfl⟩, trivial, fun hc => absurd herr hc⟩
    · simp only [if_neg hd0, if_true]
      refine ⟨trivial, ⟨rfl, rfl, rfl⟩, trivial, fun _ i hi => ?_⟩
      exact clearScalefactors_agree HCA_SAMPLES_PER_SUBFRAME 0 _ _ i
        (Or.inr ⟨Nat.zero_le i, by unfold HCA_SAMPLES_PER_SUBFRAME; omega⟩)

theorem unpack_intensity_agree (a b : stChannel) (h : CarriedAgree a b) (br : clData)
    (hfr_group_count version : Nat)
    (hsf : ∀ i, i < a.coded_count → a.scalefactors i = b.scalefactors i) :
    CarriedAgree (unpack_intensity a br hfr_group_count version).2.1
        (unpack_intensity b br hfr_group_count version).2.1 ∧
      (unpack_intensity a br hfr_group_count version).2.2
        = (unpack_intensity b br hfr_group_count version).2.2 ∧
      (∀ i, i < a.coded_count →
        (unpack_intensity a br hfr_group_count version).2.1.scalefactors i
          = (unpack_intensity b br hfr_group_count version).2.1.scalefactors i) ∧
      (a.type ≠ channel_type_t.STEREO_SECONDARY → version ≤ HCA_VERSION_V200 →
        ∀ g, g < hfr_group_count →
          (unpack_intensity a br hfr_group_count version).2.1.scalefactors
              (usub 128 hfr_group_count + g)
            = (unpack_intensity b br hfr_group_count version).2.1.scalefactors
              (usub 128 hfr_group_count + g)) ∧
      (intensityWritten a br hfr_group_count version = true →
        a.type = channel_type_t.STEREO_SECONDARY → ∀ k, k < 8 →
          (unpack_intensity a br hfr_group_count version).2.1.intensity k
            = (unpack_intensity b br hfr_group_count version).2.1.intensity k) := by
  obtain ⟨h1, h2, h3⟩ := h
  obtain ⟨ty, coded_count, intensity, scalefactors, res, noises, nc, vc, gain, spectra, temp, dct,
    prev, wave⟩ := a
  obtain ⟨ty2, coded_count2, intensity2, scalefactors_1, res2, noises2, nc2, vc2, gain2, spectra2,
    temp2, dct2, prev2, wave2⟩ := b
  simp only at h1 h2 h3 hsf
  subst h1 h2 h3
  have herr : HCA_ERROR_UNPACK ≠ HCA_RESULT_OK := by decide
  unfold intensityWritten unpack_intensity
  simp only [decide_eq_true_eq]
  by_cases hsec : ty = channel_type_t.STEREO_SECONDARY
  · simp only [if_pos hsec]
    by_cases hv : version ≤ HCA_VERSION_V200
    · simp only [if_pos hv]
      by_cases h15 : uchar (bitreader_peek br 4) < 15
      · simp only [if_pos h15]
        obtain ⟨f1, f2⟩ := fixedIntensity_agree (HCA_SUBFRAMES - 1) 1
          (setAt intensity 0 (uchar (bitreader_peek br 4)))
          (setAt intensity2 0 (uchar (bitreader_peek br 4))) (bitreader_skip br 4)
        refine ⟨⟨rfl, rfl, rfl⟩, f1, hsf, fun hns => absurd hsec hns, fun _ _ k hk => f2 k ?_⟩
        by_cases hk0 : k = 0
        · exact Or.inl (setAt_agree _ _ 0 _ k (Or.inr hk0))
        · exact Or.inr ⟨by omega, by unfold HCA_SUBFRAMES; omega⟩
      · simp only [if_neg h15]
        exact ⟨⟨rfl, rfl, rfl⟩, trivial, hsf, fun hns => absurd hsec hns,
          fun hw _ => absurd ((hw hsec).2 hv) h15⟩
    · simp only [if_neg hv]
      by_cases h15 : uchar (bitreader_peek br 4) < 15
      · simp only [if_pos h15]
        by_cases hd3 : uchar (bitreader_read (bitreader_skip br 4) 2).1 = 3
        · simp only [if_pos hd3]
          obtain ⟨f1, f2⟩ := fixedIntensity_agree (HCA_SUBFRAMES - 1) 1
            (setAt intensity 0 (uchar (bitreader_peek br 4)))
            (setAt intensity2 0 (uchar (bitreader_peek br 4)))
            (bitreader_read (bitreader_skip br 4) 2).2
          refine ⟨⟨rfl, rfl, rfl⟩, f1, hsf, fun hns => absurd hsec hns, fun _ _ k hk => f2 k ?_⟩
          by_cases hk0 : k = 0
          · exact Or.inl (setAt_agree _ _ 0 _ k (Or.inr hk0))
          · exact Or.inr ⟨by omega, by unfold HCA_SUBFRAMES; omega⟩
        · simp only [if_neg hd3]
          obtain ⟨d1, d2, d3⟩ := deltaIntensity_agree
            (uchar (uchar (bitreader_read (bitreader_skip br 4) 2).1 + 1))
            (uchar ((2 <<< uchar (bitreader_read (bitreader_skip br 4) 2).1) - 1))
            (HCA_SUBFRAMES - 1) 1 (uchar (bitreader_peek br 4))
            (setAt intensity 0 (uchar (bitreader_peek br 4)))
            (setAt intensity2 0 (uchar (bitreader_peek br 4)))
            (bitreader_read (bitreader_skip br 4) 2).2
          rw [← d1, ← d2]
          by_cases hflag : (deltaIntensity
              (uchar (uchar (bitreader_read (bitreader_skip br 4) 2).1 + 1))
              (uchar ((2 <<< uchar (bitreader_read (bitreader_skip br 4) 2).1) - 1))
              (HCA_SUBFRAMES - 1) 1 (uchar (bitreader_peek br 4))
              (setAt intensity 0 (uchar (bitreader_peek br 4)))
              (bitreader_read (bitreader_skip br 4) 2).2).1 = true
          · simp only [if_pos hflag]
            refine ⟨⟨rfl, rfl, rfl⟩, trivial, hsf, fun hns => absurd hsec hns,
              fun _ _ k hk => d3 k ?_ hflag⟩
            by_cases hk0 : k = 0
            · exact Or.inl (setAt_agree _ _ 0 _ k (Or.inr hk0))
            · exact Or.inr ⟨by omega, by unfold HCA_SUBFRAMES; omega⟩
          · simp only [if_neg hflag]
            exact ⟨⟨rfl, rfl, rfl⟩, trivial, hsf, fun hns => absurd hsec hns,
              fun hw _ => absurd (hw hsec).1 herr⟩
      · simp only [if_neg h15]
        refine ⟨⟨rfl, rfl, rfl⟩, trivial, hsf, fun hns => absurd hsec hns, fun _ _ k hk => ?_⟩
        exact defaultIntensity_agree HCA_SUBFRAMES 0 _ _ k
          (Or.inr ⟨Nat.zero_le k, by unfold HCA_SUBFRAMES; omega⟩)
  · simp only [if_neg hsec]
    by_cases hv : version ≤ HCA_VERSION_V200
    · simp only [if_pos hv]
      obtain ⟨s1, s2⟩ := hfrScales_agree hfr_group_count hfr_group_count 0 scalefactors
        scalefactors_1 br
      refine ⟨⟨rfl, rfl, rfl⟩, s1, fun i hi => s2 i (Or.inl (hsf i hi)),
        fun _ _ g hg => s2 _ (Or.inr ⟨g, Nat.zero_le g, by omega, rfl⟩),
        fun _ hs => absurd hs hsec⟩
    · simp only [if_neg hv]
      exact ⟨⟨rfl, rfl, rfl⟩, trivial, hsf, fun _ hvv => absurd hvv hv,
        fun _ hs => absurd hs hsec⟩

end Vgmstream

namespace Vgmstream

theorem calculate_resolution_listsUpTo (ch : stChannel) (packed_noise_level : Nat)
    (ath_curve : Nat → Nat) (min_resolution max_resolution : Nat)
    (hcount : ch.coded_count ≤ 128) :
    ListsUpTo ch.scalefactors ath_curve packed_noise_level min_resolution max_resolution
      ch.coded_count
      { resolution := ch.resolution
        noises := (calculate_resolution ch packed_noise_level ath_curve min_resolution
          max_resolution).noises
        noise_count := (calculate_resolution ch packed_noise_level ath_curve min_resolution
          max_resolution).noise_count
        valid_count := (calculate_resolution ch packed_noise_level ath_curve min_resolution
          max_resolution).valid_count } := by
  have hinit : ListsUpTo ch.scalefactors ath_curve packed_noise_level min_resolution
      max_resolution 0
      { resolution := ch.resolution, noises := ch.noises, noise_count := 0, valid_count := 0 } :=
    ⟨rfl, rfl, Nat.le_refl 0⟩
  have hl := resolutionLoop_lists ch.scalefactors ath_curve packed_noise_level min_resolution
    max_resolution ch.coded_count 0 _ (by omega) hinit
  rw [Nat.zero_add] at hl
  exact ⟨hl.noise, hl.valid, hl.bound⟩

theorem listsUpTo_congr {sfa sfb ath_curve : Nat → Nat}
    {packed_noise_level min_resolution max_resolution i : Nat} {s : ResolutionState}
    (hs : ListsUpTo sfa ath_curve packed_noise_level min_resolution max_resolution i s)
    (heq : ∀ j, j < i → sfa j = sfb j) :
    ListsUpTo sfb ath_curve packed_noise_level min_resolution max_resolution i s := by
  refine ⟨hs.noise.trans (List.filter_congr ?_), hs.valid.trans (List.filter_congr ?_), hs.bound⟩
  · intro j hj
    unfold noiseCoefficient
    rw [heq j (List.mem_range.mp hj)]
  · intro j hj
    unfold validCoefficient
    rw [heq j (List.mem_range.mp hj)]

theorem listsUpTo_agree {scalefactors ath_curve : Nat → Nat}
    {packed_noise_level min_resolution max_resolution i : Nat} {s t : ResolutionState}
    (hi : i ≤ 128)
    (hs : ListsUpTo scalefactors ath_curve packed_noise_level min_resolution max_resolution i s)
    (ht : ListsUpTo scalefactors ath_curve packed_noise_level min_resolution max_resolution i t) :
    s.noise_count = t.noise_count ∧ s.valid_count = t.valid_count ∧ s.valid_count ≤ 128 ∧
      (∀ k, k < s.noise_count → s.noises k = t.noises k ∧ s.noises k < i) ∧
      ∀ k, 128 - s.valid_count ≤ k → k < 128 → s.noises k = t.noises k ∧ s.noises k < i := by
  have hn : s.noise_count = t.noise_count :=
    (map_range_length hs.noise).trans (map_range_length ht.noise).symm
  have hv : s.valid_count = t.valid_count :=
    (map_range_length hs.valid).trans (map_range_length ht.valid).symm
  have hb := hs.bound
  refine ⟨hn, hv, by omega, ?_, ?_⟩
  · intro k hk
    have h := hs.noise.trans ht.noise.symm
    rw [← hn] at h
    refine ⟨List.map_inj_left.mp h k (List.mem_range.mpr hk), ?_⟩
    have hm : s.noises k ∈ (List.range s.noise_count).map s.noises :=
      List.mem_map_of_mem s.noises (List.mem_range.mpr hk)
    rw [hs.noise] at hm
    exact List.mem_range.mp (List.mem_filter.mp hm).1
  · intro k hk1 hk2
    have hk : 127 - k < s.valid_count := by omega
    have h := hs.valid.trans ht.valid.symm
    rw [← hv] at h
    have h1 := List.map_inj_left.mp h (127 - k) (List.mem_range.mpr hk)
    simp only [] at h1
    rw [show 127 - (127 - k) = k by omega] at h1
    refine ⟨h1, ?_⟩
    have hm : s.noises (127 - (127 - k)) ∈
        (List.range s.valid_count).map (fun k => s.noises (127 - k)) :=
      List.mem_map_of_mem (fun k => s.noises (127 - k)) (List.mem_range.mpr hk)
    rw [hs.valid, show 127 - (127 - k) = k by omega] at hm
    exact List.mem_range.mp (List.mem_filter.mp hm).1

theorem unpacked_agree (fmul : Nat → Nat → Nat) (hfr start : Nat) (a b : stChannel)
    (h : CarriedAgree a b) (hcount : a.coded_count ≤ 128)
    (hstart : a.type ≠ channel_type_t.STEREO_SECONDARY → start ≤ a.coded_count)
    (hsf : ∀ i, i < a.coded_count → a.scalefactors i = b.scalefactors i)
    (hscales : a.type ≠ channel_type_t.STEREO_SECONDARY → ∀ g, g < hfr →
      a.scalefactors (usub 128 hfr + g) = b.scalefactors (usub 128 hfr + g))
    (hint : a.type = channel_type_t.STEREO_SECONDARY → ∀ k, k < 8 →
      a.intensity k = b.intensity k)
    (packed_noise_level : Nat) (ath_curve : Nat → Nat) (min_resolution max_resolution : Nat) :
    StageAgree hfr start 0 0
      (calculate_gain fmul
        (calculate_resolution a packed_noise_level ath_curve min_resolution max_resolution))
      (calculate_gain fmul
        (calculate_resolution b packed_noise_level ath_curve min_resolution max_resolution)) := by
  have hcb : b.coded_count ≤ 128 := h.coded_count ▸ hcount
  have ha := calculate_resolution_listsUpTo a packed_noise_level ath_curve min_resolution
    max_resolution hcount
  have hb := calculate_resolution_listsUpTo b packed_noise_level ath_curve min_resolution
    max_resolution hcb
  rw [← h.coded_count] at hb
  have hb2 := listsUpTo_congr hb (fun j hj => (hsf j hj).symm)
  obtain ⟨l1, l2, l3, l4, l5⟩ := listsUpTo_agree hcount ha hb2
  have hres : ∀ j, j < a.coded_count →
      (calculate_resolution a packed_noise_level ath_curve min_resolution
        max_resolution).resolution j
      = (calculate_resolution b packed_noise_level ath_curve min_resolution
        max_resolution).resolution j := by
    intro j hj
    unfold calculate_resolution
    simp only []
    rw [← h.coded_count, if_neg (by omega), if_neg (by omega), resolutionLoop_resolution,
      resolutionLoop_resolution, if_pos (by omega), if_pos (by omega), hsf j hj]
  refine
    { carried := ⟨h.type, h.coded_count, h.imdct_previous⟩
      coded := hcount
      bands := hstart
      scalefactors := hsf
      scales := hscales
      intensity := hint
      resolution := hres
      noise_count := l1
      valid_count := l2
      valid_le := l3
      noise := l4
      valid := l5
      gain := ?_
      spectra := fun t j _ ht _ => absurd ht (Nat.not_lt_zero t)
      wave := fun t j ht _ => absurd ht (Nat.not_lt_zero t) }
  intro i hi
  have hi0 : i < a.coded_count := hi
  have hi2 : i < b.coded_count := h.coded_count ▸ hi0
  show (if i < a.coded_count then _ else _) = (if i < b.coded_count then _ else _)
  rw [if_pos hi0, if_pos hi2]
  show fmul (hcadequantizer_scaling_table_float_hex.getD (uchar (a.scalefactors i)) 0) _
    = fmul (hcadequantizer_scaling_table_float_hex.getD (uchar (b.scalefactors i)) 0) _
  rw [hsf i hi0, hres i hi0]

end Vgmstream

namespace Vgmstream

theorem stageAgree_spectra {hfr start d w d2 w2 : Nat} {a b : stChannel}
    (h : StageAgree hfr start d w a b)
    (hw : w2 ≤ w) (sa sb : Nat → Nat → Nat)
    (hs : ∀ t j, w2 ≤ t → t < d2 → j < 128 → sa t j = sb t j) :
    StageAgree hfr start d2 w2 { a with spectra := sa } { b with spectra := sb } :=
  { carried := ⟨h.carried.type, h.carried.coded_count, h.carried.imdct_previous⟩
    coded := h.coded
    bands := h.bands
    scalefactors := h.scalefactors
    scales := h.scales
    intensity := h.intensity
    resolution := h.resolution
    noise_count := h.noise_count
    valid_count := h.valid_count
    valid_le := h.valid_le
    noise := h.noise
    valid := h.valid
    gain := h.gain
    spectra := hs
    wave := fun t j ht hj => h.wave t j (by omega) hj }

theorem dequantizeLoop_succ (ofInt : Int → Nat) (fmul : Nat → Nat → Nat)
    (subframe count i : Nat) (ch : stChannel) (br : clData) :
    dequantizeLoop ofInt fmul subframe (count + 1) i ch br
      = dequantizeLoop ofInt fmul subframe count (i + 1)
          { ch with
            spectra := setAt2 ch.spectra subframe i
              (fmul (ch.gain i) (ofInt (dequantizeCode (uchar (ch.resolution i)) br).1)) }
          (dequantizeCode (uchar (ch.resolution i)) br).2 := rfl

theorem dequantizeLoop_frame (ofInt : Int → Nat) (fmul : Nat → Nat → Nat) (subframe : Nat) :
    ∀ (count i : Nat) (ch : stChannel) (br : clData),
      (dequantizeLoop ofInt fmul subframe count i ch br).1
        = { ch with spectra := (dequantizeLoop ofInt fmul subframe count i ch br).1.spectra } := by
  intro count
  induction count with
  | zero =>
    intro i ch br
    rfl
  | succ count ih =>
    intro i ch br
    rw [dequantizeLoop_succ, ih]

theorem dequantizeLoop_agree (ofInt : Int → Nat) (fmul : Nat → Nat → Nat) (subframe : Nat) :
    ∀ (count i : Nat) (a b : stChannel) (br : clData),
      (∀ j, i ≤ j → j < i + count → a.resolution j = b.resolution j) →
      (∀ j, i ≤ j → j < i + count → a.gain j = b.gain j) →
      (dequantizeLoop ofInt fmul subframe count i a br).2
          = (dequantizeLoop ofInt fmul subframe count i b br).2 ∧
        ∀ t j, (a.spectra t j = b.spectra t j ∨ (t = subframe ∧ i ≤ j ∧ j < i + count)) →
          (dequantizeLoop ofInt fmul subframe count i a br).1.spectra t j
            = (dequantizeLoop ofInt fmul subframe count i b br).1.spectra t j := by
  intro count
  induction count with
  | zero =>
    intro i a b br _ _
    refine ⟨rfl, ?_⟩
    intro t j h
    rcases h with h | h
    · exact h
    · omega
  | succ count ih =>
    intro i a b br hres hgain
    have hq : dequantizeCode (uchar (b.resolution i)) br
        = dequantizeCode (uchar (a.resolution i)) br := by
      rw [hres i (Nat.le_refl i) (by omega)]
    have hg : b.gain i = a.gain i := (hgain i (Nat.le_refl i) (by omega)).symm
    rw [dequantizeLoop_succ, dequantizeLoop_succ, hq, hg]
    obtain ⟨h1, h2⟩ := ih (i + 1)
      { a with
        spectra := setAt2 a.spectra subframe i
          (fmul (a.gain i) (ofInt (dequantizeCode (uchar (a.resolution i)) br).1)) }
      { b with
        spectra := setAt2 b.spectra subframe i
          (fmul (a.gain i) (ofInt (dequantizeCode (uchar (a.resolution i)) br).1)) }
      (dequantizeCode (uchar (a.resolution i)) br).2
      (fun j hj1 hj2 => hres j (by omega) (by omega))
      (fun j hj1 hj2 => hgain j (by omega) (by omega))
    refine ⟨h1, ?_⟩
    intro t j h
    apply h2
    by_cases hij : t = subframe ∧ j = i
    · left
      simp only [setAt2, if_pos hij]
    · rcases h with h | h
      · left
        simp only [setAt2, if_neg hij]
        exact h
      · right
        refine ⟨h.1, ?_, by omega⟩
        have : j ≠ i := fun hj => hij ⟨h.1, hj⟩
        omega

theorem dequantize_coefficients_frame (ofInt : Int → Nat) (fmul : Nat → Nat → Nat)
    (ch : stChannel) (br : clData) (subframe : Nat) :
    (dequantize_coefficients ofInt fmul ch br subframe).1
      = { ch with spectra := (dequantize_coefficients ofInt fmul ch br subframe).1.spectra } := by
  unfold dequantize_coefficients
  simp only []
  rw [dequantizeLoop_frame]

theorem dequantize_coefficients_agree (ofInt : Int → Nat) (fmul : Nat → Nat → Nat)
    (a b : stChannel) (br : clData) (hfr start subframe : Nat)
    (h : StageAgree hfr start subframe 0 a b) :
    StageAgree hfr start (subframe + 1) 0 (dequantize_coefficients ofInt fmul a br subframe).1
        (dequantize_coefficients ofInt fmul b br subframe).1 ∧
      (dequantize_coefficients ofInt fmul a br subframe).2
        = (dequantize_coefficients ofInt fmul b br subframe).2 := by
  have hcc := h.carried.coded_count
  obtain ⟨h1, h2⟩ := dequantizeLoop_agree ofInt fmul subframe a.coded_count 0 a b br
    (fun j _ hj => h.resolution j (by omega)) (fun j _ hj => h.gain j (by omega))
  refine ⟨?_, ?_⟩
  · rw [dequantize_coefficients_frame ofInt fmul a, dequantize_coefficients_frame ofInt fmul b]
    apply stageAgree_spectra h (Nat.le_refl 0)
    intro t j _ ht hj
    unfold dequantize_coefficients
    simp only []
    rw [← hcc]
    by_cases hc : t = subframe ∧ a.coded_count ≤ j ∧
        j < a.coded_count + usub HCA_SAMPLES_PER_SUBFRAME a.coded_count
    · rw [if_pos hc, if_pos hc]
    · rw [if_neg hc, if_neg hc]
      apply h2
      by_cases hts : t = subframe
      · right
        refine ⟨hts, Nat.zero_le j, ?_⟩
        have hcoded := h.coded
        have hu : usub HCA_SAMPLES_PER_SUBFRAME a.coded_count = 128 - a.coded_count := by
          unfold usub HCA_SAMPLES_PER_SUBFRAME
          omega
        rw [hu] at hc
        by_contra hlt
        exact hc ⟨hts, by omega, by omega⟩
      · left
        exact h.spectra t j (Nat.zero_le t) (by omega) hj
  · unfold dequantize_coefficients
    simp only []
    rw [← hcc]
    exact h1

end Vgmstream

namespace Vgmstream

/-! ## Coefficients with scalefactor 0 -/

theorem dequantizeCode_zero_resolution (br : clData)
    (hbit : -2147483648 ≤ br.bit ∧ br.bit < 2147483648) : dequantizeCode 0 br = (0, br) := by
  have hb0 : uchar (hcatbdecoder_max_bit_table.getD 0 0) = 0 := by decide
  have hidx : toInt32 ((uint ((0 <<< 4) + 0) : Nat) : Int) = 0 := by decide
  have hkeep : toInt32 (br.bit + 0) = br.bit := by
    unfold toInt32
    omega
  unfold dequantizeCode
  simp only [hb0, if_neg (show ¬ 0 > 7 by decide)]
  have hread : bitreader_read br ((0 : Nat) : Int) = (0, br) := by
    unfold bitreader_read
    rw [show ((0 : Nat) : Int) = 0 from rfl, bitreader_peek_zero, hkeep, clData_bit_eta]
  rw [hread]
  simp only [hidx]
  have hskip : bitreader_skip br
      (((hcatbdecoder_read_bit_table.getD (0 : Int).toNat 0 : Nat) : Int) - ((0 : Nat) : Int))
      = br := by
    have h0 : (((hcatbdecoder_read_bit_table.getD (0 : Int).toNat 0 : Nat) : Int)
        - ((0 : Nat) : Int)) = 0 := by decide
    rw [h0]
    unfold bitreader_skip
    rw [hkeep, clData_bit_eta]
  rw [hskip]
  rfl

/-- C36: for a channel with `coded_count <= 128` and a coded coefficient `j` whose
scalefactor is 0, after `calculate_resolution`, whatever `min_resolution` and the
other arguments are, `resolution[j]` is 0 and `j` is on neither list of `noises`;
the part of `dequantize_coefficients` that reads the code of a coefficient of this
resolution gives the value 0 and leaves the reader where it was (the cursor is an
`int`); and `reconstruct_noise`, on a channel with these lists, leaves
`spectra[subframe][j]` as it was. -/
theorem calculate_resolution_zero_scalefactor (ch : stChannel) (packed_noise_level : Nat)
    (ath_curve : Nat → Nat) (min_resolution max_resolution j : Nat)
    (hcount : ch.coded_count ≤ 128) (hj : j < ch.coded_count)
    (hz : uchar (ch.scalefactors j) = 0) :
    (calculate_resolution ch packed_noise_level ath_curve min_resolution max_resolution).resolution j
      = 0 ∧
    (∀ i, i < (calculate_resolution ch packed_noise_level ath_curve min_resolution
        max_resolution).noise_count →
      (calculate_resolution ch packed_noise_level ath_curve min_resolution max_resolution).noises i
        ≠ j) ∧
    (∀ k, k < (calculate_resolution ch packed_noise_level ath_curve min_resolution
        max_resolution).valid_count →
      (calculate_resolution ch packed_noise_level ath_curve min_resolution
        max_resolution).noises (127 - k) ≠ j) ∧
    (∀ br : clData, -2147483648 ≤ br.bit → br.bit < 2147483648 →
      dequantizeCode
        (uchar ((calculate_resolution ch packed_noise_level ath_curve min_resolution
          max_resolution).resolution j)) br = (0, br)) ∧
    ∀ (fmul : Nat → Nat → Nat) (c : stChannel) (min_res ms_stereo random subframe : Nat),
      c.noises = (calculate_resolution ch packed_noise_level ath_curve min_resolution
        max_resolution).noises →
      c.noise_count = (calculate_resolution ch packed_noise_level ath_curve min_resolution
        max_resolution).noise_count →
      (reconstruct_noise fmul c min_res ms_stereo random subframe).1.spectra subframe j
        = c.spectra subframe j := by
  have hl := calculate_resolution_listsUpTo ch packed_noise_level ath_curve min_resolution
    max_resolution hcount
  have hres : (calculate_resolution ch packed_noise_level ath_curve min_resolution
      max_resolution).resolution j = 0 := by
    rw [calculate_resolution_coded ch packed_noise_level ath_curve min_resolution max_resolution
      j hj, hz]
    rfl
  have hnoise : ∀ i, i < (calculate_resolution ch packed_noise_level ath_curve min_resolution
      max_resolution).noise_count →
      (calculate_resolution ch packed_noise_level ath_curve min_resolution
        max_resolution).noises i ≠ j ∧
      (calculate_resolution ch packed_noise_level ath_curve min_resolution
        max_resolution).noises i < 128 := by
    intro i hi
    have hm := List.mem_map_of_mem
      (calculate_resolution ch packed_noise_level ath_curve min_resolution max_resolution).noises
      (List.mem_range.mpr hi)
    have hn := hl.noise
    simp only [] at hn
    rw [hn] at hm
    obtain ⟨hr, hp⟩ := List.mem_filter.mp hm
    have hr' := List.mem_range.mp hr
    refine ⟨?_, by omega⟩
    intro he
    rw [he] at hp
    unfold noiseCoefficient at hp
    rw [hz] at hp
    simp at hp
  refine ⟨hres, fun i hi => (hnoise i hi).1, ?_, ?_, ?_⟩
  · intro k hk
    have hm := List.mem_map_of_mem
      (fun k => (calculate_resolution ch packed_noise_level ath_curve min_resolution
        max_resolution).noises (127 - k))
      (List.mem_range.mpr hk)
    have hv := hl.valid
    simp only [] at hv hm
    rw [hv] at hm
    obtain ⟨_, hp⟩ := List.mem_filter.mp hm
    intro he
    rw [he] at hp
    unfold validCoefficient at hp
    rw [hz] at hp
    simp at hp
  · intro br h1 h2
    rw [hres]
    exact dequantizeCode_zero_resolution br ⟨h1, h2⟩
  · intro fmul c min_res ms_stereo random subframe hc1 hc2
    unfold reconstruct_noise
    split_ifs <;>
      first
      | rfl
      | (simp only []
         apply (noiseLoop_effect fmul c subframe c.noise_count 0 c.spectra random).2
         right
         intro k _ hk
         rw [hc1]
         have := hnoise k (by rw [hc2] at hk; omega)
         have hu : uchar ((calculate_resolution ch packed_noise_level ath_curve min_resolution
             max_resolution).noises k)
             = (calculate_resolution ch packed_noise_level ath_curve min_resolution
               max_resolution).noises k := by
           unfold uchar
           simp only [Nat.reducePow]
           omega
         rw [hu]
         exact fun h => this.1 h.symm)

/-- The theorem of C36 on the channel with the scalefactors 0, 10, 40, 63, 1 and
30, for the coefficient 0: its resolution is 0 also with `min_resolution` 1. -/
theorem calculate_resolution_zero_scalefactor_witness :
    mixedChannel.coded_count ≤ 128 ∧ 0 < mixedChannel.coded_count ∧
    uchar (mixedChannel.scalefactors 0) = 0 ∧
    (calculate_resolution mixedChannel 25600 (fun _ => 0) 1 15).resolution 0 = 0 :=
  ⟨by decide, by decide, by decide,
    (calculate_resolution_zero_scalefactor mixedChannel 25600 (fun _ => 0) 1 15 0 (by decide)
      (by decide) (by decide)).1⟩

end Vgmstream

namespace Vgmstream

/-! ## Scalefactors of the coded coefficients -/

theorem shr_and_lt (v m c b : Nat) (h : m < b * 2 ^ (c % 32)) : shr (v &&& m) c < b := by
  unfold shr
  rw [Nat.shiftRight_eq_div_pow]
  exact (Nat.div_lt_iff_lt_mul (Nat.two_pow_pos _)).mpr
    (Nat.lt_of_le_of_lt Nat.and_le_right h)

theorem bitreader_peek_six (br : clData) : bitreader_peek br 6 < 64 := by
  have hr : toUnsigned br.bit &&& 7 < 8 :=
    Nat.lt_of_le_of_lt Nat.and_le_right (by decide)
  have h6 : toUnsigned 6 = 6 := by decide
  unfold bitreader_peek
  simp only [h6]
  generalize toUnsigned br.bit &&& 7 = r at hr
  interval_cases r <;> split_ifs with h0 h1 h2 h3 <;>
    first
    | decide
    | exact absurd h1.2 (by decide)
    | exact absurd h2.2 (by decide)
    | exact absurd h3.2 (by decide)
    | exact shr_and_lt _ _ _ _ (by decide)

theorem bitreader_read_six (br : clData) : uchar (bitreader_read br 6).1 ≤ 63 := by
  have h := bitreader_peek_six br
  unfold bitreader_read uchar
  simp only [Nat.reducePow]
  omega

theorem fixedScalefactors_values :
    ∀ (count i : Nat) (scalefactors : Nat → Nat) (br : clData) (j : Nat),
      (i ≤ j ∧ j < i + count → (fixedScalefactors count i scalefactors br).1 j ≤ 63) ∧
      (¬ (i ≤ j ∧ j < i + count) →
        (fixedScalefactors count i scalefactors br).1 j = scalefactors j) := by
  intro count
  induction count with
  | zero =>
    intro i scalefactors br j
    exact ⟨fun h => by omega, fun _ => rfl⟩
  | succ count ih =>
    intro i scalefactors br j
    rw [fixedScalefactors]
    obtain ⟨h1, h2⟩ := ih (i + 1) (setAt scalefactors i (uchar (bitreader_read br 6).1))
      (bitreader_read br 6).2 j
    constructor
    · intro h
      by_cases hj : j = i
      · rw [h2 (by omega)]
        simp only [setAt, if_pos hj]
        exact bitreader_read_six br
      · exact h1 (by omega)
    · intro h
      rw [h2 (by omega)]
      simp only [setAt]
      rw [if_neg (by omega)]

theorem deltaScalefactors_values (delta_bits expected_delta : Nat) :
    ∀ (count i value : Nat) (scalefactors : Nat → Nat) (br : clData) (j : Nat),
      (i ≤ j ∧ j < i + count →
        (deltaScalefactors delta_bits expected_delta count i value scalefactors br).1 = true →
        (deltaScalefactors delta_bits expected_delta count i value scalefactors br).2.1 j ≤ 63) ∧
      (¬ (i ≤ j ∧ j < i + count) →
        (deltaScalefactors delta_bits expected_delta count i value scalefactors br).2.1 j
          = scalefactors j) := by
  intro count
  induction count with
  | zero =>
    intro i value scalefactors br j
    exact ⟨fun h => by omega, fun _ => rfl⟩
  | succ count ih =>
    intro i value scalefactors br j
    rw [deltaScalefactors]
    simp only []
    have hmask : differentialValue value (uchar (bitreader_read br delta_bits).1) expected_delta
        ≤ 63 := by
      unfold differentialValue
      exact Nat.and_le_right
    split_ifs with hesc hbad
    · obtain ⟨h1, h2⟩ := ih (i + 1) (uchar (bitreader_read (bitreader_read br delta_bits).2 6).1)
        (setAt scalefactors i (uchar (bitreader_read (bitreader_read br delta_bits).2 6).1))
        (bitreader_read (bitreader_read br delta_bits).2 6).2 j
      constructor
      · intro h hok
        by_cases hj : j = i
        · rw [h2 (by omega)]
          simp only [setAt, if_pos hj]
          exact bitreader_read_six _
        · exact h1 (by omega) hok
      · intro h
        rw [h2 (by omega)]
        simp only [setAt]
        rw [if_neg (by omega)]
    · exact ⟨fun _ hok => absurd hok (by simp), fun _ => rfl⟩
    · obtain ⟨h1, h2⟩ := ih (i + 1)
        (differentialValue value (uchar (bitreader_read br delta_bits).1) expected_delta)
        (setAt scalefactors i
          (differentialValue value (uchar (bitreader_read br delta_bits).1) expected_delta))
        (bitreader_read br delta_bits).2 j
      constructor
      · intro h hok
        by_cases hj : j = i
        · rw [h2 (by omega)]
          simp only [setAt, if_pos hj]
          exact hmask
        · exact h1 (by omega) hok
      · intro h
        rw [h2 (by omega)]
        simp only [setAt]
        rw [if_neg (by omega)]

theorem clearScalefactors_values :
    ∀ (count i : Nat) (scalefactors : Nat → Nat) (j : Nat),
      clearScalefactors count i scalefactors j
        = if i ≤ j ∧ j < i + count then 0 else scalefactors j := by
  intro count
  induction count with
  | zero =>
    intro i scalefactors j
    rw [if_neg (by omega)]
    rfl
  | succ count ih =>
    intro i scalefactors j
    rw [clearScalefactors, ih]
    simp only [setAt]
    split_ifs <;> first | rfl | omega

theorem derivedScales_below (cs_count : Nat) (resolution : Nat → Nat) :
    ∀ (count i : Nat) (scalefactors : Nat → Nat) (j : Nat), j + (i + count) < 128 →
      derivedScales cs_count resolution count i scalefactors j = scalefactors j := by
  intro count
  induction count with
  | zero =>
    intro i scalefactors j _
    rfl
  | succ count ih =>
    intro i scalefactors j h
    rw [derivedScales, ih _ _ _ (by omega)]
    simp only [setAt, derivedScaleTarget, HCA_SAMPLES_PER_SUBFRAME]
    rw [if_neg (by omega)]

end Vgmstream

namespace Vgmstream

theorem unpack_scalefactors_coded_values (ch : stChannel) (br : clData)
    (hfr_group_count version : Nat) (hcoded : ch.coded_count ≤ 128)
    (hhfr : hfr_group_count < 2 ^ 16)
    (hok : (unpack_scalefactors ch br hfr_group_count version).1 = HCA_RESULT_OK) :
    ∀ j, j < ch.coded_count →
      (unpack_scalefactors ch br hfr_group_count version).2.1.scalefactors j ≤ 63 := by
  intro j hj
  simp only [Nat.reducePow] at hhfr
  have hcodes : HCA_ERROR_UNPACK ≠ HCA_RESULT_OK := by decide
  unfold unpack_scalefactors at hok ⊢
  simp only [] at hok ⊢
  generalize hne : (decide (ch.type = channel_type_t.STEREO_SECONDARY ∨ hfr_group_count ≤ 0 ∨
    version ≤ HCA_VERSION_V200)) = noExtra at hok ⊢
  generalize hcs : (if noExtra = true then ch.coded_count
    else uint (ch.coded_count + if noExtra = true then 0 else hfr_group_count)) = cs_count
    at hok ⊢
  generalize hex : (if noExtra = true then 0 else hfr_group_count) = extra_count at hok ⊢
  have hbound : ch.coded_count ≤ cs_count ∧ ch.coded_count + extra_count ≤ 128 ∨
      (¬ noExtra = true ∧ cs_count > HCA_SAMPLES_PER_SUBFRAME) := by
    cases noExtra with
    | true =>
      left
      simp only [if_true] at hcs hex
      omega
    | false =>
      simp only [Bool.false_eq_true, if_false] at hcs hex
      unfold uint at hcs
      simp only [Nat.reducePow] at hcs
      unfold HCA_SAMPLES_PER_SUBFRAME
      by_cases h : cs_count > 128
      · right
        exact ⟨by simp, h⟩
      · left
        omega
  rcases hbound with ⟨hb1, hb2⟩ | hb
  · have hnot : ¬ (¬ noExtra = true ∧ cs_count > HCA_SAMPLES_PER_SUBFRAME) := by
      unfold HCA_SAMPLES_PER_SUBFRAME
      rintro ⟨h1, h2⟩
      cases noExtra with
      | true => exact h1 rfl
      | false =>
        simp only [Bool.false_eq_true, if_false] at hcs hex
        unfold uint at hcs
        simp only [Nat.reducePow] at hcs
        omega
    rw [if_neg hnot] at hok ⊢
    generalize hbody : (if uchar (bitreader_read br 3).1 ≥ 6 then
        (true, (fixedScalefactors cs_count 0 ch.scalefactors (bitreader_read br 3).2).1,
          (fixedScalefactors cs_count 0 ch.scalefactors (bitreader_read br 3).2).2)
      else if uchar (bitreader_read br 3).1 > 0 then
        deltaScalefactors (uchar (bitreader_read br 3).1)
          (uchar ((1 <<< uchar (bitreader_read br 3).1) - 1)) (cs_count - 1) 1
          (uchar (bitreader_read (bitreader_read br 3).2 6).1)
          (setAt ch.scalefactors 0 (uchar (bitreader_read (bitreader_read br 3).2 6).1))
          (bitreader_read (bitreader_read br 3).2 6).2
      else (true, clearScalefactors HCA_SAMPLES_PER_SUBFRAME 0 ch.scalefactors,
        (bitreader_read br 3).2)) = body at hok ⊢
    have hb1ok : body.1 = true := by
      by_contra hf
      rw [if_neg hf] at hok
      exact absurd hok hcodes
    rw [if_pos hb1ok]
    show derivedScales cs_count ch.resolution extra_count 0 body.2.1 j ≤ 63
    rw [derivedScales_below _ _ _ _ _ _ (by omega)]
    subst hbody
    split_ifs at hb1ok ⊢ with h6 h1
    · exact ((fixedScalefactors_values cs_count 0 ch.scalefactors (bitreader_read br 3).2 j).1
        (by omega))
    · by_cases hj0 : j = 0
      · rw [((deltaScalefactors_values _ _ (cs_count - 1) 1 _ _ _ j).2 (by omega))]
        simp only [setAt, if_pos hj0]
        exact bitreader_read_six _
      · exact (deltaScalefactors_values _ _ (cs_count - 1) 1 _ _ _ j).1 (by omega) hb1ok
    · show clearScalefactors HCA_SAMPLES_PER_SUBFRAME 0 ch.scalefactors j ≤ 63
      rw [clearScalefactors_values]
      unfold HCA_SAMPLES_PER_SUBFRAME
      rw [if_pos (by omega)]
      omega
  · rw [if_pos hb] at hok
    exact absurd hok hcodes

theorem randomIndex_range (valid_count random : Nat) (h1 : 1 ≤ valid_count)
    (h128 : valid_count ≤ 128) :
    randomIndex valid_count random
        = ((128 - valid_count + ((random &&& 0x7FFF) * valid_count) >>> 15 : Nat) : Int) ∧
      128 - valid_count ≤ 128 - valid_count + ((random &&& 0x7FFF) * valid_count) >>> 15 ∧
      128 - valid_count + ((random &&& 0x7FFF) * valid_count) >>> 15 ≤ 127 := by
  have hand : random &&& 0x7FFF ≤ 0x7FFF := Nat.and_le_right
  have hmul : (random &&& 0x7FFF) * valid_count ≤ 0x7FFF * valid_count :=
    Nat.mul_le_mul_right _ hand
  have hq : ((random &&& 0x7FFF) * valid_count) >>> 15 < valid_count := by
    rw [Nat.shiftRight_eq_div_pow]
    apply (Nat.div_lt_iff_lt_mul (Nat.two_pow_pos _)).mpr
    simp only [Nat.reducePow]
    omega
  have hu : uint ((random &&& 0x7FFF) * valid_count) = (random &&& 0x7FFF) * valid_count := by
    unfold uint
    simp only [Nat.reducePow]
    omega
  refine ⟨?_, by omega, by omega⟩
  unfold randomIndex
  rw [hu]
  generalize ((random &&& 0x7FFF) * valid_count) >>> 15 = q at hq
  unfold toInt32 uint usub HCA_SAMPLES_PER_SUBFRAME
  simp only [Nat.reducePow]
  omega

end Vgmstream

namespace Vgmstream

theorem listsUpTo_valid_slot {scalefactors ath_curve : Nat → Nat}
    {packed_noise_level min_resolution max_resolution i : Nat} {s : ResolutionState}
    (hs : ListsUpTo scalefactors ath_curve packed_noise_level min_resolution max_resolution i s)
    (slot : Nat) (h1 : 128 - s.valid_count ≤ slot) (h2 : slot ≤ 127) :
    s.noises slot < i ∧
      validCoefficient scalefactors ath_curve packed_noise_level min_resolution max_resolution
        (s.noises slot) = true := by
  have hb := hs.bound
  by_cases hv : s.valid_count = 0
  · omega
  · have hk : 127 - slot < s.valid_count := by omega
    have hm : s.noises (127 - (127 - slot)) ∈
        (List.range s.valid_count).map (fun k => s.noises (127 - k)) :=
      List.mem_map_of_mem (fun k => s.noises (127 - k)) (List.mem_range.mpr hk)
    have he : 127 - (127 - slot) = slot := by omega
    rw [hs.valid, he] at hm
    obtain ⟨hr, hp⟩ := List.mem_filter.mp hm
    exact ⟨List.mem_range.mp hr, hp⟩

theorem listsUpTo_noise_slot {scalefactors ath_curve : Nat → Nat}
    {packed_noise_level min_resolution max_resolution i : Nat} {s : ResolutionState}
    (hs : ListsUpTo scalefactors ath_curve packed_noise_level min_resolution max_resolution i s)
    (k : Nat) (hk : k < s.noise_count) :
    s.noises k < i ∧
      noiseCoefficient scalefactors ath_curve packed_noise_level min_resolution max_resolution
        (s.noises k) = true := by
  have hm : s.noises k ∈ (List.range s.noise_count).map s.noises :=
    List.mem_map_of_mem s.noises (List.mem_range.mpr hk)
  rw [hs.noise] at hm
  obtain ⟨hr, hp⟩ := List.mem_filter.mp hm
  exact ⟨List.mem_range.mp hr, hp⟩

theorem noiseScaleIndex_range (sf_noise sf_valid : Nat) (h1 : 1 ≤ sf_noise) (h2 : sf_noise ≤ 63)
    (h3 : 1 ≤ sf_valid) (h4 : sf_valid ≤ 63) :
    0 ≤ noiseScaleIndex sf_noise sf_valid ∧ noiseScaleIndex sf_noise sf_valid < 128 := by
  unfold noiseScaleIndex
  split_ifs <;> omega

theorem uchar_of_lt (n : Nat) (h : n < 256) : uchar n = n := by
  unfold uchar
  simp only [Nat.reducePow]
  omega

/-- C31: let `ch` be a channel with `coded_count <= 128` after an `unpack_scalefactors`
that returned `HCA_RESULT_OK` (for a 16-bit `hfr_group_count`) and after
`calculate_resolution`, with `valid_count >= 1`.  For every random state, the slot
`random_index = 128 - valid_count + (((random & 0x7FFF) * valid_count) >> 15)` of
`reconstruct_noise` lies in `128 - valid_count .. 127`; the donor `noises[random_index]` is
a coded coefficient with a scalefactor above 0 and a resolution of at least 1;
and for every entry `i` of the noise list the index
`sc_index = max(0, sf_noise - sf_valid + 62)` lies in `0 .. 127`, inside the table of 128
conversion factors. -/
theorem reconstruct_noise_donor (ch0 ch : stChannel) (br : clData)
    (hfr_group_count version packed_noise_level : Nat) (ath_curve : Nat → Nat)
    (min_resolution max_resolution random : Nat)
    (hcoded : ch0.coded_count ≤ 128) (hhfr : hfr_group_count < 2 ^ 16)
    (hok : (unpack_scalefactors ch0 br hfr_group_count version).1 = HCA_RESULT_OK)
    (hch : ch = calculate_resolution (unpack_scalefactors ch0 br hfr_group_count version).2.1
      packed_noise_level ath_curve min_resolution max_resolution)
    (hvalid : 1 ≤ ch.valid_count) :
    randomIndex ch.valid_count random
      = ((128 - ch.valid_count + ((random &&& 0x7FFF) * ch.valid_count) >>> 15 : Nat) : Int) ∧
    128 - ch.valid_count ≤ (randomIndex ch.valid_count random).toNat ∧
    (randomIndex ch.valid_count random).toNat ≤ 127 ∧
    ch.noises (randomIndex ch.valid_count random).toNat < ch.coded_count ∧
    uchar (ch.scalefactors (ch.noises (randomIndex ch.valid_count random).toNat)) > 0 ∧
    ch.resolution (ch.noises (randomIndex ch.valid_count random).toNat) ≥ 1 ∧
    hcadecoder_scale_conversion_table_hex.length = 128 ∧
    ∀ i, i < ch.noise_count →
      0 ≤ noiseScaleIndex (uchar (ch.scalefactors (uchar (ch.noises i))))
          (uchar (ch.scalefactors
            (uchar (ch.noises (randomIndex ch.valid_count random).toNat)))) ∧
        noiseScaleIndex (uchar (ch.scalefactors (uchar (ch.noises i))))
          (uchar (ch.scalefactors
            (uchar (ch.noises (randomIndex ch.valid_count random).toNat)))) < 128 := by
  have hcc : (unpack_scalefactors ch0 br hfr_group_count version).2.1.coded_count
      = ch0.coded_count := unpack_scalefactors_coded_count ch0 br hfr_group_count version
  have hsf := unpack_scalefactors_coded_values ch0 br hfr_group_count version hcoded hhfr hok
  have hl := calculate_resolution_listsUpTo
    (unpack_scalefactors ch0 br hfr_group_count version).2.1 packed_noise_level ath_curve
    min_resolution max_resolution (by omega)
  have hrc := calculate_resolution_coded
    (unpack_scalefactors ch0 br hfr_group_count version).2.1 packed_noise_level ath_curve
    min_resolution max_resolution
  rw [← hch] at hl hrc
  have hchsf : ch.scalefactors
      = (unpack_scalefactors ch0 br hfr_group_count version).2.1.scalefactors := by
    rw [hch]
    rfl
  have hchcc : ch.coded_count = ch0.coded_count := by
    rw [hch]
    exact hcc
  rw [← hchsf] at hsf hl hrc
  rw [hcc] at hl hrc
  have hbound := hl.bound
  simp only [] at hbound
  have hv128 : ch.valid_count ≤ 128 := by omega
  obtain ⟨hri, hlo, hhi⟩ := randomIndex_range ch.valid_count random hvalid hv128
  have htn : (randomIndex ch.valid_count random).toNat
      = 128 - ch.valid_count + ((random &&& 0x7FFF) * ch.valid_count) >>> 15 := by
    rw [hri]
    exact Int.toNat_natCast _
  generalize hslot : (randomIndex ch.valid_count random).toNat = slot at htn ⊢
  have hslo : 128 - ch.valid_count ≤ slot := by omega
  have hshi : slot ≤ 127 := by omega
  clear htn hlo hhi hslot
  obtain ⟨hd1, hd2⟩ := listsUpTo_valid_slot hl slot hslo hshi
  simp only [] at hd1 hd2
  have hd3 := of_decide_eq_true hd2
  have hdsf := hsf _ hd1
  have hud : uchar (ch.noises slot) = ch.noises slot := uchar_of_lt _ (by omega)
  have husf : uchar (ch.scalefactors (ch.noises slot)) = ch.scalefactors (ch.noises slot) :=
    uchar_of_lt _ (by omega)
  have hdpos := hd3.1
  have hdres := hd3.2
  rw [husf] at hdpos
  refine ⟨hri, hslo, hshi, by omega, hd3.1, ?_, by decide!, ?_⟩
  · rw [hrc _ hd1]
    omega
  · intro i hi
    obtain ⟨hn1, hn2⟩ := listsUpTo_noise_slot hl i hi
    simp only [] at hn1 hn2
    unfold noiseCoefficient at hn2
    have hn3 := (of_decide_eq_true hn2).1
    have hnsf := hsf _ hn1
    have hun : uchar (ch.noises i) = ch.noises i := uchar_of_lt _ (by omega)
    have hunsf : uchar (ch.scalefactors (ch.noises i)) = ch.scalefactors (ch.noises i) :=
      uchar_of_lt _ (by omega)
    rw [hunsf] at hn3
    rw [hun, hud, hunsf, husf]
    exact noiseScaleIndex_range _ _ hn3 hnsf hdpos hdsf

end Vgmstream

namespace Vgmstream

/-- The theorem of C31 on a channel of 4 coded coefficients: the block starts
with `delta_bits` 6 and the scalefactors 1, 63, 63 and 1, so that at the noise
level 100 the coefficients 0 and 3 are on the noise list and 1 and 2 on the
valid list; from the random state 12345 the slot is 126. -/
theorem reconstruct_noise_donor_witness :
    (zeroChannel channel_type_t.DISCRETE 4).coded_count ≤ 128 ∧ (0 : Nat) < 2 ^ 16 ∧
    1 ≤ (calculate_resolution
      (unpack_scalefactors (zeroChannel channel_type_t.DISCRETE 4)
        (bitreader_init (bufferOf [0xC0, 0xFF, 0xF8, 0x20]) 4) 0 0x300).2.1
      25600 (fun _ => 0) 0 15).valid_count ∧
    (randomIndex (calculate_resolution
      (unpack_scalefactors (zeroChannel channel_type_t.DISCRETE 4)
        (bitreader_init (bufferOf [0xC0, 0xFF, 0xF8, 0x20]) 4) 0 0x300).2.1
      25600 (fun _ => 0) 0 15).valid_count 12345).toNat ≤ 127 ∧
    randomIndex 2 12345 = 126 :=
  ⟨by decide, by decide, by decide!,
    (reconstruct_noise_donor (zeroChannel channel_type_t.DISCRETE 4) _
      (bitreader_init (bufferOf [0xC0, 0xFF, 0xF8, 0x20]) 4) 0 0x300 25600 (fun _ => 0) 0 15
      12345 (by decide) (by decide) (by decide!) rfl (by decide!)).2.2.1,
    by decide!⟩

end Vgmstream

namespace CHcaDecoder

/-! ## Termination of the copy loop -/

theorem GetWaveBlockSize_pos (d : Decoder) (h1 : 1 ≤ d.hcaInfo.channelCount)
    (h16 : d.hcaInfo.channelCount ≤ 16) (hbits : d.settings.BitPerChannel < 2 ^ 21) :
    0 < GetWaveBlockSize d := by
  simp only [Nat.reducePow] at hbits
  unfold GetWaveBlockSize
  simp only [Nat.div_one]
  have hu : u32 d.settings.BitPerChannel = d.settings.BitPerChannel := by
    unfold u32
    simp only [Nat.reducePow]
    omega
  rw [hu]
  generalize d.hcaInfo.channelCount = cc at h1 h16
  generalize d.settings.BitPerChannel = bpc at hbits
  have key : ∀ b : Nat, 1 ≤ b → b < 2097152 → 0 < u32 (0x80 * b * cc) := by
    intro b hb1 hb2
    have hlo : 1 ≤ 0x80 * b * cc := Nat.mul_pos (Nat.mul_pos (by decide) hb1) h1
    have hhi : 0x80 * b * cc ≤ 0x80 * b * 16 := Nat.mul_le_mul_left _ h16
    unfold u32
    simp only [Nat.reducePow]
    omega
  split_ifs with h
  · exact key bpc (by omega) hbits
  · exact key 4 (by decide) (by decide)

theorem DecodeBlock_error (d : Decoder) (blockIndex : Nat) (c c' : List (Nat × Buffer))
    (e : OpResult) (h : DecodeBlock d blockIndex c = (.error e, c')) :
    d.decode blockIndex = .error e := by
  unfold DecodeBlock at h
  split at h
  · simp at h
  · split at h
    · rename_i e' he
      simp only [Prod.mk.injEq, Except.error.injEq] at h
      rw [he, h.1]
    · simp at h

/-- C40: for a decoder with 1 to 16 channels (and a `BitPerChannel` below `2 ^ 21`, so
that the block size fits its `uint32_t`), the block size is positive; in every
iteration of the copy loop of `Read`, entered with `bufferSize > 0` and
`mappedPosition < waveStreamLength`, `copyLength` is at least 1 and at most `bufferSize`, and
the new `bufferSize` is `bufferSize - copyLength`, which is smaller; and the loop, run with
a budget of at least `bufferSize` iterations, does not use the budget up: it ends
normally or with the exception of a `DecodeBlock` call, provided every such call
returns or throws. -/
theorem readLoop_terminates (d : Decoder) (waveHeaderSize waveStreamLength : Nat)
    (h1 : 1 ≤ d.hcaInfo.channelCount) (h16 : d.hcaInfo.channelCount ≤ 16)
    (hbits : d.settings.BitPerChannel < 2 ^ 21)
    (hlen : waveStreamLength < 2 ^ 64)
    (hdecode : ∀ blockIndex, d.decode blockIndex ≠ .error .outOfFuel) :
    0 < GetWaveBlockSize d ∧
    (∀ l : ReadLocals, l.bufferSize > 0 → l.bufferSize < 2 ^ 32 →
      l.mappedPosition < waveStreamLength →
      1 ≤ min (sub64 waveStreamLength l.mappedPosition)
          (min (sub64 (GetWaveBlockSize d)
            (sub64 l.mappedPosition waveHeaderSize % GetWaveBlockSize d)) (u64 l.bufferSize)) ∧
      min (sub64 waveStreamLength l.mappedPosition)
          (min (sub64 (GetWaveBlockSize d)
            (sub64 l.mappedPosition waveHeaderSize % GetWaveBlockSize d)) (u64 l.bufferSize))
        ≤ l.bufferSize ∧
      u32 (sub64 l.bufferSize
          (min (sub64 waveStreamLength l.mappedPosition)
            (min (sub64 (GetWaveBlockSize d)
              (sub64 l.mappedPosition waveHeaderSize % GetWaveBlockSize d)) (u64 l.bufferSize))))
        = l.bufferSize -
          min (sub64 waveStreamLength l.mappedPosition)
            (min (sub64 (GetWaveBlockSize d)
              (sub64 l.mappedPosition waveHeaderSize % GetWaveBlockSize d))
              (u64 l.bufferSize))) ∧
    ∀ (fuel : Nat) (l : ReadLocals) (c : List (Nat × Buffer)),
      l.bufferSize ≤ fuel → l.bufferSize < 2 ^ 32 →
      (readLoop d waveHeaderSize (GetWaveBlockSize d) waveStreamLength fuel l c).1
        ≠ .error .outOfFuel := by
  have hB := GetWaveBlockSize_pos d h1 h16 hbits
  have hB32 : GetWaveBlockSize d < 4294967296 := by
    unfold GetWaveBlockSize u32
    simp only [Nat.reducePow]
    exact Nat.mod_lt _ (by decide)
  simp only [Nat.reducePow] at hlen
  generalize GetWaveBlockSize d = B at hB hB32 ⊢
  have hstep : ∀ l : ReadLocals, l.bufferSize > 0 → l.bufferSize < 2 ^ 32 →
      l.mappedPosition < waveStreamLength →
      1 ≤ min (sub64 waveStreamLength l.mappedPosition)
          (min (sub64 B (sub64 l.mappedPosition waveHeaderSize % B)) (u64 l.bufferSize)) ∧
      min (sub64 waveStreamLength l.mappedPosition)
          (min (sub64 B (sub64 l.mappedPosition waveHeaderSize % B)) (u64 l.bufferSize))
        ≤ l.bufferSize ∧
      u32 (sub64 l.bufferSize
          (min (sub64 waveStreamLength l.mappedPosition)
            (min (sub64 B (sub64 l.mappedPosition waveHeaderSize % B)) (u64 l.bufferSize))))
        = l.bufferSize -
          min (sub64 waveStreamLength l.mappedPosition)
            (min (sub64 B (sub64 l.mappedPosition waveHeaderSize % B)) (u64 l.bufferSize)) := by
    intro l hpos h32 hmap
    simp only [Nat.reducePow] at h32
    have hoff : sub64 l.mappedPosition waveHeaderSize % B < B := Nat.mod_lt _ hB
    generalize sub64 l.mappedPosition waveHeaderSize % B = startOffset at hoff
    have e1 : sub64 waveStreamLength l.mappedPosition = waveStreamLength - l.mappedPosition := by
      unfold sub64
      simp only [Nat.reducePow]
      omega
    have e2 : sub64 B startOffset = B - startOffset := by
      unfold sub64
      simp only [Nat.reducePow]
      omega
    have e3 : u64 l.bufferSize = l.bufferSize := by
      unfold u64
      simp only [Nat.reducePow]
      omega
    rw [e1, e2, e3]
    have hle : min (waveStreamLength - l.mappedPosition) (min (B - startOffset) l.bufferSize)
        ≤ l.bufferSize := le_trans (min_le_right _ _) (min_le_right _ _)
    have hge : 1 ≤ min (waveStreamLength - l.mappedPosition)
        (min (B - startOffset) l.bufferSize) := by
      apply le_min
      · omega
      · apply le_min <;> omega
    generalize min (waveStreamLength - l.mappedPosition) (min (B - startOffset) l.bufferSize)
      = cl at hle hge
    refine ⟨hge, hle, ?_⟩
    unfold u32 sub64
    simp only [Nat.reducePow]
    omega
  refine ⟨hB, hstep, ?_⟩
  intro fuel
  induction fuel with
  | zero =>
    intro l c hfuel _
    unfold readLoop
    split
    · rename_i hcond
      omega
    · simp
  | succ fuel ih =>
    intro l c hfuel h32
    unfold readLoop
    split
    · rename_i hcond
      simp only []
      rw [if_neg (by omega)]
      split
      · rename_i e c' hdec
        have := DecodeBlock_error d _ c c' e hdec
        intro he
        simp only [Except.error.injEq] at he
        rw [he] at this
        exact hdecode _ this
      · rename_i blockData c' hdec
        obtain ⟨s1, s2, s3⟩ := hstep l hcond.1 h32 hcond.2
        apply ih
        · simp only []
          rw [s3]
          omega
        · simp only []
          rw [s3]
          omega
    · simp

/-- The theorem of C40 on the 16-bit mono stream of two blocks: the block size
is 2048, and a copy loop for 4096 bytes at the start of the stream does not use
up a budget of 4096 iterations. -/
theorem readLoop_terminates_witness :
    1 ≤ plainStream.hcaInfo.channelCount ∧ plainStream.hcaInfo.channelCount ≤ 16 ∧
    plainStream.settings.BitPerChannel < 2 ^ 21 ∧ (4096 : Nat) < 2 ^ 64 ∧
    GetWaveBlockSize plainStream = 2048 ∧
    (readLoop plainStream 0 (GetWaveBlockSize plainStream) 4096 4096
      { bufferSize := 4096, mappedPosition := 0, streamPosition := 0, totalRead := 0,
        written := [] } []).1 ≠ .error .outOfFuel :=
  ⟨by decide, by decide, by decide, by decide, by decide,
    (readLoop_terminates plainStream 0 4096 (by decide) (by decide) (by decide) (by decide)
      (fun _ h => by simp [plainStream, sampleDecoder] at h)).2.2 4096 _ [] (Nat.le_refl _)
      (by decide)⟩

end CHcaDecoder

namespace CHcaDecoder

/-! ## Channel types -/

set_option synthInstance.maxSize 4096 in
set_option synthInstance.maxHeartbeats 200000 in
theorem InitializeExtra_table : ∀ channelCount, channelCount < 17 → ∀ compR03, compR03 < 17 →
    ∀ compR04, compR04 < 4 → ∀ compR07, compR07 < 2 → 1 ≤ channelCount →
    ∀ types ∈ (InitializeExtra channelCount compR03 compR04 compR07).toOption,
      (pairedTypes types = false ↔
        compR07 ≠ 0 ∧ (channelCount / compR03 = 7 ∨ (channelCount = 13 ∧ compR03 = 2))) := by
  decide!

/-- C37 fails for tracks of 7 channels and for 13 channels in 2 tracks: with
`compR07` not 0, `InitializeExtra` for 7 channels in one track falls from the case of 6
and 7 channels through to the assignments `c[6] = 1` and `c[7] = 2` of the case of 8, so
that channel 6, the last one, is `STEREO_PRIMARY` with no channel after it; for 14
channels in two tracks the second track overwrites `r[7]`, and channel 6 is
`STEREO_PRIMARY` followed by the `STEREO_PRIMARY` channel 7.  For 1 to 16 channels, up to 16
tracks, `compR04` up to 3 and `compR07` 0 or 1, these are the only headers the function
accepts without pairing the types: 7 channels per track, or 13 channels in 2
tracks. -/
theorem InitializeExtra_unpaired_primary :
    (InitializeExtra 7 1 0 1).toOption = some [1, 2, 0, 0, 1, 2, 1] ∧
    (InitializeExtra 14 2 0 1).toOption = some [1, 2, 0, 0, 1, 2, 1, 1, 2, 0, 0, 1, 2, 1] ∧
    pairedTypes [1, 2, 0, 0, 1, 2, 1] = false ∧
    pairedTypes [1, 2, 0, 0, 1, 2, 1, 1, 2, 0, 0, 1, 2, 1] = false ∧
    (InitializeExtra 6 1 0 1).toOption = some [1, 2, 0, 0, 1, 2] ∧
    ∀ channelCount, channelCount < 17 → ∀ compR03, compR03 < 17 → ∀ compR04, compR04 < 4 →
      ∀ compR07, compR07 < 2 → 1 ≤ channelCount →
      ∀ types, (InitializeExtra channelCount compR03 compR04 compR07).toOption = some types →
        (pairedTypes types = false ↔
          compR07 ≠ 0 ∧ (channelCount / compR03 = 7 ∨ (channelCount = 13 ∧ compR03 = 2))) := by
  refine ⟨by decide!, by decide!, by decide!, by decide!, by decide!, ?_⟩
  intro channelCount h1 compR03 h2 compR04 h3 compR07 h4 h5 types ht
  exact InitializeExtra_table channelCount h1 compR03 h2 compR04 h3 compR07 h4 h5 types (Option.mem_def.mpr ht)

end CHcaDecoder

namespace Vgmstream

/-! ## Derived scales -/

/-- C38 fails on a version 3.0 stream with one high frequency group.  On a
discrete channel of 2 coded coefficients (`2 + 1 <= 128`), with `delta_bits` 6,
`unpack_scalefactors` reads the scalefactors 1, 2 and 3 into the indices 0, 1 and 2
and returns `HCA_RESULT_OK`; the derived scale it stores at index 127 is
`scalefactors[cs_count - 0] = scalefactors[3]`, the value 55 an earlier block left there,
not one of the three scalefactors read in this call.  On a channel of 127 coded
coefficients (`127 + 1 <= 128`) the index `cs_count - 0` is 128, past the 128 elements of
the array. -/
theorem unpack_scalefactors_derived_scale_stale :
    staleScaleChannel.coded_count + 1 ≤ 128 ∧
    (unpack_scalefactors staleScaleChannel threeScalesReader 1 0x300).1 = HCA_RESULT_OK ∧
    (List.range 3).map (unpack_scalefactors staleScaleChannel threeScalesReader 1 0x300).2.1.scalefactors
      = [1, 2, 3] ∧
    derivedScaleTarget 0 = 127 ∧ derivedScaleSource (2 + 1) 0 = 3 ∧
    (unpack_scalefactors staleScaleChannel threeScalesReader 1 0x300).2.1.scalefactors 127 = 55 ∧
    fullChannel.coded_count + 1 ≤ 128 ∧
    (unpack_scalefactors fullChannel zeroReader 1 0x300).1 = HCA_RESULT_OK ∧
    derivedScaleSource (127 + 1) 0 = 128 := by
  refine ⟨by decide, by decide!, by decide!, by decide, by decide, by decide!, by decide,
    by decide!, by decide⟩

end Vgmstream

namespace Vgmstream

/-! ## Reconstruction of the high frequencies -/

theorem forLoop_inv {σ : Type} (P : σ → Prop) (body : Nat → σ → σ)
    (hstep : ∀ k s, P s → P (body k s)) :
    ∀ (count i : Nat) (s : σ), P s → P (forLoop body count i s) := by
  intro count
  induction count with
  | zero =>
    intro i s h
    exact h
  | succ count ih =>
    intro i s h
    rw [forLoop_succ]
    exact ih (i + 1) (body i s) (hstep i s h)

/-- The invariant of the loops of `reconstruct_high_frequency`: `highband` is between `lo`
and `total_band_count`, and outside the bands `start .. total_band_count - 1` of the row
`subframe` the rows are those of the channel. -/
theorem hfrStep_frame (fmul : Nat → Nat → Nat) (ch : stChannel)
    (hfr_group_count total_band_count subframe group : Nat) (lowband_sub : Int)
    (start lo : Nat) (hlo : start ≤ lo) (htotal : total_band_count ≤ 128) (s : HfrState)
    (h : (lo : Int) ≤ s.highband ∧ s.highband ≤ total_band_count ∧
      ∀ t j, (t ≠ subframe ∨ j < start ∨ total_band_count ≤ j) →
        s.spectra t j = ch.spectra t j) :
    ((lo : Int) ≤ (hfrStep fmul ch hfr_group_count total_band_count subframe group lowband_sub
        s).highband ∧
      (hfrStep fmul ch hfr_group_count total_band_count subframe group lowband_sub s).highband
        ≤ total_band_count ∧
      ∀ t j, (t ≠ subframe ∨ j < start ∨ total_band_count ≤ j) →
        (hfrStep fmul ch hfr_group_count total_band_count subframe group lowband_sub
          s).spectra t j = ch.spectra t j) ∧
    (s.stopped = false → s.highband < total_band_count → 0 ≤ s.lowband →
      (hfrStep fmul ch hfr_group_count total_band_count subframe group lowband_sub s).highband
        = s.highband + 1) := by
  obtain ⟨h1, h2, h3⟩ := h
  have hut : uint total_band_count = total_band_count := by
    unfold uint
    simp only [Nat.reducePow]
    omega
  have hun : toUnsigned s.highband = s.highband.toNat := by
    unfold toUnsigned
    omega
  unfold hfrStep
  rw [hut, hun]
  constructor
  · split_ifs with hs hc
    · exact ⟨h1, h2, h3⟩
    · exact ⟨h1, h2, h3⟩
    · simp only []
      have hlt : s.highband.toNat < total_band_count := by omega
      refine ⟨?_, ?_, ?_⟩
      · unfold toInt32
        omega
      · unfold toInt32
        omega
      · intro t j hj
        simp only [setAt2]
        rw [if_neg (by omega)]
        exact h3 t j hj
  · intro hs hc hl
    rw [if_neg (by simp [hs]), if_neg (by omega)]
    simp only []
    unfold toInt32
    omega

theorem hfrGroup_frame (fmul : Nat → Nat → Nat) (ch : stChannel)
    (hfr_group_count bands_per_hfr_group total_band_count subframe : Nat) (group_limit : Int)
    (group start lo : Nat) (hlo : start ≤ lo) (htotal : total_band_count ≤ 128) (s : HfrState)
    (h : (lo : Int) ≤ s.highband ∧ s.highband ≤ total_band_count ∧
      ∀ t j, (t ≠ subframe ∨ j < start ∨ total_band_count ≤ j) →
        s.spectra t j = ch.spectra t j) :
    (lo : Int) ≤ (hfrGroup fmul ch hfr_group_count bands_per_hfr_group total_band_count subframe
        group_limit group s).highband ∧
      (hfrGroup fmul ch hfr_group_count bands_per_hfr_group total_band_count subframe
        group_limit group s).highband ≤ total_band_count ∧
      ∀ t j, (t ≠ subframe ∨ j < start ∨ total_band_count ≤ j) →
        (hfrGroup fmul ch hfr_group_count bands_per_hfr_group total_band_count subframe
          group_limit group s).spectra t j = ch.spectra t j := by
  unfold hfrGroup
  simp only []
  refine forLoop_inv
    (fun s => (lo : Int) ≤ s.highband ∧ s.highband ≤ (total_band_count : Int) ∧
      ∀ t j, (t ≠ subframe ∨ j < start ∨ total_band_count ≤ j) →
        s.spectra t j = ch.spectra t j)
    _ (fun _ s hs => (hfrStep_frame fmul ch hfr_group_count total_band_count subframe group _
      start lo hlo htotal s hs).1) _ _ _ ?_
  exact h

end Vgmstream

namespace Vgmstream

theorem hfrLoops_frame (fmul : Nat → Nat → Nat) (ch : stChannel)
    (hfr_group_count bands_per_hfr_group total_band_count subframe : Nat) (group_limit : Int)
    (start lo : Nat) (hlo : start ≤ lo) (htotal : total_band_count ≤ 128) :
    ∀ (count i : Nat) (s : HfrState),
      ((lo : Int) ≤ s.highband ∧ s.highband ≤ total_band_count ∧
        ∀ t j, (t ≠ subframe ∨ j < start ∨ total_band_count ≤ j) →
          s.spectra t j = ch.spectra t j) →
      (lo : Int) ≤ (forLoop (hfrGroup fmul ch hfr_group_count bands_per_hfr_group
          total_band_count subframe group_limit) count i s).highband ∧
        (forLoop (hfrGroup fmul ch hfr_group_count bands_per_hfr_group total_band_count
          subframe group_limit) count i s).highband ≤ total_band_count ∧
        ∀ t j, (t ≠ subframe ∨ j < start ∨ total_band_count ≤ j) →
          (forLoop (hfrGroup fmul ch hfr_group_count bands_per_hfr_group total_band_count
            subframe group_limit) count i s).spectra t j = ch.spectra t j :=
  forLoop_inv
    (fun s => (lo : Int) ≤ s.highband ∧ s.highband ≤ (total_band_count : Int) ∧
      ∀ t j, (t ≠ subframe ∨ j < start ∨ total_band_count ≤ j) →
        s.spectra t j = ch.spectra t j)
    _ (fun group s hs => hfrGroup_frame fmul ch hfr_group_count bands_per_hfr_group
      total_band_count subframe group_limit group start lo hlo htotal s hs)

/-- The first pass of the loops of `reconstruct_high_frequency`, when there is a group, a band
in it and a band to reconstruct, moves `highband` past the start band. -/
theorem hfrLoops_first (fmul : Nat → Nat → Nat) (ch : stChannel)
    (hfr_group_count bands_per_hfr_group total_band_count subframe : Nat) (group_limit : Int)
    (start : Nat) (h1 : 1 ≤ start) (hlt : start < total_band_count)
    (htotal : total_band_count ≤ 128) (hgroups : 1 ≤ hfr_group_count)
    (hbands : bands_per_hfr_group ≠ 0) :
    ((start + 1 : Nat) : Int) ≤ (forLoop (hfrGroup fmul ch hfr_group_count bands_per_hfr_group
        total_band_count subframe group_limit) hfr_group_count 0
        { highband := start, lowband := toInt32 ((start : Int) - 1), spectra := ch.spectra,
          stopped := false }).highband ∧
      (forLoop (hfrGroup fmul ch hfr_group_count bands_per_hfr_group total_band_count
        subframe group_limit) hfr_group_count 0
        { highband := start, lowband := toInt32 ((start : Int) - 1), spectra := ch.spectra,
          stopped := false }).highband ≤ total_band_count ∧
      ∀ t j, (t ≠ subframe ∨ j < start ∨ total_band_count ≤ j) →
        (forLoop (hfrGroup fmul ch hfr_group_count bands_per_hfr_group total_band_count
          subframe group_limit) hfr_group_count 0
          { highband := start, lowband := toInt32 ((start : Int) - 1), spectra := ch.spectra,
            stopped := false }).spectra t j = ch.spectra t j := by
  obtain ⟨n, hn⟩ : ∃ n, hfr_group_count = n + 1 := ⟨hfr_group_count - 1, by omega⟩
  obtain ⟨m, hm⟩ : ∃ m, bands_per_hfr_group = m + 1 := ⟨bands_per_hfr_group - 1, by omega⟩
  have hlow : toInt32 ((start : Int) - 1) = (start : Int) - 1 := by
    unfold toInt32
    omega
  rw [hlow]
  have hinit : ((start : Nat) : Int) ≤ ((start : Nat) : Int) ∧
      ((start : Nat) : Int) ≤ (total_band_count : Int) ∧
      ∀ t j, (t ≠ subframe ∨ j < start ∨ total_band_count ≤ j) →
        ch.spectra t j = ch.spectra t j :=
    ⟨le_refl _, by omega, fun _ _ _ => rfl⟩
  have hstep := hfrStep_frame fmul ch hfr_group_count total_band_count subframe 0
    (if ((0 : Nat) : Int) < group_limit then 1 else 0) start start (Nat.le_refl _) htotal
    { highband := start, lowband := (start : Int) - 1, spectra := ch.spectra, stopped := false }
    hinit
  have hplus := hstep.2 rfl (by simp only []; omega) (by simp only []; omega)
  simp only [] at hplus
  have hafter : ((start + 1 : Nat) : Int) ≤ (hfrStep fmul ch hfr_group_count total_band_count
      subframe 0 (if ((0 : Nat) : Int) < group_limit then 1 else 0)
      { highband := start, lowband := (start : Int) - 1, spectra := ch.spectra,
        stopped := false }).highband ∧
      (hfrStep fmul ch hfr_group_count total_band_count subframe 0
        (if ((0 : Nat) : Int) < group_limit then 1 else 0)
        { highband := start, lowband := (start : Int) - 1, spectra := ch.spectra,
          stopped := false }).highband ≤ total_band_count ∧
      ∀ t j, (t ≠ subframe ∨ j < start ∨ total_band_count ≤ j) →
        (hfrStep fmul ch hfr_group_count total_band_count subframe 0
          (if ((0 : Nat) : Int) < group_limit then 1 else 0)
          { highband := start, lowband := (start : Int) - 1, spectra := ch.spectra,
            stopped := false }).spectra t j = ch.spectra t j := by
    refine ⟨?_, hstep.1.2.1, hstep.1.2.2⟩
    rw [hplus]
    omega
  have hgroup : ((start + 1 : Nat) : Int) ≤ (hfrGroup fmul ch hfr_group_count
      bands_per_hfr_group total_band_count subframe group_limit 0
      { highband := start, lowband := (start : Int) - 1, spectra := ch.spectra,
        stopped := false }).highband ∧
      (hfrGroup fmul ch hfr_group_count bands_per_hfr_group total_band_count subframe
        group_limit 0
        { highband := start, lowband := (start : Int) - 1, spectra := ch.spectra,
          stopped := false }).highband ≤ total_band_count ∧
      ∀ t j, (t ≠ subframe ∨ j < start ∨ total_band_count ≤ j) →
        (hfrGroup fmul ch hfr_group_count bands_per_hfr_group total_band_count subframe
          group_limit 0
          { highband := start, lowband := (start : Int) - 1, spectra := ch.spectra,
            stopped := false }).spectra t j = ch.spectra t j := by
    unfold hfrGroup
    simp only []
    rw [hm, forLoop_succ]
    refine forLoop_inv
      (fun s => ((start + 1 : Nat) : Int) ≤ s.highband ∧
        s.highband ≤ (total_band_count : Int) ∧
        ∀ t j, (t ≠ subframe ∨ j < start ∨ total_band_count ≤ j) →
          s.spectra t j = ch.spectra t j)
      _ (fun _ s hs => (hfrStep_frame fmul ch hfr_group_count total_band_count subframe 0 _
        start (start + 1) (by omega) htotal s hs).1) _ _ _ ?_
    exact hafter
  rw [hn, forLoop_succ]
  rw [hn] at hgroup
  exact hfrLoops_frame fmul ch (n + 1) bands_per_hfr_group total_band_count subframe group_limit
    start (start + 1) (by omega) htotal n 1 _ hgroup

end Vgmstream

namespace Vgmstream

/-- C39 as stated fails when no band is reconstructed: on a discrete channel with
`base_band_count = 2`, `stereo_band_count = 0` and `total_band_count = 2`
(`1 <= 2 <= 2 <= 128`), with one band in each high frequency group and no group,
`reconstruct_high_frequency` leaves `highband` at 2 and its last statement
`spectra[subframe][highband - 1] = 0.0f` clears the coded coefficient 1, which held 7. -/
theorem reconstruct_high_frequency_clears_coded :
    1 ≤ 2 + 0 ∧ 2 + 0 ≤ 2 ∧ 2 ≤ 128 ∧
    codedPairChannel.spectra 0 1 = 7 ∧
    (reconstruct_high_frequency (fun a _ => a) codedPairChannel 0 1 0 2 2 0x300 0).spectra 0 1
      = 0 ∧
    (reconstruct_high_frequency (fun a _ => a) codedPairChannel 1 1 0 2 2 0x300 0).spectra 0 1
      = 0 := by
  refine ⟨by decide, by decide, by decide, by decide, by decide!, by decide!⟩

/-- C39 as amended: with `1 <= base_band_count + stereo_band_count <= total_band_count <= 128`,
`reconstruct_high_frequency` changes nothing but `spectra`; every entry of another row, of
an index below `base_band_count + stereo_band_count - 1` or of an index from
`total_band_count` on keeps its value; the entry at `base_band_count + stereo_band_count - 1`
of the row, the last coded coefficient, keeps its value when there is a high
frequency group and a band above the coded ones, and is set to 0 when
`bands_per_hfr_group` is not 0, the channel is not stereo secondary and there is no
group or no band above the coded ones; with `bands_per_hfr_group = 0` or on a stereo
secondary channel the function changes nothing. -/
theorem reconstruct_high_frequency_writes (fmul : Nat → Nat → Nat) (ch : stChannel)
    (hfr_group_count bands_per_hfr_group stereo_band_count base_band_count total_band_count
      version subframe : Nat)
    (h1 : 1 ≤ base_band_count + stereo_band_count)
    (h2 : base_band_count + stereo_band_count ≤ total_band_count)
    (h3 : total_band_count ≤ 128) :
    reconstruct_high_frequency fmul ch hfr_group_count bands_per_hfr_group stereo_band_count
        base_band_count total_band_count version subframe
      = { ch with
          spectra := (reconstruct_high_frequency fmul ch hfr_group_count bands_per_hfr_group
            stereo_band_count base_band_count total_band_count version subframe).spectra } ∧
    (∀ t j, (t ≠ subframe ∨ j + 1 < base_band_count + stereo_band_count ∨
        total_band_count ≤ j) →
      (reconstruct_high_frequency fmul ch hfr_group_count bands_per_hfr_group stereo_band_count
        base_band_count total_band_count version subframe).spectra t j = ch.spectra t j) ∧
    (1 ≤ hfr_group_count → base_band_count + stereo_band_count < total_band_count →
      (reconstruct_high_frequency fmul ch hfr_group_count bands_per_hfr_group stereo_band_count
          base_band_count total_band_count version subframe).spectra subframe
          (base_band_count + stereo_band_count - 1)
        = ch.spectra subframe (base_band_count + stereo_band_count - 1)) ∧
    (bands_per_hfr_group ≠ 0 → ch.type ≠ channel_type_t.STEREO_SECONDARY →
      (hfr_group_count = 0 ∨ base_band_count + stereo_band_count = total_band_count) →
      (reconstruct_high_frequency fmul ch hfr_group_count bands_per_hfr_group stereo_band_count
          base_band_count total_band_count version subframe).spectra subframe
          (base_band_count + stereo_band_count - 1) = 0) ∧
    ((bands_per_hfr_group = 0 ∨ ch.type = channel_type_t.STEREO_SECONDARY) →
      reconstruct_high_frequency fmul ch hfr_group_count bands_per_hfr_group stereo_band_count
        base_band_count total_band_count version subframe = ch) := by
  have hstart : toInt32 ((uint (stereo_band_count + base_band_count) : Nat) : Int)
      = ((base_band_count + stereo_band_count : Nat) : Int) := by
    unfold toInt32 uint
    simp only [Nat.reducePow]
    omega
  generalize hst : base_band_count + stereo_band_count = start at h1 h2 hstart ⊢
  unfold reconstruct_high_frequency
  by_cases hb : bands_per_hfr_group = 0
  · rw [if_pos hb]
    exact ⟨rfl, fun _ _ _ => rfl, fun _ _ => rfl, fun h => absurd hb h, fun _ => rfl⟩
  by_cases hty : ch.type = channel_type_t.STEREO_SECONDARY
  · rw [if_neg hb, if_pos hty]
    exact ⟨rfl, fun _ _ _ => rfl, fun _ _ => rfl, fun _ h => absurd hty h, fun _ => rfl⟩
  simp only [if_neg hb, if_neg hty, hstart]
  generalize hgl : (if version ≤ HCA_VERSION_V200 then toInt32 ((uint hfr_group_count : Nat) : Int)
    else toInt32 ((uint hfr_group_count : Nat) : Int) / 2) = group_limit
  have hinit : ((start : Nat) : Int) ≤ ((start : Nat) : Int) ∧
      ((start : Nat) : Int) ≤ (total_band_count : Int) ∧
      ∀ t j, (t ≠ subframe ∨ j < start ∨ total_band_count ≤ j) →
        ch.spectra t j = ch.spectra t j :=
    ⟨le_refl _, by omega, fun _ _ _ => rfl⟩
  have hall := hfrLoops_frame fmul ch hfr_group_count bands_per_hfr_group total_band_count
    subframe group_limit start start (Nat.le_refl _) h3 hfr_group_count 0
    { highband := start, lowband := toInt32 ((start : Int) - 1), spectra := ch.spectra,
      stopped := false } hinit
  refine ⟨?_, ?_, ?_, ?_, ?_⟩
  · trivial
  · intro t j hj
    obtain ⟨a1, a2, a3⟩ := hall
    generalize forLoop (hfrGroup fmul ch hfr_group_count bands_per_hfr_group total_band_count
      subframe group_limit) hfr_group_count 0
      { highband := start, lowband := toInt32 ((start : Int) - 1), spectra := ch.spectra,
        stopped := false } = s at a1 a2 a3 ⊢
    have hidx : (toInt32 (s.highband - 1)).toNat = s.highband.toNat - 1 := by
      unfold toInt32
      omega
    simp only [setAt2, hidx]
    rw [if_neg (by omega)]
    exact a3 t j (by omega)
  · intro hg hlt
    obtain ⟨a1, a2, a3⟩ := hfrLoops_first fmul ch hfr_group_count bands_per_hfr_group
      total_band_count subframe group_limit start h1 hlt h3 hg hb
    generalize forLoop (hfrGroup fmul ch hfr_group_count bands_per_hfr_group total_band_count
      subframe group_limit) hfr_group_count 0
      { highband := start, lowband := toInt32 ((start : Int) - 1), spectra := ch.spectra,
        stopped := false } = s at a1 a2 a3 ⊢
    have hidx : (toInt32 (s.highband - 1)).toNat = s.highband.toNat - 1 := by
      unfold toInt32
      omega
    simp only [setAt2, hidx]
    rw [if_neg (by omega)]
    exact a3 subframe (start - 1) (by omega)
  · intro _ _ hnone
    have hhigh : (forLoop (hfrGroup fmul ch hfr_group_count bands_per_hfr_group total_band_count
        subframe group_limit) hfr_group_count 0
        { highband := start, lowband := toInt32 ((start : Int) - 1), spectra := ch.spectra,
          stopped := false }).highband = start := by
      rcases hnone with h0 | heq
      · rw [h0]
        rfl
      · obtain ⟨a1, a2, _⟩ := hall
        omega
    have hidx : (toInt32 ((forLoop (hfrGroup fmul ch hfr_group_count bands_per_hfr_group
        total_band_count subframe group_limit) hfr_group_count 0
        { highband := start, lowband := toInt32 ((start : Int) - 1), spectra := ch.spectra,
          stopped := false }).highband - 1)).toNat = start - 1 := by
      rw [hhigh]
      unfold toInt32
      omega
    simp only [setAt2, hidx, and_self, if_true]
  · rintro (h | h)
    · exact absurd h hb
    · exact absurd h hty

/-- The theorem of C39 on a discrete channel with 2 coded coefficients, 4 bands
in all and one high frequency group of 2 bands: the coded coefficients 0 and 1
keep the value 7. -/
theorem reconstruct_high_frequency_writes_witness :
    1 ≤ 2 + 0 ∧ 2 + 0 ≤ 4 ∧ 4 ≤ 128 ∧ 1 ≤ 1 ∧ 2 + 0 < 4 ∧
    (reconstruct_high_frequency (fun a _ => a) codedPairChannel 1 2 0 2 4 0x300 0).spectra 0 0
      = codedPairChannel.spectra 0 0 ∧
    (reconstruct_high_frequency (fun a _ => a) codedPairChannel 1 2 0 2 4 0x300 0).spectra 0
        (2 + 0 - 1)
      = codedPairChannel.spectra 0 (2 + 0 - 1) :=
  ⟨by decide, by decide, by decide, by decide, by decide,
    (reconstruct_high_frequency_writes (fun a _ => a) codedPairChannel 1 2 0 2 4 0x300 0
      (by decide) (by decide) (by decide)).2.1 0 0 (Or.inr (Or.inl (by decide))),
    (reconstruct_high_frequency_writes (fun a _ => a) codedPairChannel 1 2 0 2 4 0x300 0
      (by decide) (by decide) (by decide)).2.2.1 (by decide) (by decide)⟩

end Vgmstream

namespace Vgmstream

/-! ## Source bands of the high frequencies -/

theorem hfrStep_run (fmul : Nat → Nat → Nat) (ch : stChannel)
    (hfr_group_count total_band_count subframe group : Nat) (lowband_sub : Int) (s : HfrState)
    (htotal : total_band_count ≤ 128) (hstop : s.stopped = false) (h0 : 0 ≤ s.highband)
    (hhigh : s.highband < total_band_count) (hlow : 0 ≤ s.lowband)
    (hlow31 : s.lowband < 2147483648) (hsub : lowband_sub = 0 ∨ lowband_sub = 1) :
    hfrStep fmul ch hfr_group_count total_band_count subframe group lowband_sub s
      = { highband := s.highband + 1
          lowband := s.lowband - lowband_sub
          spectra := setAt2 s.spectra subframe s.highband.toNat
            (fmul (hcadecoder_scale_conversion_table_hex.getD
                ((if (uchar (ch.scalefactors (usub 128 hfr_group_count + group)) : Int)
                      - (uchar (ch.scalefactors s.lowband.toNat) : Nat) + 63 < 0 then 0
                  else (uchar (ch.scalefactors (usub 128 hfr_group_count + group)) : Int)
                      - (uchar (ch.scalefactors s.lowband.toNat) : Nat) + 63) : Int).toNat 0)
              (s.spectra subframe s.lowband.toNat))
          stopped := false } := by
  have hut : uint total_band_count = total_band_count := by
    unfold uint
    simp only [Nat.reducePow]
    omega
  have hun : toUnsigned s.highband = s.highband.toNat := by
    unfold toUnsigned
    omega
  have e1 : toInt32 (s.highband + 1) = s.highband + 1 := by
    unfold toInt32
    omega
  have e2 : toInt32 (s.lowband - lowband_sub) = s.lowband - lowband_sub := by
    unfold toInt32
    rcases hsub with h | h <;> rw [h] <;> omega
  unfold hfrStep
  rw [hut, hun, if_neg (by simp [hstop]), if_neg (by omega)]
  simp only [e1, e2]

theorem hfrInner_run (fmul : Nat → Nat → Nat) (ch : stChannel)
    (hfr_group_count total_band_count subframe group : Nat) (lowband_sub : Int)
    (htotal : total_band_count ≤ 128) (hsub : lowband_sub = 0 ∨ lowband_sub = 1) :
    ∀ (i idx : Nat) (s : HfrState), s.stopped = false → 0 ≤ s.highband →
      s.highband + i ≤ total_band_count → s.lowband < 2147483648 →
      (i ≠ 0 → lowband_sub * (i - 1 : Nat) ≤ s.lowband) →
      (forLoop (fun _ s => hfrStep fmul ch hfr_group_count total_band_count subframe group
          lowband_sub s) i idx s).stopped = false ∧
        (forLoop (fun _ s => hfrStep fmul ch hfr_group_count total_band_count subframe group
          lowband_sub s) i idx s).highband = s.highband + i ∧
        (forLoop (fun _ s => hfrStep fmul ch hfr_group_count total_band_count subframe group
          lowband_sub s) i idx s).lowband = s.lowband - lowband_sub * i := by
  intro i
  induction i with
  | zero =>
    intro idx s hstop _ _ _ _
    refine ⟨hstop, by simp [forLoop], by simp [forLoop]⟩
  | succ i ih =>
    intro idx s hstop h0 hhigh hlow31 hlow
    have hl := hlow (by omega)
    have hl0 : 0 ≤ s.lowband := by
      rcases hsub with h | h <;> rw [h] at hl <;> push_cast at hl <;> omega
    rw [forLoop_succ, hfrStep_run fmul ch hfr_group_count total_band_count subframe group
      lowband_sub s htotal hstop h0 (by push_cast at hhigh; omega) hl0 hlow31 hsub]
    obtain ⟨r1, r2, r3⟩ := ih (idx + 1)
      { highband := s.highband + 1
        lowband := s.lowband - lowband_sub
        spectra := setAt2 s.spectra subframe s.highband.toNat
          (fmul (hcadecoder_scale_conversion_table_hex.getD
              ((if (uchar (ch.scalefactors (usub 128 hfr_group_count + group)) : Int)
                    - (uchar (ch.scalefactors s.lowband.toNat) : Nat) + 63 < 0 then 0
                else (uchar (ch.scalefactors (usub 128 hfr_group_count + group)) : Int)
                    - (uchar (ch.scalefactors s.lowband.toNat) : Nat) + 63) : Int).toNat 0)
            (s.spectra subframe s.lowband.toNat))
        stopped := false }
      rfl (by simp only []; omega) (by simp only []; push_cast at hhigh ⊢; omega)
      (by simp only []; rcases hsub with h | h <;> rw [h] <;> omega)
      (by
        intro hi
        simp only []
        rcases hsub with h | h
        · rw [h] at hl ⊢
          omega
        · rw [h] at hl ⊢
          push_cast at hl ⊢
          omega)
    refine ⟨r1, ?_, ?_⟩
    · rw [r2]
      push_cast
      omega
    · rw [r3]
      push_cast
      ring

end Vgmstream

namespace Vgmstream

/-- The first `count` passes of the inner loop of `reconstruct_high_frequency` for the group
`group`, when no `break` is taken: `X` bands are done before them, `lowband` stops moving
after `Y` bands, and the band `K`, not before the last of the passes, is still below
`total_band_count` with a source band that is not negative. -/
theorem hfrBands_run (fmul : Nat → Nat → Nat) (ch : stChannel)
    (hfr_group_count total_band_count subframe limit group start K X Y count : Nat)
    (s : HfrState) (htotal : total_band_count ≤ 128) (hK1 : start + K < total_band_count)
    (hK2 : 0 ≤ (start : Int) - 1 - ((min K Y : Nat) : Int))
    (h1 : s.highband = ((start + X : Nat) : Int))
    (h2 : s.lowband = (start : Int) - 1 - ((min X Y : Nat) : Int))
    (hlt : group < limit → X + count ≤ Y) (hge : ¬ group < limit → Y ≤ X)
    (hK : X + count ≤ K) :
    (forLoop (fun _ s => hfrStep fmul ch hfr_group_count total_band_count subframe group
        (if (group : Int) < (limit : Int) then 1 else 0) s) count 0
        { s with stopped := false }).stopped = false ∧
      (forLoop (fun _ s => hfrStep fmul ch hfr_group_count total_band_count subframe group
        (if (group : Int) < (limit : Int) then 1 else 0) s) count 0
        { s with stopped := false }).highband = ((start + (X + count) : Nat) : Int) ∧
      (forLoop (fun _ s => hfrStep fmul ch hfr_group_count total_band_count subframe group
        (if (group : Int) < (limit : Int) then 1 else 0) s) count 0
        { s with stopped := false }).lowband
        = (start : Int) - 1 - ((min (X + count) Y : Nat) : Int) := by
  by_cases hg : group < limit
  · have hY := hlt hg
    rw [if_pos (by exact_mod_cast hg)]
    obtain ⟨r1, r2, r3⟩ := hfrInner_run fmul ch hfr_group_count total_band_count subframe group 1
      htotal (Or.inr rfl) count 0
      { s with stopped := false } rfl
      (by simp only []; omega) (by simp only []; omega) (by simp only []; omega)
      (by
        intro _
        simp only []
        omega)
    rw [r2, r3]
    simp only []
    refine ⟨r1, ?_, ?_⟩ <;> omega
  · have hY := hge hg
    rw [if_neg (by
      intro h
      exact hg (by exact_mod_cast h))]
    obtain ⟨r1, r2, r3⟩ := hfrInner_run fmul ch hfr_group_count total_band_count subframe group 0
      htotal (Or.inl rfl) count 0
      { s with stopped := false } rfl
      (by simp only []; omega) (by simp only []; omega) (by simp only []; omega)
      (by
        intro _
        simp only []
        omega)
    rw [r2, r3]
    simp only []
    refine ⟨r1, ?_, ?_⟩ <;> omega

theorem hfrGroup_run (fmul : Nat → Nat → Nat) (ch : stChannel)
    (hfr_group_count bands_per_hfr_group total_band_count subframe limit group start K X Y : Nat)
    (s : HfrState) (htotal : total_band_count ≤ 128) (hK1 : start + K < total_band_count)
    (hK2 : 0 ≤ (start : Int) - 1 - ((min K Y : Nat) : Int))
    (h1 : s.highband = ((start + X : Nat) : Int))
    (h2 : s.lowband = (start : Int) - 1 - ((min X Y : Nat) : Int))
    (hlt : group < limit → X + bands_per_hfr_group ≤ Y) (hge : ¬ group < limit → Y ≤ X)
    (hK : X + bands_per_hfr_group ≤ K) :
    (hfrGroup fmul ch hfr_group_count bands_per_hfr_group total_band_count subframe
        (limit : Int) group s).highband = ((start + (X + bands_per_hfr_group) : Nat) : Int) ∧
      (hfrGroup fmul ch hfr_group_count bands_per_hfr_group total_band_count subframe
        (limit : Int) group s).lowband
        = (start : Int) - 1 - ((min (X + bands_per_hfr_group) Y : Nat) : Int) := by
  unfold hfrGroup
  simp only []
  exact (hfrBands_run fmul ch hfr_group_count total_band_count subframe limit group start K X Y
    bands_per_hfr_group s htotal hK1 hK2 h1 h2 hlt hge hK).2

theorem hfrOuter_run (fmul : Nat → Nat → Nat) (ch : stChannel)
    (hfr_group_count bands_per_hfr_group total_band_count subframe limit start K : Nat)
    (htotal : total_band_count ≤ 128) (hK1 : start + K < total_band_count)
    (hK2 : 0 ≤ hfrSourceBand start limit bands_per_hfr_group K) :
    ∀ (n g0 : Nat) (s : HfrState),
      s.highband = ((start + g0 * bands_per_hfr_group : Nat) : Int) →
      s.lowband = hfrSourceBand start limit bands_per_hfr_group (g0 * bands_per_hfr_group) →
      (g0 + n) * bands_per_hfr_group ≤ K →
      (forLoop (hfrGroup fmul ch hfr_group_count bands_per_hfr_group total_band_count subframe
          (limit : Int)) n g0 s).highband
          = ((start + (g0 + n) * bands_per_hfr_group : Nat) : Int) ∧
        (forLoop (hfrGroup fmul ch hfr_group_count bands_per_hfr_group total_band_count subframe
          (limit : Int)) n g0 s).lowband
          = hfrSourceBand start limit bands_per_hfr_group ((g0 + n) * bands_per_hfr_group) := by
  intro n
  induction n with
  | zero =>
    intro g0 s h1 h2 _
    exact ⟨h1, h2⟩
  | succ n ih =>
    intro g0 s h1 h2 hK
    have hZ : (g0 + 1) * bands_per_hfr_group = g0 * bands_per_hfr_group + bands_per_hfr_group :=
      Nat.succ_mul _ _
    have hW : (g0 + (n + 1)) * bands_per_hfr_group
        = g0 * bands_per_hfr_group + bands_per_hfr_group + n * bands_per_hfr_group := by ring
    have hW' : (g0 + 1 + n) * bands_per_hfr_group
        = g0 * bands_per_hfr_group + bands_per_hfr_group + n * bands_per_hfr_group := by ring
    rw [hW] at hK
    rw [forLoop_succ]
    have hgroup := hfrGroup_run fmul ch hfr_group_count bands_per_hfr_group total_band_count
      subframe limit g0 start K (g0 * bands_per_hfr_group) (limit * bands_per_hfr_group) s htotal
      hK1 hK2 h1 h2
      (fun hlt => by
        have := Nat.mul_le_mul_right bands_per_hfr_group (show g0 + 1 ≤ limit by omega)
        rw [hZ] at this
        exact this)
      (fun hge => Nat.mul_le_mul_right bands_per_hfr_group (by omega))
      (by omega)
    rw [← hZ] at hgroup
    have := ih (g0 + 1) _ hgroup.1 hgroup.2 (by rw [hW']; exact hK)
    rw [show g0 + (n + 1) = g0 + 1 + n by omega]
    exact this

end Vgmstream

namespace Vgmstream

/-- C32: in `reconstruct_high_frequency` (16-bit `hfr_group_count`, `total_band_count <= 128`),
let `before` be the state of the loops before the pass `i` of the inner loop for the
group `g`, the pass number `k = g * bands_per_hfr_group + i`, reached from the initial
`highband = start` and `lowband = start - 1` with `start = base_band_count + stereo_band_count`.  If
`start + k < total_band_count` and the source band
`start - 1 - min(k, limit * bands_per_hfr_group)` is not negative, `limit` being
`hfr_group_count` up to version 2.0 and `floor(hfr_group_count / 2)` above, then no `break`
was taken, `highband` is `start + k` and `lowband` is that source band, which is
`start - 1 - k` up to version 2.0; the pass stores at `spectra[subframe][start + k]` the
product of the source coefficient and the table entry of index
`max(0, hfr_scales[g] - scalefactors[lowband] + 63)`, which lies in `0 .. 126` when `hfr_scales[g]`
is a 6-bit value. -/
theorem reconstruct_high_frequency_source_band (fmul : Nat → Nat → Nat) (ch : stChannel)
    (hfr_group_count bands_per_hfr_group stereo_band_count base_band_count total_band_count
      version subframe g i : Nat) (before : HfrState)
    (hbefore : before =
      forLoop (fun _ s => hfrStep fmul ch hfr_group_count total_band_count subframe g
          (if (g : Int) < (if version ≤ HCA_VERSION_V200 then toInt32 (uint hfr_group_count)
            else toInt32 (uint hfr_group_count) / 2) then 1 else 0) s) i 0
        { forLoop (hfrGroup fmul ch hfr_group_count bands_per_hfr_group total_band_count
            subframe (if version ≤ HCA_VERSION_V200 then toInt32 (uint hfr_group_count)
              else toInt32 (uint hfr_group_count) / 2)) g 0
            { highband := toInt32 (uint (stereo_band_count + base_band_count))
              lowband := toInt32 (toInt32 (uint (stereo_band_count + base_band_count)) - 1)
              spectra := ch.spectra
              stopped := false } with stopped := false })
    (hhfr : hfr_group_count < 2 ^ 16) (htotal : total_band_count ≤ 128)
    (hg : g < hfr_group_count) (hi : i < bands_per_hfr_group)
    (hhigh : base_band_count + stereo_band_count + (g * bands_per_hfr_group + i)
      < total_band_count)
    (hlow : 0 ≤ hfrSourceBand (base_band_count + stereo_band_count)
      (hfrGroupLimit hfr_group_count version) bands_per_hfr_group
      (g * bands_per_hfr_group + i))
    (hscale : uchar (ch.scalefactors (usub 128 hfr_group_count + g)) ≤ 63) :
    before.stopped = false ∧
    before.highband
      = ((base_band_count + stereo_band_count + (g * bands_per_hfr_group + i) : Nat) : Int) ∧
    before.lowband = hfrSourceBand (base_band_count + stereo_band_count)
      (hfrGroupLimit hfr_group_count version) bands_per_hfr_group
      (g * bands_per_hfr_group + i) ∧
    (version ≤ HCA_VERSION_V200 →
      before.lowband = ((base_band_count + stereo_band_count : Nat) : Int) - 1
        - ((g * bands_per_hfr_group + i : Nat) : Int)) ∧
    (hfrStep fmul ch hfr_group_count total_band_count subframe g
        (if (g : Int) < (if version ≤ HCA_VERSION_V200 then toInt32 (uint hfr_group_count)
          else toInt32 (uint hfr_group_count) / 2) then 1 else 0) before).spectra subframe
        (base_band_count + stereo_band_count + (g * bands_per_hfr_group + i))
      = fmul (hcadecoder_scale_conversion_table_hex.getD
          (max 0 ((uchar (ch.scalefactors (usub 128 hfr_group_count + g)) : Int)
            - (uchar (ch.scalefactors before.lowband.toNat) : Nat) + 63)).toNat 0)
          (before.spectra subframe before.lowband.toNat) ∧
    (max 0 ((uchar (ch.scalefactors (usub 128 hfr_group_count + g)) : Int)
      - (uchar (ch.scalefactors before.lowband.toNat) : Nat) + 63)).toNat ≤ 126 := by
  simp only [Nat.reducePow] at hhfr
  have hgl : (if version ≤ HCA_VERSION_V200 then toInt32 (uint hfr_group_count)
      else toInt32 (uint hfr_group_count) / 2)
      = ((hfrGroupLimit hfr_group_count version : Nat) : Int) := by
    have hu : toInt32 ((uint hfr_group_count : Nat) : Int) = (hfr_group_count : Int) := by
      unfold toInt32 uint
      simp only [Nat.reducePow]
      omega
    unfold hfrGroupLimit
    rw [hu]
    split_ifs
    · rfl
    · omega
  rw [hgl] at hbefore ⊢
  have hlim : version ≤ HCA_VERSION_V200 → hfrGroupLimit hfr_group_count version
      = hfr_group_count := by
    intro hv
    unfold hfrGroupLimit
    rw [if_pos hv]
  clear hgl
  generalize hfrGroupLimit hfr_group_count version = limit at hbefore hlow hlim ⊢
  have hstart : toInt32 ((uint (stereo_band_count + base_band_count) : Nat) : Int)
      = ((base_band_count + stereo_band_count : Nat) : Int) := by
    unfold toInt32 uint
    simp only [Nat.reducePow]
    omega
  rw [hstart] at hbefore
  clear hstart
  generalize base_band_count + stereo_band_count = start at hbefore hhigh hlow ⊢
  have hlow' := hlow
  unfold hfrSourceBand at hlow'
  have hlow0 : toInt32 ((start : Int) - 1) = (start : Int) - 1 := by
    unfold toInt32
    omega
  rw [hlow0] at hbefore
  have houter := hfrOuter_run fmul ch hfr_group_count bands_per_hfr_group total_band_count
    subframe limit start (g * bands_per_hfr_group + i) htotal hhigh hlow g 0
    { highband := start, lowband := (start : Int) - 1, spectra := ch.spectra, stopped := false }
    (by simp only [Nat.zero_mul, Nat.add_zero])
    (by
      unfold hfrSourceBand
      simp only [Nat.zero_mul, Nat.zero_min, Nat.cast_zero, sub_zero])
    (by rw [Nat.zero_add]; omega)
  rw [Nat.zero_add] at houter
  have hZ : (g + 1) * bands_per_hfr_group = g * bands_per_hfr_group + bands_per_hfr_group :=
    Nat.succ_mul _ _
  have hinner := hfrBands_run fmul ch hfr_group_count total_band_count subframe limit g start
    (g * bands_per_hfr_group + i) (g * bands_per_hfr_group) (limit * bands_per_hfr_group) i
    (forLoop (hfrGroup fmul ch hfr_group_count bands_per_hfr_group total_band_count subframe
      (limit : Int)) g 0
      { highband := start, lowband := (start : Int) - 1, spectra := ch.spectra,
        stopped := false })
    htotal hhigh hlow' houter.1 houter.2
    (fun hlt => by
      have := Nat.mul_le_mul_right bands_per_hfr_group (show g + 1 ≤ limit by omega)
      rw [hZ] at this
      omega)
    (fun hge => Nat.mul_le_mul_right bands_per_hfr_group (by omega))
    (Nat.le_refl _)
  rw [← hbefore] at hinner
  obtain ⟨b1, b2, b3⟩ := hinner
  have hb3 : before.lowband = hfrSourceBand start limit bands_per_hfr_group
      (g * bands_per_hfr_group + i) := b3
  have hrun := hfrStep_run fmul ch hfr_group_count total_band_count subframe g
    (if (g : Int) < (limit : Int) then 1 else 0) before htotal b1 (by rw [b2]; omega)
    (by rw [b2]; omega) (by rw [hb3]; exact hlow)
    (by rw [b3]; omega) (by split_ifs <;> simp)
  have hidx : (max 0 ((uchar (ch.scalefactors (usub 128 hfr_group_count + g)) : Int)
      - (uchar (ch.scalefactors before.lowband.toNat) : Nat) + 63))
      = (if (uchar (ch.scalefactors (usub 128 hfr_group_count + g)) : Int)
            - (uchar (ch.scalefactors before.lowband.toNat) : Nat) + 63 < 0 then 0
        else (uchar (ch.scalefactors (usub 128 hfr_group_count + g)) : Int)
            - (uchar (ch.scalefactors before.lowband.toNat) : Nat) + 63) := by
    split_ifs <;> omega
  refine ⟨b1, b2, hb3, ?_, ?_, ?_⟩
  · intro hv
    rw [b3]
    have hlim' := hlim hv
    have : g * bands_per_hfr_group + bands_per_hfr_group ≤ limit * bands_per_hfr_group := by
      have := Nat.mul_le_mul_right bands_per_hfr_group (show g + 1 ≤ limit by omega)
      rw [hZ] at this
      exact this
    omega
  · rw [hrun, hidx]
    simp only [setAt2]
    rw [if_pos (by
      refine ⟨trivial, ?_⟩
      rw [b2]
      omega)]
  · rw [hidx]
    split_ifs <;> omega

end Vgmstream

namespace Vgmstream

/-- The theorem of C32 on `rampChannel` with 2 groups of 2 bands, the start band 4
and 8 bands in all, version 3.0: before the pass for `k = 1 * 2 + 1 = 3`, `highband` is 7
and `lowband` is `4 - 1 - min(3, 1 * 2) = 1`. -/
theorem reconstruct_high_frequency_source_band_witness :
    (2 : Nat) < 2 ^ 16 ∧ (8 : Nat) ≤ 128 ∧ 1 < 2 ∧ 4 + 0 + (1 * 2 + 1) < 8 ∧
    0 ≤ hfrSourceBand (4 + 0) (hfrGroupLimit 2 0x300) 2 (1 * 2 + 1) ∧
    rampBefore.highband = ((4 + 0 + (1 * 2 + 1) : Nat) : Int) ∧
    rampBefore.lowband = hfrSourceBand (4 + 0) (hfrGroupLimit 2 0x300) 2 (1 * 2 + 1) ∧
    hfrSourceBand (4 + 0) (hfrGroupLimit 2 0x300) 2 (1 * 2 + 1) = 1 :=
  ⟨by decide, by decide, by decide, by decide, by decide!,
    (reconstruct_high_frequency_source_band (fun a b => a + b) rampChannel 2 2 0 4 8 0x300 0 1 1
      rampBefore rfl (by decide) (by decide) (by decide) (by decide) (by decide) (by decide!)
      (by decide!)).2.1,
    (reconstruct_high_frequency_source_band (fun a b => a + b) rampChannel 2 2 0 4 8 0x300 0 1 1
      rampBefore rfl (by decide) (by decide) (by decide) (by decide) (by decide) (by decide!)
      (by decide!)).2.2.1,
    by decide!⟩

end Vgmstream

namespace Vgmstream

/-! ## Inverse transform -/

set_option synthInstance.maxSize 4096 in
set_option synthInstance.maxHeartbeats 200000 in
theorem sumDifference_cover : ∀ i, i < 7 → ∀ j, j < 128 → ∃ n, n < 64 ∧
    (j = n / ((HCA_SAMPLES_PER_SUBFRAME / 2) >>> i) * (2 * ((HCA_SAMPLES_PER_SUBFRAME / 2) >>> i))
        + n % ((HCA_SAMPLES_PER_SUBFRAME / 2) >>> i) ∨
      j = n / ((HCA_SAMPLES_PER_SUBFRAME / 2) >>> i)
          * (2 * ((HCA_SAMPLES_PER_SUBFRAME / 2) >>> i))
        + n % ((HCA_SAMPLES_PER_SUBFRAME / 2) >>> i) + (HCA_SAMPLES_PER_SUBFRAME / 2) >>> i) := by
  decide!

set_option synthInstance.maxSize 4096 in
set_option synthInstance.maxHeartbeats 200000 in
theorem rotation_cover : ∀ i, i < 7 → ∀ j, j < 128 → ∃ n, n < 64 ∧
    (j = n / (1 <<< i) * (2 * (1 <<< i)) + n % (1 <<< i) ∨
      j = n / (1 <<< i) * (2 * (1 <<< i)) + (2 * (1 <<< i) - 1 - n % (1 <<< i))) := by
  decide!

set_option synthInstance.maxSize 4096 in
set_option synthInstance.maxHeartbeats 200000 in
theorem rotation_reads : ∀ i, i < 7 → ∀ n, n < 64 →
    n / (1 <<< i) * (2 * (1 <<< i)) + n % (1 <<< i) + (1 <<< i) < 128 := by
  decide!

end Vgmstream

namespace Vgmstream

theorem sumDifference_rel (Rel : Nat → Nat → Prop) (fadd fsub : Nat → Nat → Nat)
    (hadd : ∀ a a2 b b2, Rel a a2 → Rel b b2 → Rel (fadd a b) (fadd a2 b2))
    (hsub : ∀ a a2 b b2, Rel a a2 → Rel b b2 → Rel (fsub a b) (fsub a2 b2))
    (count2 : Nat)
    (hcover : ∀ j, j < 128 → ∃ n, n < 64 ∧
      (j = n / count2 * (2 * count2) + n % count2 ∨
        j = n / count2 * (2 * count2) + n % count2 + count2))
    (src src2 dst dst2 : Nat → Nat) (hsrc : ∀ j, j < 128 → Rel (src j) (src2 j)) :
    ∀ j, j < 128 →
      Rel (forLoop (sumDifferenceStep fadd fsub count2 src) 64 0 dst j)
        (forLoop (sumDifferenceStep fadd fsub count2 src2) 64 0 dst2 j) := by
  have h := forLoop_rel
    (fun k da db => ∀ j, (∃ n, n < k ∧
      (j = n / count2 * (2 * count2) + n % count2 ∨
        j = n / count2 * (2 * count2) + n % count2 + count2)) → Rel (da j) (db j))
    (sumDifferenceStep fadd fsub count2 src) (sumDifferenceStep fadd fsub count2 src2)
    64 0 dst dst2
    (by
      intro k s t _ hk hR j hj
      unfold sumDifferenceStep
      simp only [setAt]
      by_cases h2 : j = k / count2 * (2 * count2) + k % count2 + count2
      · rw [if_pos h2, if_pos h2]
        exact hsub _ _ _ _ (hsrc _ (by omega)) (hsrc _ (by omega))
      · rw [if_neg h2, if_neg h2]
        by_cases h1 : j = k / count2 * (2 * count2) + k % count2
        · rw [if_pos h1, if_pos h1]
          exact hadd _ _ _ _ (hsrc _ (by omega)) (hsrc _ (by omega))
        · rw [if_neg h1, if_neg h1]
          obtain ⟨n, hn, hjn⟩ := hj
          have hnk : n ≠ k := by
            rintro rfl
            rcases hjn with h | h
            · exact h1 h
            · exact h2 h
          exact hR j ⟨n, by omega, hjn⟩)
    (by
      intro j hj
      obtain ⟨n, hn, _⟩ := hj
      omega)
  intro j hj
  exact h j (hcover j hj)

theorem rotation_rel (Rel : Nat → Nat → Prop) (fmul fadd fsub : Nat → Nat → Nat)
    (hadd : ∀ a a2 b b2, Rel a a2 → Rel b b2 → Rel (fadd a b) (fadd a2 b2))
    (hsub : ∀ a a2 b b2, Rel a a2 → Rel b b2 → Rel (fsub a b) (fsub a2 b2))
    (hmul : ∀ a a2 t, Rel a a2 → Rel (fmul a t) (fmul a2 t))
    (i count2 : Nat)
    (hcover : ∀ j, j < 128 → ∃ n, n < 64 ∧
      (j = n / count2 * (2 * count2) + n % count2 ∨
        j = n / count2 * (2 * count2) + (2 * count2 - 1 - n % count2)))
    (hreads : ∀ n, n < 64 → n / count2 * (2 * count2) + n % count2 + count2 < 128)
    (src src2 dst dst2 : Nat → Nat) (hsrc : ∀ j, j < 128 → Rel (src j) (src2 j)) :
    ∀ j, j < 128 →
      Rel (forLoop (rotationStep fmul fadd fsub i count2 src) 64 0 dst j)
        (forLoop (rotationStep fmul fadd fsub i count2 src2) 64 0 dst2 j) := by
  have h := forLoop_rel
    (fun k da db => ∀ j, (∃ n, n < k ∧
      (j = n / count2 * (2 * count2) + n % count2 ∨
        j = n / count2 * (2 * count2) + (2 * count2 - 1 - n % count2))) → Rel (da j) (db j))
    (rotationStep fmul fadd fsub i count2 src) (rotationStep fmul fadd fsub i count2 src2)
    64 0 dst dst2
    (by
      intro k s t _ hk hR j hj
      have hr := hreads k (by omega)
      unfold rotationStep
      simp only [setAt]
      by_cases h2 : j = k / count2 * (2 * count2) + (2 * count2 - 1 - k % count2)
      · rw [if_pos h2, if_pos h2]
        exact hadd _ _ _ _ (hmul _ _ _ (hsrc _ (by omega))) (hmul _ _ _ (hsrc _ hr))
      · rw [if_neg h2, if_neg h2]
        by_cases h1 : j = k / count2 * (2 * count2) + k % count2
        · rw [if_pos h1, if_pos h1]
          exact hsub _ _ _ _ (hmul _ _ _ (hsrc _ (by omega))) (hmul _ _ _ (hsrc _ hr))
        · rw [if_neg h1, if_neg h1]
          obtain ⟨n, hn, hjn⟩ := hj
          have hnk : n ≠ k := by
            rintro rfl
            rcases hjn with h | h
            · exact h1 h
            · exact h2 h
          exact hR j ⟨n, by omega, hjn⟩)
    (by
      intro j hj
      obtain ⟨n, hn, _⟩ := hj
      omega)
  intro j hj
  exact h j (hcover j hj)

/-- The two parts of `imdct_transform` before the window, on two rows related below 128
by a relation that sums, differences and products with a table entry keep: the
rows they leave are related below 128. -/
theorem transformPasses_rel (Rel : Nat → Nat → Prop) (fmul fadd fsub : Nat → Nat → Nat)
    (hadd : ∀ a a2 b b2, Rel a a2 → Rel b b2 → Rel (fadd a b) (fadd a2 b2))
    (hsub : ∀ a a2 b b2, Rel a a2 → Rel b b2 → Rel (fsub a b) (fsub a2 b2))
    (hmul : ∀ a a2 t, Rel a a2 → Rel (fmul a t) (fmul a2 t))
    (row row2 temp temp2 : Nat → Nat) (hrow : ∀ j, j < 128 → Rel (row j) (row2 j)) :
    ∀ j, j < 128 →
      Rel ((forLoop (rotationPass fmul fadd fsub) HCA_MDCT_BITS 0
          { forLoop (sumDifferencePass fadd fsub) HCA_MDCT_BITS 0
              { row := row, temp := temp, fromRow := true } with fromRow := false }).row j)
        ((forLoop (rotationPass fmul fadd fsub) HCA_MDCT_BITS 0
          { forLoop (sumDifferencePass fadd fsub) HCA_MDCT_BITS 0
              { row := row2, temp := temp2, fromRow := true } with fromRow := false }).row j) := by
  have h1 := forLoop_rel
    (fun k (b b2 : TransformBuffers) => b.fromRow = decide (k % 2 = 0) ∧
      b2.fromRow = decide (k % 2 = 0) ∧
      ∀ j, j < 128 → Rel ((if k % 2 = 0 then b.row else b.temp) j)
        ((if k % 2 = 0 then b2.row else b2.temp) j))
    (sumDifferencePass fadd fsub) (sumDifferencePass fadd fsub) HCA_MDCT_BITS 0
    { row := row, temp := temp, fromRow := true }
    { row := row2, temp := temp2, fromRow := true }
    (by
      intro k b b2 _ hk ⟨hf, hf2, hR⟩
      have hk7 : k < 7 := by
        unfold HCA_MDCT_BITS at hk
        omega
      unfold sumDifferencePass
      simp only [hf, hf2]
      rcases Nat.mod_two_eq_zero_or_one k with h0 | h0
      · have h1 : (k + 1) % 2 = 1 := by omega
        simp only [h0, h1, decide_True, if_true, one_ne_zero, decide_False, if_false,
          true_and] at hR ⊢
        exact sumDifference_rel Rel fadd fsub hadd hsub _ (sumDifference_cover k hk7) _ _ _ _ hR
      · have h1 : (k + 1) % 2 = 0 := by omega
        simp only [h0, h1, decide_True, if_true, one_ne_zero, decide_False, if_false,
          true_and, Bool.false_eq_true] at hR ⊢
        exact sumDifference_rel Rel fadd fsub hadd hsub _ (sumDifference_cover k hk7) _ _ _ _ hR)
    ⟨rfl, rfl, hrow⟩
  obtain ⟨_, _, h1R⟩ := h1
  have h7 : (0 + HCA_MDCT_BITS) % 2 = 1 := by decide
  simp only [h7, one_ne_zero, if_false] at h1R
  have h2 := forLoop_rel
    (fun k (b b2 : TransformBuffers) => b.fromRow = decide (k % 2 = 1) ∧
      b2.fromRow = decide (k % 2 = 1) ∧
      ∀ j, j < 128 → Rel ((if k % 2 = 1 then b.row else b.temp) j)
        ((if k % 2 = 1 then b2.row else b2.temp) j))
    (rotationPass fmul fadd fsub) (rotationPass fmul fadd fsub) HCA_MDCT_BITS 0
    { forLoop (sumDifferencePass fadd fsub) HCA_MDCT_BITS 0
        { row := row, temp := temp, fromRow := true } with fromRow := false }
    { forLoop (sumDifferencePass fadd fsub) HCA_MDCT_BITS 0
        { row := row2, temp := temp2, fromRow := true } with fromRow := false }
    (by
      intro k b b2 _ hk ⟨hf, hf2, hR⟩
      have hk7 : k < 7 := by
        unfold HCA_MDCT_BITS at hk
        omega
      unfold rotationPass
      simp only [hf, hf2]
      rcases Nat.mod_two_eq_zero_or_one k with h0 | h0
      · have h1 : (k + 1) % 2 = 1 := by omega
        simp only [h0, h1, decide_True, if_true, zero_ne_one, decide_False, if_false,
          true_and, Bool.false_eq_true] at hR ⊢
        exact rotation_rel Rel fmul fadd fsub hadd hsub hmul k _ (rotation_cover k hk7)
          (rotation_reads k hk7) _ _ _ _ hR
      · have h1 : (k + 1) % 2 = 0 := by omega
        simp only [h0, h1, decide_True, if_true, zero_ne_one, decide_False, if_false,
          true_and] at hR ⊢
        exact rotation_rel Rel fmul fadd fsub hadd hsub hmul k _ (rotation_cover k hk7)
          (rotation_reads k hk7) _ _ _ _ hR)
    ⟨rfl, rfl, by
      simp only [Nat.zero_mod, zero_ne_one, if_false]
      exact h1R⟩
  obtain ⟨_, _, h2R⟩ := h2
  simp only [h7, if_true] at h2R
  exact h2R

end Vgmstream

namespace Vgmstream

theorem forLoop_ind {σ : Type} (P : Nat → σ → Prop) (body : Nat → σ → σ) (count i : Nat) (s : σ)
    (hstep : ∀ k s, i ≤ k → k < i + count → P k s → P (k + 1) (body k s)) (h : P i s) :
    P (i + count) (forLoop body count i s) :=
  forLoop_rel (fun k s (_ : Unit) => P k s) body (fun _ u => u) count i s ()
    (fun k s _ h1 h2 h3 => hstep k s h1 h2 h3) h

/-- The last loop of `imdct_transform` in closed form: from the row `dct` and the
`imdct_previous` it starts with. -/
theorem windowLoop_closed (fmul fadd fsub : Nat → Nat → Nat) (dct : Nat → Nat)
    (w0 : WindowState) :
    (∀ j, j < 64 →
      (forLoop (windowStep fmul fadd fsub dct) (HCA_SAMPLES_PER_SUBFRAME / 2) 0 w0).wave j
        = fadd (fmul (hcaimdct_window_float_hex.getD j 0) (dct (j + 64))) (w0.imdct_previous j) ∧
      (forLoop (windowStep fmul fadd fsub dct) (HCA_SAMPLES_PER_SUBFRAME / 2) 0 w0).wave (j + 64)
        = fsub (fmul (hcaimdct_window_float_hex.getD (j + 64) 0) (dct (127 - j)))
            (w0.imdct_previous (j + 64)) ∧
      (forLoop (windowStep fmul fadd fsub dct) (HCA_SAMPLES_PER_SUBFRAME / 2) 0
          w0).imdct_previous j
        = fmul (hcaimdct_window_float_hex.getD (127 - j) 0) (dct (63 - j)) ∧
      (forLoop (windowStep fmul fadd fsub dct) (HCA_SAMPLES_PER_SUBFRAME / 2) 0
          w0).imdct_previous (j + 64)
        = fmul (hcaimdct_window_float_hex.getD (63 - j) 0) (dct j)) ∧
    ∀ j, 128 ≤ j →
      (forLoop (windowStep fmul fadd fsub dct) (HCA_SAMPLES_PER_SUBFRAME / 2) 0 w0).wave j
        = w0.wave j ∧
      (forLoop (windowStep fmul fadd fsub dct) (HCA_SAMPLES_PER_SUBFRAME / 2) 0
          w0).imdct_previous j = w0.imdct_previous j := by
  have h := forLoop_ind
    (fun k (s : WindowState) =>
      (∀ j, j < k →
        s.wave j = fadd (fmul (hcaimdct_window_float_hex.getD j 0) (dct (j + 64)))
            (w0.imdct_previous j) ∧
        s.wave (j + 64) = fsub (fmul (hcaimdct_window_float_hex.getD (j + 64) 0) (dct (127 - j)))
            (w0.imdct_previous (j + 64)) ∧
        s.imdct_previous j = fmul (hcaimdct_window_float_hex.getD (127 - j) 0) (dct (63 - j)) ∧
        s.imdct_previous (j + 64) = fmul (hcaimdct_window_float_hex.getD (63 - j) 0) (dct j)) ∧
      (∀ j, k ≤ j → j < 64 →
        s.imdct_previous j = w0.imdct_previous j ∧
        s.imdct_previous (j + 64) = w0.imdct_previous (j + 64)) ∧
      ∀ j, 128 ≤ j → s.wave j = w0.wave j ∧ s.imdct_previous j = w0.imdct_previous j)
    (windowStep fmul fadd fsub dct) (HCA_SAMPLES_PER_SUBFRAME / 2) 0 w0
    (by
      intro k s _ hk ⟨h1, h2, h3⟩
      have hk64 : k < 64 := by
        unfold HCA_SAMPLES_PER_SUBFRAME at hk
        omega
      obtain ⟨p1, p2⟩ := h2 k (Nat.le_refl k) hk64
      have e1 : HCA_SAMPLES_PER_SUBFRAME / 2 = 64 := by decide
      have e2 : HCA_SAMPLES_PER_SUBFRAME - 1 - k = 127 - k := by
        unfold HCA_SAMPLES_PER_SUBFRAME
        omega
      have e3 : 64 - k - 1 = 63 - k := by omega
      unfold windowStep
      simp only [e1, e2, e3, setAt]
      refine ⟨?_, ?_, ?_⟩
      · intro j hj
        by_cases hjk : j = k
        · subst hjk
          rw [if_neg (by omega), if_pos rfl, if_pos rfl, if_neg (by omega), if_pos rfl,
            if_pos rfl, p1, p2]
          exact ⟨rfl, rfl, rfl, rfl⟩
        · obtain ⟨q1, q2, q3, q4⟩ := h1 j (by omega)
          iterate 8 rw [if_neg (by omega)]
          exact ⟨q1, q2, q3, q4⟩
      · intro j hj1 hj2
        iterate 4 rw [if_neg (by omega)]
        exact h2 j (by omega) hj2
      · intro j hj
        iterate 4 rw [if_neg (by omega)]
        exact h3 j hj)
    ⟨fun j hj => absurd hj (Nat.not_lt_zero j), fun _ _ _ => ⟨rfl, rfl⟩, fun _ _ => ⟨rfl, rfl⟩⟩
  have e1 : 0 + HCA_SAMPLES_PER_SUBFRAME / 2 = 64 := by decide
  rw [e1] at h
  exact ⟨h.1, h.2.2⟩

end Vgmstream

namespace Vgmstream

/-- C33: let the operations on `float` values follow the laws of exact arithmetic
that the statement uses, with the bit pattern 0 for `0.0`: `0 * t = 0`, `t * 0 = 0`,
`0 + p = p` and `0 - 0 = 0`.  If the 128 spectra of the subframe are all zero,
`imdct_transform` leaves `wave[subframe][i] = imdct_previous[i]` and
`wave[subframe][i + 64] = 0 - imdct_previous[i + 64]` for `i < 64`, and all 128 entries of
`imdct_previous` zero.  In general, with any operations, the 128 entries of the new
`imdct_previous` are the same for two channels whose 128 spectra of the subframe
are the same, whatever their `imdct_previous`, `temp` and `wave` were. -/
theorem imdct_transform_zero_spectra (fmul fadd fsub : Nat → Nat → Nat) (ch : stChannel)
    (subframe : Nat) :
    ((∀ t, fmul 0 t = 0) → (∀ t, fmul t 0 = 0) → (∀ p, fadd 0 p = p) → fsub 0 0 = 0 →
      (∀ j, j < 128 → ch.spectra subframe j = 0) →
      (∀ i, i < 64 →
        (imdct_transform fmul fadd fsub ch subframe).wave subframe i = ch.imdct_previous i ∧
        (imdct_transform fmul fadd fsub ch subframe).wave subframe (i + 64)
          = fsub 0 (ch.imdct_previous (i + 64))) ∧
      ∀ j, j < 128 → (imdct_transform fmul fadd fsub ch subframe).imdct_previous j = 0) ∧
    ∀ ch2 : stChannel, (∀ j, j < 128 → ch2.spectra subframe j = ch.spectra subframe j) →
      ∀ j, j < 128 →
        (imdct_transform fmul fadd fsub ch2 subframe).imdct_previous j
          = (imdct_transform fmul fadd fsub ch subframe).imdct_previous j := by
  constructor
  · intro hm0 hm0r ha0 hs0 hzero
    have hdct := transformPasses_rel (fun x _ => x = 0) fmul fadd fsub
      (fun a _ b _ ha hb => by rw [ha, hb]; exact ha0 0)
      (fun a _ b _ ha hb => by rw [ha, hb]; exact hs0)
      (fun a _ t ha => by rw [ha]; exact hm0 t)
      (ch.spectra subframe) (ch.spectra subframe) ch.temp ch.temp hzero
    simp only [] at hdct
    obtain ⟨hw, _⟩ := windowLoop_closed fmul fadd fsub
      (forLoop (rotationPass fmul fadd fsub) HCA_MDCT_BITS 0
        { forLoop (sumDifferencePass fadd fsub) HCA_MDCT_BITS 0
            { row := ch.spectra subframe, temp := ch.temp, fromRow := true } with
          fromRow := false }).row
      { wave := ch.wave subframe, imdct_previous := ch.imdct_previous }
    unfold imdct_transform
    simp only [setRow, if_true]
    constructor
    · intro i hi
      obtain ⟨w1, w2, _, _⟩ := hw i hi
      rw [w1, w2, hdct (i + 64) (by omega), hdct (127 - i) (by omega), hm0r, hm0r, ha0]
      exact ⟨rfl, rfl⟩
    · intro j hj
      by_cases hj64 : j < 64
      · obtain ⟨_, _, w3, _⟩ := hw j hj64
        rw [w3, hdct (63 - j) (by omega), hm0r]
      · obtain ⟨_, _, _, w4⟩ := hw (j - 64) (by omega)
        rw [show j - 64 + 64 = j by omega] at w4
        rw [w4, hdct (j - 64) (by omega), hm0r]
  · intro ch2 hsp j hj
    have hdct := transformPasses_rel (fun x y => x = y) fmul fadd fsub
      (fun a _ b _ ha hb => by rw [ha, hb])
      (fun a _ b _ ha hb => by rw [ha, hb])
      (fun a _ t ha => by rw [ha])
      (ch2.spectra subframe) (ch.spectra subframe) ch2.temp ch.temp hsp
    simp only [] at hdct
    obtain ⟨hw, _⟩ := windowLoop_closed fmul fadd fsub
      (forLoop (rotationPass fmul fadd fsub) HCA_MDCT_BITS 0
        { forLoop (sumDifferencePass fadd fsub) HCA_MDCT_BITS 0
            { row := ch.spectra subframe, temp := ch.temp, fromRow := true } with
          fromRow := false }).row
      { wave := ch.wave subframe, imdct_previous := ch.imdct_previous }
    obtain ⟨hw2, _⟩ := windowLoop_closed fmul fadd fsub
      (forLoop (rotationPass fmul fadd fsub) HCA_MDCT_BITS 0
        { forLoop (sumDifferencePass fadd fsub) HCA_MDCT_BITS 0
            { row := ch2.spectra subframe, temp := ch2.temp, fromRow := true } with
          fromRow := false }).row
      { wave := ch2.wave subframe, imdct_previous := ch2.imdct_previous }
    unfold imdct_transform
    simp only []
    by_cases hj64 : j < 64
    · obtain ⟨_, _, w3, _⟩ := hw j hj64
      obtain ⟨_, _, v3, _⟩ := hw2 j hj64
      rw [w3, v3, hdct (63 - j) (by omega)]
    · obtain ⟨_, _, _, w4⟩ := hw (j - 64) (by omega)
      obtain ⟨_, _, _, v4⟩ := hw2 (j - 64) (by omega)
      rw [show j - 64 + 64 = j by omega] at w4 v4
      rw [w4, v4, hdct (j - 64) (by omega)]

end Vgmstream

namespace Vgmstream

/-- The theorem of C33 on a channel with zero spectra and `imdct_previous[i] = 1000 + i`,
with the product, the sum and the truncated difference of natural numbers for the
three operations: `wave[0][3]` is 1003 and the new `imdct_previous[5]` is 0. -/
theorem imdct_transform_zero_spectra_witness :
    (∀ j, j < 128 → silentChannel.spectra 0 j = 0) ∧
    (imdct_transform (fun a b => a * b) (fun a b => a + b) (fun a b => a - b) silentChannel
      0).wave 0 3 = silentChannel.imdct_previous 3 ∧
    silentChannel.imdct_previous 3 = 1003 ∧
    (imdct_transform (fun a b => a * b) (fun a b => a + b) (fun a b => a - b) silentChannel
      0).imdct_previous 5 = 0 :=
  ⟨fun _ _ => rfl,
    (((imdct_transform_zero_spectra (fun a b => a * b) (fun a b => a + b) (fun a b => a - b)
      silentChannel 0).1 (fun t => Nat.zero_mul t) (fun t => Nat.mul_zero t)
      (fun p => Nat.zero_add p) rfl (fun _ _ => rfl)).1 3 (by decide)).1,
    rfl,
    ((imdct_transform_zero_spectra (fun a b => a * b) (fun a b => a + b) (fun a b => a - b)
      silentChannel 0).1 (fun t => Nat.zero_mul t) (fun t => Nat.mul_zero t)
      (fun p => Nat.zero_add p) rfl (fun _ _ => rfl)).2 5 (by decide)⟩

end Vgmstream

namespace Vgmstream

theorem noiseStep_agree (fmul : Nat → Nat → Nat) (a b : stChannel) (hfr start d w subframe i : Nat)
    (h : StageAgree hfr start d w a b) (hw : w ≤ subframe) (hd : subframe < d) (hi : i < a.noise_count)
    (hv : 1 ≤ a.valid_count) (sa sb : Nat → Nat → Nat) (random : Nat)
    (hs : ∀ t j, w ≤ t → t < d → j < 128 → sa t j = sb t j) :
    (noiseStep fmul a subframe i sa random).2 = (noiseStep fmul b subframe i sb random).2 ∧
      ∀ t j, w ≤ t → t < d → j < 128 →
        (noiseStep fmul a subframe i sa random).1 t j
          = (noiseStep fmul b subframe i sb random).1 t j := by
  obtain ⟨hri, hlo, hhi⟩ := randomIndex_range a.valid_count (nextRandom random) hv h.valid_le
  have htn : (randomIndex a.valid_count (nextRandom random)).toNat
      = 128 - a.valid_count + ((nextRandom random &&& 0x7FFF) * a.valid_count) >>> 15 := by
    rw [hri]
    exact Int.toNat_natCast _
  generalize hslot : (randomIndex a.valid_count (nextRandom random)).toNat = slot at htn
  have hslo : 128 - a.valid_count ≤ slot := by omega
  have hshi : slot < 128 := by omega
  clear htn hlo hhi hri
  obtain ⟨hval, hvalc⟩ := h.valid slot hslo hshi
  obtain ⟨hnoise, hnoisec⟩ := h.noise i hi
  have hcoded := h.coded
  have hu : uchar (a.noises slot) = a.noises slot := uchar_of_lt _ (by omega)
  have hun : uchar (a.noises i) = a.noises i := uchar_of_lt _ (by omega)
  have hs1 : b.scalefactors (a.noises i) = a.scalefactors (a.noises i) :=
    (h.scalefactors _ hnoisec).symm
  have hs2 : b.scalefactors (a.noises slot) = a.scalefactors (a.noises slot) :=
    (h.scalefactors _ hvalc).symm
  unfold noiseStep
  simp only [← h.valid_count, hslot, ← hval, ← hnoise, hu, hun, hs1, hs2]
  refine ⟨trivial, ?_⟩
  intro t j ht1 ht2 hj
  simp only [setAt2]
  rw [hs subframe (a.noises slot) hw hd (by omega)]
  split_ifs
  · rfl
  · exact hs t j ht1 ht2 hj

theorem reconstruct_noise_agree (fmul : Nat → Nat → Nat) (a b : stChannel)
    (hfr start d w min_resolution ms_stereo random subframe : Nat)
    (h : StageAgree hfr start d w a b) (hw : w ≤ subframe) (hd : subframe < d) :
    StageAgree hfr start d w (reconstruct_noise fmul a min_resolution ms_stereo random subframe).1
        (reconstruct_noise fmul b min_resolution ms_stereo random subframe).1 ∧
      (reconstruct_noise fmul a min_resolution ms_stereo random subframe).2
        = (reconstruct_noise fmul b min_resolution ms_stereo random subframe).2 := by
  unfold reconstruct_noise
  rw [← h.valid_count, ← h.noise_count, ← h.carried.type]
  by_cases h1 : min_resolution > 0
  · rw [if_pos h1, if_pos h1]
    exact ⟨h, rfl⟩
  rw [if_neg h1, if_neg h1]
  by_cases h2 : a.valid_count ≤ 0 ∨ a.noise_count ≤ 0
  · rw [if_pos h2, if_pos h2]
    exact ⟨h, rfl⟩
  rw [if_neg h2, if_neg h2]
  by_cases h3 : ¬ (ms_stereo = 0 ∨ a.type = channel_type_t.STEREO_PRIMARY)
  · rw [if_pos h3, if_pos h3]
    exact ⟨h, rfl⟩
  rw [if_neg h3, if_neg h3]
  simp only []
  have hloop := forLoop_rel
    (fun _ (x y : (Nat → Nat → Nat) × Nat) => x.2 = y.2 ∧
      ∀ t j, w ≤ t → t < d → j < 128 → x.1 t j = y.1 t j)
    (fun i s => noiseStep fmul a subframe i s.1 s.2)
    (fun i s => noiseStep fmul b subframe i s.1 s.2)
    a.noise_count 0 (a.spectra, random) (b.spectra, random)
    (by
      intro k x y _ hk ⟨hr, hs⟩
      simp only []
      rw [← hr]
      exact noiseStep_agree fmul a b hfr start d w subframe k h hw hd (by omega) (by omega) x.1 y.1 x.2 hs)
    ⟨rfl, h.spectra⟩
  unfold noiseLoop
  have hres := stageAgree_spectra h (Nat.le_refl w) _ _ hloop.2
  rw [← h.valid_count, ← h.noise_count, ← h.carried.type] at hres
  exact ⟨hres, hloop.1⟩

end Vgmstream

namespace Vgmstream

theorem hfrStep_agree (fmul : Nat → Nat → Nat) (a b : stChannel)
    (hfr_group_count total_band_count subframe group d w : Nat) (lowband_sub limit : Int)
    (hscale : a.scalefactors (usub 128 hfr_group_count + group)
      = b.scalefactors (usub 128 hfr_group_count + group))
    (hlow : ∀ i : Nat, (i : Int) < limit → a.scalefactors i = b.scalefactors i)
    (htotal : total_band_count ≤ 128)
    (hsub : lowband_sub = 0 ∨ lowband_sub = 1) (hw : w ≤ subframe) (hd : subframe < d)
    (s t : HfrState) (h : HfrAgree limit d w s t) :
    HfrAgree limit d w
      (hfrStep fmul a hfr_group_count total_band_count subframe group lowband_sub s)
      (hfrStep fmul b hfr_group_count total_band_count subframe group lowband_sub t) := by
  obtain ⟨hb, lb, sp, st⟩ := s
  obtain ⟨hb2, lb2, sp2, st2⟩ := t
  obtain ⟨h1, h2, h3, h4, h5, h7, h6⟩ := h
  simp only at h1 h2 h3 h4 h5 h6 h7
  subst h1 h2 h3
  have hut : uint total_band_count = total_band_count := by
    unfold uint
    simp only [Nat.reducePow]
    omega
  unfold hfrStep
  simp only [hut, ← hscale]
  by_cases hs : st = true
  · rw [if_pos hs, if_pos hs]
    exact ⟨rfl, rfl, rfl, h4, h5, h7, h6⟩
  rw [if_neg hs, if_neg hs]
  by_cases hc : toUnsigned hb ≥ total_band_count ∨ lb < 0
  · rw [if_pos hc, if_pos hc]
    exact ⟨rfl, rfl, rfl, h4, h5, h7, h6⟩
  rw [if_neg hc, if_neg hc]
  have hhb : 0 ≤ hb ∧ hb < 128 := by
    unfold toUnsigned at hc
    omega
  have hlb : 0 ≤ lb ∧ lb < hb := by omega
  have hread : sp subframe lb.toNat = sp2 subframe lb.toNat := h4 _ _ hw hd (by omega)
  have hsf : b.scalefactors lb.toNat = a.scalefactors lb.toNat :=
    (hlow lb.toNat (by omega)).symm
  rw [hsf]
  refine ⟨rfl, rfl, rfl, ?_, ?_, ?_, ?_⟩
  · intro r j hr1 hr2 hj
    simp only [setAt2]
    rw [hread]
    split_ifs <;> first | rfl | exact h4 r j hr1 hr2 hj
  · simp only []
    left
    unfold toInt32
    omega
  · simp only []
    unfold toInt32
    omega
  · simp only []
    unfold toInt32
    omega

theorem hfrGroup_agree (fmul : Nat → Nat → Nat) (a b : stChannel)
    (hfr_group_count bands_per_hfr_group total_band_count subframe d w : Nat)
    (group_limit limit : Int) (group : Nat)
    (hscale : a.scalefactors (usub 128 hfr_group_count + group)
      = b.scalefactors (usub 128 hfr_group_count + group))
    (hlow : ∀ i : Nat, (i : Int) < limit → a.scalefactors i = b.scalefactors i)
    (htotal : total_band_count ≤ 128)
    (hw : w ≤ subframe) (hd : subframe < d) (s t : HfrState) (h : HfrAgree limit d w s t) :
    HfrAgree limit d w
      (hfrGroup fmul a hfr_group_count bands_per_hfr_group total_band_count subframe
        group_limit group s)
      (hfrGroup fmul b hfr_group_count bands_per_hfr_group total_band_count subframe
        group_limit group t) := by
  unfold hfrGroup
  simp only []
  have hloop := forLoop_rel (fun _ (x y : HfrState) => HfrAgree limit d w x y)
    (fun _ s => hfrStep fmul a hfr_group_count total_band_count subframe group
      (if (group : Int) < group_limit then 1 else 0) s)
    (fun _ s => hfrStep fmul b hfr_group_count total_band_count subframe group
      (if (group : Int) < group_limit then 1 else 0) s)
    bands_per_hfr_group 0 { s with stopped := false } { t with stopped := false }
    (by
      intro k x y _ _ hxy
      exact hfrStep_agree fmul a b hfr_group_count total_band_count subframe group d w _ limit
        hscale hlow htotal (by split_ifs <;> simp) hw hd x y hxy)
    ⟨h.highband, h.lowband, rfl, h.spectra, h.below, h.low, h.range⟩
  exact hloop

theorem reconstruct_high_frequency_agree (fmul : Nat → Nat → Nat) (a b : stChannel)
    (hfr_group_count bands_per_hfr_group stereo_band_count base_band_count total_band_count
      version subframe d w : Nat)
    (htotal : total_band_count ≤ 128) (hw : w ≤ subframe) (hd : subframe < d)
    (h : StageAgree hfr_group_count (stereo_band_count + base_band_count) d w a b) :
    StageAgree hfr_group_count (stereo_band_count + base_band_count) d w
      (reconstruct_high_frequency fmul a hfr_group_count bands_per_hfr_group stereo_band_count
        base_band_count total_band_count version subframe)
      (reconstruct_high_frequency fmul b hfr_group_count bands_per_hfr_group stereo_band_count
        base_band_count total_band_count version subframe) := by
  unfold reconstruct_high_frequency
  by_cases h1 : bands_per_hfr_group = 0
  · rw [if_pos h1, if_pos h1]
    exact h
  rw [if_neg h1, if_neg h1]
  have htype : b.type = a.type := h.carried.type.symm
  by_cases h2 : a.type = channel_type_t.STEREO_SECONDARY
  · rw [if_pos h2, if_pos (htype.trans h2)]
    exact h
  rw [if_neg h2, if_neg (show ¬ b.type = channel_type_t.STEREO_SECONDARY by rw [htype]; exact h2)]
  simp only []
  have hcoded := h.coded
  have hst := h.bands h2
  generalize hgl : (if version ≤ HCA_VERSION_V200 then toInt32 (uint hfr_group_count)
      else toInt32 (uint hfr_group_count) / 2) = group_limit
  have hsb : toInt32 (uint (stereo_band_count + base_band_count))
      = ((stereo_band_count + base_band_count : Nat) : Int) := by
    unfold uint toInt32
    omega
  rw [hsb]
  generalize hsum : stereo_band_count + base_band_count = start_band at hst h
  have hlowband : toInt32 ((start_band : Int) - 1) = (start_band : Int) - 1 := by
    unfold toInt32
    omega
  rw [hlowband]
  have hloop := forLoop_rel
    (fun _ (x y : HfrState) => HfrAgree (a.coded_count : Int) d w x y)
    (hfrGroup fmul a hfr_group_count bands_per_hfr_group total_band_count subframe group_limit)
    (hfrGroup fmul b hfr_group_count bands_per_hfr_group total_band_count subframe group_limit)
    hfr_group_count 0
    { highband := (start_band : Int), lowband := (start_band : Int) - 1, spectra := a.spectra,
      stopped := false }
    { highband := (start_band : Int), lowband := (start_band : Int) - 1, spectra := b.spectra,
      stopped := false }
    (by
      intro k x y _ hk hxy
      exact hfrGroup_agree fmul a b hfr_group_count bands_per_hfr_group total_band_count
        subframe d w group_limit (a.coded_count : Int) k (h.scales h2 k (by omega))
        (fun i hi => h.scalefactors i (by omega)) htotal hw hd x y hxy)
    ⟨rfl, rfl, rfl, h.spectra, Or.inl (by
      show (start_band : Int) - 1 < (start_band : Int)
      omega), by
      show (start_band : Int) - 1 < (a.coded_count : Int)
      omega, by
      show -2 ^ 31 ≤ (start_band : Int) ∧ (start_band : Int) < 2 ^ 31
      omega⟩
  simp only [Nat.zero_add] at hloop
  refine stageAgree_spectra h (Nat.le_refl w) _ _ ?_
  intro r j hr1 hr2 hj
  simp only [setAt2]
  rw [← hloop.highband]
  split_ifs <;> first | rfl | exact hloop.spectra r j hr1 hr2 hj

end Vgmstream

namespace Vgmstream

theorem intensityLoop_agree (fmul : Nat → Nat → Nat) (ratio_l ratio_r count start : Nat)
    (hend : start + count ≤ 128) (x y : (Nat → Nat) × (Nat → Nat))
    (h : ∀ j, j < 128 → x.1 j = y.1 j ∧ x.2 j = y.2 j) :
    ∀ j, j < 128 →
      (forLoop (intensityStep fmul ratio_l ratio_r) count start x).1 j
          = (forLoop (intensityStep fmul ratio_l ratio_r) count start y).1 j ∧
        (forLoop (intensityStep fmul ratio_l ratio_r) count start x).2 j
          = (forLoop (intensityStep fmul ratio_l ratio_r) count start y).2 j := by
  refine forLoop_rel
    (fun _ (x y : (Nat → Nat) × (Nat → Nat)) => ∀ j, j < 128 → x.1 j = y.1 j ∧ x.2 j = y.2 j)
    (intensityStep fmul ratio_l ratio_r) (intensityStep fmul ratio_l ratio_r) count start x y
    ?_ h
  intro k s t _ hk hst j hj
  unfold intensityStep
  simp only [setAt]
  rw [(hst k (by omega)).1]
  constructor
  · split_ifs <;> first | rfl | exact (hst j hj).1
  · split_ifs <;> first | rfl | exact (hst j hj).2

theorem stereoBands_range (base_band_count total_band_count : Nat)
    (hbase : base_band_count ≤ total_band_count) (htotal : total_band_count ≤ 128) :
    ((uint total_band_count : Int) - toInt32 (uint base_band_count)).toNat
        = total_band_count - base_band_count ∧
      (toInt32 (uint base_band_count)).toNat = base_band_count := by
  have h1 : uint total_band_count = total_band_count := by
    unfold uint
    simp only [Nat.reducePow]
    omega
  have h2 : uint base_band_count = base_band_count := by
    unfold uint
    simp only [Nat.reducePow]
    omega
  rw [h1, h2]
  unfold toInt32
  omega

theorem apply_intensity_stereo_agree (fmul fsub : Nat → Nat → Nat) (a0 a1 b0 b1 : stChannel)
    (subframe base_band_count total_band_count hfr start d w : Nat)
    (hbase : base_band_count ≤ total_band_count) (htotal : total_band_count ≤ 128)
    (hw : w ≤ subframe) (hd : subframe < d) (hsub : subframe < 8) (hpair : pairedWith a0 a1)
    (h0 : StageAgree hfr start d w a0 b0) (h1 : StageAgree hfr start d w a1 b1) :
    StageAgree hfr start d w
        (apply_intensity_stereo fmul fsub a0 a1 subframe base_band_count total_band_count).1
        (apply_intensity_stereo fmul fsub b0 b1 subframe base_band_count total_band_count).1 ∧
      StageAgree hfr start d w
        (apply_intensity_stereo fmul fsub a0 a1 subframe base_band_count total_band_count).2
        (apply_intensity_stereo fmul fsub b0 b1 subframe base_band_count total_band_count).2 := by
  unfold apply_intensity_stereo
  have htype : b0.type = a0.type := h0.carried.type.symm
  by_cases hp : a0.type ≠ channel_type_t.STEREO_PRIMARY
  · rw [if_pos hp, if_pos (show b0.type ≠ channel_type_t.STEREO_PRIMARY by rw [htype]; exact hp)]
    exact ⟨h0, h1⟩
  rw [if_neg hp, if_neg (show ¬ b0.type ≠ channel_type_t.STEREO_PRIMARY by rw [htype]; exact hp)]
  simp only []
  have hratio : hcadecoder_intensity_ratio_table_hex.getD (uchar (b1.intensity subframe)) 0
      = hcadecoder_intensity_ratio_table_hex.getD (uchar (a1.intensity subframe)) 0 := by
    rw [h1.intensity (hpair (not_not.mp hp)) subframe hsub]
  rw [hratio]
  clear hratio
  generalize hcadecoder_intensity_ratio_table_hex.getD (uchar (a1.intensity subframe)) 0 = ratio_l
  obtain ⟨hcount, hstart⟩ := stereoBands_range base_band_count total_band_count hbase htotal
  rw [hcount, hstart]
  have hloop := intensityLoop_agree fmul ratio_l (fsub 0x40000000 ratio_l)
    (total_band_count - base_band_count) base_band_count (by omega)
    (a0.spectra subframe, a1.spectra subframe) (b0.spectra subframe, b1.spectra subframe)
    (fun j hj => ⟨h0.spectra subframe j hw hd hj, h1.spectra subframe j hw hd hj⟩)
  constructor
  · refine stageAgree_spectra h0 (Nat.le_refl w) _ _ ?_
    intro r j hr1 hr2 hj
    simp only [setRow]
    by_cases hr : r = subframe
    · rw [if_pos hr, if_pos hr]
      exact (hloop j hj).1
    · rw [if_neg hr, if_neg hr]
      exact h0.spectra r j hr1 hr2 hj
  · refine stageAgree_spectra h1 (Nat.le_refl w) _ _ ?_
    intro r j hr1 hr2 hj
    simp only [setRow]
    by_cases hr : r = subframe
    · rw [if_pos hr, if_pos hr]
      exact (hloop j hj).2
    · rw [if_neg hr, if_neg hr]
      exact h1.spectra r j hr1 hr2 hj

end Vgmstream

namespace Vgmstream

theorem windowLoop_agree (fmul fadd fsub : Nat → Nat → Nat) (dct dct2 : Nat → Nat)
    (hdct : ∀ j, j < 128 → dct j = dct2 j) (w0 w1 : WindowState)
    (hprev : w0.imdct_previous = w1.imdct_previous) :
    (forLoop (windowStep fmul fadd fsub dct) (HCA_SAMPLES_PER_SUBFRAME / 2) 0 w0).imdct_previous
        = (forLoop (windowStep fmul fadd fsub dct2) (HCA_SAMPLES_PER_SUBFRAME / 2) 0
            w1).imdct_previous ∧
      ∀ j, j < 128 →
        (forLoop (windowStep fmul fadd fsub dct) (HCA_SAMPLES_PER_SUBFRAME / 2) 0 w0).wave j
          = (forLoop (windowStep fmul fadd fsub dct2) (HCA_SAMPLES_PER_SUBFRAME / 2) 0
              w1).wave j := by
  obtain ⟨ha, ha2⟩ := windowLoop_closed fmul fadd fsub dct w0
  obtain ⟨hb, hb2⟩ := windowLoop_closed fmul fadd fsub dct2 w1
  constructor
  · funext j
    by_cases h1 : j < 64
    · rw [(ha j h1).2.2.1, (hb j h1).2.2.1, hdct (63 - j) (by omega)]
    by_cases h2 : j < 128
    · obtain ⟨k, rfl⟩ : ∃ k, j = k + 64 := ⟨j - 64, by omega⟩
      rw [(ha k (by omega)).2.2.2, (hb k (by omega)).2.2.2, hdct k (by omega)]
    · rw [(ha2 j (by omega)).2, (hb2 j (by omega)).2, hprev]
  · intro j hj
    by_cases h1 : j < 64
    · rw [(ha j h1).1, (hb j h1).1, hdct (j + 64) (by omega), hprev]
    · obtain ⟨k, rfl⟩ : ∃ k, j = k + 64 := ⟨j - 64, by omega⟩
      rw [(ha k (by omega)).2.1, (hb k (by omega)).2.1, hdct (127 - k) (by omega), hprev]

theorem imdct_transform_agree (fmul fadd fsub : Nat → Nat → Nat) (a b : stChannel)
    (hfr start subframe d : Nat) (hd : subframe < d)
    (h : StageAgree hfr start d subframe a b) :
    StageAgree hfr start d (subframe + 1) (imdct_transform fmul fadd fsub a subframe)
      (imdct_transform fmul fadd fsub b subframe) := by
  have hrow := transformPasses_rel Eq fmul fadd fsub
    (by intro _ _ _ _ h1 h2; rw [h1, h2]) (by intro _ _ _ _ h1 h2; rw [h1, h2])
    (by intro _ _ _ h1; rw [h1])
    (a.spectra subframe) (b.spectra subframe) a.temp b.temp
    (fun j hj => h.spectra subframe j (Nat.le_refl _) hd hj)
  unfold imdct_transform
  simp only []
  generalize (forLoop (rotationPass fmul fadd fsub) HCA_MDCT_BITS 0
    { forLoop (sumDifferencePass fadd fsub) HCA_MDCT_BITS 0
        { row := a.spectra subframe, temp := a.temp, fromRow := true } with
      fromRow := false }) = ta at hrow ⊢
  generalize (forLoop (rotationPass fmul fadd fsub) HCA_MDCT_BITS 0
    { forLoop (sumDifferencePass fadd fsub) HCA_MDCT_BITS 0
        { row := b.spectra subframe, temp := b.temp, fromRow := true } with
      fromRow := false }) = tb at hrow ⊢
  obtain ⟨hprev, hwave⟩ := windowLoop_agree fmul fadd fsub ta.row tb.row hrow
    { wave := a.wave subframe, imdct_previous := a.imdct_previous }
    { wave := b.wave subframe, imdct_previous := b.imdct_previous } h.carried.imdct_previous
  exact
    { carried := ⟨h.carried.type, h.carried.coded_count, hprev⟩
      coded := h.coded
      bands := h.bands
      scalefactors := h.scalefactors
      scales := h.scales
      intensity := h.intensity
      resolution := h.resolution
      noise_count := h.noise_count
      valid_count := h.valid_count
      valid_le := h.valid_le
      noise := h.noise
      valid := h.valid
      gain := h.gain
      spectra := by
        intro r j hr1 hr2 hj
        simp only [setRow]
        rw [if_neg (by omega), if_neg (by omega)]
        exact h.spectra r j (by omega) hr2 hj
      wave := by
        intro r j hr hj
        simp only [setRow]
        split_ifs <;> first | exact hwave j hj | exact h.wave r j (by omega) hj }

end Vgmstream

namespace Vgmstream

theorem reconstruct_noise_type (fmul : Nat → Nat → Nat) (ch : stChannel)
    (min_resolution ms_stereo random subframe : Nat) :
    (reconstruct_noise fmul ch min_resolution ms_stereo random subframe).1.type = ch.type := by
  unfold reconstruct_noise
  split_ifs <;> rfl

theorem reconstruct_high_frequency_type (fmul : Nat → Nat → Nat) (ch : stChannel)
    (hfr_group_count bands_per_hfr_group stereo_band_count base_band_count total_band_count
      version subframe : Nat) :
    (reconstruct_high_frequency fmul ch hfr_group_count bands_per_hfr_group stereo_band_count
      base_band_count total_band_count version subframe).type = ch.type := by
  unfold reconstruct_high_frequency
  split_ifs <;> rfl

theorem apply_intensity_stereo_types (fmul fsub : Nat → Nat → Nat) (ch0 ch1 : stChannel)
    (subframe base_band_count total_band_count : Nat) :
    (apply_intensity_stereo fmul fsub ch0 ch1 subframe base_band_count total_band_count).1.type
        = ch0.type ∧
      (apply_intensity_stereo fmul fsub ch0 ch1 subframe base_band_count total_band_count).2.type
        = ch1.type := by
  unfold apply_intensity_stereo
  split_ifs <;> exact ⟨rfl, rfl⟩

theorem dequantize_coefficients_type (ofInt : Int → Nat) (fmul : Nat → Nat → Nat)
    (ch : stChannel) (br : clData) (subframe : Nat) :
    (dequantize_coefficients ofInt fmul ch br subframe).1.type = ch.type := by
  rw [dequantize_coefficients_frame]

theorem pairedWith_chain_types {as cs : List stChannel}
    (h : cs.map (fun ch => ch.type) = as.map (fun ch => ch.type))
    (hchain : List.Chain' pairedWith as) : List.Chain' pairedWith cs := by
  have h1 : List.Chain' (fun t u : channel_type_t =>
      t = channel_type_t.STEREO_PRIMARY → u = channel_type_t.STEREO_SECONDARY)
      (as.map fun ch => ch.type) := (List.chain'_map _).mpr hchain
  rw [← h] at h1
  have h2 := (List.chain'_map (fun ch : stChannel => ch.type)).mp h1
  exact h2

end Vgmstream

namespace CHcaDecoder.Pipeline

open Vgmstream

theorem unpackChannels_types (info : BlockInfo) (c : Collaborators)
    (hcaInfoVersion packed_noise_level : Nat) :
    ∀ (as : List stChannel) (br : clData),
      (unpackChannels info c hcaInfoVersion packed_noise_level as br).completed = true →
      (unpackChannels info c hcaInfoVersion packed_noise_level as br).channels.map
          (fun ch => ch.type) = as.map (fun ch => ch.type) := by
  intro as
  induction as with
  | nil =>
    intro br _
    rfl
  | cons a as ih =>
    intro br
    unfold unpackChannels
    simp only []
    by_cases herr : (unpack_scalefactors a br info.compR09 hcaInfoVersion).1 < 0
    · rw [if_pos herr]
      intro hc
      cases hc
    · rw [if_neg herr]
      intro hc
      simp only [List.map_cons]
      rw [ih _ hc]
      congr 1
      show (unpack_intensity _ _ _ _).2.1.type = a.type
      rw [unpack_intensity_type, unpack_scalefactors_type]

theorem dequantizeChannels_types (ops : FloatOps) (subframe : Nat) :
    ∀ (as : List stChannel) (br : clData),
      (dequantizeChannels ops subframe as br).1.map (fun ch => ch.type)
        = as.map (fun ch => ch.type) := by
  intro as
  induction as with
  | nil =>
    intro br
    rfl
  | cons a as ih =>
    intro br
    unfold dequantizeChannels
    simp only [List.map_cons]
    rw [ih, dequantize_coefficients_type]

theorem restoreChannels_types (ops : FloatOps) (info : BlockInfo) (bands : BandInfo)
    (hcaInfoVersion subframe : Nat) :
    ∀ (as : List stChannel) (random : Nat),
      (restoreChannels ops info bands hcaInfoVersion subframe as random).1.map
          (fun ch => ch.type) = as.map (fun ch => ch.type) := by
  intro as
  induction as with
  | nil =>
    intro random
    rfl
  | cons a as ih =>
    intro random
    unfold restoreChannels
    simp only [List.map_cons]
    rw [ih, reconstruct_high_frequency_type, reconstruct_noise_type]

theorem apply_ms_stereo_off (fmul fadd fsub : Nat → Nat → Nat) (ch0 ch1 : stChannel)
    (base_band_count total_band_count subframe : Nat) :
    apply_ms_stereo fmul fadd fsub ch0 ch1 0 base_band_count total_band_count subframe
      = (ch0, ch1) := by
  unfold apply_ms_stereo
  rw [if_pos rfl]

theorem stereoFrom_types (ops : FloatOps) (bands : BandInfo) (subframe : Nat) :
    ∀ (as : List stChannel) (a0 : stChannel),
      (stereoFrom ops bands subframe a0 as).map (fun ch => ch.type)
        = (a0 :: as).map (fun ch => ch.type) := by
  intro as
  induction as with
  | nil =>
    intro a0
    rfl
  | cons a as ih =>
    intro a0
    obtain ⟨t1, t2⟩ := apply_intensity_stereo_types ops.fmul ops.fsub a0 a subframe
      bands.compR06 bands.compR05
    unfold stereoFrom
    simp only [apply_ms_stereo_off, List.map_cons]
    rw [ih, t1]
    simp only [List.map_cons]
    rw [t2]

theorem stereoChannels_types (ops : FloatOps) (bands : BandInfo) (subframe : Nat)
    (as : List stChannel) :
    (stereoChannels ops bands subframe as).map (fun ch => ch.type)
      = as.map (fun ch => ch.type) := by
  cases as with
  | nil => rfl
  | cons a as =>
    unfold stereoChannels
    simp only []
    split_ifs
    · exact stereoFrom_types ops bands subframe as a
    · rfl

theorem transformSubframe_types (ops : FloatOps) (info : BlockInfo) (bands : BandInfo)
    (hcaInfoVersion subframe : Nat) (s : List stChannel × Nat) :
    (transformSubframe ops info bands hcaInfoVersion subframe s).1.map (fun ch => ch.type)
      = s.1.map (fun ch => ch.type) := by
  unfold transformSubframe
  simp only [List.map_map]
  have h : ((fun ch : stChannel => ch.type) ∘
      fun ch => imdct_transform ops.fmul ops.fadd ops.fsub ch subframe)
      = fun ch => ch.type := rfl
  rw [h, stereoChannels_types, restoreChannels_types]

theorem unpackChannels_agree (info : BlockInfo) (c : Collaborators)
    (hcaInfoVersion packed_noise_level start : Nat) (as bs : List stChannel)
    (h : List.Forall₂ CarriedAgree as bs) :
    ∀ br : clData, (∀ ch ∈ as, ch.coded_count ≤ 128) →
      (∀ ch ∈ as, ch.type ≠ channel_type_t.STEREO_SECONDARY → start ≤ ch.coded_count) →
      (∀ ch ∈ as, ¬ readsDerivedScales ch info.compR09 hcaInfoVersion) →
      intensitiesWritten info hcaInfoVersion as br = true →
      (unpackChannels info c hcaInfoVersion packed_noise_level as br).completed
          = (unpackChannels info c hcaInfoVersion packed_noise_level bs br).completed ∧
        (unpackChannels info c hcaInfoVersion packed_noise_level as br).br
          = (unpackChannels info c hcaInfoVersion packed_noise_level bs br).br ∧
        List.Forall₂ CarriedAgree
          (unpackChannels info c hcaInfoVersion packed_noise_level as br).channels
          (unpackChannels info c hcaInfoVersion packed_noise_level bs br).channels ∧
        ((unpackChannels info c hcaInfoVersion packed_noise_level as br).completed = true →
          List.Forall₂ (StageAgree info.compR09 start 0 0)
            (unpackChannels info c hcaInfoVersion packed_noise_level as br).channels
            (unpackChannels info c hcaInfoVersion packed_noise_level bs br).channels) := by
  induction h with
  | nil =>
    intro br _ _ _ _
    exact ⟨rfl, rfl, List.Forall₂.nil, fun _ => List.Forall₂.nil⟩
  | @cons a b as bs hab hrest ih =>
    intro br hcoded hstart hderived hwritten
    have hca128 : a.coded_count ≤ 128 := hcoded a (List.mem_cons_self a as)
    have hsf := unpack_scalefactors_agree a b hab br info.compR09 hcaInfoVersion
      (hderived a (List.mem_cons_self a as)) hca128
    have hca := unpack_scalefactors_coded_count a br info.compR09 hcaInfoVersion
    have hta := unpack_scalefactors_type a br info.compR09 hcaInfoVersion
    unfold intensitiesWritten at hwritten
    simp only [] at hwritten
    unfold unpackChannels
    simp only []
    generalize unpack_scalefactors a br info.compR09 hcaInfoVersion = sa at hsf hca hta hwritten ⊢
    generalize unpack_scalefactors b br info.compR09 hcaInfoVersion = sb at hsf ⊢
    obtain ⟨h1, h2, h3, h4⟩ := hsf
    rw [← h1, ← h3]
    by_cases herr : sa.1 < 0
    · rw [if_pos herr, if_pos herr]
      refine ⟨rfl, rfl, List.Forall₂.cons h2 hrest, ?_⟩
      intro hc
      cases hc
    · rw [if_neg herr, if_neg herr]
      rw [if_neg herr, Bool.and_eq_true] at hwritten
      have hit := unpack_intensity_agree sa.2.1 sb.2.1 h2 sa.2.2 info.compR09 hcaInfoVersion
        (by rw [hca]; exact h4 herr)
      have hic := unpack_intensity_coded_count sa.2.1 sa.2.2 info.compR09 hcaInfoVersion
      have hti := unpack_intensity_type sa.2.1 sa.2.2 info.compR09 hcaInfoVersion
      generalize unpack_intensity sa.2.1 sa.2.2 info.compR09 hcaInfoVersion = ia
        at hit hic hti hwritten ⊢
      generalize unpack_intensity sb.2.1 sa.2.2 info.compR09 hcaInfoVersion = ib at hit ⊢
      obtain ⟨h5, h6, h7, h8, h9⟩ := hit
      rw [← h6]
      have hcount : ia.2.1.coded_count ≤ 128 := by
        rw [hic, hca]
        exact hca128
      have htype : ia.2.1.type = a.type := hti.trans hta
      have hst := unpacked_agree c.fmul info.compR09 start ia.2.1 ib.2.1 h5 hcount
        (by
          intro hns
          rw [hic, hca]
          exact hstart a (List.mem_cons_self a as) (by rw [← htype]; exact hns))
        (by rw [hic]; exact h7)
        (by
          intro hns g hg
          have hno := hderived a (List.mem_cons_self a as)
          unfold readsDerivedScales at hno
          have hv : hcaInfoVersion ≤ HCA_VERSION_V200 := by
            by_contra hv
            exact hno ⟨by omega, by rw [← htype]; exact hns, by omega⟩
          exact h8 (by rw [hta]; rw [htype] at hns; exact hns) hv g hg)
        (by
          intro hs
          exact h9 hwritten.1 (by rw [hta]; rw [htype] at hs; exact hs))
        packed_noise_level c.athTable info.compR01 info.compR02
      obtain ⟨i1, i2, i3, i4⟩ := ih ia.2.2
        (fun ch hch => hcoded ch (List.mem_cons_of_mem a hch))
        (fun ch hch => hstart ch (List.mem_cons_of_mem a hch))
        (fun ch hch => hderived ch (List.mem_cons_of_mem a hch)) hwritten.2
      exact ⟨i1, i2, List.Forall₂.cons hst.carried i3, fun hc => List.Forall₂.cons hst (i4 hc)⟩

theorem dequantizeChannels_agree (ops : FloatOps) (hfr start subframe : Nat)
    (as bs : List stChannel) (h : List.Forall₂ (StageAgree hfr start subframe 0) as bs) :
    ∀ br : clData,
      List.Forall₂ (StageAgree hfr start (subframe + 1) 0)
          (dequantizeChannels ops subframe as br).1 (dequantizeChannels ops subframe bs br).1 ∧
        (dequantizeChannels ops subframe as br).2 = (dequantizeChannels ops subframe bs br).2 := by
  induction h with
  | nil =>
    intro br
    exact ⟨List.Forall₂.nil, rfl⟩
  | @cons a b as bs hab _ ih =>
    intro br
    obtain ⟨h1, h2⟩ := dequantize_coefficients_agree ops.ofInt ops.fmul a b br hfr start
      subframe hab
    unfold dequantizeChannels
    simp only []
    rw [← h2]
    obtain ⟨i1, i2⟩ := ih (dequantize_coefficients ops.ofInt ops.fmul a br subframe).2
    exact ⟨List.Forall₂.cons h1 i1, i2⟩

theorem dequantizeSubframes_agree (ops : FloatOps) (hfr start : Nat) (as bs : List stChannel)
    (br : clData) (h : List.Forall₂ (StageAgree hfr start 0 0) as bs) :
    List.Forall₂ (StageAgree hfr start 8 0)
        (forLoop (fun subframe s => dequantizeChannels ops subframe s.1 s.2) 8 0 (as, br)).1
        (forLoop (fun subframe s => dequantizeChannels ops subframe s.1 s.2) 8 0 (bs, br)).1 ∧
      (forLoop (fun subframe s => dequantizeChannels ops subframe s.1 s.2) 8 0 (as, br)).2
        = (forLoop (fun subframe s => dequantizeChannels ops subframe s.1 s.2) 8 0 (bs, br)).2 ∧
      (forLoop (fun subframe s => dequantizeChannels ops subframe s.1 s.2) 8 0
        (as, br)).1.map (fun ch => ch.type) = as.map (fun ch => ch.type) := by
  have hloop := forLoop_rel
    (fun k (x y : List stChannel × clData) =>
      List.Forall₂ (StageAgree hfr start k 0) x.1 y.1 ∧ x.2 = y.2 ∧
        x.1.map (fun ch => ch.type) = as.map (fun ch => ch.type))
    (fun subframe s => dequantizeChannels ops subframe s.1 s.2)
    (fun subframe s => dequantizeChannels ops subframe s.1 s.2) 8 0 (as, br) (bs, br)
    (by
      intro k x y _ _ hxy
      simp only []
      rw [← hxy.2.1, dequantizeChannels_types, hxy.2.2]
      obtain ⟨d1, d2⟩ := dequantizeChannels_agree ops hfr start k x.1 y.1 hxy.1 x.2
      exact ⟨d1, d2, rfl⟩)
    ⟨h, rfl, rfl⟩
  exact hloop

theorem restoreChannels_agree (ops : FloatOps) (info : BlockInfo) (bands : BandInfo)
    (hcaInfoVersion subframe : Nat) (htotal : bands.compR05 ≤ 128) (hsub : subframe < 8)
    (as bs : List stChannel)
    (h : List.Forall₂ (StageAgree info.compR09 (bands.compR07 + bands.compR06) 8 subframe)
      as bs) :
    ∀ random : Nat,
      List.Forall₂ (StageAgree info.compR09 (bands.compR07 + bands.compR06) 8 subframe)
          (restoreChannels ops info bands hcaInfoVersion subframe as random).1
          (restoreChannels ops info bands hcaInfoVersion subframe bs random).1 ∧
        (restoreChannels ops info bands hcaInfoVersion subframe as random).2
          = (restoreChannels ops info bands hcaInfoVersion subframe bs random).2 := by
  induction h with
  | nil =>
    intro random
    exact ⟨List.Forall₂.nil, rfl⟩
  | @cons a b as bs hab _ ih =>
    intro random
    obtain ⟨h1, h2⟩ := reconstruct_noise_agree ops.fmul a b info.compR09
      (bands.compR07 + bands.compR06) 8 subframe info.compR01 0 random subframe hab
      (Nat.le_refl _) hsub
    have h3 := reconstruct_high_frequency_agree ops.fmul
      (reconstruct_noise ops.fmul a info.compR01 0 random subframe).1
      (reconstruct_noise ops.fmul b info.compR01 0 random subframe).1
      info.compR09 bands.compR08 bands.compR07 bands.compR06 bands.compR05 hcaInfoVersion
      subframe 8 subframe htotal (Nat.le_refl _) hsub h1
    unfold restoreChannels
    simp only []
    rw [← h2]
    obtain ⟨i1, i2⟩ := ih (reconstruct_noise ops.fmul a info.compR01 0 random subframe).2
    exact ⟨List.Forall₂.cons h3 i1, i2⟩

theorem pairedWith_head {a a2 : stChannel} (h : a2.type = a.type) :
    ∀ {as : List stChannel}, List.Chain pairedWith a as → List.Chain pairedWith a2 as := by
  intro as hchain
  cases hchain with
  | nil => exact List.Chain.nil
  | cons hp hrest =>
    refine List.Chain.cons ?_ hrest
    intro hprim
    exact hp (h ▸ hprim)

theorem stereoFrom_agree (ops : FloatOps) (bands : BandInfo) (hfr start subframe : Nat)
    (hbase : bands.compR06 ≤ bands.compR05) (htotal : bands.compR05 ≤ 128) (hsub : subframe < 8)
    (as bs : List stChannel) (h : List.Forall₂ (StageAgree hfr start 8 subframe) as bs) :
    ∀ a0 b0 : stChannel, StageAgree hfr start 8 subframe a0 b0 → List.Chain pairedWith a0 as →
      List.Forall₂ (StageAgree hfr start 8 subframe) (stereoFrom ops bands subframe a0 as)
        (stereoFrom ops bands subframe b0 bs) := by
  induction h with
  | nil =>
    intro a0 b0 h0 _
    exact List.Forall₂.cons h0 List.Forall₂.nil
  | @cons a b as bs hab _ ih =>
    intro a0 b0 h0 hchain
    cases hchain with
    | cons hp hrest =>
      obtain ⟨h1, h2⟩ := apply_intensity_stereo_agree ops.fmul ops.fsub a0 a b0 b subframe
        bands.compR06 bands.compR05 hfr start 8 subframe hbase htotal (Nat.le_refl _) hsub hsub
        hp h0 hab
      have ht := (apply_intensity_stereo_types ops.fmul ops.fsub a0 a subframe bands.compR06
        bands.compR05).2
      unfold stereoFrom
      simp only [apply_ms_stereo_off]
      exact List.Forall₂.cons h1 (ih _ _ h2 (pairedWith_head ht hrest))

theorem stereoChannels_agree (ops : FloatOps) (bands : BandInfo) (hfr start subframe : Nat)
    (hbase : bands.compR06 ≤ bands.compR05) (htotal : bands.compR05 ≤ 128) (hsub : subframe < 8)
    (as bs : List stChannel) (h : List.Forall₂ (StageAgree hfr start 8 subframe) as bs)
    (hchain : List.Chain' pairedWith as) :
    List.Forall₂ (StageAgree hfr start 8 subframe) (stereoChannels ops bands subframe as)
      (stereoChannels ops bands subframe bs) := by
  cases h with
  | nil => exact List.Forall₂.nil
  | @cons a b as bs hab hrest =>
    unfold stereoChannels
    simp only []
    by_cases hs : bands.compR07 > 0
    · rw [if_pos hs, if_pos hs]
      exact stereoFrom_agree ops bands hfr start subframe hbase htotal hsub as bs hrest a b hab
        hchain
    · rw [if_neg hs, if_neg hs]
      exact List.Forall₂.cons hab hrest

theorem imdctChannels_agree (ops : FloatOps) (hfr start subframe : Nat) (hsub : subframe < 8)
    (as bs : List stChannel) (h : List.Forall₂ (StageAgree hfr start 8 subframe) as bs) :
    List.Forall₂ (StageAgree hfr start 8 (subframe + 1))
      (as.map fun ch => imdct_transform ops.fmul ops.fadd ops.fsub ch subframe)
      (bs.map fun ch => imdct_transform ops.fmul ops.fadd ops.fsub ch subframe) := by
  induction h with
  | nil => exact List.Forall₂.nil
  | @cons a b as bs hab _ ih =>
    exact List.Forall₂.cons
      (imdct_transform_agree ops.fmul ops.fadd ops.fsub a b hfr start subframe 8 hsub hab) ih

theorem transformSubframes_agree (ops : FloatOps) (info : BlockInfo) (bands : BandInfo)
    (hcaInfoVersion : Nat) (hbase : bands.compR06 ≤ bands.compR05)
    (htotal : bands.compR05 ≤ 128) (as bs : List stChannel) (random : Nat)
    (h : List.Forall₂ (StageAgree info.compR09 (bands.compR07 + bands.compR06) 8 0) as bs)
    (hchain : List.Chain' pairedWith as) :
    List.Forall₂ (StageAgree info.compR09 (bands.compR07 + bands.compR06) 8 8)
        (forLoop (transformSubframe ops info bands hcaInfoVersion) 8 0 (as, random)).1
        (forLoop (transformSubframe ops info bands hcaInfoVersion) 8 0 (bs, random)).1 ∧
      (forLoop (transformSubframe ops info bands hcaInfoVersion) 8 0 (as, random)).2
        = (forLoop (transformSubframe ops info bands hcaInfoVersion) 8 0 (bs, random)).2 := by
  have hloop := forLoop_rel
    (fun k (x y : List stChannel × Nat) =>
      List.Forall₂ (StageAgree info.compR09 (bands.compR07 + bands.compR06) 8 k) x.1 y.1 ∧
        x.2 = y.2 ∧ x.1.map (fun ch => ch.type) = as.map (fun ch => ch.type))
    (transformSubframe ops info bands hcaInfoVersion)
    (transformSubframe ops info bands hcaInfoVersion) 8 0 (as, random) (bs, random)
    (by
      intro k x y _ hk hxy
      have hk8 : k < 8 := by omega
      obtain ⟨r1, r2⟩ := restoreChannels_agree ops info bands hcaInfoVersion k htotal hk8
        x.1 y.1 hxy.1 x.2
      have hc : List.Chain' pairedWith
          (restoreChannels ops info bands hcaInfoVersion k x.1 x.2).1 :=
        pairedWith_chain_types
          ((restoreChannels_types ops info bands hcaInfoVersion k x.1 x.2).trans hxy.2.2) hchain
      refine ⟨?_, ?_, (transformSubframe_types ops info bands hcaInfoVersion k x).trans hxy.2.2⟩
      · unfold transformSubframe
        simp only []
        rw [← hxy.2.1]
        exact imdctChannels_agree ops _ _ k hk8 _ _
          (stereoChannels_agree ops bands _ _ k hbase htotal hk8 _ _ r1 hc)
      · unfold transformSubframe
        simp only []
        rw [← hxy.2.1]
        exact r2)
    ⟨h, rfl, rfl⟩
  exact ⟨hloop.1, hloop.2.1⟩

theorem waveSample_agree (ops : FloatOps) (bands : BandInfo) (hfr start : Nat)
    (decodeFunc : Nat → Buffer → Nat → Buffer × Nat) (i j : Nat) (hi : i < 8) (hj : j < 128)
    (as bs : List stChannel) (h : List.Forall₂ (StageAgree hfr start 8 8) as bs) :
    ∀ s : Buffer × Nat,
      waveSample ops bands decodeFunc i j as s = waveSample ops bands decodeFunc i j bs s := by
  induction h with
  | nil =>
    intro s
    rfl
  | @cons a b as bs hab _ ih =>
    intro s
    unfold waveSample
    simp only []
    rw [hab.wave i j hi hj]
    exact ih _

theorem generateWave_agree (ops : FloatOps) (bands : BandInfo) (gen : WaveGenerator)
    (hfr start : Nat) (as bs : List stChannel)
    (h : List.Forall₂ (StageAgree hfr start 8 8) as bs) :
    generateWave ops bands gen as = generateWave ops bands gen bs := by
  unfold generateWave
  cases gen.decodeFunc with
  | none => rfl
  | some decodeFunc =>
    simp only []
    have hloop := forLoop_rel (fun _ (x y : Buffer × Nat) => x = y)
      (fun i s => forLoop (fun j s => waveSample ops bands decodeFunc i j as s) 0x80 0 s)
      (fun i s => forLoop (fun j s => waveSample ops bands decodeFunc i j bs s) 0x80 0 s)
      8 0 (gen.allocated, 0) (gen.allocated, 0)
      (by
        intro i x y _ hi hxy
        simp only []
        rw [hxy]
        exact forLoop_rel (fun _ (x y : Buffer × Nat) => x = y)
          (fun j s => waveSample ops bands decodeFunc i j as s)
          (fun j s => waveSample ops bands decodeFunc i j bs s) 0x80 0 y y
          (by
            intro j u v _ hj huv
            simp only []
            rw [huv]
            exact waveSample_agree ops bands hfr start decodeFunc i j (by omega) (by omega)
              as bs h v)
          rfl)
      rfl
    rw [hloop]

end CHcaDecoder.Pipeline

namespace CHcaDecoder.Pipeline

open Vgmstream

theorem decodeStages_agree (ops : FloatOps) (info : BlockInfo) (bands : BandInfo)
    (gen : WaveGenerator) (hbase : bands.compR06 ≤ bands.compR05)
    (htotal : bands.compR05 ≤ 128) (as bs : List stChannel) (br : clData) (random : Nat)
    (h : List.Forall₂ (StageAgree info.compR09 (bands.compR07 + bands.compR06) 0 0) as bs)
    (hchain : List.Chain' pairedWith as) :
    List.Forall₂ CarriedAgree (decodeStages ops info bands gen as br random).1
        (decodeStages ops info bands gen bs br random).1 ∧
      (decodeStages ops info bands gen as br random).2.1
        = (decodeStages ops info bands gen bs br random).2.1 ∧
      (0 ≤ (forLoop (fun subframe s => dequantizeChannels ops subframe s.1 s.2) 8 0
          (as, br)).2.bit →
        (decodeStages ops info bands gen as br random).2.2
          = (decodeStages ops info bands gen bs br random).2.2) := by
  obtain ⟨d1, d2, d3⟩ := dequantizeSubframes_agree ops info.compR09
    (bands.compR07 + bands.compR06) as bs br h
  unfold decodeStages
  simp only []
  rw [← d2]
  generalize forLoop (fun subframe s => dequantizeChannels ops subframe s.1 s.2) 8 0 (as, br)
    = da at d1 d3 ⊢
  generalize forLoop (fun subframe s => dequantizeChannels ops subframe s.1 s.2) 8 0 (bs, br)
    = db at d1 ⊢
  by_cases hbit : da.2.bit ≥ 0
  · rw [if_pos hbit, if_pos hbit]
    obtain ⟨t1, t2⟩ := transformSubframes_agree ops info bands
      (u32 (info.versionMajor * 0x100 + info.versionMinor)) hbase htotal da.1 db.1 random d1
      (pairedWith_chain_types d3 hchain)
    exact ⟨List.Forall₂.imp (fun _ _ hab => hab.carried) t1, t2,
      fun _ => generateWave_agree ops bands gen _ _ _ _ t1⟩
  · rw [if_neg hbit, if_neg hbit]
    exact ⟨List.Forall₂.imp (fun _ _ hab => hab.carried) d1, rfl, fun hc => absurd hc hbit⟩

end CHcaDecoder.Pipeline

namespace CHcaDecoder.Pipeline

open Vgmstream

theorem seededState_zero_sample :
    ((DecodeBlock (sampleInfo 16) seedCollaborators 0 (seededState 0)).1.toOption.map
      fun buffer => buffer 127) = some 0x3F4C228D := by
  decide!

theorem seededState_one_sample :
    ((DecodeBlock (sampleInfo 16) seedCollaborators 0 (seededState 1)).1.toOption.map
      fun buffer => buffer 127) = some 0xBF3B476B := by
  decide!

theorem seedBlock_cursor :
    0 ≤ dequantizedCursor ieeeOps (sampleInfo 16) seedCollaborators 0 (seededState 0) := by
  decide!

/-- C26 as stated fails, by design of the decoder: the seed `random` of `HCA_INFO` is
read and stepped by `reconstruct_noise` and is never reset, so it carries over from
one block decode to the next as `imdct_previous` does.  The two states `seededState 0`
and `seededState 1` have the same cache and the same channel, whose arrays are all
zero, and differ in the seed alone.  On `seedBlock` the channel has the valid
coefficients 1 and 2 with the values 1 and -1 and the noise coefficients 0 and 3.  For
the first noise coefficient of the first subframe the seed 0 picks the donor in
`noises[126]`, the coefficient 2, and the seed 1 the donor in `noises[127]`, the
coefficient 1.  With the volume `1.0f` and IEEE 754 arithmetic the sample 127 that
`DecodeBlock` hands to `decodeFunc` is `0x3F4C228D`, about 0.797, in the one run and
`0xBF3B476B`, about -0.732, in the other, so the two calls return different wave
blocks. -/
theorem DecodeBlock_output_depends_on_seed :
    (seededState 0).decodedBlocks = (seededState 1).decodedBlocks ∧
    (seededState 0).channels = (seededState 1).channels ∧
    randomIndex 2 (nextRandom 0) = 126 ∧
    randomIndex 2 (nextRandom 1) = 127 ∧
    ((DecodeBlock (sampleInfo 16) seedCollaborators 0 (seededState 0)).1.toOption.map
      fun buffer => buffer 127) = some 0x3F4C228D ∧
    ((DecodeBlock (sampleInfo 16) seedCollaborators 0 (seededState 1)).1.toOption.map
      fun buffer => buffer 127) = some 0xBF3B476B ∧
    (DecodeBlock (sampleInfo 16) seedCollaborators 0 (seededState 0)).1
      ≠ (DecodeBlock (sampleInfo 16) seedCollaborators 0 (seededState 1)).1 := by
  have h0 := seededState_zero_sample
  have h1 := seededState_one_sample
  refine ⟨rfl, rfl, by decide!, by decide!, h0, h1, ?_⟩
  intro heq
  rw [heq, h1] at h0
  exact absurd h0 (by decide)

/-- C26 as amended: next to the cache of decoded blocks, what carries over from one
block decode to the next is the seed `random` and of each channel `imdct_previous`.
Two states that agree on the cache, on the seed and channel by channel on
`imdct_previous` (and on `type` and `coded_count`, which the header sets) give on the
same block the same result of `DecodeBlock`, the same cache and seed afterwards and
channels that agree on `imdct_previous` again, whatever `intensity`, `scalefactors`,
`resolution`, `noises` with its two counts, `gain`, `spectra`, `temp`, `dct` and `wave`
hold in the two states.  The header values are in their ranges: `coded_count <= 128`,
`compR06 <= compR05 <= 128`, and a channel that is not stereo secondary has at least
`compR06 + compR07` coded coefficients.  The inputs on which the decoder reads an
element it has not assigned are left out: no channel reads derived scales
(`unpack_scalefactors` copies them from `scalefactors[cs_count]`, one past the ones it
read), a stereo primary channel is followed by a stereo secondary one, every
`unpack_intensity` on a stereo secondary channel assigns all eight intensities (it
returns no error, which `DecodeBlock` would ignore, and up to version 2.0 does not
read 15 first), and the cursor of the reader after dequantization is not negative
(when it is, the transform is skipped and the wave block is made from the rows of
`wave` as they were).  The stages after unpacking are the ones of `decodeStages`, for
any operations on `float` values. -/
theorem DecodeBlock_carried_state (ops : FloatOps) (info : BlockInfo) (bands : BandInfo)
    (gen : WaveGenerator) (c : Collaborators) (blockIndex : Nat) (s s2 : DecoderState)
    (hstages : c.transform = decodeStages ops info bands gen)
    (hcache : s.decodedBlocks = s2.decodedBlocks) (hrandom : s.random = s2.random)
    (hchannels : List.Forall₂ CarriedAgree s.channels s2.channels)
    (hcoded : ∀ ch ∈ s.channels, ch.coded_count ≤ 128)
    (hbase : bands.compR06 ≤ bands.compR05) (htotal : bands.compR05 ≤ 128)
    (hbands : ∀ ch ∈ s.channels, ch.type ≠ channel_type_t.STEREO_SECONDARY →
      bands.compR07 + bands.compR06 ≤ ch.coded_count)
    (hderived : ∀ ch ∈ s.channels,
      ¬ readsDerivedScales ch info.compR09 (u32 (info.versionMajor * 0x100 + info.versionMinor)))
    (hpairs : List.Chain' pairedWith s.channels)
    (hintensity : intensitiesWritten info (u32 (info.versionMajor * 0x100 + info.versionMinor))
      s.channels (blockFrame info c blockIndex).2 = true)
    (hcursor : 0 ≤ dequantizedCursor ops info c blockIndex s) :
    (DecodeBlock info c blockIndex s).1 = (DecodeBlock info c blockIndex s2).1 ∧
      (DecodeBlock info c blockIndex s).2.decodedBlocks
        = (DecodeBlock info c blockIndex s2).2.decodedBlocks ∧
      (DecodeBlock info c blockIndex s).2.random = (DecodeBlock info c blockIndex s2).2.random ∧
      List.Forall₂ CarriedAgree (DecodeBlock info c blockIndex s).2.channels
        (DecodeBlock info c blockIndex s2).2.channels := by
  unfold dequantizedCursor at hcursor
  unfold blockFrame at hcursor hintensity
  simp only [] at hcursor hintensity
  unfold DecodeBlock
  rw [← hcache, ← hrandom]
  cases s.decodedBlocks.lookup blockIndex with
  | some decodedItem => exact ⟨rfl, hcache, hrandom, hchannels⟩
  | none =>
    simp only []
    generalize c.streamRead (u32 (info.dataOffset + u32 (info.blockSize * blockIndex)))
      info.blockSize = block at hcursor hintensity ⊢
    by_cases h1 : block.length < info.blockSize
    · rw [if_pos h1, if_pos h1]
      exact ⟨rfl, rfl, rfl, hchannels⟩
    rw [if_neg h1, if_neg h1]
    by_cases h2 : c.ComputeChecksum block info.blockSize ≠ 0
    · rw [if_pos h2, if_pos h2]
      exact ⟨rfl, rfl, rfl, hchannels⟩
    rw [if_neg h2, if_neg h2]
    by_cases h3 : c.GetBit16 (c.Decrypt block) ≠ 0xffff
    · rw [if_pos h3, if_pos h3]
      exact ⟨rfl, rfl, rfl, hchannels⟩
    rw [if_neg h3, if_neg h3]
    obtain ⟨a1, a2, a3, a4⟩ := unpackChannels_agree info c
      (u32 (info.versionMajor * 0x100 + info.versionMinor))
      (frameValues (c.Decrypt block) info.blockSize).1 (bands.compR07 + bands.compR06)
      s.channels s2.channels hchannels
      (frameValues (c.Decrypt block) info.blockSize).2 hcoded hbands hderived hintensity
    have a5 := unpackChannels_types info c
      (u32 (info.versionMajor * 0x100 + info.versionMinor))
      (frameValues (c.Decrypt block) info.blockSize).1 s.channels
      (frameValues (c.Decrypt block) info.blockSize).2
    generalize unpackChannels info c (u32 (info.versionMajor * 0x100 + info.versionMinor))
      (frameValues (c.Decrypt block) info.blockSize).1 s.channels
      (frameValues (c.Decrypt block) info.blockSize).2 = u at a1 a2 a3 a4 a5 hcursor ⊢
    generalize unpackChannels info c (u32 (info.versionMajor * 0x100 + info.versionMinor))
      (frameValues (c.Decrypt block) info.blockSize).1 s2.channels
      (frameValues (c.Decrypt block) info.blockSize).2 = u2 at a1 a2 a3 a4 ⊢
    rw [← a1, ← a2]
    by_cases h4 : ¬ u.completed = true
    · rw [if_pos h4, if_pos h4]
      exact ⟨rfl, rfl, rfl, a3⟩
    rw [if_neg h4, if_neg h4, hstages]
    have hdone : u.completed = true := by simpa using h4
    obtain ⟨b1, b2, b3⟩ := decodeStages_agree ops info bands gen hbase htotal u.channels
      u2.channels u.br s.random (a4 hdone) (pairedWith_chain_types (a5 hdone) hpairs)
    simp only []
    rw [← b3 hcursor, ← b2]
    exact ⟨rfl, rfl, rfl, b1⟩

/-- The theorem of C26 on `seedBlock`, for the state `seededState 0` and the state
`scratchState`, which differs from it in every array of the channel but
`imdct_previous`. -/
theorem DecodeBlock_carried_state_witness :
    seedCollaborators.transform = decodeStages ieeeOps (sampleInfo 16) seedBands storeSamples ∧
    (seededState 0).decodedBlocks = scratchState.decodedBlocks ∧
    (seededState 0).random = scratchState.random ∧
    List.Forall₂ CarriedAgree (seededState 0).channels scratchState.channels ∧
    (∀ ch ∈ (seededState 0).channels, ch.coded_count ≤ 128) ∧
    seedBands.compR06 ≤ seedBands.compR05 ∧ seedBands.compR05 ≤ 128 ∧
    (∀ ch ∈ (seededState 0).channels, ch.type ≠ channel_type_t.STEREO_SECONDARY →
      seedBands.compR07 + seedBands.compR06 ≤ ch.coded_count) ∧
    (∀ ch ∈ (seededState 0).channels, ¬ readsDerivedScales ch (sampleInfo 16).compR09
      (u32 ((sampleInfo 16).versionMajor * 0x100 + (sampleInfo 16).versionMinor))) ∧
    List.Chain' pairedWith (seededState 0).channels ∧
    intensitiesWritten (sampleInfo 16)
      (u32 ((sampleInfo 16).versionMajor * 0x100 + (sampleInfo 16).versionMinor))
      (seededState 0).channels (blockFrame (sampleInfo 16) seedCollaborators 0).2 = true ∧
    0 ≤ dequantizedCursor ieeeOps (sampleInfo 16) seedCollaborators 0 (seededState 0) ∧
    ((DecodeBlock (sampleInfo 16) seedCollaborators 0 (seededState 0)).1
        = (DecodeBlock (sampleInfo 16) seedCollaborators 0 scratchState).1 ∧
      (DecodeBlock (sampleInfo 16) seedCollaborators 0 (seededState 0)).2.decodedBlocks
        = (DecodeBlock (sampleInfo 16) seedCollaborators 0 scratchState).2.decodedBlocks ∧
      (DecodeBlock (sampleInfo 16) seedCollaborators 0 (seededState 0)).2.random
        = (DecodeBlock (sampleInfo 16) seedCollaborators 0 scratchState).2.random ∧
      List.Forall₂ CarriedAgree
        (DecodeBlock (sampleInfo 16) seedCollaborators 0 (seededState 0)).2.channels
        (DecodeBlock (sampleInfo 16) seedCollaborators 0 scratchState).2.channels) := by
  have hchannels : List.Forall₂ CarriedAgree (seededState 0).channels scratchState.channels :=
    List.Forall₂.cons ⟨rfl, rfl, rfl⟩ List.Forall₂.nil
  have hcoded : ∀ ch ∈ (seededState 0).channels, ch.coded_count ≤ 128 := by decide!
  have hbands : ∀ ch ∈ (seededState 0).channels, ch.type ≠ channel_type_t.STEREO_SECONDARY →
      seedBands.compR07 + seedBands.compR06 ≤ ch.coded_count := by decide!
  have hderived : ∀ ch ∈ (seededState 0).channels, ¬ readsDerivedScales ch (sampleInfo 16).compR09
      (u32 ((sampleInfo 16).versionMajor * 0x100 + (sampleInfo 16).versionMinor)) := by decide!
  have hpairs : List.Chain' pairedWith (seededState 0).channels := List.chain'_singleton _
  have hintensity : intensitiesWritten (sampleInfo 16)
      (u32 ((sampleInfo 16).versionMajor * 0x100 + (sampleInfo 16).versionMinor))
      (seededState 0).channels (blockFrame (sampleInfo 16) seedCollaborators 0).2 = true := by
    decide!
  have hcursor := seedBlock_cursor
  exact ⟨rfl, rfl, rfl, hchannels, hcoded, by decide, by decide, hbands, hderived, hpairs,
    hintensity, hcursor,
    DecodeBlock_carried_state ieeeOps (sampleInfo 16) seedBands storeSamples
      seedCollaborators 0 (seededState 0) scratchState rfl rfl rfl hchannels hcoded
      (by decide) (by decide) hbands hderived hpairs hintensity hcursor⟩

end CHcaDecoder.Pipeline
